import Mathlib

/-!
# orflib PDE engine: tridiagonal operators, the banded solve, the theta step, the time loop

Shallow embedding of
* `orflib/methods/pde/tridiagonalops1d.hpp` (`TridiagonalOp1D`, `DeltaOp1D`, `GammaOp1D`,
  `solveTridiagonal`, `adjustOpsForBoundaryConditions`, `applyBoundaryConditions`),
* `orflib/methods/pde/pde1dsolver.cpp` (`solveFromStepToStep`, `evalProduct`,
  `discountFromStepToStep`),
* `orflib/methods/pde/pdebase.cpp` (`updateGrid` and the main loop of `solve`),
* `orflib/methods/pde/pdegrid.hpp` (`NoCoordinateChange::driftAndVariance`),
* `orflib/products/europeancallput.hpp` and `orflib/products/americancallput.hpp`,
* `orflib/products/product.hpp` (`Product::timeSteps`),
* `orflib/math/interpol/interpolation1d.hpp` (`findIndices`, `LinearInterpolation1D`),
* `orflib/methods/pde/pdegrid.hpp` (`NoCoordinateChange`, `LogCoordinateChange`, `GridAxis`),
  `PdeBase::initGrid` and `Pde1DSolver::setAlignment`, in the namespace `real`,
* `orflib/math/interpol/piecewisepolynomial.hpp` (the constructor from values),
  `orflib/market/volatilitytermstructure.hpp/.cpp` and `orflib/market/yieldcurve.hpp/.cpp`
  (the constructors and the bootstraps from spot and forward inputs), the last two in the
  namespace `market`,
* `orflib/products/barriercallput.hpp` (`BarrierCallPut`),
* `orflib/math/interpol/piecewisepolynomial.hpp/.cpp` (`index`, `primitive`, `integral`)
  and the members `discount`, `fwdDiscount`, `spotRate`, `fwdRate` of `YieldCurve`,
* `orflib/pricers/simplepricers.cpp` (`fwdPrice`, `barrierOptionBS`) and
  `Pde1DSolver::storeResults` with the interpolator it calls, in the namespace `real`.

Conventions of the embedding
* `double` is modelled by exact rationals `ℚ` (the statements are about exact arithmetic);
  a division by zero gives `0`, and every statement that divides carries the hypothesis
  that the divisor is non-zero.
* `orf::Vector` (`arma::vec`) is a list of rationals; `rd v i` is the C++ read `v[i]`
  and `wr v i a` the C++ write `v[i] = a`.  An index outside the vector is undefined
  behaviour in C++; here a read outside gives `0` and a write outside does nothing.
  Every theorem carries the size hypotheses that keep the indices inside.
* `orf::Matrix` (`arma::mat`) is the list of its columns.
* `size_t` counters are `Nat`; the subtractions `size() - 2` and `N_ - 1` are
  truncated, which agrees with the C++ whenever the vectors have at least two
  entries and `N_ ≥ 1`.
* `ORF_ASSERT` failures (thrown `orf::Exception`s) are `Except.error` results, returned
  together with the state of the object at the moment of the throw.
* The function-local statics `D`, `Y` of `solveTridiagonal` are passed in and returned.
* The yield curve, the coordinate change and the product are the interfaces the loop calls:
  records of functions (`YieldCurve`, `CoordinateChange`, `Product`).
* The grid set-up calls `exp`, `log` and `sqrt`.  The definitions of the namespace `real`
  read `double` as `ℝ` and these calls as `Real.exp`, `Real.log`, `Real.sqrt` (so `log`
  of a non-positive number and `sqrt` of a negative number have the values Mathlib gives
  them; the statements carry the sign hypotheses).  The conversion `int(x)` discards the
  fractional part; values outside the range of `int` are not modelled.
-/

namespace orf

/-! ## Vectors -/

/-- The vector type `orf::Vector`, a sequence of doubles. -/
abbrev Vector := List ℚ

/-- Read `v[i]`. -/
def rd (v : Vector) (i : Nat) : ℚ := v.getD i 0

/-- Write `v[i] = a`. -/
def wr (v : Vector) (i : Nat) (a : ℚ) : Vector := v.set i a

/-- The index sequence of `for (i = lo; i <= hi; ++i)`. -/
def forUp (lo hi : Nat) : List Nat := List.range' lo (hi + 1 - lo)

/-- The index sequence of `for (i = hi; i >= lo; i--)`. -/
def forDown (hi lo : Nat) : List Nat := (forUp lo hi).reverse

/-- The armadillo `resize(n)`: keeps the leading elements, pads with zeros. -/
def resize (v : Vector) (n : Nat) : Vector := v.take n ++ List.replicate (n - v.length) 0

/-- The result of a member that may throw: the outcome and the object after the call. -/
abbrev Outcome (α σ : Type) := Except String α × σ

/-- Sequencing of two statements: the second runs only if the first did not throw. -/
def andThen {σ : Type} (r : Outcome Unit σ) (k : σ → Outcome Unit σ) : Outcome Unit σ :=
  match r.1 with
  | .ok _ => k r.2
  | .error e => (.error e, r.2)

/-! ## TridiagonalOp1D -/

/-- The class `TridiagonalOp1D<Vector>`: three bands of size `N_ + 2` and two edge values. -/
structure TridiagonalOp1D where
  N_ : Nat
  lower_ : Vector
  diag_ : Vector
  upper_ : Vector
  LowerVal_ : ℚ
  UpperVal_ : ℚ
deriving DecidableEq, Repr

namespace TridiagonalOp1D

/-- The default constructor. -/
def default : TridiagonalOp1D := ⟨0, [], [], [], 0, 0⟩

/-- The member `init()`, called after the bands are filled by a derived class. -/
def init0 (op : TridiagonalOp1D) : TridiagonalOp1D :=
  { op with N_ := op.lower_.length - 2, LowerVal_ := 0, UpperVal_ := 0 }

/-- The member `init(lower, diag, upper)`. -/
def init (lower diag upper : Vector) : TridiagonalOp1D :=
  { N_ := lower.length - 2, lower_ := lower, diag_ := diag, upper_ := upper,
    LowerVal_ := 0, UpperVal_ := 0 }

/-- The member `init(N, lowerConst, diagConst, upperConst)`. -/
def initConst (N : Nat) (lowerConst diagConst upperConst : ℚ) : TridiagonalOp1D :=
  { N_ := N,
    lower_ := List.replicate (N + 2) lowerConst,
    diag_ := List.replicate (N + 2) diagConst,
    upper_ := List.replicate (N + 2) upperConst,
    LowerVal_ := 0, UpperVal_ := 0 }

/-- The member `addToLowerVal`. -/
def addToLowerVal (op : TridiagonalOp1D) (lowerVal : ℚ) : TridiagonalOp1D :=
  { op with LowerVal_ := op.LowerVal_ + lowerVal }

/-- The member `addToUpperVal`. -/
def addToUpperVal (op : TridiagonalOp1D) (upperVal : ℚ) : TridiagonalOp1D :=
  { op with UpperVal_ := op.UpperVal_ + upperVal }

/-- The class invariant stated at the declaration of the bands: all have size `N_ + 2`. -/
def WF (op : TridiagonalOp1D) : Prop :=
  op.lower_.length = op.N_ + 2 ∧ op.diag_.length = op.N_ + 2 ∧ op.upper_.length = op.N_ + 2

/-- The value written to an interior row by `apply`. -/
def row (op : TridiagonalOp1D) (vals : Vector) (i : Nat) : ℚ :=
  rd op.lower_ i * rd vals (i - 1) + rd op.diag_ i * rd vals i + rd op.upper_ i * rd vals (i + 1)

/-- The member `apply(vals, result)`; the returned vector is `result` after the call. -/
def apply (op : TridiagonalOp1D) (vals result : Vector) : Vector :=
  let r1 := wr result 1 (op.LowerVal_ + rd op.diag_ 1 * rd vals 1 + rd op.upper_ 1 * rd vals 2)
  let r2 := (forUp 2 (op.N_ - 1)).foldl (fun r i => wr r i (row op vals i)) r1
  wr r2 op.N_
    (rd op.lower_ op.N_ * rd vals (op.N_ - 1) + rd op.diag_ op.N_ * rd vals op.N_ + op.UpperVal_)

/-- The member `adjustForLowerBoundaryCondition(degree, value, DX, diagAdjust, upAdjust)`. -/
def adjustForLowerBoundaryCondition (op : TridiagonalOp1D) (degree : Int)
    (value DX diagAdjust upAdjust : ℚ) : Outcome ℚ TridiagonalOp1D :=
  if ¬ (op.diag_.length ≥ 4) then
    (.error "TridiagonalOperator1D: grid is too small!", op)
  else if degree = 0 then
    (.ok value, op)
  else if degree = 1 then
    let op1 := { op with upper_ := wr op.upper_ 1 (rd op.upper_ 1 + rd op.lower_ 1) }
    (.ok (-(rd op1.lower_ 1) * value), op1)
  else if degree = 2 then
    let op1 := { op with diag_ := wr op.diag_ 1 (rd op.diag_ 1 + 2 * rd op.lower_ 1) }
    let op2 := { op1 with upper_ := wr op1.upper_ 1 (rd op1.upper_ 1 - rd op1.lower_ 1) }
    (.ok (rd op2.lower_ 1 * value), op2)
  else if degree = 3 then
    if ¬ (value = 0) then
      (.error "TridiagonalOperator1D: cannot do non-zero 2nd derivative boundary condition", op)
    else
      let op1 := { op with
        diag_ := wr op.diag_ 1 (rd op.diag_ 1 + 2 / (1 + DX / 2) * rd op.lower_ 1) }
      let op2 := { op1 with
        upper_ := wr op1.upper_ 1
          (rd op1.upper_ 1 - (1 - DX / 2) / (1 + DX / 2) * rd op1.lower_ 1) }
      (.ok 0, op2)
  else if degree = 4 then
    if ¬ (value = 0) then
      (.error "TridiagonalOperator1D: cannot do non-zero 2nd derivative boundary condition", op)
    else
      let op1 := { op with diag_ := wr op.diag_ 1 (rd op.diag_ 1 + diagAdjust * rd op.lower_ 1) }
      let op2 := { op1 with
        upper_ := wr op1.upper_ 1 (rd op1.upper_ 1 + upAdjust * rd op1.lower_ 1) }
      (.ok 0, op2)
  else
    (.error "TridiagonalOperator1D: invalid degree for boundary condition", op)

/-- The member `adjustForHigherBoundaryCondition(degree, value, DX, diagAdjust, lowAdjust)`. -/
def adjustForHigherBoundaryCondition (op : TridiagonalOp1D) (degree : Int)
    (value DX diagAdjust lowAdjust : ℚ) : Outcome ℚ TridiagonalOp1D :=
  if ¬ (op.diag_.length ≥ 4) then
    (.error "TridiagonalOperator1D: grid is too small!", op)
  else if degree = 0 then
    (.ok value, op)
  else if degree = 1 then
    let op1 := { op with lower_ := wr op.lower_ op.N_ (rd op.lower_ op.N_ + rd op.upper_ op.N_) }
    (.ok (-(rd op1.upper_ op1.N_) * value), op1)
  else if degree = 2 then
    let op1 := { op with diag_ := wr op.diag_ op.N_ (rd op.diag_ op.N_ + 2 * rd op.upper_ op.N_) }
    let op2 := { op1 with
      lower_ := wr op1.lower_ op1.N_ (rd op1.lower_ op1.N_ - rd op1.upper_ op1.N_) }
    (.ok (rd op2.upper_ op2.N_ * value), op2)
  else if degree = 3 then
    if ¬ (value = 0) then
      (.error "TridiagonalOperator1D: cannot do non-zero 2nd derivative boundary condition", op)
    else
      let op1 := { op with
        diag_ := wr op.diag_ op.N_ (rd op.diag_ op.N_ + 2 / (1 - DX / 2) * rd op.upper_ op.N_) }
      let op2 := { op1 with
        lower_ := wr op1.lower_ op1.N_
          (rd op1.lower_ op1.N_ - (1 + DX / 2) / (1 - DX / 2) * rd op1.upper_ op1.N_) }
      (.ok 0, op2)
  else if degree = 4 then
    if ¬ (value = 0) then
      (.error "TridiagonalOperator1D: cannot do non-zero 2nd derivative boundary condition", op)
    else
      let op1 := { op with
        diag_ := wr op.diag_ op.N_ (rd op.diag_ op.N_ + diagAdjust * rd op.upper_ op.N_) }
      let op2 := { op1 with
        lower_ := wr op1.lower_ op1.N_ (rd op1.lower_ op1.N_ + lowAdjust * rd op1.upper_ op1.N_) }
      (.ok 0, op2)
  else
    (.error "TridiagonalOperator1D: invalid degree for boundary condition", op)

/-- One pass of the loop body of `operator+=`. -/
def addAt (rhs : TridiagonalOp1D) (op : TridiagonalOp1D) (i : Nat) : TridiagonalOp1D :=
  { op with
    lower_ := wr op.lower_ i (rd op.lower_ i + rd rhs.lower_ i)
    diag_ := wr op.diag_ i (rd op.diag_ i + rd rhs.diag_ i)
    upper_ := wr op.upper_ i (rd op.upper_ i + rd rhs.upper_ i) }

/-- One pass of the loop body of `operator-=`. -/
def subAt (rhs : TridiagonalOp1D) (op : TridiagonalOp1D) (i : Nat) : TridiagonalOp1D :=
  { op with
    lower_ := wr op.lower_ i (rd op.lower_ i - rd rhs.lower_ i)
    diag_ := wr op.diag_ i (rd op.diag_ i - rd rhs.diag_ i)
    upper_ := wr op.upper_ i (rd op.upper_ i - rd rhs.upper_ i) }

/-- The member `operator+=`. -/
def addAssign (op rhs : TridiagonalOp1D) : Outcome Unit TridiagonalOp1D :=
  if ¬ (op.N_ = rhs.N_) then
    (.error "TridiagonalOperator1D: cannot add two operators of different sizes", op)
  else
    (.ok (), (List.range op.lower_.length).foldl (addAt rhs) op)

/-- The member `operator-=`. -/
def subAssign (op rhs : TridiagonalOp1D) : Outcome Unit TridiagonalOp1D :=
  if ¬ (op.N_ = rhs.N_) then
    (.error "Cannot subtract two operators of different sizes", op)
  else
    (.ok (), (List.range op.lower_.length).foldl (subAt rhs) op)

end TridiagonalOp1D

/-! ## DeltaOp1D and GammaOp1D -/

/-- One pass of the loop body of `DeltaOp1D::init`. -/
def DeltaOp1D.fillAt (drifts : Vector) (f1 : ℚ) (op : TridiagonalOp1D) (i : Nat) :
    TridiagonalOp1D :=
  let temp := rd drifts (i - 1) * f1
  { op with
    lower_ := wr op.lower_ i (-temp)
    diag_ := wr op.diag_ i 0
    upper_ := wr op.upper_ i temp }

/-- The member `DeltaOp1D::init(drifts, DT, DX, theta)` on an existing operator object. -/
def DeltaOp1D.init (op : TridiagonalOp1D) (drifts : Vector) (DT DX theta : ℚ) :
    TridiagonalOp1D :=
  let N := drifts.length
  let op0 := { op with
    lower_ := resize op.lower_ (N + 2)
    diag_ := resize op.diag_ (N + 2)
    upper_ := resize op.upper_ (N + 2) }
  let f1 := DT * theta / (2 * DX)
  ((forUp 1 N).foldl (DeltaOp1D.fillAt drifts f1) op0).init0

/-- One pass of the loop body of `GammaOp1D::init`; the chained assignment
`lower_[i] = upper_[i] = temp` gives both entries the value `temp`. -/
def GammaOp1D.fillAt (variances : Vector) (f1 : ℚ) (op : TridiagonalOp1D) (i : Nat) :
    TridiagonalOp1D :=
  let temp := f1 * rd variances (i - 1)
  { op with
    upper_ := wr op.upper_ i temp
    lower_ := wr op.lower_ i temp
    diag_ := wr op.diag_ i (-2 * temp) }

/-- The member `GammaOp1D::init(variances, DT, DX, theta)` on an existing operator object. -/
def GammaOp1D.init (op : TridiagonalOp1D) (variances : Vector) (DT DX theta : ℚ) :
    TridiagonalOp1D :=
  let N := variances.length
  let op0 := { op with
    lower_ := resize op.lower_ (N + 2)
    diag_ := resize op.diag_ (N + 2)
    upper_ := resize op.upper_ (N + 2) }
  let f1 := (1 / 2) * DT * theta / DX / DX
  ((forUp 1 N).foldl (GammaOp1D.fillAt variances f1) op0).init0

/-! ## The banded solve -/

/-- The function-local static vectors `D` and `Y` of `solveTridiagonal`. -/
structure Scratch where
  D : Vector
  Y : Vector
deriving DecidableEq, Repr

/-- The statics as first constructed: `static Vector D(1); static Vector Y(1);`. -/
def Scratch.initial : Scratch := ⟨[0], [0]⟩

/-- One pass of the first loop of `solveTridiagonal` (`i` runs from `n - 1` down to `1`). -/
def eliminateAt (lower diag upper y : Vector) (s : Scratch) (i : Nat) : Scratch :=
  let D1 := wr s.D i (rd diag i - rd upper i * rd lower (i + 1) / rd s.D (i + 1))
  let Y1 := wr s.Y i (rd y i - rd upper i * rd s.Y (i + 1) / rd D1 (i + 1))
  ⟨D1, Y1⟩

/-- One pass of the second loop of `solveTridiagonal` (`i` runs from `2` up to `n`). -/
def substituteAt (lower : Vector) (s : Scratch) (x : Vector) (i : Nat) : Vector :=
  wr x i ((rd s.Y i - rd lower i * rd x (i - 1)) / rd s.D i)

/-- The function `solveTridiagonal(x, lower, diag, upper, y)`; the statics are passed in and
returned, and the second component is `x` after the call. -/
def solveTridiagonal (st : Scratch) (x lower diag upper y : Vector) : Scratch × Vector :=
  let n := diag.length - 2
  let D0 := if st.D.length ≠ n + 1 then List.replicate (n + 1) 0 else st.D
  let Y0 := if st.Y.length ≠ n + 1 then List.replicate (n + 1) 0 else st.Y
  let D1 := wr D0 n (rd diag n)
  let Y1 := wr Y0 n (rd y n)
  let s := (forDown (n - 1) 1).foldl (eliminateAt lower diag upper y) ⟨D1, Y1⟩
  let x1 := wr x 1 (rd s.Y 1 / rd s.D 1)
  let x2 := (forUp 2 n).foldl (substituteAt lower s) x1
  (s, x2)

/-- Row `i` of the product `T*z` of the `n × n` tridiagonal matrix `T` held in rows `1..n`
of the bands (the matrix has no entry left of column `1` or right of column `n`). -/
def tridiagRow (lower diag upper z : Vector) (n i : Nat) : ℚ :=
  (if i = 1 then 0 else rd lower i * rd z (i - 1)) + rd diag i * rd z i
    + (if i = n then 0 else rd upper i * rd z (i + 1))

/-- The member `applyInverse(vals, result)`. -/
def TridiagonalOp1D.applyInverse (op : TridiagonalOp1D) (st : Scratch) (vals result : Vector) :
    Scratch × Vector :=
  solveTridiagonal st result op.lower_ op.diag_ op.upper_ vals

/-! ## Boundary conditions -/

/-- The function `adjustOpsForBoundaryConditions(opExplicit, opImplicit, DX)`; the state is
the pair (explicit operator, implicit operator). -/
def adjustOpsForBoundaryConditions (opExplicit opImplicit : TridiagonalOp1D) (DX : ℚ) :
    Outcome Unit (TridiagonalOp1D × TridiagonalOp1D) :=
  match opImplicit.adjustForLowerBoundaryCondition 3 0 DX 0 0 with
  | (.error e, m1) => (.error e, (opExplicit, m1))
  | (.ok lowAdjustmentValueImp, m1) =>
    match m1.adjustForHigherBoundaryCondition 3 0 DX 0 0 with
    | (.error e, m2) => (.error e, (opExplicit, m2))
    | (.ok highAdjustmentValueImp, m2) =>
      match opExplicit.adjustForLowerBoundaryCondition 3 0 DX 0 0 with
      | (.error e, e1) => (.error e, (e1, m2))
      | (.ok lowAdjustmentValueExp, e1) =>
        match e1.adjustForHigherBoundaryCondition 3 0 DX 0 0 with
        | (.error e, e2) => (.error e, (e2, m2))
        | (.ok highAdjustmentValueExp, e2) =>
          let e3 := e2.addToLowerVal (-lowAdjustmentValueImp + lowAdjustmentValueExp)
          let e4 := e3.addToUpperVal (-highAdjustmentValueImp + highAdjustmentValueExp)
          (.ok (), (e4, m2))

/-- The matrix type `orf::Matrix` (`arma::mat`, stored column by column). -/
structure Matrix where
  n_rows : Nat
  cols : List Vector
deriving DecidableEq, Repr

/-- The number of columns `n_cols`. -/
def Matrix.n_cols (m : Matrix) : Nat := m.cols.length

/-- The column view `m.col(j)`. -/
def Matrix.col (m : Matrix) (j : Nat) : Vector := m.cols.getD j []

/-- Writing through the column view `m.col(j)`. -/
def Matrix.setCol (m : Matrix) (j : Nat) (v : Vector) : Matrix := { m with cols := m.cols.set j v }

/-- The element `m(i, j)`. -/
def Matrix.at (m : Matrix) (i j : Nat) : ℚ := rd (m.col j) i

/-- The body of the loop of `applyBoundaryConditions` on the column of one layer. -/
def applyBoundaryConditionsCol (n : Nat) (c : Vector) : Vector :=
  let c1 := wr c 0 (2 * rd c 1 - rd c 2)
  wr c1 (n + 1) (2 * rd c1 n - rd c1 (n - 1))

/-- The function `applyBoundaryConditions(solution)`: the loop over the layers touches, in
pass `j`, column `j` only. -/
def applyBoundaryConditions (solution : Matrix) : Matrix :=
  let n := solution.n_rows - 2
  { solution with cols := solution.cols.map (applyBoundaryConditionsCol n) }

/-! ## The grid axis and the one-dimensional solver -/

/-- The interface `CoordinateChangeBase`, as far as the time loop uses it:
`driftAndVariance(realS, realF, theta, DT, realLNVol, aCoeff, DX)` returns the triple
`(drift, variance, FinalVol)` that the C++ writes through its three reference arguments. -/
structure CoordinateChange where
  driftAndVariance : ℚ → ℚ → ℚ → ℚ → ℚ → ℚ → ℚ → ℚ × ℚ × ℚ

/-- The class `NoCoordinateChange`; `sqrt(variance)` is `|vol|` because
`variance = vol * vol`. -/
def NoCoordinateChange : CoordinateChange :=
  { driftAndVariance := fun realS realF theta DT realLNVol aCoeff _DX =>
      let vol := realLNVol * realS
      let corr := theta * aCoeff + 1 - theta
      let drift := (realF - realS) / corr / DT
      let variance := vol * vol
      (drift, variance, |vol|) }

/-- The fields of `GridAxis` used by the time loop and the solver step. -/
structure GridAxis where
  DX : ℚ
  NX : Nat
  Slevels : Vector
  drifts : Vector
  variances : Vector
  vols : Vector
  coordinateChange : CoordinateChange

/-- The state of `Pde1DSolver` used by `solveFromStepToStep`: the axis `gridAxes_[0]`, the
six operators, the two value matrices and the statics of `solveTridiagonal`. -/
structure Pde1DSolver where
  theta_ : ℚ
  nLayers_ : Nat
  grax : GridAxis
  deltaOpExplicit_ : TridiagonalOp1D
  deltaOpImplicit_ : TridiagonalOp1D
  gammaOpExplicit_ : TridiagonalOp1D
  gammaOpImplicit_ : TridiagonalOp1D
  opExplicit_ : TridiagonalOp1D
  opImplicit_ : TridiagonalOp1D
  prevValues : Matrix
  currValues : Matrix
  scratch : Scratch

namespace Pde1DSolver

/-- Lines 27-41 of `solveFromStepToStep`: initialise the four differential operators and
build the explicit and implicit operators. -/
def buildOps (s : Pde1DSolver) (DT : ℚ) : Outcome Unit Pde1DSolver :=
  let grax := s.grax
  let s1 := { s with
    deltaOpExplicit_ := DeltaOp1D.init s.deltaOpExplicit_ grax.drifts DT grax.DX (1 - s.theta_)
    deltaOpImplicit_ := DeltaOp1D.init s.deltaOpImplicit_ grax.drifts DT grax.DX s.theta_
    gammaOpExplicit_ := GammaOp1D.init s.gammaOpExplicit_ grax.variances DT grax.DX (1 - s.theta_)
    gammaOpImplicit_ := GammaOp1D.init s.gammaOpImplicit_ grax.variances DT grax.DX s.theta_ }
  let s2 := { s1 with opExplicit_ := TridiagonalOp1D.initConst grax.NX 0 1 0 }
  andThen (let r := s2.opExplicit_.addAssign s2.deltaOpExplicit_
           (r.1, { s2 with opExplicit_ := r.2 })) fun s3 =>
  andThen (let r := s3.opExplicit_.addAssign s3.gammaOpExplicit_
           (r.1, { s3 with opExplicit_ := r.2 })) fun s4 =>
  let s5 := { s4 with opImplicit_ := TridiagonalOp1D.initConst grax.NX 0 1 0 }
  andThen (let r := s5.opImplicit_.subAssign s5.deltaOpImplicit_
           (r.1, { s5 with opImplicit_ := r.2 })) fun s6 =>
  (let r := s6.opImplicit_.subAssign s6.gammaOpImplicit_
   (r.1, { s6 with opImplicit_ := r.2 }))

/-- Line 44 of `solveFromStepToStep`: adjust both operators for the boundary conditions. -/
def adjustOps (s : Pde1DSolver) : Outcome Unit Pde1DSolver :=
  let r := adjustOpsForBoundaryConditions s.opExplicit_ s.opImplicit_ s.grax.DX
  (r.1, { s with opExplicit_ := r.2.1, opImplicit_ := r.2.2 })

/-- The body of the loop over the layers: `v1` and `v2` are views of column `j` of
`prevValues` and `currValues`, modified in place. -/
def stepLayer (s : Pde1DSolver) (j : Nat) : Pde1DSolver :=
  let v1 := s.prevValues.col j
  let v2 := s.currValues.col j
  let v2a := s.opExplicit_.apply v1 v2
  let r := s.opImplicit_.applyInverse s.scratch v2a v1
  { s with
    currValues := s.currValues.setCol j v2a
    prevValues := s.prevValues.setCol j r.2
    scratch := r.1 }

/-- The member `solveFromStepToStep(step, DT)`. -/
def solveFromStepToStep (s : Pde1DSolver) (_step : Int) (DT : ℚ) : Outcome Unit Pde1DSolver :=
  andThen (s.buildOps DT) fun s1 =>
  andThen s1.adjustOps fun s2 =>
  let s3 := (List.range s2.nLayers_).foldl stepLayer s2
  (.ok (), { s3 with prevValues := applyBoundaryConditions s3.prevValues })

end Pde1DSolver

/-! ## Products -/

/-- The constant `DAYS_PER_YEAR` of `defines.hpp`. -/
def DAYS_PER_YEAR : ℚ := 1461 / 4

/-- The class `Product`: the schedule, the payment amounts, and the virtual method
`eval(idx, spots, contValue)` of the concrete product, given as the function `evalIdx` that
maps the payment amounts before the call to the payment amounts after it (or throws). -/
structure Product where
  fixTimes_ : Vector
  payTimes_ : Vector
  payAmounts_ : Vector
  evalIdx : Vector → Nat → Vector → ℚ → Except String Vector

/-- The call `spprod_->eval(idx, spots, contValue)`. -/
def Product.eval (p : Product) (idx : Nat) (spots : Vector) (contValue : ℚ) :
    Outcome Unit Product :=
  match p.evalIdx p.payAmounts_ idx spots contValue with
  | .ok pa => (.ok (), { p with payAmounts_ := pa })
  | .error e => (.error e, p)

/-- The method `EuropeanCallPut::eval(idx, spots, contValue)` on the payment amounts. -/
def EuropeanCallPut.eval (payoffType : Int) (strike : ℚ) (payAmounts : Vector) (idx : Nat)
    (spots : Vector) (_contValue : ℚ) : Except String Vector :=
  if ¬ (idx = 0) then
    .error "EuropeanCallPut: wrong fixing time index!"
  else
    let S_T := rd spots idx
    if payoffType = 1 then
      .ok (wr payAmounts idx (if S_T ≥ strike then S_T - strike else 0))
    else
      .ok (wr payAmounts idx (if S_T ≥ strike then 0 else strike - S_T))

/-- The constructor `EuropeanCallPut(payoffType, strike, timeToExp)`. -/
def EuropeanCallPut.new (payoffType : Int) (strike timeToExp : ℚ) : Except String Product :=
  if ¬ (payoffType = 1 ∨ payoffType = -1) then
    .error "EuropeanCallPut: the payoff type must be 1 (call) or -1 (put)!"
  else if ¬ (strike > 0) then
    .error "EuropeanCallPut: the strike must be positive!"
  else if ¬ (timeToExp > 0) then
    .error "EuropeanCallPut: the time to expiration must be positive!"
  else
    .ok { fixTimes_ := wr (resize [] 1) 0 timeToExp
          payTimes_ := wr (resize [] 1) 0 timeToExp
          payAmounts_ := resize [] 1
          evalIdx := EuropeanCallPut.eval payoffType strike }

/-- The method `AmericanCallPut::eval(idx, spots, contValue)` on the payment amounts. -/
def AmericanCallPut.eval (payoffType : Int) (strike : ℚ) (payAmounts : Vector) (idx : Nat)
    (spots : Vector) (contValue : ℚ) : Except String Vector :=
  let spot := rd spots 0
  if idx = payAmounts.length - 1 then
    let payoff := (spot - strike) * payoffType
    .ok (wr payAmounts idx (if payoff > 0 then payoff else 0))
  else
    let intrinsicValue := (spot - strike) * payoffType
    let intrinsicValue := if intrinsicValue ≥ 0 then intrinsicValue else 0
    let pa := wr payAmounts idx (if contValue ≥ intrinsicValue then contValue else intrinsicValue)
    .ok ((forUp (idx + 1) (payAmounts.length - 1)).foldl (fun v j => wr v j 0) pa)

/-- The constructor `AmericanCallPut(payoffType, strike, timeToExp)`, after the constructor
of its base class `EuropeanCallPut`. -/
def AmericanCallPut.new (payoffType : Int) (strike timeToExp : ℚ) : Except String Product :=
  if ¬ (payoffType = 1 ∨ payoffType = -1) then
    .error "EuropeanCallPut: the payoff type must be 1 (call) or -1 (put)!"
  else if ¬ (strike > 0) then
    .error "EuropeanCallPut: the strike must be positive!"
  else if ¬ (timeToExp > 0) then
    .error "EuropeanCallPut: the time to expiration must be positive!"
  else
    let nfixings := (Rat.floor (timeToExp * DAYS_PER_YEAR)).toNat + 1
    if ¬ (nfixings > 0) then
      .error "AmericanCallPut: the option has expired!"
    else
      let ft0 := resize [timeToExp] nfixings
      let ft1 := (List.range (nfixings - 1)).foldl
        (fun v i => wr v i ((i : ℚ) / DAYS_PER_YEAR)) ft0
      let ft2 := wr ft1 (nfixings - 1) timeToExp
      .ok { fixTimes_ := ft2
            payTimes_ := ft2
            payAmounts_ := resize (resize [] 1) ft2.length
            evalIdx := AmericanCallPut.eval payoffType strike }

/-! ## The time loop of `PdeBase::solve` -/

/-- The discount curve as the loop uses it: the member function `fwdDiscount(t1, t2)`. -/
structure YieldCurve where
  fwdDiscount : ℚ → ℚ → ℚ

/-- The structure `PdeParams`. -/
structure PdeParams where
  nTimeSteps : Nat
  nSpotNodes : List Nat
  nStdDevs : Vector
  theta : ℚ

/-- The class `Pde1DResults`, as far as `evalProduct` writes it. -/
structure Pde1DResults where
  times : Vector
  values : List Matrix

/-- Writing the element `m(i, j) = a`. -/
def Matrix.setAt (m : Matrix) (i j : Nat) (a : ℚ) : Matrix := m.setCol j (wr (m.col j) i a)

/-- The in-place product `m *= df`. -/
def Matrix.scale (m : Matrix) (df : ℚ) : Matrix :=
  { m with cols := m.cols.map (fun c => c.map (fun a => a * df)) }

/-- The object on which `PdeBase::solve` runs: the members of `PdeBase` and `Pde1DSolver`
used by the time loop, and in `solver1D` the members used by `solveFromStepToStep`
(`theta_`, `nLayers_`, the axis `gridAxes_[0]`, the operators and the value matrices). -/
structure PdeBase where
  timesteps_ : Vector
  stepindex_ : List Int
  spprod_ : Product
  spdiscyc_ : YieldCurve
  storeAllResults_ : Bool
  results_ : Pde1DResults
  solver1D : Pde1DSolver

namespace PdeBase

/-- One pass of the inner loop of `updateGrid` (node `j` of the axis of asset `0`). -/
def updateGridAt (theta DT aCoeff RealLNvol : ℚ) (grax : GridAxis) (j : Nat) : GridAxis :=
  let RealS := rd grax.Slevels j
  let RealF := RealS * aCoeff
  let r := grax.coordinateChange.driftAndVariance RealS RealF theta DT RealLNvol aCoeff grax.DX
  { grax with
    drifts := wr grax.drifts (j - 1) r.1
    variances := wr grax.variances (j - 1) r.2.1
    vols := wr grax.vols (j - 1) r.2.2 }

/-- The member `updateGrid(params, fwdFactors, fvols, stepIdx)` for the single asset of the
one-dimensional solver. -/
def updateGrid (b : PdeBase) (params : PdeParams) (fwdFactors fvols : Matrix) (stepIdx : Nat) :
    PdeBase :=
  let T1 := rd b.timesteps_ stepIdx
  let T2 := rd b.timesteps_ (stepIdx + 1)
  let DT := T2 - T1
  { b with solver1D := { b.solver1D with
      grax := (forUp 1 (params.nSpotNodes.getD 0 0)).foldl
        (updateGridAt b.solver1D.theta_ DT (fwdFactors.at stepIdx 0) (fvols.at stepIdx 0))
        b.solver1D.grax } }

/-- The member `discountFromStepToStep(df)`. -/
def discountFromStepToStep (b : PdeBase) (df : ℚ) : PdeBase :=
  { b with solver1D := { b.solver1D with prevValues := b.solver1D.prevValues.scale df } }

/-- The search `while (fixtime > payTms[i]) ++i;` of `evalProduct`; `none` when it runs past
the end of `payTms`, where the C++ has undefined behaviour. -/
def findPayIndex (fixtime : ℚ) (payTms : Vector) : Option Nat :=
  payTms.findIdx? (fun t => decide (¬ (fixtime > t)))

/-- One pass of the loop over the nodes of `evalProduct`. -/
def evalProductNode (eventIdx : Nat) (fixtime : ℚ) (b : PdeBase) (node : Nat) :
    Outcome Unit PdeBase :=
  let spots := wr [0] 0 (rd b.solver1D.grax.Slevels node)
  let r := b.spprod_.eval eventIdx spots (b.solver1D.prevValues.at node 0)
  match r.1 with
  | .error e => (.error e, { b with spprod_ := r.2 })
  | .ok _ =>
    let payAms := r.2.payAmounts_
    match findPayIndex fixtime r.2.payTimes_ with
    | none => (.error "evalProduct: payment times exhausted", { b with spprod_ := r.2 })
    | some _ =>
      (.ok (), { b with
        spprod_ := r.2
        solver1D := { b.solver1D with
          prevValues := b.solver1D.prevValues.setAt node 0 (rd payAms eventIdx) } })

/-- The member `evalProduct(stepIdx)`. -/
def evalProduct (b : PdeBase) (stepIdx : Nat) : Outcome Unit PdeBase :=
  let eventIdx : Int := b.stepindex_.getD stepIdx 0
  let r : Outcome Unit PdeBase :=
    if eventIdx ≥ 0 then
      let fixtime := rd b.spprod_.fixTimes_ eventIdx.toNat
      (forUp 0 (b.solver1D.grax.NX + 1)).foldl
        (fun acc node => andThen acc fun b1 => evalProductNode eventIdx.toNat fixtime b1 node)
        (.ok (), b)
    else
      (.ok (), b)
  andThen r fun b1 =>
    let b2 := { b1 with
      results_ := { b1.results_ with times := wr b1.results_.times stepIdx (rd b1.timesteps_ stepIdx) } }
    if b2.storeAllResults_ then
      (.ok (), { b2 with
        results_ := { b2.results_ with
          values := b2.results_.values.set stepIdx b2.solver1D.prevValues } })
    else
      (.ok (), b2)

/-- Lines 57-65 of `PdeBase::solve`: one pass of the main loop up to and including the
discounting (`updateGrid`, `solveFromStepToStep`, `discountFromStepToStep`). -/
def advance (b : PdeBase) (params : PdeParams) (fwdFactors fwdVols : Matrix) (stepIdx : Nat) :
    Outcome Unit PdeBase :=
  let b1 := b.updateGrid params fwdFactors fwdVols stepIdx
  let dT := rd b1.timesteps_ (stepIdx + 1) - rd b1.timesteps_ stepIdx
  let r := b1.solver1D.solveFromStepToStep stepIdx dT
  andThen (r.1, { b1 with solver1D := r.2 }) fun b2 =>
    let df := b2.spdiscyc_.fwdDiscount (rd b2.timesteps_ stepIdx) (rd b2.timesteps_ (stepIdx + 1))
    (.ok (), b2.discountFromStepToStep df)

/-- Lines 57-68 of `PdeBase::solve`: one pass of the main loop. -/
def solveStep (b : PdeBase) (params : PdeParams) (fwdFactors fwdVols : Matrix) (stepIdx : Nat) :
    Outcome Unit PdeBase :=
  andThen (b.advance params fwdFactors fwdVols stepIdx) fun b1 => b1.evalProduct stepIdx

end PdeBase

/-- The relation between an operator `op` and the operator `op'` obtained from it by the two
degree-3 boundary adjustments (low side, then high side), entry by entry. -/
def TridiagonalOp1D.Adjusted3 (DX : ℚ) (op op' : TridiagonalOp1D) : Prop :=
  op'.N_ = op.N_ ∧ op'.WF ∧ op'.LowerVal_ = op.LowerVal_ ∧ op'.UpperVal_ = op.UpperVal_ ∧
  rd op'.diag_ 1 = rd op.diag_ 1 + 2 / (1 + DX / 2) * rd op.lower_ 1 ∧
  rd op'.upper_ 1 = rd op.upper_ 1 - (1 - DX / 2) / (1 + DX / 2) * rd op.lower_ 1 ∧
  rd op'.diag_ op.N_ = rd op.diag_ op.N_ + 2 / (1 - DX / 2) * rd op.upper_ op.N_ ∧
  rd op'.lower_ op.N_
    = rd op.lower_ op.N_ - (1 + DX / 2) / (1 - DX / 2) * rd op.upper_ op.N_ ∧
  (∀ i, i ≠ 1 → i ≠ op.N_ → rd op'.diag_ i = rd op.diag_ i) ∧
  (∀ i, i ≠ 1 → rd op'.upper_ i = rd op.upper_ i) ∧
  (∀ i, i ≠ op.N_ → rd op'.lower_ i = rd op.lower_ i)

/-- An operator with zero edge values whose rows, as `apply` uses them, sum to one: row `1`
is `diag + upper`, row `N_` is `lower + diag`, the rows in between are
`lower + diag + upper`. -/
def TridiagonalOp1D.RowsSumToOne (op : TridiagonalOp1D) : Prop :=
  op.LowerVal_ = 0 ∧ op.UpperVal_ = 0 ∧
  rd op.diag_ 1 + rd op.upper_ 1 = 1 ∧
  (∀ i, 2 ≤ i → i ≤ op.N_ - 1 → rd op.lower_ i + rd op.diag_ i + rd op.upper_ i = 1) ∧
  rd op.lower_ op.N_ + rd op.diag_ op.N_ = 1

/-- A small solver state used to instantiate the theorems: `NX = 2`, `DX = 1`,
`theta = 1/2`, drifts `[0, 0]`, variances `[1, 1]`, one layer with values `[0, 1, 2, 3]`. -/
def Pde1DSolver.sample : Pde1DSolver :=
  { theta_ := 1 / 2
    nLayers_ := 1
    grax := { DX := 1, NX := 2, Slevels := [1, 2, 3, 4], drifts := [0, 0], variances := [1, 1],
              vols := [0, 0], coordinateChange := NoCoordinateChange }
    deltaOpExplicit_ := TridiagonalOp1D.default
    deltaOpImplicit_ := TridiagonalOp1D.default
    gammaOpExplicit_ := TridiagonalOp1D.default
    gammaOpImplicit_ := TridiagonalOp1D.default
    opExplicit_ := TridiagonalOp1D.default
    opImplicit_ := TridiagonalOp1D.default
    prevValues := { n_rows := 4, cols := [[0, 1, 2, 3]] }
    currValues := { n_rows := 4, cols := [[0, 0, 0, 0]] }
    scratch := Scratch.initial }

/-- The sample state with a flat layer: every node holds the value `5`. -/
def Pde1DSolver.sampleFlat : Pde1DSolver :=
  { Pde1DSolver.sample with prevValues := { n_rows := 4, cols := [[5, 5, 5, 5]] } }

/-- The American put with strike `3` expiring after two days, as built by
`AmericanCallPut(-1, 3, 2 / DAYS_PER_YEAR)`: fixings at `0`, one day and two days. -/
def AmericanCallPut.samplePut : Product :=
  { fixTimes_ := [0, 4 / 1461, 8 / 1461]
    payTimes_ := [0, 4 / 1461, 8 / 1461]
    payAmounts_ := [0, 0, 0]
    evalIdx := AmericanCallPut.eval (-1) 3 }

/-- The engine pricing `AmericanCallPut.samplePut` on the grid with spot levels
`[1, 2, 3, 4]` (`NX = 2`, `DX = 1`, identity coordinate change), `theta = 1/2`, a flat
discount factor `1`, right after the contract has been evaluated at maturity: the single
layer holds the terminal payoff `max(3 - S, 0) = [2, 1, 0, 0]`. -/
def PdeBase.sampleAmerican : PdeBase :=
  { timesteps_ := [0, 4 / 1461, 8 / 1461]
    stepindex_ := [0, 1, 2]
    spprod_ := AmericanCallPut.samplePut
    spdiscyc_ := { fwdDiscount := fun _ _ => 1 }
    storeAllResults_ := false
    results_ := { times := [0, 0, 8 / 1461], values := [] }
    solver1D := { Pde1DSolver.sample with
      grax := { DX := 1, NX := 2, Slevels := [1, 2, 3, 4], drifts := [0, 0], variances := [0, 0],
                vols := [0, 0], coordinateChange := NoCoordinateChange }
      prevValues := { n_rows := 4, cols := [[2, 1, 0, 0]] } } }

/-- The engine pricing the European put with strike `3` expiring after two days on the same
grid, with one sub-step inserted (`nTimeSteps = 2`): the steps `0` and `1` carry no contract
event, the step `2` is the fixing `0`. -/
def PdeBase.sampleEuropean : PdeBase :=
  { PdeBase.sampleAmerican with
    stepindex_ := [-1, -1, 0]
    spprod_ := { fixTimes_ := [8 / 1461], payTimes_ := [8 / 1461], payAmounts_ := [0],
                 evalIdx := EuropeanCallPut.eval (-1) 3 } }

/-- The parameters of the sample run: two spot nodes, `theta = 1/2`. -/
def PdeParams.sample : PdeParams :=
  { nTimeSteps := 1, nSpotNodes := [2], nStdDevs := [4], theta := 1 / 2 }

/-- The forward factors of the sample run (zero rates: every factor is `1`). -/
def PdeBase.sampleFwdFactors : Matrix := { n_rows := 3, cols := [[1, 1, 0]] }

/-- The forward volatilities of the sample run (flat `20%`). -/
def PdeBase.sampleFwdVols : Matrix := { n_rows := 3, cols := [[1 / 5, 1 / 5, 0]] }

/-! ## Linear interpolation (`math/interpol/interpolation1d.hpp`) -/

/-- The loop `for (i = ...; i < v.size(); ++i)` of `findIndices`, from index `i` with
`k` passes left; each pass may return.  Falling out of the loop leaves `i1`, `i2`
unset: `none`. -/
def findIndicesLoop (v : Vector) (y : ℚ) : Nat → Nat → Option (Nat × Nat)
  | 0, _ => none
  | k + 1, i =>
    if y = rd v i then some (i, i)
    else if y < rd v i then some (i - 1, i)
    else findIndicesLoop v y k (i + 1)

/-- The function `findIndices(v, y, i1, i2)`; the result is the pair `(i1, i2)` written
through the reference arguments. -/
def findIndices (v : Vector) (y : ℚ) : Option (Nat × Nat) :=
  if y ≤ rd v 1 then some (0, 1)
  else if y ≥ rd v (v.length - 2) then some (v.length - 2, v.length - 1)
  else findIndicesLoop v y (v.length - 1) 1

/-- The class `LinearInterpolation1D<Vector>`. -/
structure LinearInterpolation1D where
  xvals_ : Vector
  yvals_ : Vector
deriving DecidableEq, Repr

/-- The constructor of `LinearInterpolation1D`. -/
def LinearInterpolation1D.new (xvals yvals : Vector) : Except String LinearInterpolation1D :=
  if xvals.length = yvals.length then .ok ⟨xvals, yvals⟩
  else .error "LinearInterpolation1D: unequal vector sizes!"

/-- The member `getValue(size_t i)`. -/
def LinearInterpolation1D.getValueAt (f : LinearInterpolation1D) (i : Nat) : ℚ := rd f.yvals_ i

/-- The member `getValue(double x)`; `none` when `findIndices` leaves the indices unset. -/
def LinearInterpolation1D.getValue (f : LinearInterpolation1D) (x : ℚ) : Option ℚ :=
  match findIndices f.xvals_ x with
  | none => none
  | some (i1, i2) =>
    let y1 := f.getValueAt i1
    if i2 = i1 then some y1
    else
      let y2 := f.getValueAt i2
      let x1 := rd f.xvals_ i1
      let x2 := rd f.xvals_ i2
      some (y1 + (y2 - y1) * (x - x1) / (x2 - x1))


/-! ## The time partition (`Product::timeSteps`, `products/product.hpp`) -/

/-- First block of `Product::timeSteps`: the temporary arrays `tstemp`, `idxtemp`, that
is `t = 0` with index `-1` followed by the fixing times with their indices, with the
extra point `t = 0` erased if `tstemp[0] == tstemp[1]`. -/
def timeStepsTemp (fixTimes : Vector) : Vector × List Int :=
  let filled := (List.range fixTimes.length).foldl
    (fun (acc : Vector × List Int) (i : Nat) => (acc.1 ++ [rd fixTimes i], acc.2 ++ [(i : Int)]))
    ([0], [-1])
  if rd filled.1 0 = rd filled.1 1 then (filled.1.tail, filled.2.tail) else filled

/-- The inner loop `for (j = 1; j < n; ++j)` of `Product::timeSteps`: pushes the times
`T1 + j * dt` with the index `-1`. -/
def timeStepsInsert (T1 dt : ℚ) (n : Nat) (acc : Vector × List Int) : Vector × List Int :=
  (forUp 1 (n - 1)).foldl
    (fun (a : Vector × List Int) (j : Nat) => (a.1 ++ [T1 + (j : ℚ) * dt], a.2 ++ [-1])) acc

/-- One pass `i` of the main loop of `Product::timeSteps`; `size_t(dt / maxdt)` is the
integer part of the quotient. -/
def timeStepsPass (tstemp : Vector) (idxtemp : List Int) (maxdt : ℚ)
    (acc : Vector × List Int) (i : Nat) : Vector × List Int :=
  let acc1 : Vector × List Int := (acc.1 ++ [rd tstemp i], acc.2 ++ [idxtemp.getD i 0])
  let dt := rd tstemp (i + 1) - rd tstemp i
  if dt - maxdt > 1 / 100000000 then
    let n := (Rat.floor (dt / maxdt)).toNat
    let dt := dt / (n : ℚ)
    let T1 := rd tstemp i
    timeStepsInsert T1 dt n acc1
  else acc1

/-- Second block of `Product::timeSteps`: the main loop over `i < tstemp.size() - 1` and the
final `push_back` of the last point. -/
def timeStepsFill (tstemp : Vector) (idxtemp : List Int) (maxdt : ℚ) : Vector × List Int :=
  let acc := (List.range (tstemp.length - 1)).foldl (timeStepsPass tstemp idxtemp maxdt)
    ([], [])
  (acc.1 ++ [rd tstemp (tstemp.length - 1)], acc.2 ++ [idxtemp.getD (idxtemp.length - 1) 0])

/-- The method `Product::timeSteps(nsteps, timesteps, stepindex)`; the result is the pair
`(timesteps, stepindex)`. -/
def Product.timeSteps (p : Product) (nsteps : Nat) : Vector × List Int :=
  let tmp := timeStepsTemp p.fixTimes_
  let maxTime := rd tmp.1 (tmp.1.length - 1)
  let maxdt := maxTime / ((max nsteps 1 : Nat) : ℚ)
  timeStepsFill tmp.1 tmp.2 maxdt

/-- The reading of a partition entry `(timesteps[i], stepindex[i])` given in the doc
comment of `Product::timeSteps`: either the index is `-1` and the time is not a fixing
time, or the index is that of a fixing time equal to the time. -/
def timeStepsEntryOk (fixTimes : Vector) (p : ℚ × Int) : Prop :=
  (p.2 = -1 ∧ p.1 ∉ fixTimes) ∨
  (0 ≤ p.2 ∧ p.2.toNat < fixTimes.length ∧ p.1 = rd fixTimes p.2.toNat)


/-! ## The grid set-up over the reals (`pdegrid.hpp`, `PdeBase::initGrid`)

The members that call `exp`, `log` and `sqrt` are embedded with `double` read as `ℝ` and
the `<cmath>` functions as `Real.exp`, `Real.log`, `Real.sqrt`; the names are those of
the source, inside the namespace `real`. -/

namespace real

/-- A vector of doubles (`orf::Vector`, `std::vector<double>`) with real entries. -/
abbrev Vector := List ℝ

/-- Read `v[i]`. -/
def rd (v : Vector) (i : Nat) : ℝ := v.getD i 0

/-- Write `v[i] = a`. -/
def wr (v : Vector) (i : Nat) (a : ℝ) : Vector := v.set i a

/-- The call `resize(n)`: keeps the leading elements, pads with zeros. -/
def resize (v : Vector) (n : Nat) : Vector := v.take n ++ List.replicate (n - v.length) 0

/-- The conversion `int(x)` of a double: the fractional part is discarded (rounding
towards zero). -/
noncomputable def toInt (x : ℝ) : Int := if 0 ≤ x then ⌊x⌋ else ⌈x⌉

/-- The interface `CoordinateChangeBase`.  The members with reference arguments return the
values they write: `forwardAndVariance(fwd, vol, T)` the pair `(fwd, vol)`,
`driftAndVariance(realS, realF, theta, DT, realLNVol, aCoeff, DX, ...)` the triple
`(drift, variance, finalVol)`, and `bounds(S0, fwd, vol, T, nstds, ...)` the pair
`(Xmin, Xmax)`.  The data member `theta`, written by `init` and read nowhere, is left
out. -/
structure CoordinateChangeBase where
  fromRealToDiffused : ℝ → ℝ
  fromDiffusedToReal : ℝ → ℝ
  forwardAndVariance : ℝ → ℝ → ℝ → ℝ × ℝ
  driftAndVariance : ℝ → ℝ → ℝ → ℝ → ℝ → ℝ → ℝ → ℝ × ℝ × ℝ
  bounds : ℝ → ℝ → ℝ → ℝ → ℝ → ℝ × ℝ

/-- The class `NoCoordinateChange` (identity, `Diffused = Real`). -/
noncomputable def NoCoordinateChange : CoordinateChangeBase :=
  { fromRealToDiffused := fun S => S
    fromDiffusedToReal := fun S => S
    forwardAndVariance := fun fwd vol _T => (fwd, vol)
    driftAndVariance := fun realS realF theta DT realLNVol aCoeff _DX =>
      let vol := realLNVol * realS
      let corr := theta * aCoeff + 1 - theta
      let drift := (realF - realS) / corr / DT
      let variance := vol * vol
      (drift, variance, Real.sqrt variance)
    bounds := fun S0 F vol T nstds =>
      (min S0 F * Real.exp (-0.5 * vol * vol * T - nstds * vol * Real.sqrt T),
       max S0 F * Real.exp (-0.5 * vol * vol * T + nstds * vol * Real.sqrt T)) }

/-- The class `LogCoordinateChange` (`Diffused = log(Real)`). -/
noncomputable def LogCoordinateChange : CoordinateChangeBase :=
  { fromRealToDiffused := fun S => Real.log S
    fromDiffusedToReal := fun X => Real.exp X
    forwardAndVariance := fun fwd vol T => (Real.log fwd - 0.5 * vol * vol * T, vol)
    driftAndVariance := fun realS realF theta DT realLNVol aCoeff DX =>
      let Xi := Real.log realS
      let Deltaip1 := (Real.exp (Xi + DX) - Real.exp (Xi - DX)) / (2.0 * DX)
      let Gammaip1 := Real.exp (Xi + DX) - 2 * Real.exp Xi + Real.exp (Xi - DX)
      let Gammaip1 := Gammaip1 / (DX * DX)
      let corr := theta * aCoeff + 1 - theta
      let drift := (realF - realS) / corr / DT / Deltaip1
        - 0.5 * realLNVol * realLNVol * Gammaip1 / Deltaip1
      (drift, realLNVol * realLNVol, realLNVol)
    bounds := fun X0 F vol T nstds =>
      (min X0 F - nstds * vol * Real.sqrt T, max X0 F + nstds * vol * Real.sqrt T) }

/-- The class `GridAxis`. -/
structure GridAxis where
  Xmin : ℝ
  Xmax : ℝ
  DX : ℝ
  NX : Nat
  Xlevels : Vector
  Slevels : Vector
  drifts : Vector
  variances : Vector
  vols : Vector
  coordinateChange : CoordinateChangeBase

/-- The default constructor `GridAxis()`: logarithmic coordinate change, empty vectors (the
scalars, which the constructor leaves unset, are taken as `0`). -/
noncomputable def GridAxis.new : GridAxis :=
  { Xmin := 0, Xmax := 0, DX := 0, NX := 0, Xlevels := [], Slevels := [], drifts := [],
    variances := [], vols := [], coordinateChange := LogCoordinateChange }

/-- The yield curve as `initGrid` uses it: the member `spotRate(tMat)`. -/
structure YieldCurve where
  spotRate : ℝ → ℝ

/-- The volatility term structure as `initGrid` uses it: the member `spotVol(tMat)`. -/
structure VolatilityTermStructure where
  spotVol : ℝ → ℝ

/-- The struct `PdeParams`. -/
structure PdeParams where
  nTimeSteps : Nat
  nSpotNodes : List Nat
  nStdDevs : Vector
  theta : ℝ

/-- The data members of `PdeBase` that `initGrid` reads and writes. -/
structure PdeBase where
  nAssets_ : Nat
  spots_ : Vector
  barriers_ : Vector
  spaccrycs_ : List YieldCurve
  divyields_ : Vector
  vols_ : List VolatilityTermStructure
  gridAxes_ : List GridAxis
  spotAxis_ : Vector
  alignments_ : Vector

/-- The constructor `Pde1DSolver(product, discountYieldCurve, spot, divyield, vol, results,
storeAllResults, barrier)`, as far as these members go; `nAssets` is
`product->nAssets()`. -/
def Pde1DSolver.new (nAssets : Nat) (discountYieldCurve : YieldCurve) (spot divyield : ℝ)
    (vol : VolatilityTermStructure) (barrier : ℝ) : PdeBase :=
  { nAssets_ := nAssets
    spots_ := [spot]
    barriers_ := [barrier]
    spaccrycs_ := [discountYieldCurve]
    divyields_ := [divyield]
    vols_ := [vol]
    gridAxes_ := []
    spotAxis_ := []
    alignments_ := [] }

/-- The method `Pde1DSolver::setAlignment(setAlignmenttoBarrier)`. -/
def Pde1DSolver.setAlignment (s : PdeBase) (setAlignmenttoBarrier : Bool) : PdeBase :=
  if setAlignmenttoBarrier = false then { s with alignments_ := s.spots_ }
  else { s with alignments_ := s.barriers_ }

/-- The method `PdeBase::resize(nEq)`, that is `gridAxes_.resize(nEq)`: new axes are
default-constructed. -/
noncomputable def PdeBase.resize (s : PdeBase) (nEq : Nat) : PdeBase :=
  { s with gridAxes_ := s.gridAxes_.take nEq
      ++ List.replicate (nEq - s.gridAxes_.length) GridAxis.new }

/-- The loop over the nodes `j = 0 .. nSpotNodes + 1` of `initGrid`: writes `Xlevels[j]`
and then `Slevels[j]`, which reads `Xlevels[j]` back. -/
def fillLevels (cc : CoordinateChangeBase) (Xmin DX : ℝ) (nSpotNodes : Nat)
    (levels : Vector × Vector) : Vector × Vector :=
  (forUp 0 (nSpotNodes + 1)).foldl
    (fun (st : Vector × Vector) (j : Nat) =>
      let Xlevels := wr st.1 j (Xmin + (j : ℝ) * DX)
      (Xlevels, wr st.2 j (cc.fromDiffusedToReal (rd Xlevels j))))
    levels

/-- The body of the loop over the assets of `initGrid`, on the axis `grax = gridAxes_[i]`,
with `S0 = spots_[i]`, `rate = spaccrycs_[i]->spotRate(T)`, `divyield = divyields_[i]`,
`vol = vols_[i]->spotVol(T)`, `nStdDevs = params.nStdDevs[i]`,
`alignment = alignments_[i]` and `nSpotNodes = params.nSpotNodes[i]`. -/
noncomputable def PdeBase.initGridAxis (grax : GridAxis) (S0 rate divyield vol T nStdDevs
    alignment : ℝ) (nSpotNodes : Nat) : GridAxis :=
  let NX := nSpotNodes
  let forward := S0 * Real.exp ((rate - divyield) * T)
  let cc := grax.coordinateChange
  let X0 := cc.fromRealToDiffused S0
  let fv := cc.forwardAndVariance forward vol T
  let b := cc.bounds X0 fv.1 fv.2 T nStdDevs
  let DX := (b.2 - b.1) / (((NX + 1 : Nat)) : ℝ)
  let alignValue := cc.fromRealToDiffused alignment
  let X0NodeIdx : Int := toInt (0.5 + (alignValue - b.1) / DX)
  let closestX := b.1 + (X0NodeIdx : ℝ) * DX
  let Xmin := b.1 - (closestX - alignValue)
  let Xmax := b.2 - (closestX - alignValue)
  let levels := fillLevels cc Xmin DX nSpotNodes
    (real.resize grax.Xlevels (nSpotNodes + 2), real.resize grax.Slevels (nSpotNodes + 2))
  { Xmin := Xmin, Xmax := Xmax, DX := DX, NX := NX
    Xlevels := levels.1
    Slevels := levels.2
    drifts := real.resize grax.drifts nSpotNodes
    variances := real.resize grax.variances nSpotNodes
    vols := real.resize grax.vols nSpotNodes
    coordinateChange := cc }

/-- One pass `i` of the loop over the assets of `initGrid`. -/
noncomputable def PdeBase.initGridPass (T : ℝ) (params : PdeParams) (s : PdeBase) (i : Nat) :
    PdeBase :=
  let S0 := rd s.spots_ i
  let rate := (s.spaccrycs_.getD i ⟨fun _ => 0⟩).spotRate T
  let vol := (s.vols_.getD i ⟨fun _ => 0⟩).spotVol T
  { s with
    spotAxis_ := s.spotAxis_ ++ [S0]
    gridAxes_ := s.gridAxes_.set i
      (PdeBase.initGridAxis (s.gridAxes_.getD i GridAxis.new) S0 rate (rd s.divyields_ i) vol T
        (rd params.nStdDevs i) (rd s.alignments_ i) (params.nSpotNodes.getD i 0)) }

/-- The method `PdeBase::initGrid(T, params)`. -/
noncomputable def PdeBase.initGrid (s : PdeBase) (T : ℝ) (params : PdeParams) :
    Outcome Unit PdeBase :=
  if ¬ (s.nAssets_ = params.nSpotNodes.length) then
    (.error "PdeBase: unequal number of assets and pde parameter axes specs!", s)
  else
    (.ok (), (List.range s.nAssets_).foldl (PdeBase.initGridPass T params)
      (s.resize s.nAssets_))

end real

namespace real

/-- The parameters of the sample grid: one axis with one interior node and four standard
deviations. -/
noncomputable def PdeParams.sample : PdeParams :=
  { nTimeSteps := 1, nSpotNodes := [1], nStdDevs := [4], theta := 1 / 2 }

/-- The solver of a barrier option with spot `1`, barrier `1000`, zero rate and dividend
yield and a flat volatility of `20%`, aligned to the spot (`setAlignment(false)`). -/
noncomputable def PdeBase.sampleSpot : PdeBase :=
  Pde1DSolver.setAlignment (Pde1DSolver.new 1 ⟨fun _ => 0⟩ 1 0 ⟨fun _ => 1 / 5⟩ 1000) false

/-- The same solver aligned to the barrier (`setAlignment(true)`). -/
noncomputable def PdeBase.sampleBarrier : PdeBase :=
  Pde1DSolver.setAlignment (Pde1DSolver.new 1 ⟨fun _ => 0⟩ 1 0 ⟨fun _ => 1 / 5⟩ 1000) true

end real


namespace real

/-- The solver of a down barrier option with spot `1` and barrier `1/4`, zero rate and
dividend yield and a flat volatility of `20%`, aligned to the barrier
(`setAlignment(true)`). -/
noncomputable def PdeBase.sampleDownBarrier : PdeBase :=
  Pde1DSolver.setAlignment (Pde1DSolver.new 1 ⟨fun _ => 0⟩ 1 0 ⟨fun _ => 1 / 5⟩ (1 / 4)) true

end real


/-- The payment amounts held by the product after `evalProduct` has called
`eval(eventIdx, Slevels[node], value at node)` at the first `m` nodes `0, ..., m - 1`, in
this order, each call working on the amounts left by the one before (a call that throws
leaves them as they were). -/
def PdeBase.payAmountsAfterNodes (b : PdeBase) (eventIdx : Nat) : Nat → Vector
  | 0 => b.spprod_.payAmounts_
  | m + 1 =>
    match b.spprod_.evalIdx (PdeBase.payAmountsAfterNodes b eventIdx m) eventIdx
        (wr [0] 0 (rd b.solver1D.grax.Slevels m)) (b.solver1D.prevValues.at m 0) with
    | .ok pa => pa
    | .error _ => PdeBase.payAmountsAfterNodes b eventIdx m


/-- The mirror image of an operator, as the specification describes the high-side boundary
routine: row `i` becomes row `N + 1 - i` (each band is reversed) and the lower and upper
bands, with their edge values, change places. -/
def TridiagonalOp1D.mirror (op : TridiagonalOp1D) : TridiagonalOp1D :=
  { N_ := op.N_
    lower_ := op.upper_.reverse
    diag_ := op.diag_.reverse
    upper_ := op.lower_.reverse
    LowerVal_ := op.UpperVal_
    UpperVal_ := op.LowerVal_ }

/-! ## The market curves (`math/interpol/piecewisepolynomial.hpp`, `market/`) -/

/-- The constructor `arma::mat(r, c, arma::fill::zeros)`. -/
def Matrix.zeros (r c : Nat) : Matrix := ⟨r, List.replicate c (List.replicate r 0)⟩

/-- The class `PiecewisePolynomial`: the breakpoints `x_` and the coefficients `c_`, one
column for each breakpoint. -/
structure PiecewisePolynomial where
  x_ : Vector
  c_ : Matrix
deriving DecidableEq, Repr

namespace PiecewisePolynomial

/-- The member `size()`. -/
def size (p : PiecewisePolynomial) : Nat := p.x_.length

/-- The member `order()`. -/
def order (p : PiecewisePolynomial) : Nat := p.c_.n_rows - 1

/-- The member `breakPoint(i)`. -/
def breakPoint (p : PiecewisePolynomial) (i : Nat) : ℚ := rd p.x_ i

/-- The member `setBreakPoint(i, val)`. -/
def setBreakPoint (p : PiecewisePolynomial) (i : Nat) (val : ℚ) : PiecewisePolynomial :=
  { p with x_ := wr p.x_ i val }

/-- The member `coefficient(i, j)`. -/
def coefficient (p : PiecewisePolynomial) (i j : Nat) : ℚ := p.c_.at i j

/-- The member `setCoefficient(i, j, val)`; the writes `*cit = val` through the row
iterator `coeff_begin(0)` advanced `j` times are `setCoefficient(0, j, val)`. -/
def setCoefficient (p : PiecewisePolynomial) (i j : Nat) (val : ℚ) : PiecewisePolynomial :=
  { p with c_ := p.c_.setAt i j val }

/-- The call `std::adjacent_find(x_.begin(), x_.end(), std::greater_equal<double>())` of
`assertBreakpointOrder`: whether some entry is greater than or equal to the next one. -/
def adjacentFindGe : Vector → Bool
  | a :: b :: t => if a ≥ b then true else adjacentFindGe (b :: t)
  | _ => false

/-- The constructor `PiecewisePolynomial(xFirst, xLast, yFirst, order)` from breakpoints and
values.  For a single breakpoint and `order = 1` the source reads `c_(1, j - 1)` with
`j = 0`, outside the matrix; that read gives `0` here. -/
def new (xs ys : Vector) (order : Nat) : Except String PiecewisePolynomial :=
  let n := xs.length
  let c0 := Matrix.zeros (order + 1) n
  if ¬ (order < 2) then
    .error ("PiecewisePolynomial: only 0th and 1st order polynomials can be constructed " ++
      "from values")
  else if adjacentFindGe xs then
    .error "PiecewisePolynomial: breakpoints must be in strict increasing order"
  else
    let c1 := (List.range n).foldl (fun c (j : Nat) => c.setAt 0 j (rd ys j)) c0
    let c2 :=
      if c1.n_rows - 1 = 1 then
        (List.range n).foldl (fun c (j : Nat) =>
          if j < n - 1 then
            c.setAt 1 j ((rd ys (j + 1) - rd ys j) / (rd xs (j + 1) - rd xs j))
          else
            c.setAt 1 j (if 1 ≤ j then c.at 1 (j - 1) else 0)) c1
      else c1
    .ok { x_ := xs, c_ := c2 }

end PiecewisePolynomial

namespace market

/-- The enumeration `VolatilityTermStructure::VolType`. -/
inductive VolType where
  | SPOTVOL
  | FWDVOL
deriving DecidableEq, Repr

/-- The class `VolatilityTermStructure`: the piecewise constant forward variances. -/
structure VolatilityTermStructure where
  fwdvars_ : PiecewisePolynomial
deriving DecidableEq, Repr

/-- One pass of the loop of `initFromSpotVols`, on the curve and the locals `T1`,
`V1square`.  The message of the exception ends, in the source, with the two times printed by
`to_string`; the model keeps its fixed part. -/
def VolatilityTermStructure.spotVolsStep (st : PiecewisePolynomial × ℚ × ℚ) (i : Nat) :
    Except String (PiecewisePolynomial × ℚ × ℚ) :=
  let T2 := st.1.breakPoint i
  let V2 := st.1.coefficient 0 i
  let V2square := V2 * V2
  let fwdvar := V2square * T2 - st.2.2 * st.2.1
  if ¬ (fwdvar ≥ 0) then
    .error "VolatilityTermStructure: negative variance between T1 and T2"
  else
    let fwdvar := fwdvar / (T2 - st.2.1)
    .ok (((st.1.setBreakPoint i st.2.1).setCoefficient 0 i fwdvar), T2, V2square)

/-- The member `initFromSpotVols()`.  It runs inside the constructor, so the curve it has
half rewritten when it throws is never seen: the result is the exception alone. -/
def VolatilityTermStructure.initFromSpotVols (v : VolatilityTermStructure) :
    Except String VolatilityTermStructure :=
  let T1 := v.fwdvars_.breakPoint 0
  let V1 := v.fwdvars_.coefficient 0 0
  let V1square := V1 * V1
  let f1 := v.fwdvars_.setCoefficient 0 0 V1square
  let f2 := f1.setBreakPoint 0 0
  ((List.range' 1 (f2.size - 1)).foldl
      (fun (acc : Except String (PiecewisePolynomial × ℚ × ℚ)) (i : Nat) =>
        acc.bind fun st => VolatilityTermStructure.spotVolsStep st i)
      (Except.ok (f2, T1, V1square))).map fun st => ⟨st.1⟩

/-- One pass of the loop of `initFromFwdVols`, on the curve and the local `T1`. -/
def VolatilityTermStructure.fwdVolsStep (st : PiecewisePolynomial × ℚ) (i : Nat) :
    Except String (PiecewisePolynomial × ℚ) :=
  let T2 := rd st.1.x_ i
  let f1 := st.1.setBreakPoint i st.2
  let fwdvol := f1.coefficient 0 i
  if ¬ (fwdvol ≥ 0) then
    .error "VolatilityTermStructure: negative volatility between T1 and T2"
  else
    .ok (f1.setCoefficient 0 i (fwdvol * fwdvol), T2)

/-- The member `initFromFwdVols()`. -/
def VolatilityTermStructure.initFromFwdVols (v : VolatilityTermStructure) :
    Except String VolatilityTermStructure :=
  ((List.range v.fwdvars_.size).foldl
      (fun (acc : Except String (PiecewisePolynomial × ℚ)) (i : Nat) =>
        acc.bind fun st => VolatilityTermStructure.fwdVolsStep st i)
      (Except.ok (v.fwdvars_, 0))).map fun st => ⟨st.1⟩

/-- The constructor `VolatilityTermStructure(tMatBegin, tMatEnd, volBegin, volEnd, vtype)`:
the member `fwdvars_` is built first, from as many vols as there are maturities. -/
def VolatilityTermStructure.new (tMat vol : Vector) (vtype : VolType) :
    Except String VolatilityTermStructure :=
  match PiecewisePolynomial.new tMat vol 0 with
  | .error e => .error e
  | .ok fwdvars =>
    if ¬ (tMat.length = vol.length) then
      .error "VolatilityTermStructure: different number of maturities and vols"
    else if ¬ (tMat.all fun x => decide (x > 0)) then
      .error "VolatilityTermStructure: maturities must be positive"
    else
      match vtype with
      | .SPOTVOL => VolatilityTermStructure.initFromSpotVols ⟨fwdvars⟩
      | .FWDVOL => VolatilityTermStructure.initFromFwdVols ⟨fwdvars⟩

/-- The enumeration `YieldCurve::InputType`, without the value `ZEROBOND`, whose bootstrap
`initFromZeroBonds` takes logarithms. -/
inductive InputType where
  | SPOTRATE
  | FWDRATE
deriving DecidableEq, Repr

/-- The class `YieldCurve`: the currency and the piecewise constant forward rates. -/
structure YieldCurve where
  ccy_ : String
  fwdrates_ : PiecewisePolynomial
deriving DecidableEq, Repr

/-- One pass of the loop of `initFromSpotRates`, on the curve and the locals `T1`, `R1`.
The message of the exception ends, in the source, with the two times printed by
`to_string`; the model keeps its fixed part. -/
def YieldCurve.spotRatesStep (st : PiecewisePolynomial × ℚ × ℚ) (i : Nat) :
    Except String (PiecewisePolynomial × ℚ × ℚ) :=
  let T2 := st.1.breakPoint i
  let R2 := st.1.coefficient 0 i
  let F := R2 * T2 - st.2.2 * st.2.1
  if ¬ (F ≥ 0) then
    .error "YieldCurve: negative fwd rate between T1 and T2"
  else
    let F := F / (T2 - st.2.1)
    .ok (((st.1.setBreakPoint i st.2.1).setCoefficient 0 i F), T2, R2)

/-- The member `initFromSpotRates()`, inside the constructor. -/
def YieldCurve.initFromSpotRates (y : YieldCurve) : Except String YieldCurve :=
  let T1 := y.fwdrates_.breakPoint 0
  let R1 := y.fwdrates_.coefficient 0 0
  let f1 := y.fwdrates_.setBreakPoint 0 0
  ((List.range' 1 (f1.size - 1)).foldl
      (fun (acc : Except String (PiecewisePolynomial × ℚ × ℚ)) (i : Nat) =>
        acc.bind fun st => YieldCurve.spotRatesStep st i)
      (Except.ok (f1, T1, R1))).map fun st => { y with fwdrates_ := st.1 }

/-- One pass of the loop of `initFromFwdRates`, on the curve and the local `T1`. -/
def YieldCurve.fwdRatesStep (st : PiecewisePolynomial × ℚ) (i : Nat) :
    Except String (PiecewisePolynomial × ℚ) :=
  let T2 := rd st.1.x_ i
  let f1 := st.1.setBreakPoint i st.2
  let fwdrate := f1.coefficient 0 i
  if ¬ (fwdrate ≥ 0) then
    .error "YieldCurve: negative fwd rate between T1 and T2"
  else
    .ok (f1, T2)

/-- The member `initFromFwdRates()`. -/
def YieldCurve.initFromFwdRates (y : YieldCurve) : Except String YieldCurve :=
  ((List.range y.fwdrates_.size).foldl
      (fun (acc : Except String (PiecewisePolynomial × ℚ)) (i : Nat) =>
        acc.bind fun st => YieldCurve.fwdRatesStep st i)
      (Except.ok (y.fwdrates_, 0))).map fun st => { y with fwdrates_ := st.1 }

/-- The constructor `YieldCurve(tMatBegin, tMatEnd, rateBegin, rateEnd, intype)`. -/
def YieldCurve.new (tMat rate : Vector) (intype : InputType) : Except String YieldCurve :=
  match PiecewisePolynomial.new tMat rate 0 with
  | .error e => .error e
  | .ok fwdrates =>
    if ¬ (tMat.length = rate.length) then
      .error "YieldCurve: different number of maturities and rates"
    else if ¬ (tMat.all fun x => decide (x > 0)) then
      .error "YieldCurve: maturities must be positive"
    else
      match intype with
      | .SPOTRATE => YieldCurve.initFromSpotRates ⟨"USD", fwdrates⟩
      | .FWDRATE => YieldCurve.initFromFwdRates ⟨"USD", fwdrates⟩

end market

/-- The sizes that `initGrid` and `initLayers` give to the solver: at least two interior
nodes, `NX` coefficients of each kind, and `NX + 2` values in every layer of both value
matrices. -/
def Pde1DSolver.Sized (s : Pde1DSolver) : Prop :=
  2 ≤ s.grax.NX ∧ s.grax.drifts.length = s.grax.NX ∧ s.grax.variances.length = s.grax.NX ∧
  s.prevValues.n_rows = s.grax.NX + 2 ∧
  (∀ j, j < s.nLayers_ → (s.prevValues.col j).length = s.grax.NX + 2) ∧
  (∀ j, j < s.nLayers_ → (s.currValues.col j).length = s.grax.NX + 2)

/-- One pass of the loop body of `operator*=`. -/
def TridiagonalOp1D.mulAt (rhs : ℚ) (op : TridiagonalOp1D) (i : Nat) : TridiagonalOp1D :=
  { op with
    lower_ := wr op.lower_ i (rd op.lower_ i * rhs)
    diag_ := wr op.diag_ i (rd op.diag_ i * rhs)
    upper_ := wr op.upper_ i (rd op.upper_ i * rhs) }

/-- The member `operator*=(double rhs)`. -/
def TridiagonalOp1D.mulAssign (op : TridiagonalOp1D) (rhs : ℚ) : TridiagonalOp1D :=
  (List.range op.lower_.length).foldl (TridiagonalOp1D.mulAt rhs) op

/-! ## The barrier product (`products/barriercallput.hpp`) -/

/-- The enumeration `BarrierCallPut::Freq`. -/
inductive BarrierCallPut.Freq where
  | MONTHLY
  | WEEKLY
  | DAILY
deriving DecidableEq, Repr

/-- The local `num_freq` set by the `switch (freq)` of the constructor. -/
def BarrierCallPut.num_freq (freq : BarrierCallPut.Freq) : ℚ :=
  match freq with
  | .MONTHLY => 12
  | .WEEKLY => 52
  | .DAILY => 365

/-- The method `BarrierCallPut::eval(idx, spots, contValue)` on the payment amounts. -/
def BarrierCallPut.eval (payoffType : Int) (strike : ℚ) (up_or_down : Int) (barrier : ℚ)
    (payAmounts : Vector) (idx : Nat) (spots : Vector) (contValue : ℚ) :
    Except String Vector :=
  let spot := rd spots 0
  if idx = payAmounts.length - 1 then
    let barrier_not_hit : Int := 1
    let barrier_not_hit := if up_or_down = 1 ∧ spot ≥ barrier then 0 else barrier_not_hit
    let barrier_not_hit := if up_or_down = 0 ∧ spot ≤ barrier then 0 else barrier_not_hit
    let payoff := (barrier_not_hit : ℚ) * ((spot - strike) * payoffType)
    .ok (wr payAmounts idx (if payoff > 0 then payoff else 0))
  else
    let contValue := if up_or_down = 1 ∧ spot ≥ barrier then 0 else contValue
    let contValue := if up_or_down = 0 ∧ spot ≤ barrier then 0 else contValue
    .ok (wr payAmounts idx (if contValue > 0 then contValue else 0))

/-- The constructor `BarrierCallPut(payoffType, strike, timeToExp, up_or_down, barrier,
freq)`, after the constructor of its base class `EuropeanCallPut`. -/
def BarrierCallPut.new (payoffType : Int) (strike timeToExp : ℚ) (up_or_down : Int)
    (barrier : ℚ) (freq : BarrierCallPut.Freq) : Except String Product :=
  match EuropeanCallPut.new payoffType strike timeToExp with
  | .error e => .error e
  | .ok base =>
    if ¬ (payoffType = 1 ∨ payoffType = -1) then
      .error "BarrierCallPut: the payoff type must be 1 (call) or -1 (put)!"
    else if ¬ (up_or_down = 1 ∨ up_or_down = 0) then
      .error "BarrierCallPut: the up_or_down type must be 1 (up) or 0 (down)!"
    else if ¬ (strike > 0) then
      .error "BarrierCallPut: the strike must be positive!"
    else if ¬ (timeToExp > 0) then
      .error "BarrierCallPut: the time to expiration must be positive!"
    else
      let num_freq := BarrierCallPut.num_freq freq
      let nfixings := (Rat.floor (timeToExp * num_freq)).toNat
      if ¬ (nfixings > 0) then
        .error "BarrierCallPut: the option has expired!"
      else
        let ft0 := resize base.fixTimes_ nfixings
        let stub := timeToExp * num_freq - (Rat.floor (timeToExp * num_freq) : ℚ)
        if ¬ (timeToExp ≥ 1 / num_freq) then
          .error "Time to Expiration must be greater than the smallest unit of monitoring"
        else
          let ft1 := (List.range (nfixings - 1)).foldl
            (fun v (i : Nat) => wr v i ((i : ℚ) / num_freq + stub / num_freq)) ft0
          let ft2 := wr ft1 (nfixings - 1) timeToExp
          .ok { fixTimes_ := ft2
                payTimes_ := ft2
                payAmounts_ := resize base.payAmounts_ ft2.length
                evalIdx := BarrierCallPut.eval payoffType strike up_or_down barrier }

/-! ## The closed-form pricers (`pricers/simplepricers.cpp`)

`barrierOptionBS` calls `exp`, `log`, `sqrt` and `pow`, so it is embedded over the reals, with
`pow` read as the real power.  The object `NormalDistribution normal` enters through its
member `cdf` only (`pdf` is called for a local that is never read); `cdf` evaluates a
Chebyshev series for `erfc`, and is a parameter of the embedding.  The locals `in`, `out`
and `final_price` are declared without a value: they are embedded as options, `none` for a
local that was never assigned. -/

namespace real

/-- The function `fwdPrice(spot, timeToExp, intRate, divYield)`. -/
noncomputable def fwdPrice (spot timeToExp intRate divYield : ℝ) : Except String ℝ :=
  if ¬ (spot ≥ 0.0) then .error "spot must be non-negative"
  else if ¬ (timeToExp ≥ 0.0) then .error "time to expiration must be non-negative"
  else if ¬ (intRate ≥ 0.0) then .error "interest rate must be non-negative"
  else if ¬ (divYield ≥ 0.0) then .error "dividend yield must be non-negative"
  else .ok (spot * Real.exp ((intRate - divYield) * timeToExp))

/-- The part of the class `NormalDistribution` that `barrierOptionBS` reads. -/
structure NormalDistribution where
  /-- The member function `cdf`. -/
  cdf : ℝ → ℝ

/-- The vanilla price `price_1` that `barrierOptionBS` computes on its way. -/
noncomputable def barrierOptionBS.price_1 (normal : NormalDistribution) (payoffType : Int)
    (spot strike timeToExp intRate divYield volatility : ℝ) : ℝ :=
  let phi : ℝ := payoffType
  let sigT := volatility * Real.sqrt timeToExp
  let d1 := (Real.log (spot / strike)
    + ((intRate - divYield + (volatility ^ (2 : ℝ) / 2)) * timeToExp)) / sigT
  let d2 := d1 - sigT
  let df := Real.exp (-intRate * timeToExp)
  let qf := Real.exp (-divYield * timeToExp)
  let nd1 := normal.cdf (phi * d1)
  let nd2 := normal.cdf (phi * d2)
  phi * ((spot * qf * nd1) - (strike * df * nd2))

/-- The body of `barrierOptionBS(payoffType, barrierType, spot, strike, barrier, timeToExp,
intRate, divYield, volatility)` up to the statement `// Return final price`: the result is
the pair of the locals `(in, out)` there.  The two characters of `barrierType` are the pair
`barrierType`. -/
noncomputable def barrierOptionBS.inOut (normal : NormalDistribution) (payoffType : Int)
    (barrierType : Char × Char) (spot strike barrier timeToExp intRate divYield
      volatility : ℝ) : Except String (Option ℝ × Option ℝ) :=
  if ¬ (payoffType = 1 ∨ payoffType = -1) then .error "payoffType must be 1 or -1"
  else if ¬ (strike ≥ 0.0) then .error "strike must be non-negative"
  else if ¬ (timeToExp ≥ 0.0) then .error "time to expiration must be non-negative"
  else if ¬ (barrier ≥ 0.0) then .error "barrier must be non-negative"
  else if ¬ (spot ≥ 0.0) then .error "spot must be non-negative"
  else if ¬ (volatility ≥ 0.0) then .error "volatility must be non-negative"
  else
    let phi : ℝ := payoffType
    match fwdPrice spot timeToExp intRate divYield with
    | .error e => .error e
    | .ok _ =>
      let sigT := volatility * Real.sqrt timeToExp
      let d1 := (Real.log (spot / strike)
        + ((intRate - divYield + (volatility ^ (2 : ℝ) / 2)) * timeToExp)) / sigT
      let d2 := d1 - sigT
      let df := Real.exp (-intRate * timeToExp)
      let qf := Real.exp (-divYield * timeToExp)
      let nd1 := normal.cdf (phi * d1)
      let nd2 := normal.cdf (phi * d2)
      let price_1 := phi * ((spot * qf * nd1) - (strike * df * nd2))
      let lambda := (intRate - divYield + (volatility ^ (2 : ℝ) / 2)) / (volatility ^ (2 : ℝ))
      let y := (Real.log (barrier ^ (2 : ℝ) / (spot * strike)) / sigT) + (lambda * sigT)
      let up_or_down := barrierType.1
      let in_or_out := barrierType.2
      if ¬ (up_or_down = 'u' ∨ up_or_down = 'd') then
        .error "1st barrier type must be up or down"
      else if ¬ (in_or_out = 'i' ∨ in_or_out = 'o') then
        .error "2nd barrier type must be in or out"
      else if up_or_down = 'd' ∧ ¬ (barrier < spot) then
        .error "barrier level must be below initial asset price if pricing down option"
      else if up_or_down = 'u' ∧ ¬ (barrier > spot) then
        .error "barrier level must be above initial asset price if pricing up option"
      else
        let H_div_S0 := (barrier / spot) ^ (2 * lambda)
        let H_div_S0_2 := (barrier / spot) ^ ((2 * lambda) - 2)
        let Normal_y := normal.cdf (phi * y)
        let Normal_y_minus_sigT := normal.cdf (phi * (y - sigT))
        let x_1 := (Real.log (spot / barrier) / sigT) + (lambda * sigT)
        let y_1 := (Real.log (barrier / spot) / sigT) + (lambda * sigT)
        let Normal_x_1 := normal.cdf (phi * x_1)
        let Normal_x_1_minus_sigT := normal.cdf (phi * (x_1 - sigT))
        let Normal_y_1 := normal.cdf (phi * y_1)
        let Normal_y_1_minus_sigT := normal.cdf (phi * (y_1 - sigT))
        let Normal_y_y_1 := normal.cdf (-phi * y) - normal.cdf (-phi * y_1)
        let Normal_y_y_1_sigT :=
          normal.cdf (-phi * (y - sigT)) - normal.cdf (-phi * (y_1 - sigT))
        if payoffType = 1 then
          if up_or_down = 'd' then
            if barrier ≤ strike then
              let in_ := phi * ((spot * qf * H_div_S0 * Normal_y)
                - (strike * df * H_div_S0_2 * Normal_y_minus_sigT))
              let out := price_1 - in_
              .ok (some in_, some out)
            else
              let out := phi * ((spot * Normal_x_1 * qf) - (strike * df * Normal_x_1_minus_sigT)
                - (spot * qf * H_div_S0 * Normal_y_1)
                + (strike * df * H_div_S0_2 * Normal_y_1_minus_sigT))
              let in_ := price_1 - out
              .ok (some in_, some out)
          else if up_or_down = 'u' then
            if barrier ≤ strike then
              let in_ := price_1
              let out := 0.0
              .ok (some in_, some out)
            else
              let in_ := phi * ((spot * Normal_x_1 * qf) - (strike * df * Normal_x_1_minus_sigT)
                - (spot * qf * H_div_S0 * Normal_y_y_1)
                + (strike * df * H_div_S0_2 * Normal_y_y_1_sigT))
              let out := price_1 - in_
              .ok (some in_, some out)
          else .ok (none, none)
        else if payoffType = -1 then
          if up_or_down = 'u' then
            if barrier ≥ strike then
              let in_ := phi * ((spot * qf * H_div_S0 * Normal_y)
                - (strike * df * H_div_S0_2 * Normal_y_minus_sigT))
              let out := price_1 - in_
              .ok (some in_, some out)
            else
              let out := phi * ((spot * Normal_x_1 * qf) - (strike * df * Normal_x_1_minus_sigT)
                - ((spot * qf * H_div_S0 * Normal_y_1)
                  - (strike * df * H_div_S0_2 * Normal_y_1_minus_sigT)))
              let in_ := price_1 - out
              .ok (some in_, some out)
          else if up_or_down = 'd' then
            if barrier ≥ strike then
              let out := 0.0
              let in_ := price_1
              .ok (some in_, some out)
            else
              let in_ := -(spot * Normal_x_1 * qf) + (strike * df * Normal_x_1_minus_sigT)
                + (spot * qf * H_div_S0 * Normal_y_y_1)
                - (strike * df * H_div_S0_2 * Normal_y_y_1_sigT)
              let out := price_1 - in_
              .ok (some in_, some out)
          else .ok (none, none)
        else .ok (none, none)

/-- The function `barrierOptionBS`: after the body above, `final_price` is `in` for the type
`'i'` and `out` for the type `'o'`, and is returned. -/
noncomputable def barrierOptionBS (normal : NormalDistribution) (payoffType : Int)
    (barrierType : Char × Char) (spot strike barrier timeToExp intRate divYield
      volatility : ℝ) : Except String (Option ℝ) :=
  match barrierOptionBS.inOut normal payoffType barrierType spot strike barrier timeToExp
      intRate divYield volatility with
  | .error e => .error e
  | .ok (in_, out) =>
    let in_or_out := barrierType.2
    let final_price : Option ℝ :=
      if in_or_out = 'i' then in_
      else if in_or_out = 'o' then out
      else none
    .ok final_price

end real

/-! ## Storing the results (`Pde1DSolver::storeResults`, over the reals)

`storeResults` interpolates every value layer at `fromRealToDiffused(spots_[0])`, which
calls `log` for the logarithmic coordinate change; it is embedded over the reals, together
with the interpolator of `math/interpol/interpolation1d.hpp` that it uses. -/

namespace real

/-- The loop `for (i = ...; i < v.size(); ++i)` of `findIndices`, from index `i` with
`k` passes left; each pass may return.  Falling out of the loop leaves `i1`, `i2`
unset: `none`. -/
noncomputable def findIndicesLoop (v : Vector) (y : ℝ) : Nat → Nat → Option (Nat × Nat)
  | 0, _ => none
  | k + 1, i =>
    if y = rd v i then some (i, i)
    else if y < rd v i then some (i - 1, i)
    else findIndicesLoop v y k (i + 1)

/-- The function `findIndices(v, y, i1, i2)`; the result is the pair `(i1, i2)` written
through the reference arguments. -/
noncomputable def findIndices (v : Vector) (y : ℝ) : Option (Nat × Nat) :=
  if y ≤ rd v 1 then some (0, 1)
  else if y ≥ rd v (v.length - 2) then some (v.length - 2, v.length - 1)
  else findIndicesLoop v y (v.length - 1) 1

/-- The class `LinearInterpolation1D<Vector>`. -/
structure LinearInterpolation1D where
  xvals_ : Vector
  yvals_ : Vector

/-- The constructor of `LinearInterpolation1D`. -/
def LinearInterpolation1D.new (xvals yvals : Vector) : Except String LinearInterpolation1D :=
  if xvals.length = yvals.length then .ok ⟨xvals, yvals⟩
  else .error "LinearInterpolation1D: unequal vector sizes!"

/-- The member `getValue(size_t i)`. -/
def LinearInterpolation1D.getValueAt (f : LinearInterpolation1D) (i : Nat) : ℝ := rd f.yvals_ i

/-- The member `getValue(double x)`; `none` when `findIndices` leaves the indices unset. -/
noncomputable def LinearInterpolation1D.getValue (f : LinearInterpolation1D) (x : ℝ) :
    Option ℝ :=
  match findIndices f.xvals_ x with
  | none => none
  | some (i1, i2) =>
    let y1 := f.getValueAt i1
    if i2 = i1 then some y1
    else
      let y2 := f.getValueAt i2
      let x1 := rd f.xvals_ i1
      let x2 := rd f.xvals_ i2
      some (y1 + (y2 - y1) * (x - x1) / (x2 - x1))

/-- A matrix of doubles (`orf::Matrix`), stored by columns. -/
structure Matrix where
  n_rows : Nat
  cols : List Vector

/-- Column `j` of a matrix (`m.col(j)`). -/
def Matrix.col (m : Matrix) (j : Nat) : Vector := m.cols.getD j []

/-- The members of the struct `Pde1DResults` that `storeResults` writes. -/
structure Pde1DResults where
  gridAxes : List GridAxis
  prices : Vector

/-- The class `Pde1DSolver`, derived from `PdeBase`: the members that `storeResults` reads
and writes; `prevValues` is the matrix that the pointer of this name points to. -/
structure Pde1DSolver extends PdeBase where
  nLayers_ : Nat
  prevValues : Matrix
  results_ : Pde1DResults

/-- One pass `j` of the loop of `storeResults` on the vector `results_.prices`: an error
when the constructor of the interpolator throws, `none` when `getValue` reads indices that
`findIndices` has left unset. -/
noncomputable def Pde1DSolver.storeResultsPass (s : Pde1DSolver) (prices : Vector) (j : Nat) :
    Except String (Option Vector) :=
  let X0 := (s.gridAxes_.getD 0 GridAxis.new).coordinateChange.fromRealToDiffused
    (rd s.spots_ 0)
  let temp := s.prevValues.col j
  match LinearInterpolation1D.new (s.gridAxes_.getD 0 GridAxis.new).Xlevels temp with
  | .error e => .error e
  | .ok interp =>
    match interp.getValue X0 with
    | none => .ok none
    | some p => .ok (some (wr prices j p))

/-- The loop over the layers of `storeResults`, from the resized vector `prices`. -/
noncomputable def Pde1DSolver.storeResultsLoop (s : Pde1DSolver) (n : Nat) (prices : Vector) :
    Except String (Option Vector) :=
  (List.range n).foldl
    (fun (acc : Except String (Option Vector)) (j : Nat) =>
      match acc with
      | .ok (some p) => s.storeResultsPass p j
      | .ok none => .ok none
      | .error e => .error e)
    (.ok (some prices))

/-- The method `Pde1DSolver::storeResults()`: the solver after the call (the state at a
throw is not kept). -/
noncomputable def Pde1DSolver.storeResults (s : Pde1DSolver) :
    Except String (Option Pde1DSolver) :=
  match s.storeResultsLoop s.nLayers_ (resize s.results_.prices s.nLayers_) with
  | .error e => .error e
  | .ok none => .ok none
  | .ok (some prices) =>
    .ok (some { s with results_ := { gridAxes := s.gridAxes_, prices := prices } })

end real

namespace real

/-- Grid parameters with three interior nodes and four standard deviations. -/
noncomputable def PdeParams.sampleThree : PdeParams :=
  { nTimeSteps := 1, nSpotNodes := [3], nStdDevs := [4], theta := 1 / 2 }

/-- The sample solver aligned to the spot, after `initGrid(1, sampleThree)`, with one value
layer `(5, 7, 9, 11, 13)` on the five nodes. -/
noncomputable def Pde1DSolver.sampleStore : Pde1DSolver :=
  { toPdeBase := (PdeBase.sampleSpot.initGrid 1 PdeParams.sampleThree).2
    nLayers_ := 1
    prevValues := ⟨5, [[5, 7, 9, 11, 13]]⟩
    results_ := ⟨[], []⟩ }

end real

/-! ## Integrals of the curves (`PiecewisePolynomial::integral`, `market/yieldcurve.cpp`)

The members `discount` and `fwdDiscount` return `exp` of a double; the argument is computed
in `ℚ` as everywhere in the curves, and `exp` is `Real.exp` of its cast. -/

namespace PiecewisePolynomial

/-- The call `std::upper_bound(first, last, x) - first` on a sorted range: the number of
leading entries that are not greater than `x`, that is the first index `i` with `x < v[i]`
(the size when there is none). -/
def upperBound : Vector → ℚ → Nat
  | [], _ => 0
  | a :: t, x => if x < a then 0 else upperBound t x + 1

/-- The member `index(x)`, a `ptrdiff_t`: the greatest index with `x_[idx] ≤ x`, and `-1`
when `x < x_[0]`. -/
def index (p : PiecewisePolynomial) (x : ℚ) : Int := (upperBound p.x_ x : Int) - 1

/-- The member `primitive(xIdx, h, k)`.  The local `factnp1` of the second branch is
written in the loop and never read; it is left out.  The test `xIdx == size() - 1` on
unsigned integers is written `xIdx + 1 = size()`. -/
def primitive (p : PiecewisePolynomial) (xIdx : Nat) (h : ℚ) (k : Nat) : ℚ :=
  let ord := p.order
  if (xIdx = 0 ∧ h < 0) ∨ (xIdx + 1 = p.size ∧ h > 0) then
    let c := p.c_.at 0 xIdx
    let fact := (forUp 2 k).foldl (fun (fact : ℚ) (i : Nat) => fact * (i : ℚ)) 1
    c * h ^ k / fact
  else
    let val := (forDown (ord + k) k).foldl
      (fun (val : ℚ) (i : Nat) => p.c_.at (i - k) xIdx + val * h / ((i : ℚ) + 1)) 0
    (List.range k).reverse.foldl (fun (val : ℚ) (i : Nat) => val * h / ((i : ℚ) + 1)) val

/-- The member `integral(a, b)`.  The two indices are `ptrdiff_t` values; from the first
`if` on, `idxBkpt0` is not negative and is carried as a natural number together with
`val`. -/
def integral (p : PiecewisePolynomial) (a b : ℚ) : ℚ :=
  if a = b then 0
  else
    let isign : ℚ := if a > b then -1 else 1
    let a1 := if a > b then b else a
    let b1 := if a > b then a else b
    let idxBkpt0 := p.index a1
    let idxBkpt1 := p.index b1
    if idxBkpt0 = idxBkpt1 then
      let i := if idxBkpt0 < 0 then 0 else idxBkpt0.toNat
      isign * p.c_.at 0 i * (b1 - a1)
    else
      let st0 : Nat × ℚ :=
        if idxBkpt0 = -1 then
          ((idxBkpt0 + 1).toNat,
            0 + p.c_.at 0 (idxBkpt0 + 1).toNat * (rd p.x_ (idxBkpt0 + 1).toNat - a1))
        else (idxBkpt0.toNat, 0)
      let st1 : Nat × ℚ :=
        if a1 > rd p.x_ st0.1 then
          (st0.1 + 1, p.primitive st0.1 (rd p.x_ (st0.1 + 1) - rd p.x_ st0.1) 1
            - p.primitive st0.1 (a1 - rd p.x_ st0.1) 1)
        else st0
      let val := (List.range' st1.1 (idxBkpt1.toNat - st1.1)).foldl
        (fun (val : ℚ) (idx : Nat) =>
          let xlo := rd p.x_ idx
          let xhi := rd p.x_ (idx + 1)
          val + p.primitive idx (xhi - xlo) 1)
        st1.2
      let val := val + p.primitive idxBkpt1.toNat (b1 - rd p.x_ idxBkpt1.toNat) 1
      isign * val

end PiecewisePolynomial

namespace market

/-- The member `YieldCurve::discount(tMat)`. -/
noncomputable def YieldCurve.discount (y : YieldCurve) (tMat : ℚ) : Except String ℝ :=
  if ¬ (tMat ≥ 0) then .error "YieldCurve: negative times not allowed"
  else
    let ldf := -y.fwdrates_.integral 0 tMat
    .ok (Real.exp (ldf : ℚ))

/-- The member `YieldCurve::fwdDiscount(tMat1, tMat2)`. -/
noncomputable def YieldCurve.fwdDiscount (y : YieldCurve) (tMat1 tMat2 : ℚ) :
    Except String ℝ :=
  if ¬ (tMat1 ≥ 0) then
    .error "YieldCurve: discount factors for negative times not allowed"
  else if ¬ (tMat1 ≤ tMat2) then .error "YieldCurve: maturities are out of order"
  else
    let ldf := -y.fwdrates_.integral tMat1 tMat2
    .ok (Real.exp (ldf : ℚ))

/-- The member `YieldCurve::spotRate(tMat)`. -/
def YieldCurve.spotRate (y : YieldCurve) (tMat : ℚ) : Except String ℚ :=
  if ¬ (tMat ≥ 0) then .error "YieldCurve: spot rates for negative times not allowed"
  else
    let srate := y.fwdrates_.integral 0 tMat
    .ok (srate / tMat)

/-- The member `YieldCurve::fwdRate(tMat1, tMat2)`. -/
def YieldCurve.fwdRate (y : YieldCurve) (tMat1 tMat2 : ℚ) : Except String ℚ :=
  if ¬ (tMat1 ≥ 0) then
    .error "YieldCurve: discount factors for negative times not allowed"
  else if ¬ (tMat1 ≤ tMat2) then .error "YieldCurve: maturities are out of order"
  else
    let frate := y.fwdrates_.integral tMat1 tMat2
    .ok (frate / (tMat2 - tMat1))

end market

namespace PiecewisePolynomial

/-- The integral from `x_[0]` to `t ≥ x_[0]` of the step function with the value `c_(0, i)`
from `x_[i]` on: the full pieces below the breakpoint `index(t)` and the stub above it.
The lemmas compare `integral` with differences of this sum. -/
def cumulative (p : PiecewisePolynomial) (t : ℚ) : ℚ :=
  (Finset.range (p.index t).toNat).sum (fun i => p.c_.at 0 i * (rd p.x_ (i + 1) - rd p.x_ i))
    + p.c_.at 0 (p.index t).toNat * (t - rd p.x_ (p.index t).toNat)

end PiecewisePolynomial

/-! ## Basic facts about reads, writes and loops -/

theorem rd_wr (v : Vector) (i j : Nat) (a : ℚ) :
    rd (wr v i a) j = if i = j ∧ i < v.length then a else rd v j := by
  unfold rd wr
  simp only [List.getD_eq_getElem?_getD, List.getElem?_set]
  by_cases h : i = j
  · subst h
    by_cases h2 : i < v.length
    · simp [h2]
    · simp [h2, List.getElem?_eq_none (Nat.le_of_not_lt h2)]
  · simp [h]

theorem length_wr (v : Vector) (i : Nat) (a : ℚ) : (wr v i a).length = v.length := by
  simp [wr]

theorem rd_wr_same (v : Vector) (i : Nat) (a : ℚ) (h : i < v.length) : rd (wr v i a) i = a := by
  simp [rd_wr, h]

theorem rd_wr_ne (v : Vector) (i j : Nat) (a : ℚ) (h : i ≠ j) : rd (wr v i a) j = rd v j := by
  simp [rd_wr, h]

theorem mem_forUp (lo hi i : Nat) : i ∈ forUp lo hi ↔ lo ≤ i ∧ i ≤ hi := by
  unfold forUp
  rw [List.mem_range']
  constructor
  · rintro ⟨k, hk, rfl⟩
    omega
  · rintro ⟨h1, h2⟩
    exact ⟨i - lo, by omega, by omega⟩

/-- A loop that writes `f i` at every index of `l`, with `f` not reading the target. -/
theorem length_foldl_wr (f : Nat → ℚ) (l : List Nat) (r : Vector) :
    (l.foldl (fun r i => wr r i (f i)) r).length = r.length := by
  induction l generalizing r with
  | nil => rfl
  | cons a t ih => simp [List.foldl_cons, ih, length_wr]

theorem rd_foldl_wr (f : Nat → ℚ) (l : List Nat) (r : Vector) (j : Nat) :
    rd (l.foldl (fun r i => wr r i (f i)) r) j
      = if j ∈ l ∧ j < r.length then f j else rd r j := by
  induction l generalizing r with
  | nil => simp
  | cons a t ih =>
    rw [List.foldl_cons, ih, length_wr, rd_wr]
    by_cases hjt : j ∈ t
    · by_cases hlen : j < r.length
      · simp [hjt, hlen]
      · have : ¬ (a = j ∧ a < r.length) := by
          rintro ⟨rfl, h⟩
          exact hlen h
        simp [hjt, hlen, this]
    · by_cases haj : a = j
      · subst haj
        by_cases hlen : a < r.length
        · simp [hjt, hlen]
        · simp [hjt, hlen]
      · have : ¬ (j = a) := fun h => haj h.symm
        simp [hjt, haj, this]

/-! ## `apply` -/

theorem length_apply (op : TridiagonalOp1D) (x y : Vector) :
    (op.apply x y).length = y.length := by
  simp [TridiagonalOp1D.apply, length_wr, length_foldl_wr]

/-- All reads of the result of `apply`, for an operator with at least two interior nodes. -/
theorem rd_apply (op : TridiagonalOp1D) (x y : Vector) (hN : 2 ≤ op.N_)
    (hy : y.length = op.N_ + 2) (j : Nat) :
    rd (op.apply x y) j =
      if j = op.N_ then
        rd op.lower_ op.N_ * rd x (op.N_ - 1) + rd op.diag_ op.N_ * rd x op.N_ + op.UpperVal_
      else if 2 ≤ j ∧ j ≤ op.N_ - 1 then op.row x j
      else if j = 1 then op.LowerVal_ + rd op.diag_ 1 * rd x 1 + rd op.upper_ 1 * rd x 2
      else rd y j := by
  unfold TridiagonalOp1D.apply
  simp only [rd_wr, length_foldl_wr, length_wr, rd_foldl_wr, mem_forUp]
  by_cases h1 : j = op.N_
  · subst h1
    simp [hy]
  · have hne : ¬ (op.N_ = j) := fun h => h1 h.symm
    simp only [hne, h1, false_and, if_false]
    by_cases h2 : 2 ≤ j ∧ j ≤ op.N_ - 1
    · have hlt : j < y.length := by omega
      simp [h2, hlt]
    · have h2' : ¬ ((2 ≤ j ∧ j ≤ op.N_ - 1) ∧ j < y.length) := fun h => h2 h.1
      simp only [h2, h2', if_false]
      by_cases h3 : j = 1
      · subst h3
        have : 1 < y.length := by omega
        simp [this]
      · have : ¬ (1 = j) := fun h => h3 h.symm
        simp [this, h3]

/-! ## The banded solve -/

/-- The first loop of `solveTridiagonal`, run over the rows `n - 1, ..., s`. -/
theorem eliminate_loop (l d u y : Vector) (n : Nat) (D1 Y1 : Vector)
    (hD : D1.length = n + 1) (hY : Y1.length = n + 1) :
    ∀ (k s : Nat), s + k = n → 1 ≤ s → ∀ r : Scratch,
      r = ((List.range' s k).reverse).foldl (eliminateAt l d u y) ⟨D1, Y1⟩ →
      r.D.length = n + 1 ∧ r.Y.length = n + 1 ∧ rd r.D n = rd D1 n ∧ rd r.Y n = rd Y1 n ∧
      ∀ i, s ≤ i → i < n →
        rd r.D i = rd d i - rd u i * rd l (i + 1) / rd r.D (i + 1) ∧
        rd r.Y i = rd y i - rd u i * rd r.Y (i + 1) / rd r.D (i + 1) := by
  intro k
  induction k with
  | zero =>
    intro s hs _ r hr
    subst hr
    refine ⟨hD, hY, rfl, rfl, ?_⟩
    intro i h1 h2
    omega
  | succ k ih =>
    intro s hs h1 r hr
    rw [List.range'_succ, List.reverse_cons, List.foldl_append] at hr
    obtain ⟨hDl, hYl, hDn, hYn, hrel⟩ := ih (s + 1) (by omega) (by omega) _ rfl
    generalize ((List.range' (s + 1) k).reverse).foldl (eliminateAt l d u y) ⟨D1, Y1⟩ = r0
      at hr hDl hYl hDn hYn hrel
    subst hr
    have hsn : s ≠ n := by omega
    simp only [List.foldl_cons, List.foldl_nil, eliminateAt]
    refine ⟨by simp [length_wr, hDl], by simp [length_wr, hYl], ?_, ?_, ?_⟩
    · rw [rd_wr_ne _ _ _ _ hsn, hDn]
    · rw [rd_wr_ne _ _ _ _ hsn, hYn]
    · intro i hi1 hi2
      have hne1 : s ≠ i + 1 := by omega
      by_cases hi : i = s
      · subst hi
        rw [rd_wr_same _ _ _ (by omega), rd_wr_same _ _ _ (by omega), rd_wr_ne _ _ _ _ hne1,
          rd_wr_ne _ _ _ _ hne1]
        exact ⟨rfl, rfl⟩
      · have hne : s ≠ i := fun h => hi h.symm
        rw [rd_wr_ne _ _ _ _ hne, rd_wr_ne _ _ _ _ hne, rd_wr_ne _ _ _ _ hne1,
          rd_wr_ne _ _ _ _ hne1]
        exact hrel i (by omega) hi2

/-- The second loop of `solveTridiagonal`, run over the rows `2, ..., k + 1`. -/
theorem substitute_loop (l : Vector) (sc : Scratch) (x1 : Vector) :
    ∀ (k : Nat), k + 1 < x1.length → ∀ r : Vector,
      r = (List.range' 2 k).foldl (substituteAt l sc) x1 →
      r.length = x1.length ∧ (∀ j, j < 2 ∨ 2 + k ≤ j → rd r j = rd x1 j) ∧
      ∀ i, 2 ≤ i → i < 2 + k → rd r i = (rd sc.Y i - rd l i * rd r (i - 1)) / rd sc.D i := by
  intro k
  induction k with
  | zero =>
    intro _ r hr
    subst hr
    refine ⟨rfl, fun _ _ => rfl, ?_⟩
    intro i h1 h2
    omega
  | succ k ih =>
    intro hk r hr
    rw [List.range'_concat, List.foldl_append] at hr
    obtain ⟨hlen, hout, hrel⟩ := ih (by omega) _ rfl
    generalize (List.range' 2 k).foldl (substituteAt l sc) x1 = r0 at hr hlen hout hrel
    subst hr
    simp only [List.foldl_cons, List.foldl_nil, substituteAt, Nat.one_mul]
    refine ⟨by simp [length_wr, hlen], ?_, ?_⟩
    · intro j hj
      rw [rd_wr_ne _ _ _ _ (by omega)]
      exact hout j (by omega)
    · intro i hi1 hi2
      by_cases hi : i = 2 + k
      · subst hi
        rw [rd_wr_same _ _ _ (by omega), rd_wr_ne _ _ _ _ (by omega)]
      · rw [rd_wr_ne _ _ _ _ (fun h => hi h.symm), rd_wr_ne _ _ _ _ (by omega)]
        exact hrel i hi1 (by omega)

/-- The relations that characterise the scratch arrays and the solution returned by
`solveTridiagonal` for bands of `n + 2` entries, `n ≥ 1`. -/
theorem solveTridiagonal_spec (st : Scratch) (x l d u y : Vector) (n : Nat) (hn : 1 ≤ n)
    (hd : d.length = n + 2) (hx : x.length = n + 2) :
    ∀ r, r = solveTridiagonal st x l d u y →
      rd r.1.D n = rd d n ∧ rd r.1.Y n = rd y n ∧
      (∀ i, 1 ≤ i → i < n →
        rd r.1.D i = rd d i - rd u i * rd l (i + 1) / rd r.1.D (i + 1) ∧
        rd r.1.Y i = rd y i - rd u i * rd r.1.Y (i + 1) / rd r.1.D (i + 1)) ∧
      r.2.length = x.length ∧
      rd r.2 0 = rd x 0 ∧ rd r.2 (n + 1) = rd x (n + 1) ∧
      rd r.2 1 = rd r.1.Y 1 / rd r.1.D 1 ∧
      (∀ i, 2 ≤ i → i ≤ n → rd r.2 i = (rd r.1.Y i - rd l i * rd r.2 (i - 1)) / rd r.1.D i) := by
  intro r hr
  have hn2 : d.length - 2 = n := by omega
  unfold solveTridiagonal at hr
  simp only [hn2, forDown, forUp] at hr
  have e1 : n - 1 + 1 - 1 = n - 1 := by omega
  have e2 : n + 1 - 2 = n - 1 := by omega
  rw [e1, e2] at hr
  have hD0 : (if st.D.length ≠ n + 1 then List.replicate (n + 1) (0 : ℚ) else st.D).length
      = n + 1 := by
    split_ifs with h
    · simp
    · exact not_not.mp h
  have hY0 : (if st.Y.length ≠ n + 1 then List.replicate (n + 1) (0 : ℚ) else st.Y).length
      = n + 1 := by
    split_ifs with h
    · simp
    · exact not_not.mp h
  generalize (if st.D.length ≠ n + 1 then List.replicate (n + 1) (0 : ℚ) else st.D) = D0
    at hr hD0
  generalize (if st.Y.length ≠ n + 1 then List.replicate (n + 1) (0 : ℚ) else st.Y) = Y0
    at hr hY0
  obtain ⟨_, _, hDn, hYn, hrel⟩ := eliminate_loop l d u y n (wr D0 n (rd d n)) (wr Y0 n (rd y n))
    (by simp [length_wr, hD0]) (by simp [length_wr, hY0]) (n - 1) 1 (by omega) le_rfl _ rfl
  generalize ((List.range' 1 (n - 1)).reverse).foldl (eliminateAt l d u y)
    ⟨wr D0 n (rd d n), wr Y0 n (rd y n)⟩ = sc at hr hDn hYn hrel
  obtain ⟨hlen, hout, hsub⟩ := substitute_loop l sc (wr x 1 (rd sc.Y 1 / rd sc.D 1)) (n - 1)
    (by rw [length_wr]; omega) _ rfl
  generalize (List.range' 2 (n - 1)).foldl (substituteAt l sc) (wr x 1 (rd sc.Y 1 / rd sc.D 1))
    = x2 at hr hlen hout hsub
  subst hr
  refine ⟨?_, ?_, hrel, ?_, ?_, ?_, ?_, ?_⟩
  · rw [hDn, rd_wr_same _ _ _ (by omega)]
  · rw [hYn, rd_wr_same _ _ _ (by omega)]
  · rw [hlen, length_wr]
  · rw [hout 0 (by omega), rd_wr_ne _ _ _ _ (by omega)]
  · rw [hout (n + 1) (by omega), rd_wr_ne _ _ _ _ (by omega)]
  · rw [hout 1 (by omega), rd_wr_same _ _ _ (by omega)]
  · intro i h1 h2
    exact hsub i h1 (by omega)

/-- With non-zero pivots, the vector returned by `solveTridiagonal` solves `T*x = y`. -/
theorem solveTridiagonal_solves (st : Scratch) (x l d u y : Vector) (n : Nat) (hn : 1 ≤ n)
    (hd : d.length = n + 2) (hx : x.length = n + 2)
    (hpiv : ∀ i, 1 ≤ i → i ≤ n → rd (solveTridiagonal st x l d u y).1.D i ≠ 0) :
    ∀ i, 1 ≤ i → i ≤ n →
      tridiagRow l d u (solveTridiagonal st x l d u y).2 n i = rd y i := by
  obtain ⟨hDn, hYn, hrel, _, _, _, hX1, hXi⟩ :=
    solveTridiagonal_spec st x l d u y n hn hd hx _ rfl
  generalize solveTridiagonal st x l d u y = r at hpiv hDn hYn hrel hX1 hXi
  have key : ∀ i, 1 ≤ i → i ≤ n →
      (if i = 1 then 0 else rd l i * rd r.2 (i - 1)) + rd r.1.D i * rd r.2 i = rd r.1.Y i := by
    intro i h1 h2
    have hp := hpiv i h1 h2
    by_cases hi : i = 1
    · subst hi
      rw [hX1]
      simp only [if_true]
      field_simp
    · rw [hXi i (by omega) h2]
      simp only [hi, if_false]
      field_simp
  intro i h1 h2
  unfold tridiagRow
  by_cases hi : i = n
  · subst hi
    have := key i h1 le_rfl
    rw [hDn] at this
    simp only [if_true]
    rw [add_zero, this, hYn]
  · have hlt : i < n := by omega
    obtain ⟨hD, hY⟩ := hrel i h1 hlt
    have hp := hpiv (i + 1) (by omega) (by omega)
    have k1 := key i h1 h2
    have k2 := key (i + 1) (by omega) (by omega)
    have hne : ¬ (i + 1 = 1) := by omega
    simp only [hne, if_false, Nat.add_sub_cancel] at k2
    simp only [hi, if_false]
    have hd' : rd d i = rd r.1.D i + rd u i * rd l (i + 1) / rd r.1.D (i + 1) := by
      rw [hD]; ring
    have hy' : rd y i = rd r.1.Y i + rd u i * rd r.1.Y (i + 1) / rd r.1.D (i + 1) := by
      rw [hY]; ring
    generalize (if i = 1 then (0 : ℚ) else rd l i * rd r.2 (i - 1)) = c at k1 ⊢
    rw [hd', hy', ← k1, ← k2]
    field_simp
    ring

/-- With non-zero pivots, every solution `z` of `T*z = y` is the vector returned by
`solveTridiagonal`. -/
theorem solveTridiagonal_unique (st : Scratch) (x l d u y z : Vector) (n : Nat) (hn : 1 ≤ n)
    (hd : d.length = n + 2) (hx : x.length = n + 2)
    (hpiv : ∀ i, 1 ≤ i → i ≤ n → rd (solveTridiagonal st x l d u y).1.D i ≠ 0)
    (hz : ∀ i, 1 ≤ i → i ≤ n → tridiagRow l d u z n i = rd y i) :
    ∀ i, 1 ≤ i → i ≤ n → rd (solveTridiagonal st x l d u y).2 i = rd z i := by
  obtain ⟨hDn, hYn, hrel, _, _, _, hX1, hXi⟩ :=
    solveTridiagonal_spec st x l d u y n hn hd hx _ rfl
  generalize solveTridiagonal st x l d u y = r at hpiv hDn hYn hrel hX1 hXi
  have hYz : ∀ k i, i + k = n → 1 ≤ i →
      rd r.1.Y i = rd r.1.D i * rd z i + (if i = 1 then 0 else rd l i * rd z (i - 1)) := by
    intro k
    induction k with
    | zero =>
      intro i hi h1
      have hin : i = n := by omega
      subst hin
      have := hz i h1 le_rfl
      unfold tridiagRow at this
      simp only [if_true, add_zero] at this
      rw [hYn, hDn, ← this]
      ring
    | succ k ih =>
      intro i hi h1
      have hlt : i < n := by omega
      obtain ⟨hD, hY⟩ := hrel i h1 hlt
      have hp := hpiv (i + 1) (by omega) (by omega)
      have hnext := ih (i + 1) (by omega) (by omega)
      have hne : ¬ (i + 1 = 1) := by omega
      simp only [hne, if_false, Nat.add_sub_cancel] at hnext
      have hzi := hz i h1 (by omega)
      unfold tridiagRow at hzi
      have hin : ¬ (i = n) := by omega
      simp only [hin, if_false] at hzi
      generalize (if i = 1 then (0 : ℚ) else rd l i * rd z (i - 1)) = c at hzi ⊢
      rw [hY, hD, hnext, ← hzi]
      field_simp
      ring
  have hX : ∀ k i, i = k + 1 → i ≤ n → rd r.2 i = rd z i := by
    intro k
    induction k with
    | zero =>
      intro i hi h2
      subst hi
      have hp := hpiv 1 le_rfl hn
      have := hYz (n - 1) 1 (by omega) le_rfl
      simp only [if_true, add_zero] at this
      rw [hX1, this]
      field_simp
    | succ k ih =>
      intro i hi h2
      subst hi
      have hp := hpiv (k + 1 + 1) (by omega) h2
      have hprev := ih (k + 1) rfl (by omega)
      have := hYz (n - (k + 1 + 1)) (k + 1 + 1) (by omega) (by omega)
      have hne : ¬ (k + 1 + 1 = 1) := by omega
      simp only [hne, if_false, Nat.add_sub_cancel] at this
      rw [hXi (k + 1 + 1) (by omega) h2, this]
      simp only [Nat.add_sub_cancel]
      rw [hprev]
      field_simp
  intro i h1 h2
  exact hX (i - 1) i (by omega) h2

/-- Under strict diagonal dominance of the rows of `T`, every pivot `D[1..n]` computed by
`solveTridiagonal` is non-zero. -/
theorem pivots_ne_zero_of_dominant (st : Scratch) (x l d u y : Vector) (n : Nat) (hn : 1 ≤ n)
    (hd : d.length = n + 2) (hx : x.length = n + 2)
    (hdom : ∀ i, 1 ≤ i → i ≤ n →
      (if i = 1 then 0 else |rd l i|) + (if i = n then 0 else |rd u i|) < |rd d i|) :
    ∀ i, 1 ≤ i → i ≤ n → rd (solveTridiagonal st x l d u y).1.D i ≠ 0 := by
  obtain ⟨hDn, _, hrel, _⟩ := solveTridiagonal_spec st x l d u y n hn hd hx _ rfl
  generalize solveTridiagonal st x l d u y = r at hDn hrel
  have key : ∀ k i, i + k = n → 1 ≤ i → (if i = 1 then 0 else |rd l i|) < |rd r.1.D i| := by
    intro k
    induction k with
    | zero =>
      intro i hi h1
      have hin : i = n := by omega
      subst hin
      have := hdom i h1 le_rfl
      simp only [if_true, add_zero] at this
      rw [hDn]
      exact this
    | succ k ih =>
      intro i hi h1
      have hlt : i < n := by omega
      have hin : ¬ (i = n) := by omega
      have hnext := ih (i + 1) (by omega) (by omega)
      have hne : ¬ (i + 1 = 1) := by omega
      simp only [hne, if_false] at hnext
      have hdi := hdom i h1 (by omega)
      simp only [hin, if_false] at hdi
      have hDpos : 0 < |rd r.1.D (i + 1)| := lt_of_le_of_lt (abs_nonneg _) hnext
      have hq : |rd l (i + 1)| / |rd r.1.D (i + 1)| ≤ 1 := by
        rw [div_le_one hDpos]
        exact le_of_lt hnext
      have hb : |rd u i * rd l (i + 1) / rd r.1.D (i + 1)| ≤ |rd u i| := by
        rw [abs_div, abs_mul, mul_div_assoc]
        calc |rd u i| * (|rd l (i + 1)| / |rd r.1.D (i + 1)|)
            ≤ |rd u i| * 1 := mul_le_mul_of_nonneg_left hq (abs_nonneg _)
          _ = |rd u i| := mul_one _
      rw [(hrel i h1 hlt).1]
      have htri := abs_sub_abs_le_abs_sub (rd d i) (rd u i * rd l (i + 1) / rd r.1.D (i + 1))
      generalize (if i = 1 then (0 : ℚ) else |rd l i|) = c at hdi ⊢
      linarith
  intro i h1 h2
  have h := key (n - i) i (by omega) h1
  have h0 : (0 : ℚ) ≤ (if i = 1 then 0 else |rd l i|) := by
    split_ifs
    · exact le_rfl
    · exact abs_nonneg _
  intro hz
  rw [hz, abs_zero] at h
  linarith

/-! ## Boundary adjustments -/

/-- The two entries rewritten by the degree-3 low-side adjustment. -/
theorem degree3_lower_entries (op : TridiagonalOp1D) (DX a b : ℚ) (hwf : op.WF)
    (h4 : 4 ≤ op.diag_.length) :
    rd (op.adjustForLowerBoundaryCondition 3 0 DX a b).2.diag_ 1
      = rd op.diag_ 1 + 2 / (1 + DX / 2) * rd op.lower_ 1 ∧
    rd (op.adjustForLowerBoundaryCondition 3 0 DX a b).2.upper_ 1
      = rd op.upper_ 1 - (1 - DX / 2) / (1 + DX / 2) * rd op.lower_ 1 := by
  obtain ⟨hl, hd, hu⟩ := hwf
  have hge : op.diag_.length ≥ 4 := h4
  simp only [TridiagonalOp1D.adjustForLowerBoundaryCondition, hge, not_true_eq_false,
    if_false, if_true]
  norm_num
  exact ⟨rd_wr_same _ _ _ (by omega), rd_wr_same _ _ _ (by omega)⟩

/-- The two entries rewritten by the degree-3 high-side adjustment. -/
theorem degree3_higher_entries (op : TridiagonalOp1D) (DX a b : ℚ) (hwf : op.WF)
    (h4 : 4 ≤ op.diag_.length) :
    rd (op.adjustForHigherBoundaryCondition 3 0 DX a b).2.diag_ op.N_
      = rd op.diag_ op.N_ + 2 / (1 - DX / 2) * rd op.upper_ op.N_ ∧
    rd (op.adjustForHigherBoundaryCondition 3 0 DX a b).2.lower_ op.N_
      = rd op.lower_ op.N_ - (1 + DX / 2) / (1 - DX / 2) * rd op.upper_ op.N_ := by
  obtain ⟨hl, hd, hu⟩ := hwf
  have hge : op.diag_.length ≥ 4 := h4
  simp only [TridiagonalOp1D.adjustForHigherBoundaryCondition, hge, not_true_eq_false,
    if_false, if_true]
  norm_num
  exact ⟨rd_wr_same _ _ _ (by omega), rd_wr_same _ _ _ (by omega)⟩

/-! ## Construction of the operators -/

theorem length_resize (v : Vector) (n : Nat) : (resize v n).length = n := by
  unfold resize
  rw [List.length_append, List.length_take, List.length_replicate]
  omega

/-- A loop that updates `r[i]` from its own previous value, over distinct indices. -/
theorem length_foldl_upd (g : Nat → ℚ → ℚ) (l : List Nat) (r : Vector) :
    (l.foldl (fun r i => wr r i (g i (rd r i))) r).length = r.length := by
  induction l generalizing r with
  | nil => rfl
  | cons a t ih => simp [List.foldl_cons, ih, length_wr]

theorem rd_foldl_upd (g : Nat → ℚ → ℚ) (l : List Nat) (hl : l.Nodup) (r : Vector) (j : Nat) :
    rd (l.foldl (fun r i => wr r i (g i (rd r i))) r) j
      = if j ∈ l ∧ j < r.length then g j (rd r j) else rd r j := by
  induction l generalizing r with
  | nil => simp
  | cons a t ih =>
    obtain ⟨hat, ht⟩ := List.nodup_cons.mp hl
    rw [List.foldl_cons, ih ht, length_wr]
    by_cases hjt : j ∈ t
    · have hne : a ≠ j := fun h => hat (h ▸ hjt)
      simp [hjt, rd_wr_ne _ _ _ _ hne]
    · by_cases haj : a = j
      · subst haj
        by_cases hlen : a < r.length
        · simp [hjt, hlen, rd_wr_same]
        · simp [hjt, hlen, rd_wr]
      · have : ¬ (j = a) := fun h => haj h.symm
        simp [hjt, this, rd_wr_ne _ _ _ _ haj]

theorem foldl_delta_fillAt (drifts : Vector) (f1 : ℚ) (l : List Nat) (op : TridiagonalOp1D) :
    l.foldl (DeltaOp1D.fillAt drifts f1) op =
      { op with
        lower_ := l.foldl (fun r i => wr r i (-(rd drifts (i - 1) * f1))) op.lower_
        diag_ := l.foldl (fun r i => wr r i ((fun _ => (0 : ℚ)) i)) op.diag_
        upper_ := l.foldl (fun r i => wr r i (rd drifts (i - 1) * f1)) op.upper_ } := by
  induction l generalizing op with
  | nil => rfl
  | cons a t ih => rw [List.foldl_cons, ih]; rfl

theorem foldl_gamma_fillAt (variances : Vector) (f1 : ℚ) (l : List Nat) (op : TridiagonalOp1D) :
    l.foldl (GammaOp1D.fillAt variances f1) op =
      { op with
        lower_ := l.foldl (fun r i => wr r i (f1 * rd variances (i - 1))) op.lower_
        diag_ := l.foldl (fun r i => wr r i (-2 * (f1 * rd variances (i - 1)))) op.diag_
        upper_ := l.foldl (fun r i => wr r i (f1 * rd variances (i - 1))) op.upper_ } := by
  induction l generalizing op with
  | nil => rfl
  | cons a t ih => rw [List.foldl_cons, ih]; rfl

theorem foldl_addAt (rhs : TridiagonalOp1D) (l : List Nat) (op : TridiagonalOp1D) :
    l.foldl (TridiagonalOp1D.addAt rhs) op =
      { op with
        lower_ := l.foldl (fun r i => wr r i ((fun i a => a + rd rhs.lower_ i) i (rd r i)))
          op.lower_
        diag_ := l.foldl (fun r i => wr r i ((fun i a => a + rd rhs.diag_ i) i (rd r i)))
          op.diag_
        upper_ := l.foldl (fun r i => wr r i ((fun i a => a + rd rhs.upper_ i) i (rd r i)))
          op.upper_ } := by
  induction l generalizing op with
  | nil => rfl
  | cons a t ih => rw [List.foldl_cons, ih]; rfl

theorem foldl_subAt (rhs : TridiagonalOp1D) (l : List Nat) (op : TridiagonalOp1D) :
    l.foldl (TridiagonalOp1D.subAt rhs) op =
      { op with
        lower_ := l.foldl (fun r i => wr r i ((fun i a => a - rd rhs.lower_ i) i (rd r i)))
          op.lower_
        diag_ := l.foldl (fun r i => wr r i ((fun i a => a - rd rhs.diag_ i) i (rd r i)))
          op.diag_
        upper_ := l.foldl (fun r i => wr r i ((fun i a => a - rd rhs.upper_ i) i (rd r i)))
          op.upper_ } := by
  induction l generalizing op with
  | nil => rfl
  | cons a t ih => rw [List.foldl_cons, ih]; rfl

/-- What `DeltaOp1D::init` leaves in the operator. -/
theorem deltaInit_spec (op : TridiagonalOp1D) (drifts : Vector) (DT DX theta : ℚ) :
    (DeltaOp1D.init op drifts DT DX theta).N_ = drifts.length ∧
    (DeltaOp1D.init op drifts DT DX theta).WF ∧
    ∀ i, 1 ≤ i → i ≤ drifts.length →
      rd (DeltaOp1D.init op drifts DT DX theta).lower_ i
        = -(rd drifts (i - 1) * (DT * theta / (2 * DX))) ∧
      rd (DeltaOp1D.init op drifts DT DX theta).diag_ i = 0 ∧
      rd (DeltaOp1D.init op drifts DT DX theta).upper_ i
        = rd drifts (i - 1) * (DT * theta / (2 * DX)) := by
  unfold DeltaOp1D.init
  simp only [foldl_delta_fillAt, TridiagonalOp1D.init0, TridiagonalOp1D.WF, length_foldl_wr,
    length_resize, Nat.add_sub_cancel, rd_foldl_wr, mem_forUp, true_and]
  intro i h1 h2
  have h3 : i < drifts.length + 2 := by omega
  simp [h1, h2, h3]

/-- What `GammaOp1D::init` leaves in the operator. -/
theorem gammaInit_spec (op : TridiagonalOp1D) (variances : Vector) (DT DX theta : ℚ) :
    (GammaOp1D.init op variances DT DX theta).N_ = variances.length ∧
    (GammaOp1D.init op variances DT DX theta).WF ∧
    ∀ i, 1 ≤ i → i ≤ variances.length →
      rd (GammaOp1D.init op variances DT DX theta).lower_ i
        = (1 / 2) * DT * theta / DX / DX * rd variances (i - 1) ∧
      rd (GammaOp1D.init op variances DT DX theta).diag_ i
        = -2 * ((1 / 2) * DT * theta / DX / DX * rd variances (i - 1)) ∧
      rd (GammaOp1D.init op variances DT DX theta).upper_ i
        = (1 / 2) * DT * theta / DX / DX * rd variances (i - 1) := by
  unfold GammaOp1D.init
  simp only [foldl_gamma_fillAt, TridiagonalOp1D.init0, TridiagonalOp1D.WF, length_foldl_wr,
    length_resize, Nat.add_sub_cancel, rd_foldl_wr, mem_forUp, true_and]
  intro i h1 h2
  have h3 : i < variances.length + 2 := by omega
  simp [h1, h2, h3]

/-- What `operator+=` does on two well-formed operators of the same size. -/
theorem addAssign_spec (op rhs : TridiagonalOp1D) (hN : op.N_ = rhs.N_) (hwf : op.WF) :
    (op.addAssign rhs).1 = .ok () ∧
    (op.addAssign rhs).2.N_ = op.N_ ∧ (op.addAssign rhs).2.WF ∧
    (op.addAssign rhs).2.LowerVal_ = op.LowerVal_ ∧
    (op.addAssign rhs).2.UpperVal_ = op.UpperVal_ ∧
    ∀ i, i < op.N_ + 2 →
      rd (op.addAssign rhs).2.lower_ i = rd op.lower_ i + rd rhs.lower_ i ∧
      rd (op.addAssign rhs).2.diag_ i = rd op.diag_ i + rd rhs.diag_ i ∧
      rd (op.addAssign rhs).2.upper_ i = rd op.upper_ i + rd rhs.upper_ i := by
  obtain ⟨hl, hd, hu⟩ := hwf
  have hL := length_foldl_upd (fun i a => a + rd rhs.lower_ i) (List.range op.lower_.length)
    op.lower_
  have hD := length_foldl_upd (fun i a => a + rd rhs.diag_ i) (List.range op.lower_.length)
    op.diag_
  have hU := length_foldl_upd (fun i a => a + rd rhs.upper_ i) (List.range op.lower_.length)
    op.upper_
  have hrL := rd_foldl_upd (fun i a => a + rd rhs.lower_ i) (List.range op.lower_.length)
    (List.nodup_range _) op.lower_
  have hrD := rd_foldl_upd (fun i a => a + rd rhs.diag_ i) (List.range op.lower_.length)
    (List.nodup_range _) op.diag_
  have hrU := rd_foldl_upd (fun i a => a + rd rhs.upper_ i) (List.range op.lower_.length)
    (List.nodup_range _) op.upper_
  unfold TridiagonalOp1D.addAssign
  rw [if_neg (not_not.mpr hN), foldl_addAt]
  refine ⟨rfl, rfl, ⟨hL.trans hl, hD.trans hd, hU.trans hu⟩, rfl, rfl, ?_⟩
  intro i hi
  have h1 : i ∈ List.range op.lower_.length := List.mem_range.mpr (by omega)
  have h2 : i < op.lower_.length := by omega
  have h3 : i < op.diag_.length := by omega
  have h4 : i < op.upper_.length := by omega
  refine ⟨(hrL i).trans ?_, (hrD i).trans ?_, (hrU i).trans ?_⟩
  · simp [h1, h2]
  · simp [h1, h3]
  · simp [h1, h4]

/-- What `operator-=` does on two well-formed operators of the same size. -/
theorem subAssign_spec (op rhs : TridiagonalOp1D) (hN : op.N_ = rhs.N_) (hwf : op.WF) :
    (op.subAssign rhs).1 = .ok () ∧
    (op.subAssign rhs).2.N_ = op.N_ ∧ (op.subAssign rhs).2.WF ∧
    (op.subAssign rhs).2.LowerVal_ = op.LowerVal_ ∧
    (op.subAssign rhs).2.UpperVal_ = op.UpperVal_ ∧
    ∀ i, i < op.N_ + 2 →
      rd (op.subAssign rhs).2.lower_ i = rd op.lower_ i - rd rhs.lower_ i ∧
      rd (op.subAssign rhs).2.diag_ i = rd op.diag_ i - rd rhs.diag_ i ∧
      rd (op.subAssign rhs).2.upper_ i = rd op.upper_ i - rd rhs.upper_ i := by
  obtain ⟨hl, hd, hu⟩ := hwf
  have hL := length_foldl_upd (fun i a => a - rd rhs.lower_ i) (List.range op.lower_.length)
    op.lower_
  have hD := length_foldl_upd (fun i a => a - rd rhs.diag_ i) (List.range op.lower_.length)
    op.diag_
  have hU := length_foldl_upd (fun i a => a - rd rhs.upper_ i) (List.range op.lower_.length)
    op.upper_
  have hrL := rd_foldl_upd (fun i a => a - rd rhs.lower_ i) (List.range op.lower_.length)
    (List.nodup_range _) op.lower_
  have hrD := rd_foldl_upd (fun i a => a - rd rhs.diag_ i) (List.range op.lower_.length)
    (List.nodup_range _) op.diag_
  have hrU := rd_foldl_upd (fun i a => a - rd rhs.upper_ i) (List.range op.lower_.length)
    (List.nodup_range _) op.upper_
  unfold TridiagonalOp1D.subAssign
  rw [if_neg (not_not.mpr hN), foldl_subAt]
  refine ⟨rfl, rfl, ⟨hL.trans hl, hD.trans hd, hU.trans hu⟩, rfl, rfl, ?_⟩
  intro i hi
  have h1 : i ∈ List.range op.lower_.length := List.mem_range.mpr (by omega)
  have h2 : i < op.lower_.length := by omega
  have h3 : i < op.diag_.length := by omega
  have h4 : i < op.upper_.length := by omega
  refine ⟨(hrL i).trans ?_, (hrD i).trans ?_, (hrU i).trans ?_⟩
  · simp [h1, h2]
  · simp [h1, h3]
  · simp [h1, h4]

theorem andThen_ok {σ : Type} (st : σ) (k : σ → Outcome Unit σ) :
    andThen (Except.ok (), st) k = k st := rfl

theorem initConst_WF (N : Nat) (a b c : ℚ) : (TridiagonalOp1D.initConst N a b c).WF := by
  simp [TridiagonalOp1D.initConst, TridiagonalOp1D.WF]

theorem rd_replicate (n : Nat) (c : ℚ) (i : Nat) (h : i < n) : rd (List.replicate n c) i = c := by
  unfold rd
  rw [List.getD_eq_getElem?_getD, List.getElem?_replicate]
  simp [h]

/-- Lines 27-41 of `solveFromStepToStep` complete when the coefficient buffers have `NX`
entries, and leave `E = Identity + (1-theta)(Delta+Gamma)` and
`M = Identity - theta(Delta+Gamma)` in the solver. -/
theorem buildOps_spec (s : Pde1DSolver) (DT : ℚ) (hdr : s.grax.drifts.length = s.grax.NX)
    (hvar : s.grax.variances.length = s.grax.NX) :
    ∃ s1, s.buildOps DT = (.ok (), s1) ∧
      s1.grax = s.grax ∧ s1.theta_ = s.theta_ ∧ s1.nLayers_ = s.nLayers_ ∧
      s1.prevValues = s.prevValues ∧ s1.currValues = s.currValues ∧ s1.scratch = s.scratch ∧
      s1.opExplicit_.N_ = s.grax.NX ∧ s1.opExplicit_.WF ∧
      s1.opExplicit_.LowerVal_ = 0 ∧ s1.opExplicit_.UpperVal_ = 0 ∧
      s1.opImplicit_.N_ = s.grax.NX ∧ s1.opImplicit_.WF ∧
      s1.opImplicit_.LowerVal_ = 0 ∧ s1.opImplicit_.UpperVal_ = 0 ∧
      ∀ i, 1 ≤ i → i ≤ s.grax.NX →
        rd s1.opExplicit_.lower_ i = (1 - s.theta_) * DT *
          (-(rd s.grax.drifts (i - 1)) / (2 * s.grax.DX)
            + rd s.grax.variances (i - 1) / (2 * s.grax.DX ^ 2)) ∧
        rd s1.opExplicit_.diag_ i
          = 1 - (1 - s.theta_) * DT * rd s.grax.variances (i - 1) / s.grax.DX ^ 2 ∧
        rd s1.opExplicit_.upper_ i = (1 - s.theta_) * DT *
          (rd s.grax.drifts (i - 1) / (2 * s.grax.DX)
            + rd s.grax.variances (i - 1) / (2 * s.grax.DX ^ 2)) ∧
        rd s1.opImplicit_.lower_ i = -s.theta_ * DT *
          (-(rd s.grax.drifts (i - 1)) / (2 * s.grax.DX)
            + rd s.grax.variances (i - 1) / (2 * s.grax.DX ^ 2)) ∧
        rd s1.opImplicit_.diag_ i
          = 1 + s.theta_ * DT * rd s.grax.variances (i - 1) / s.grax.DX ^ 2 ∧
        rd s1.opImplicit_.upper_ i = -s.theta_ * DT *
          (rd s.grax.drifts (i - 1) / (2 * s.grax.DX)
            + rd s.grax.variances (i - 1) / (2 * s.grax.DX ^ 2)) := by
  have hE0 := initConst_WF s.grax.NX 0 1 0
  obtain ⟨dN, dWF, dE⟩ :=
    deltaInit_spec s.deltaOpExplicit_ s.grax.drifts DT s.grax.DX (1 - s.theta_)
  obtain ⟨gN, gWF, gE⟩ :=
    gammaInit_spec s.gammaOpExplicit_ s.grax.variances DT s.grax.DX (1 - s.theta_)
  obtain ⟨dN', dWF', dE'⟩ := deltaInit_spec s.deltaOpImplicit_ s.grax.drifts DT s.grax.DX s.theta_
  obtain ⟨gN', gWF', gE'⟩ :=
    gammaInit_spec s.gammaOpImplicit_ s.grax.variances DT s.grax.DX s.theta_
  have A1 := addAssign_spec (TridiagonalOp1D.initConst s.grax.NX 0 1 0)
    (DeltaOp1D.init s.deltaOpExplicit_ s.grax.drifts DT s.grax.DX (1 - s.theta_))
    (by rw [dN, hdr]; rfl) hE0
  have A2 := addAssign_spec ((TridiagonalOp1D.initConst s.grax.NX 0 1 0).addAssign
    (DeltaOp1D.init s.deltaOpExplicit_ s.grax.drifts DT s.grax.DX (1 - s.theta_))).2
    (GammaOp1D.init s.gammaOpExplicit_ s.grax.variances DT s.grax.DX (1 - s.theta_))
    (by rw [A1.2.1, gN, hvar]; rfl) A1.2.2.1
  have B1 := subAssign_spec (TridiagonalOp1D.initConst s.grax.NX 0 1 0)
    (DeltaOp1D.init s.deltaOpImplicit_ s.grax.drifts DT s.grax.DX s.theta_)
    (by rw [dN', hdr]; rfl) hE0
  have B2 := subAssign_spec ((TridiagonalOp1D.initConst s.grax.NX 0 1 0).subAssign
    (DeltaOp1D.init s.deltaOpImplicit_ s.grax.drifts DT s.grax.DX s.theta_)).2
    (GammaOp1D.init s.gammaOpImplicit_ s.grax.variances DT s.grax.DX s.theta_)
    (by rw [B1.2.1, gN', hvar]; rfl) B1.2.2.1
  obtain ⟨a1ok, a1N, a1WF, a1L, a1U, a1rd⟩ := A1
  obtain ⟨a2ok, a2N, a2WF, a2L, a2U, a2rd⟩ := A2
  obtain ⟨b1ok, b1N, b1WF, b1L, b1U, b1rd⟩ := B1
  obtain ⟨b2ok, b2N, b2WF, b2L, b2U, b2rd⟩ := B2
  have hN0 : (TridiagonalOp1D.initConst s.grax.NX 0 1 0).N_ = s.grax.NX := rfl
  unfold Pde1DSolver.buildOps
  simp only [a1ok, a2ok, b1ok, b2ok, andThen_ok]
  refine ⟨_, rfl, rfl, rfl, rfl, rfl, rfl, rfl, ?_, a2WF, ?_, ?_, ?_, b2WF, ?_, ?_, ?_⟩
  · exact a2N.trans (a1N.trans hN0)
  · exact a2L.trans a1L
  · exact a2U.trans a1U
  · exact b2N.trans (b1N.trans hN0)
  · exact b2L.trans b1L
  · exact b2U.trans b1U
  · intro i h1 h2
    have hi : i < s.grax.NX + 2 := by omega
    obtain ⟨e1, e2, e3⟩ := a1rd i (by rw [hN0]; exact hi)
    obtain ⟨f1, f2, f3⟩ := a2rd i (by rw [a1N, hN0]; exact hi)
    obtain ⟨m1, m2, m3⟩ := b1rd i (by rw [hN0]; exact hi)
    obtain ⟨n1, n2, n3⟩ := b2rd i (by rw [b1N, hN0]; exact hi)
    obtain ⟨p1, p2, p3⟩ := dE i h1 (by omega)
    obtain ⟨q1, q2, q3⟩ := gE i h1 (by omega)
    obtain ⟨p1', p2', p3'⟩ := dE' i h1 (by omega)
    obtain ⟨q1', q2', q3'⟩ := gE' i h1 (by omega)
    have z1 : rd (TridiagonalOp1D.initConst s.grax.NX 0 1 0).lower_ i = 0 :=
      rd_replicate _ _ _ hi
    have z2 : rd (TridiagonalOp1D.initConst s.grax.NX 0 1 0).diag_ i = 1 :=
      rd_replicate _ _ _ hi
    have z3 : rd (TridiagonalOp1D.initConst s.grax.NX 0 1 0).upper_ i = 0 :=
      rd_replicate _ _ _ hi
    refine ⟨?_, ?_, ?_, ?_, ?_, ?_⟩
    · rw [f1, e1, z1, p1, q1]; ring
    · rw [f2, e2, z2, p2, q2]; ring
    · rw [f3, e3, z3, p3, q3]; ring
    · rw [n1, m1, z1, p1', q1']; ring
    · rw [n2, m2, z2, p2', q2']; ring
    · rw [n3, m3, z3, p3', q3']; ring

/-! ## The boundary adjustment of both operators -/

theorem adjustLower3_eq (op : TridiagonalOp1D) (DX a b : ℚ) (h4 : 4 ≤ op.diag_.length) :
    op.adjustForLowerBoundaryCondition 3 0 DX a b =
      (.ok 0, { op with
        diag_ := wr op.diag_ 1 (rd op.diag_ 1 + 2 / (1 + DX / 2) * rd op.lower_ 1)
        upper_ := wr op.upper_ 1
          (rd op.upper_ 1 - (1 - DX / 2) / (1 + DX / 2) * rd op.lower_ 1) }) := by
  have hge : op.diag_.length ≥ 4 := h4
  simp only [TridiagonalOp1D.adjustForLowerBoundaryCondition, hge, not_true_eq_false,
    if_false, if_true]
  norm_num

theorem adjustHigher3_eq (op : TridiagonalOp1D) (DX a b : ℚ) (h4 : 4 ≤ op.diag_.length) :
    op.adjustForHigherBoundaryCondition 3 0 DX a b =
      (.ok 0, { op with
        diag_ := wr op.diag_ op.N_
          (rd op.diag_ op.N_ + 2 / (1 - DX / 2) * rd op.upper_ op.N_)
        lower_ := wr op.lower_ op.N_
          (rd op.lower_ op.N_ - (1 + DX / 2) / (1 - DX / 2) * rd op.upper_ op.N_) }) := by
  have hge : op.diag_.length ≥ 4 := h4
  simp only [TridiagonalOp1D.adjustForHigherBoundaryCondition, hge, not_true_eq_false,
    if_false, if_true]
  norm_num

/-- Both degree-3 adjustments of one well-formed operator with `N_ ≥ 2` complete. -/
theorem adjust3_both (op : TridiagonalOp1D) (DX : ℚ) (hwf : op.WF) (hN : 2 ≤ op.N_) :
    ∃ op1 op2, op.adjustForLowerBoundaryCondition 3 0 DX 0 0 = (.ok 0, op1) ∧
      op1.adjustForHigherBoundaryCondition 3 0 DX 0 0 = (.ok 0, op2) ∧
      TridiagonalOp1D.Adjusted3 DX op op2 := by
  obtain ⟨hl, hd, hu⟩ := hwf
  have h4 : 4 ≤ op.diag_.length := by omega
  refine ⟨_, _, adjustLower3_eq op DX 0 0 h4,
    adjustHigher3_eq _ DX 0 0 (by simp only [length_wr]; exact h4), ?_⟩
  have hne : (1 : Nat) ≠ op.N_ := by omega
  refine ⟨rfl, ⟨?_, ?_, ?_⟩, rfl, rfl, ?_, ?_, ?_, ?_, ?_, ?_, ?_⟩
  · simp only [length_wr]; exact hl
  · simp only [length_wr]; exact hd
  · simp only [length_wr]; exact hu
  · show rd (wr (wr op.diag_ 1 _) op.N_ _) 1 = _
    rw [rd_wr_ne _ _ _ _ (Ne.symm hne), rd_wr_same _ _ _ (by omega)]
  · show rd (wr op.upper_ 1 _) 1 = _
    rw [rd_wr_same _ _ _ (by omega)]
  · show rd (wr (wr op.diag_ 1 _) op.N_ _) op.N_ = _
    rw [rd_wr_same _ _ _ (by rw [length_wr]; omega)]
    show rd (wr op.diag_ 1 _) op.N_ + _ * rd (wr op.upper_ 1 _) op.N_ = _
    rw [rd_wr_ne _ _ _ _ hne, rd_wr_ne _ _ _ _ hne]
  · show rd (wr op.lower_ op.N_ _) op.N_ = _
    rw [rd_wr_same _ _ _ (by omega)]
    show _ - _ * rd (wr op.upper_ 1 _) op.N_ = _
    rw [rd_wr_ne _ _ _ _ hne]
  · intro i h1 h2
    show rd (wr (wr op.diag_ 1 _) op.N_ _) i = _
    rw [rd_wr_ne _ _ _ _ (Ne.symm h2), rd_wr_ne _ _ _ _ (Ne.symm h1)]
  · intro i h1
    show rd (wr op.upper_ 1 _) i = _
    rw [rd_wr_ne _ _ _ _ (Ne.symm h1)]
  · intro i h1
    show rd (wr op.lower_ op.N_ _) i = _
    rw [rd_wr_ne _ _ _ _ (Ne.symm h1)]

/-- `adjustOpsForBoundaryConditions` completes on two well-formed operators with `N_ ≥ 2`
and leaves the edge values of the explicit operator as they were. -/
theorem adjustOpsForBoundaryConditions_spec (E M : TridiagonalOp1D) (DX : ℚ)
    (hE : E.WF) (hM : M.WF) (hNE : 2 ≤ E.N_) (hNM : 2 ≤ M.N_) :
    ∃ E2 M2, adjustOpsForBoundaryConditions E M DX = (.ok (), (E2, M2)) ∧
      TridiagonalOp1D.Adjusted3 DX E E2 ∧ TridiagonalOp1D.Adjusted3 DX M M2 := by
  obtain ⟨m1, m2, hm1, hm2, hMadj⟩ := adjust3_both M DX hM hNM
  obtain ⟨e1, e2, he1, he2, hEadj⟩ := adjust3_both E DX hE hNE
  refine ⟨(e2.addToLowerVal (-0 + 0)).addToUpperVal (-0 + 0), m2, ?_, ?_, hMadj⟩
  · unfold adjustOpsForBoundaryConditions
    simp only [hm1, hm2, he1, he2]
  · obtain ⟨a1, a2, a3, a4, a5⟩ := hEadj
    refine ⟨a1, a2, ?_, ?_, a5⟩
    · simp [TridiagonalOp1D.addToLowerVal, TridiagonalOp1D.addToUpperVal, a3]
    · simp [TridiagonalOp1D.addToLowerVal, TridiagonalOp1D.addToUpperVal, a4]

/-- After the two degree-3 adjustments the rows of an operator whose rows summed to one
still sum to one, the ghost coefficients being folded into rows `1` and `N`. -/
theorem rowsum_adjusted (op op2 : TridiagonalOp1D) (DX : ℚ)
    (hadj : TridiagonalOp1D.Adjusted3 DX op op2) (hN : 2 ≤ op.N_)
    (h2 : DX ≠ 2) (hm2 : DX ≠ -2)
    (hsum : ∀ i, 1 ≤ i → i ≤ op.N_ → rd op.lower_ i + rd op.diag_ i + rd op.upper_ i = 1) :
    rd op2.diag_ 1 + rd op2.upper_ 1 = 1 ∧
    (∀ i, 2 ≤ i → i ≤ op.N_ - 1 → rd op2.lower_ i + rd op2.diag_ i + rd op2.upper_ i = 1) ∧
    rd op2.lower_ op.N_ + rd op2.diag_ op.N_ = 1 := by
  obtain ⟨_, _, _, _, d1, u1, dN, lN, dI, uI, lI⟩ := hadj
  have hp : 1 + DX / 2 ≠ 0 := by
    intro h
    apply hm2
    linarith
  have hq : 1 - DX / 2 ≠ 0 := by
    intro h
    apply h2
    linarith
  refine ⟨?_, ?_, ?_⟩
  · have hs := hsum 1 le_rfl (by omega)
    have hw : 2 / (1 + DX / 2) - (1 - DX / 2) / (1 + DX / 2) = 1 := by
      rw [← sub_div, div_eq_one_iff_eq hp]
      ring
    rw [d1, u1]
    linear_combination hs + rd op.lower_ 1 * hw
  · intro i hi1 hi2
    rw [dI i (by omega) (by omega), uI i (by omega), lI i (by omega)]
    exact hsum i (by omega) (by omega)
  · have hs := hsum op.N_ (by omega) le_rfl
    have hw : 2 / (1 - DX / 2) - (1 + DX / 2) / (1 - DX / 2) = 1 := by
      rw [← sub_div, div_eq_one_iff_eq hq]
      ring
    rw [dN, lN]
    linear_combination hs + rd op.upper_ op.N_ * hw

/-- An operator with zero edge values whose (adjusted) rows sum to one maps every vector
that is constant on `1..N` to the same constant on `1..N`. -/
theorem apply_const (op : TridiagonalOp1D) (x y : Vector) (c : ℚ) (hN : 2 ≤ op.N_)
    (hy : y.length = op.N_ + 2) (hL : op.LowerVal_ = 0) (hU : op.UpperVal_ = 0)
    (h1 : rd op.diag_ 1 + rd op.upper_ 1 = 1)
    (hi : ∀ i, 2 ≤ i → i ≤ op.N_ - 1 → rd op.lower_ i + rd op.diag_ i + rd op.upper_ i = 1)
    (hNr : rd op.lower_ op.N_ + rd op.diag_ op.N_ = 1)
    (hx : ∀ i, 1 ≤ i → i ≤ op.N_ → rd x i = c) :
    ∀ i, 1 ≤ i → i ≤ op.N_ → rd (op.apply x y) i = c := by
  intro i hi1 hi2
  rw [rd_apply op x y hN hy]
  by_cases hiN : i = op.N_
  · subst hiN
    simp only [if_true]
    rw [hx _ (by omega) (by omega), hx _ (by omega) le_rfl, hU, add_zero, ← add_mul, hNr, one_mul]
  · simp only [hiN, if_false]
    by_cases hmid : 2 ≤ i ∧ i ≤ op.N_ - 1
    · simp only [hmid, and_self, if_true, TridiagonalOp1D.row]
      rw [hx _ (by omega) (by omega), hx _ (by omega) (by omega), hx _ (by omega) (by omega),
        ← add_mul, ← add_mul, hi i hmid.1 hmid.2, one_mul]
    · have h1' : i = 1 := by omega
      subst h1'
      simp only [hmid, if_false, if_true]
      rw [hx _ le_rfl (by omega), hx _ (by omega) (by omega), hL, zero_add, ← add_mul, h1,
        one_mul]

/-! ## The loop over the layers -/

theorem col_setCol (m : Matrix) (j k : Nat) (v : Vector) :
    (m.setCol j v).col k = if j = k ∧ j < m.cols.length then v else m.col k := by
  unfold Matrix.setCol Matrix.col
  simp only [List.getD_eq_getElem?_getD, List.getElem?_set]
  by_cases h : j = k
  · subst h
    by_cases h2 : j < m.cols.length
    · simp [h2]
    · simp [h2, List.getElem?_eq_none (Nat.le_of_not_lt h2)]
  · simp [h]

theorem col_applyBoundaryConditions (m : Matrix) (j : Nat) (hj : j < m.cols.length) :
    (applyBoundaryConditions m).col j = applyBoundaryConditionsCol (m.n_rows - 2) (m.col j) := by
  unfold applyBoundaryConditions Matrix.col
  simp only [List.getD_eq_getElem?_getD, List.getElem?_map, List.getElem?_eq_getElem hj,
    Option.map_some', Option.getD_some]

theorem lt_cols_of_col_length (m : Matrix) (j n : Nat) (h : (m.col j).length = n + 2) :
    j < m.cols.length := by
  by_contra hlt
  unfold Matrix.col at h
  rw [List.getD_eq_getElem?_getD, List.getElem?_eq_none (Nat.le_of_not_lt hlt)] at h
  simp at h

/-- The pivots `D[1..n]` depend on the bands only. -/
theorem pivots_indep (st st2 : Scratch) (x x2 l d u y y2 : Vector) (n : Nat) (hn : 1 ≤ n)
    (hd : d.length = n + 2) (hx : x.length = n + 2) (hx2 : x2.length = n + 2) :
    ∀ i, 1 ≤ i → i ≤ n →
      rd (solveTridiagonal st x l d u y).1.D i = rd (solveTridiagonal st2 x2 l d u y2).1.D i := by
  obtain ⟨hDn, _, hrel, _⟩ := solveTridiagonal_spec st x l d u y n hn hd hx _ rfl
  obtain ⟨hDn2, _, hrel2, _⟩ := solveTridiagonal_spec st2 x2 l d u y2 n hn hd hx2 _ rfl
  have key : ∀ k i, i + k = n → 1 ≤ i →
      rd (solveTridiagonal st x l d u y).1.D i = rd (solveTridiagonal st2 x2 l d u y2).1.D i := by
    intro k
    induction k with
    | zero =>
      intro i hi h1
      have hin : i = n := by omega
      subst hin
      rw [hDn, hDn2]
    | succ k ih =>
      intro i hi h1
      rw [(hrel i h1 (by omega)).1, (hrel2 i h1 (by omega)).1, ih (i + 1) (by omega) (by omega)]
  intro i h1 h2
  exact key (n - i) i (by omega) h1

/-- The state after the first `n` passes of the loop over the layers. -/
theorem layers_loop (s2 : Pde1DSolver) :
    ∀ n, n ≤ s2.prevValues.cols.length → n ≤ s2.currValues.cols.length →
    ∀ t, t = (List.range n).foldl Pde1DSolver.stepLayer s2 →
      t.opExplicit_ = s2.opExplicit_ ∧ t.opImplicit_ = s2.opImplicit_ ∧ t.grax = s2.grax ∧
      t.theta_ = s2.theta_ ∧ t.nLayers_ = s2.nLayers_ ∧
      t.prevValues.n_rows = s2.prevValues.n_rows ∧
      t.prevValues.cols.length = s2.prevValues.cols.length ∧
      t.currValues.cols.length = s2.currValues.cols.length ∧
      (∀ j, n ≤ j → t.prevValues.col j = s2.prevValues.col j ∧
        t.currValues.col j = s2.currValues.col j) ∧
      (∀ j, j < n → ∃ sc,
        t.prevValues.col j = (solveTridiagonal sc (s2.prevValues.col j)
          s2.opImplicit_.lower_ s2.opImplicit_.diag_ s2.opImplicit_.upper_
          (s2.opExplicit_.apply (s2.prevValues.col j) (s2.currValues.col j))).2 ∧
        (j + 1 = n → t.scratch = (solveTridiagonal sc (s2.prevValues.col j)
          s2.opImplicit_.lower_ s2.opImplicit_.diag_ s2.opImplicit_.upper_
          (s2.opExplicit_.apply (s2.prevValues.col j) (s2.currValues.col j))).1)) := by
  intro n
  induction n with
  | zero =>
    intro _ _ t ht
    subst ht
    refine ⟨rfl, rfl, rfl, rfl, rfl, rfl, rfl, rfl, fun _ _ => ⟨rfl, rfl⟩, ?_⟩
    intro j hj
    omega
  | succ n ih =>
    intro hp hc t ht
    rw [List.range_succ, List.foldl_append] at ht
    obtain ⟨hE, hM, hG, hT, hL, hR, hPl, hCl, hrest, hdone⟩ := ih (by omega) (by omega) _ rfl
    generalize (List.range n).foldl Pde1DSolver.stepLayer s2 = t0
      at ht hE hM hG hT hL hR hPl hCl hrest hdone
    subst ht
    simp only [List.foldl_cons, List.foldl_nil, Pde1DSolver.stepLayer,
      TridiagonalOp1D.applyInverse]
    refine ⟨hE, hM, hG, hT, hL, hR, ?_, ?_, ?_, ?_⟩
    · simp [Matrix.setCol, hPl]
    · simp [Matrix.setCol, hCl]
    · intro j hj
      have hne : ¬ (n = j) := by omega
      rw [col_setCol, col_setCol]
      simp only [hne, false_and, if_false]
      exact hrest j (by omega)
    · intro j hj
      by_cases hjn : j = n
      · subst hjn
        obtain ⟨hp0, hc0⟩ := hrest j le_rfl
        refine ⟨t0.scratch, ?_, ?_⟩
        · rw [col_setCol]
          have : j < t0.prevValues.cols.length := by omega
          simp only [this, and_self, if_true]
          rw [hp0, hc0, hE, hM]
        · intro _
          rw [hp0, hc0, hE, hM]
      · obtain ⟨sc, h1, _⟩ := hdone j (by omega)
        refine ⟨sc, ?_, ?_⟩
        · rw [col_setCol]
          have hne : ¬ (n = j) := fun h => hjn h.symm
          simp only [hne, false_and, if_false]
          exact h1
        · intro h
          omega

/-! ## The step as a whole -/

/-- The construction and the boundary adjustment of `solveFromStepToStep` complete for
`NX ≥ 2` and coefficient buffers of `NX` entries; the step then runs the loop over the
layers and reapplies the boundary conditions. -/
theorem step_spec (s : Pde1DSolver) (step : Int) (DT : ℚ) (hNX : 2 ≤ s.grax.NX)
    (hdr : s.grax.drifts.length = s.grax.NX) (hvar : s.grax.variances.length = s.grax.NX) :
    ∃ s1 s2 s3, s.buildOps DT = (.ok (), s1) ∧ s1.adjustOps = (.ok (), s2) ∧
      s3 = (List.range s.nLayers_).foldl Pde1DSolver.stepLayer s2 ∧
      s.solveFromStepToStep step DT
        = (.ok (), { s3 with prevValues := applyBoundaryConditions s3.prevValues }) ∧
      s2.grax = s.grax ∧ s2.nLayers_ = s.nLayers_ ∧ s2.prevValues = s.prevValues ∧
      s2.currValues = s.currValues ∧ s2.scratch = s.scratch ∧
      s1.opExplicit_.N_ = s.grax.NX ∧ s1.opImplicit_.N_ = s.grax.NX ∧
      s1.opExplicit_.LowerVal_ = 0 ∧ s1.opExplicit_.UpperVal_ = 0 ∧
      s1.opImplicit_.LowerVal_ = 0 ∧ s1.opImplicit_.UpperVal_ = 0 ∧
      (∀ i, 1 ≤ i → i ≤ s.grax.NX →
        rd s1.opExplicit_.lower_ i + rd s1.opExplicit_.diag_ i + rd s1.opExplicit_.upper_ i = 1 ∧
        rd s1.opImplicit_.lower_ i + rd s1.opImplicit_.diag_ i + rd s1.opImplicit_.upper_ i = 1) ∧
      TridiagonalOp1D.Adjusted3 s.grax.DX s1.opExplicit_ s2.opExplicit_ ∧
      TridiagonalOp1D.Adjusted3 s.grax.DX s1.opImplicit_ s2.opImplicit_ := by
  obtain ⟨s1, hs1, hG, hT, hL, hP, hC, hS, hEN, hEwf, hEL, hEU, hMN, hMwf, hML, hMU, hrows⟩ :=
    buildOps_spec s DT hdr hvar
  obtain ⟨E2, M2, hadj, hEadj, hMadj⟩ := adjustOpsForBoundaryConditions_spec s1.opExplicit_
    s1.opImplicit_ s1.grax.DX hEwf hMwf (by omega) (by omega)
  have hs2 : s1.adjustOps = (.ok (), { s1 with opExplicit_ := E2, opImplicit_ := M2 }) := by
    unfold Pde1DSolver.adjustOps
    rw [hadj]
  refine ⟨s1, _, _, hs1, hs2, rfl, ?_, hG, hL, hP, hC, hS, hEN, hMN, hEL, hEU, hML, hMU, ?_,
    ?_, ?_⟩
  · unfold Pde1DSolver.solveFromStepToStep
    rw [hs1, andThen_ok, hs2, andThen_ok]
    simp only [hL]
  · intro i h1 h2
    obtain ⟨e1, e2, e3, m1, m2, m3⟩ := hrows i h1 h2
    constructor
    · rw [e1, e2, e3]; ring
    · rw [m1, m2, m3]; ring
  · rw [← hG]; exact hEadj
  · rw [← hG]; exact hMadj

theorem apply_eq_tridiagRow (op : TridiagonalOp1D) (x y : Vector) (hN : 2 ≤ op.N_)
    (hy : y.length = op.N_ + 2) (hL : op.LowerVal_ = 0) (hU : op.UpperVal_ = 0) :
    ∀ i, 1 ≤ i → i ≤ op.N_ →
      rd (op.apply x y) i = tridiagRow op.lower_ op.diag_ op.upper_ x op.N_ i := by
  intro i h1 h2
  rw [rd_apply op x y hN hy]
  unfold tridiagRow
  by_cases hiN : i = op.N_
  · subst hiN
    have hne : ¬ (op.N_ = 1) := by omega
    simp [hne, hU]
  · by_cases hi1 : i = 1
    · subst hi1
      have h2' : ¬ (2 ≤ 1 ∧ 1 ≤ op.N_ - 1) := by omega
      simp [hiN, h2', hL]
    · have h2' : 2 ≤ i ∧ i ≤ op.N_ - 1 := by omega
      simp [hiN, hi1, h2', TridiagonalOp1D.row]

theorem tridiagRow_congr (l d u x x2 : Vector) (n : Nat)
    (hx : ∀ i, 1 ≤ i → i ≤ n → rd x2 i = rd x i) :
    ∀ i, 1 ≤ i → i ≤ n → tridiagRow l d u x2 n i = tridiagRow l d u x n i := by
  intro i h1 h2
  have hA : (if i = 1 then 0 else rd l i * rd x2 (i - 1))
      = (if i = 1 then 0 else rd l i * rd x (i - 1)) := by
    by_cases hi1 : i = 1
    · rw [if_pos hi1, if_pos hi1]
    · rw [if_neg hi1, if_neg hi1, hx (i - 1) (by omega) (by omega)]
  have hC : (if i = n then 0 else rd u i * rd x2 (i + 1))
      = (if i = n then 0 else rd u i * rd x (i + 1)) := by
    by_cases hiN : i = n
    · rw [if_pos hiN, if_pos hiN]
    · rw [if_neg hiN, if_neg hiN, hx (i + 1) (by omega) (by omega)]
  unfold tridiagRow
  rw [hA, hC, hx i h1 h2]

/-- The loop body of `applyBoundaryConditions` on a column of `n + 2 ≥ 4` entries. -/
theorem applyBoundaryConditionsCol_spec (n : Nat) (c : Vector) (hn : 2 ≤ n)
    (hc : c.length = n + 2) :
    (applyBoundaryConditionsCol n c).length = c.length ∧
    rd (applyBoundaryConditionsCol n c) 0 = 2 * rd c 1 - rd c 2 ∧
    rd (applyBoundaryConditionsCol n c) (n + 1) = 2 * rd c n - rd c (n - 1) ∧
    ∀ i, 1 ≤ i → i ≤ n → rd (applyBoundaryConditionsCol n c) i = rd c i := by
  unfold applyBoundaryConditionsCol
  refine ⟨by simp [length_wr], ?_, ?_, ?_⟩
  · rw [rd_wr_ne _ _ _ _ (by omega), rd_wr_same _ _ _ (by omega)]
  · rw [rd_wr_same _ _ _ (by rw [length_wr]; omega), rd_wr_ne _ _ _ _ (by omega),
      rd_wr_ne _ _ _ _ (by omega)]
  · intro i h1 h2
    rw [rd_wr_ne _ _ _ _ (by omega), rd_wr_ne _ _ _ _ (by omega)]

/-- One layer of the step: the solved and re-extrapolated column `v'` satisfies
`M * v' = E * v` on rows `1..N`. -/
theorem layer_equation (E M : TridiagonalOp1D) (N : Nat) (sc : Scratch) (v c b1 b2 : Vector)
    (hN : 2 ≤ N) (hEN : E.N_ = N) (hMN : M.N_ = N) (hMd : M.diag_.length = N + 2)
    (hEL : E.LowerVal_ = 0) (hEU : E.UpperVal_ = 0) (hML : M.LowerVal_ = 0)
    (hMU : M.UpperVal_ = 0) (hv : v.length = N + 2) (hc : c.length = N + 2)
    (hb1 : b1.length = N + 2) (hb2 : b2.length = N + 2)
    (hpiv : ∀ i, 1 ≤ i → i ≤ N →
      rd (solveTridiagonal sc v M.lower_ M.diag_ M.upper_ (E.apply v c)).1.D i ≠ 0) :
    ∀ i, 1 ≤ i → i ≤ N →
      rd (M.apply (applyBoundaryConditionsCol N
          (solveTridiagonal sc v M.lower_ M.diag_ M.upper_ (E.apply v c)).2) b1) i
        = rd (E.apply v b2) i := by
  intro i h1 h2
  have hX := (solveTridiagonal_spec sc v M.lower_ M.diag_ M.upper_ (E.apply v c) N (by omega)
    hMd hv _ rfl).2.2.2.1
  have hsol := solveTridiagonal_solves sc v M.lower_ M.diag_ M.upper_ (E.apply v c) N
    (by omega) hMd hv hpiv i h1 h2
  have hbc := (applyBoundaryConditionsCol_spec N _ hN (hX.trans hv)).2.2.2
  have e1 := apply_eq_tridiagRow M (applyBoundaryConditionsCol N
    (solveTridiagonal sc v M.lower_ M.diag_ M.upper_ (E.apply v c)).2) b1 (by omega)
    (by omega) hML hMU i h1 (by omega)
  have e2 := apply_eq_tridiagRow E v b2 (by omega) (by omega) hEL hEU i h1 (by omega)
  have e3 := apply_eq_tridiagRow E v c (by omega) (by omega) hEL hEU i h1 (by omega)
  have e4 := tridiagRow_congr M.lower_ M.diag_ M.upper_ _ _ N hbc i h1 h2
  rw [hMN] at e1
  rw [e1, e4, hsol, e3, e2]

/-- One layer of the step on a flat column: the solved and re-extrapolated column is the
same flat column. -/
theorem layer_flat (E M : TridiagonalOp1D) (N : Nat) (sc : Scratch) (c : ℚ) (buf : Vector)
    (hN : 2 ≤ N) (hEN : E.N_ = N) (hMN : M.N_ = N) (hMd : M.diag_.length = N + 2)
    (hE : E.RowsSumToOne) (hM : M.RowsSumToOne) (hbuf : buf.length = N + 2)
    (hpiv : ∀ i, 1 ≤ i → i ≤ N →
      rd (solveTridiagonal sc (List.replicate (N + 2) c) M.lower_ M.diag_ M.upper_
        (E.apply (List.replicate (N + 2) c) buf)).1.D i ≠ 0) :
    ∀ i, i ≤ N + 1 →
      rd (applyBoundaryConditionsCol N
        (solveTridiagonal sc (List.replicate (N + 2) c) M.lower_ M.diag_ M.upper_
          (E.apply (List.replicate (N + 2) c) buf)).2) i = c := by
  obtain ⟨hEL, hEU, hE1, hEi, hEN'⟩ := hE
  obtain ⟨hML, hMU, hM1, hMi, hMN'⟩ := hM
  have hv : (List.replicate (N + 2) c).length = N + 2 := List.length_replicate _ _
  have hvc : ∀ i, 1 ≤ i → i ≤ N → rd (List.replicate (N + 2) c) i = c :=
    fun i _ h2 => rd_replicate _ _ _ (by omega)
  have hy : ∀ i, 1 ≤ i → i ≤ N → rd (E.apply (List.replicate (N + 2) c) buf) i = c := by
    intro i h1 h2
    exact apply_const E _ buf c (by omega) (by omega) hEL hEU hE1 hEi hEN'
      (fun k hk1 hk2 => hvc k hk1 (by omega)) i h1 (by omega)
  have hz : ∀ i, 1 ≤ i → i ≤ N →
      tridiagRow M.lower_ M.diag_ M.upper_ (List.replicate (N + 2) c) N i
        = rd (E.apply (List.replicate (N + 2) c) buf) i := by
    intro i h1 h2
    have e := apply_eq_tridiagRow M (List.replicate (N + 2) c) buf (by omega) (by omega) hML hMU
      i h1 (by omega)
    rw [hMN] at e
    rw [← e, hy i h1 h2]
    exact apply_const M _ buf c (by omega) (by omega) hML hMU hM1 hMi hMN'
      (fun k hk1 hk2 => hvc k hk1 (by omega)) i h1 (by omega)
  have hX := solveTridiagonal_unique sc (List.replicate (N + 2) c) M.lower_ M.diag_ M.upper_
    (E.apply (List.replicate (N + 2) c) buf) (List.replicate (N + 2) c) N (by omega) hMd hv
    hpiv hz
  have hlen := (solveTridiagonal_spec sc (List.replicate (N + 2) c) M.lower_ M.diag_ M.upper_
    (E.apply (List.replicate (N + 2) c) buf) N (by omega) hMd hv _ rfl).2.2.2.1
  obtain ⟨_, b0, bN, bi⟩ := applyBoundaryConditionsCol_spec N _ hN (hlen.trans hv)
  intro i hi
  by_cases h0 : i = 0
  · subst h0
    rw [b0, hX 1 le_rfl (by omega), hX 2 (by omega) (by omega), hvc 1 le_rfl (by omega),
      hvc 2 (by omega) (by omega)]
    ring
  · by_cases hN1 : i = N + 1
    · subst hN1
      rw [bN, hX N (by omega) le_rfl, hX (N - 1) (by omega) (by omega), hvc N (by omega) le_rfl,
        hvc (N - 1) (by omega) (by omega)]
      ring
    · rw [bi i (by omega) (by omega), hX i (by omega) (by omega), hvc i (by omega) (by omega)]

/-- The values of every layer after `solveFromStepToStep`, in terms of one call of the
banded solve per layer whose pivots are the ones left in the scratch array. -/
theorem step_layers (s : Pde1DSolver) (step : Int) (DT : ℚ) (hNX : 2 ≤ s.grax.NX)
    (hdr : s.grax.drifts.length = s.grax.NX) (hvar : s.grax.variances.length = s.grax.NX)
    (hrows : s.prevValues.n_rows = s.grax.NX + 2)
    (hprev : ∀ j, j < s.nLayers_ → (s.prevValues.col j).length = s.grax.NX + 2)
    (hcurr : ∀ j, j < s.nLayers_ → (s.currValues.col j).length = s.grax.NX + 2) :
    ∃ s1 E M f, s.buildOps DT = (.ok (), s1) ∧ s.solveFromStepToStep step DT = (.ok (), f) ∧
      f.opExplicit_ = E ∧ f.opImplicit_ = M ∧
      (s1.adjustOps).2.opExplicit_ = E ∧ (s1.adjustOps).2.opImplicit_ = M ∧
      TridiagonalOp1D.Adjusted3 s.grax.DX s1.opExplicit_ E ∧
      TridiagonalOp1D.Adjusted3 s.grax.DX s1.opImplicit_ M ∧
      s1.opExplicit_.N_ = s.grax.NX ∧ s1.opImplicit_.N_ = s.grax.NX ∧
      s1.opExplicit_.LowerVal_ = 0 ∧ s1.opExplicit_.UpperVal_ = 0 ∧
      s1.opImplicit_.LowerVal_ = 0 ∧ s1.opImplicit_.UpperVal_ = 0 ∧
      (∀ i, 1 ≤ i → i ≤ s.grax.NX →
        rd s1.opExplicit_.lower_ i + rd s1.opExplicit_.diag_ i + rd s1.opExplicit_.upper_ i = 1 ∧
        rd s1.opImplicit_.lower_ i + rd s1.opImplicit_.diag_ i + rd s1.opImplicit_.upper_ i = 1) ∧
      ∀ j, j < s.nLayers_ → ∃ sc,
        f.prevValues.col j = applyBoundaryConditionsCol s.grax.NX
          (solveTridiagonal sc (s.prevValues.col j) M.lower_ M.diag_ M.upper_
            (E.apply (s.prevValues.col j) (s.currValues.col j))).2 ∧
        ∀ i, 1 ≤ i → i ≤ s.grax.NX →
          rd (solveTridiagonal sc (s.prevValues.col j) M.lower_ M.diag_ M.upper_
            (E.apply (s.prevValues.col j) (s.currValues.col j))).1.D i = rd f.scratch.D i := by
  obtain ⟨s1, s2, s3, hs1, hs2, hs3, hstep, hG, hL, hP, hC, hS, hEN, hMN, hEL, hEU, hML, hMU,
    hsum, hEadj, hMadj⟩ := step_spec s step DT hNX hdr hvar
  have hlenP : s.nLayers_ ≤ s2.prevValues.cols.length := by
    rw [hP]
    by_cases h0 : s.nLayers_ = 0
    · omega
    · have := lt_cols_of_col_length _ _ _ (hprev (s.nLayers_ - 1) (by omega))
      omega
  have hlenC : s.nLayers_ ≤ s2.currValues.cols.length := by
    rw [hC]
    by_cases h0 : s.nLayers_ = 0
    · omega
    · have := lt_cols_of_col_length _ _ _ (hcurr (s.nLayers_ - 1) (by omega))
      omega
  obtain ⟨lE, lM, _, _, _, lR, lPl, _, _, ldone⟩ := layers_loop s2 s.nLayers_ hlenP hlenC s3 hs3
  have hMd : s2.opImplicit_.diag_.length = s.grax.NX + 2 := by
    rw [hMadj.2.1.2.1, hMadj.1, hMN]
  refine ⟨s1, s2.opExplicit_, s2.opImplicit_, _, hs1, hstep, lE, lM, by rw [hs2], by rw [hs2],
    hEadj, hMadj, hEN, hMN, hEL, hEU, hML, hMU, hsum, ?_⟩
  intro j hj
  obtain ⟨scL, _, hscr⟩ := ldone (s.nLayers_ - 1) (by omega)
  have hscr' := hscr (by omega)
  obtain ⟨sc, hcol, _⟩ := ldone j hj
  refine ⟨sc, ?_, ?_⟩
  · show (applyBoundaryConditions s3.prevValues).col j = _
    rw [col_applyBoundaryConditions _ _ (by omega), lR, hP, hrows, hcol, hP, hC]
    rfl
  · intro i h1 h2
    show _ = rd s3.scratch.D i
    rw [hscr', hP, hC]
    exact pivots_indep _ _ _ _ _ _ _ _ _ s.grax.NX (by omega) hMd (hprev j hj)
      (hprev _ (by omega)) i h1 h2

/-- The two degree-3 adjustments turn an operator with zero edge values whose full rows sum
to one into one whose rows, as `apply` uses them, sum to one. -/
theorem adjusted_rowsSumToOne (op op2 : TridiagonalOp1D) (DX : ℚ)
    (hadj : TridiagonalOp1D.Adjusted3 DX op op2) (hN : 2 ≤ op.N_)
    (h2 : DX ≠ 2) (hm2 : DX ≠ -2) (hL : op.LowerVal_ = 0) (hU : op.UpperVal_ = 0)
    (hsum : ∀ i, 1 ≤ i → i ≤ op.N_ → rd op.lower_ i + rd op.diag_ i + rd op.upper_ i = 1) :
    op2.RowsSumToOne := by
  obtain ⟨r1, ri, rN⟩ := rowsum_adjusted op op2 DX hadj hN h2 hm2 hsum
  obtain ⟨hNeq, _, hL2, hU2, _⟩ := hadj
  refine ⟨hL2.trans hL, hU2.trans hU, r1, ?_, ?_⟩
  · rw [hNeq]; exact ri
  · rw [hNeq]; exact rN

/-- The operators left by the construction and the boundary adjustment. -/
theorem ops_rowsSumToOne (s : Pde1DSolver) (DT : ℚ) (hNX : 2 ≤ s.grax.NX)
    (hdr : s.grax.drifts.length = s.grax.NX) (hvar : s.grax.variances.length = s.grax.NX)
    (h2 : s.grax.DX ≠ 2) (hm2 : s.grax.DX ≠ -2) :
    ∃ s1 s2, s.buildOps DT = (.ok (), s1) ∧ s1.adjustOps = (.ok (), s2) ∧
      s2.opExplicit_.N_ = s.grax.NX ∧ s2.opImplicit_.N_ = s.grax.NX ∧
      s2.opExplicit_.RowsSumToOne ∧ s2.opImplicit_.RowsSumToOne := by
  obtain ⟨s1, s2, s3, hs1, hs2, _, _, _, _, _, _, _, hEN, hMN, hEL, hEU, hML, hMU, hsum, hEadj,
    hMadj⟩ := step_spec s 0 DT hNX hdr hvar
  refine ⟨s1, s2, hs1, hs2, hEadj.1.trans hEN, hMadj.1.trans hMN, ?_, ?_⟩
  · exact adjusted_rowsSumToOne _ _ _ hEadj (by omega) h2 hm2 hEL hEU
      (fun i h1 hi => (hsum i h1 (by omega)).1)
  · exact adjusted_rowsSumToOne _ _ _ hMadj (by omega) h2 hm2 hML hMU
      (fun i h1 hi => (hsum i h1 (by omega)).2)

/-- One step of the solver on flat layers, when the pivots left in the scratch array are
non-zero. -/
theorem step_flat (s : Pde1DSolver) (step : Int) (DT c : ℚ) (hNX : 2 ≤ s.grax.NX)
    (hdr : s.grax.drifts.length = s.grax.NX) (hvar : s.grax.variances.length = s.grax.NX)
    (h2 : s.grax.DX ≠ 2) (hm2 : s.grax.DX ≠ -2)
    (hrows : s.prevValues.n_rows = s.grax.NX + 2)
    (hflat : ∀ j, j < s.nLayers_ → s.prevValues.col j = List.replicate (s.grax.NX + 2) c)
    (hcurr : ∀ j, j < s.nLayers_ → (s.currValues.col j).length = s.grax.NX + 2)
    (hpiv : ∀ i, 1 ≤ i → i ≤ s.grax.NX → rd (s.solveFromStepToStep step DT).2.scratch.D i ≠ 0) :
    (s.solveFromStepToStep step DT).1 = .ok () ∧
    ∀ j, j < s.nLayers_ → ∀ i, i ≤ s.grax.NX + 1 →
      rd ((s.solveFromStepToStep step DT).2.prevValues.col j) i = c := by
  have hprev : ∀ j, j < s.nLayers_ → (s.prevValues.col j).length = s.grax.NX + 2 := by
    intro j hj
    rw [hflat j hj, List.length_replicate]
  obtain ⟨s1, E, M, f, hs1, hstep, _, _, _, _, hEadj, hMadj, hEN, hMN, hEL, hEU, hML,
    hMU, hsum, hlay⟩ := step_layers s step DT hNX hdr hvar hrows hprev hcurr
  have hER := adjusted_rowsSumToOne _ _ _ hEadj (by omega) h2 hm2 hEL hEU
    (fun i h1 hi => (hsum i h1 (by omega)).1)
  have hMR := adjusted_rowsSumToOne _ _ _ hMadj (by omega) h2 hm2 hML hMU
    (fun i h1 hi => (hsum i h1 (by omega)).2)
  have hMd : M.diag_.length = s.grax.NX + 2 := by rw [hMadj.2.1.2.1, hMadj.1, hMN]
  rw [hstep] at hpiv ⊢
  refine ⟨rfl, ?_⟩
  intro j hj i hi
  obtain ⟨sc, hcol, hD⟩ := hlay j hj
  show rd (f.prevValues.col j) i = c
  rw [hcol, hflat j hj]
  rw [hflat j hj] at hD
  exact layer_flat E M s.grax.NX sc c (s.currValues.col j) hNX (hEadj.1.trans hEN)
    (hMadj.1.trans hMN) hMd hER hMR (hcurr j hj)
    (fun k hk1 hk2 => (hD k hk1 hk2).trans_ne (hpiv k hk1 hk2)) i hi

/-! ## The time loop -/

theorem samplePut_constructed :
    (AmericanCallPut.new (-1) 3 (8 / 1461)).toOption.map
        (fun p => (p.fixTimes_, p.payTimes_, p.payAmounts_))
      = some (AmericanCallPut.samplePut.fixTimes_, AmericanCallPut.samplePut.payTimes_,
          AmericanCallPut.samplePut.payAmounts_) := by
  with_unfolding_all rfl

theorem foldl_updateGridAt (theta DT a v : ℚ) (l : List Nat) (g : GridAxis) :
    (l.foldl (PdeBase.updateGridAt theta DT a v) g).NX = g.NX ∧
    (l.foldl (PdeBase.updateGridAt theta DT a v) g).DX = g.DX ∧
    (l.foldl (PdeBase.updateGridAt theta DT a v) g).drifts.length = g.drifts.length ∧
    (l.foldl (PdeBase.updateGridAt theta DT a v) g).variances.length = g.variances.length := by
  induction l generalizing g with
  | nil => exact ⟨rfl, rfl, rfl, rfl⟩
  | cons j t ih =>
    rw [List.foldl_cons]
    obtain ⟨h1, h2, h3, h4⟩ := ih (PdeBase.updateGridAt theta DT a v g j)
    refine ⟨h1, h2, h3.trans ?_, h4.trans ?_⟩
    · simp [PdeBase.updateGridAt, length_wr]
    · simp [PdeBase.updateGridAt, length_wr]

theorem col_scale (m : Matrix) (df : ℚ) (j : Nat) :
    (m.scale df).col j = (m.col j).map (fun a => a * df) := by
  unfold Matrix.scale Matrix.col
  simp only [List.getD_eq_getElem?_getD, List.getElem?_map]
  generalize m.cols[j]? = o
  cases o <;> simp

theorem rd_map_mul (c : Vector) (df : ℚ) (i : Nat) :
    rd (c.map (fun a => a * df)) i = rd c i * df := by
  unfold rd
  induction c generalizing i with
  | nil => simp
  | cons a t ih =>
    cases i with
    | zero => simp
    | succ k => simpa using ih k

/-- A step without a contract event leaves the values untouched. -/
theorem evalProduct_no_event (b : PdeBase) (stepIdx : Nat) (h : b.stepindex_.getD stepIdx 0 < 0) :
    (b.evalProduct stepIdx).1 = .ok () ∧
    (b.evalProduct stepIdx).2.solver1D = b.solver1D := by
  have hn : ¬ (b.stepindex_.getD stepIdx 0 ≥ 0) := by omega
  unfold PdeBase.evalProduct
  simp only [hn, if_false, andThen_ok]
  split_ifs <;> exact ⟨rfl, rfl⟩

/-- What `updateGrid` leaves unchanged in the solver. -/
theorem updateGrid_frame (b : PdeBase) (params : PdeParams) (fwdFactors fvols : Matrix)
    (stepIdx : Nat) :
    (b.updateGrid params fwdFactors fvols stepIdx).solver1D.grax.NX = b.solver1D.grax.NX ∧
    (b.updateGrid params fwdFactors fvols stepIdx).solver1D.grax.drifts.length
      = b.solver1D.grax.drifts.length ∧
    (b.updateGrid params fwdFactors fvols stepIdx).solver1D.grax.variances.length
      = b.solver1D.grax.variances.length ∧
    (b.updateGrid params fwdFactors fvols stepIdx).solver1D.prevValues = b.solver1D.prevValues ∧
    (b.updateGrid params fwdFactors fvols stepIdx).solver1D.currValues = b.solver1D.currValues ∧
    (b.updateGrid params fwdFactors fvols stepIdx).solver1D.nLayers_ = b.solver1D.nLayers_ := by
  obtain ⟨g1, _, g3, g4⟩ := foldl_updateGridAt b.solver1D.theta_
    (rd b.timesteps_ (stepIdx + 1) - rd b.timesteps_ stepIdx) (fwdFactors.at stepIdx 0)
    (fvols.at stepIdx 0) (forUp 1 (params.nSpotNodes.getD 0 0)) b.solver1D.grax
  exact ⟨g1, g3, g4, rfl, rfl, rfl⟩

/-- The values after `advance`: the output of `solveFromStepToStep`, discounted; every layer
satisfies the linear-extrapolation relation at both ends. -/
theorem advance_spec (b : PdeBase) (params : PdeParams) (fwdFactors fwdVols : Matrix)
    (stepIdx : Nat) (hNX : 2 ≤ b.solver1D.grax.NX)
    (hdr : b.solver1D.grax.drifts.length = b.solver1D.grax.NX)
    (hvar : b.solver1D.grax.variances.length = b.solver1D.grax.NX)
    (hrows : b.solver1D.prevValues.n_rows = b.solver1D.grax.NX + 2)
    (hprev : ∀ j, j < b.solver1D.nLayers_ →
      (b.solver1D.prevValues.col j).length = b.solver1D.grax.NX + 2)
    (hcurr : ∀ j, j < b.solver1D.nLayers_ →
      (b.solver1D.currValues.col j).length = b.solver1D.grax.NX + 2) :
    ∃ b2, b.advance params fwdFactors fwdVols stepIdx = (.ok (), b2) ∧
      b2.stepindex_ = b.stepindex_ ∧
      b2.solver1D.prevValues
        = (((b.updateGrid params fwdFactors fwdVols stepIdx).solver1D.solveFromStepToStep stepIdx
            (rd b.timesteps_ (stepIdx + 1) - rd b.timesteps_ stepIdx)).2.prevValues).scale
          (b.spdiscyc_.fwdDiscount (rd b.timesteps_ stepIdx) (rd b.timesteps_ (stepIdx + 1))) ∧
      ∀ j, j < b.solver1D.nLayers_ →
        rd (b2.solver1D.prevValues.col j) 0
          = 2 * rd (b2.solver1D.prevValues.col j) 1 - rd (b2.solver1D.prevValues.col j) 2 ∧
        rd (b2.solver1D.prevValues.col j) (b.solver1D.grax.NX + 1)
          = 2 * rd (b2.solver1D.prevValues.col j) b.solver1D.grax.NX
            - rd (b2.solver1D.prevValues.col j) (b.solver1D.grax.NX - 1) := by
  obtain ⟨g1, g3, g4, gP, gC, gL⟩ := updateGrid_frame b params fwdFactors fwdVols stepIdx
  have hs := step_layers (b.updateGrid params fwdFactors fwdVols stepIdx).solver1D stepIdx
    (rd b.timesteps_ (stepIdx + 1) - rd b.timesteps_ stepIdx)
    (by rw [g1]; exact hNX) (by rw [g1, g3]; exact hdr) (by rw [g1, g4]; exact hvar)
    (by rw [g1, gP]; exact hrows)
    (by
      intro j hj
      rw [g1, gP]
      exact hprev j (by rw [← gL]; exact hj))
    (by
      intro j hj
      rw [g1, gC]
      exact hcurr j (by rw [← gL]; exact hj))
  obtain ⟨s1, E, M, f, _, hstep, _, _, _, _, _, hMadj, _, hMN, _, _, _, _, _, hlay⟩ := hs
  rw [g1, gP, gC, gL] at hlay
  rw [g1] at hMN
  have hMd : M.diag_.length = b.solver1D.grax.NX + 2 := by rw [hMadj.2.1.2.1, hMadj.1, hMN]
  refine ⟨({ (b.updateGrid params fwdFactors fwdVols stepIdx) with
      solver1D := f } : PdeBase).discountFromStepToStep
      (b.spdiscyc_.fwdDiscount (rd b.timesteps_ stepIdx) (rd b.timesteps_ (stepIdx + 1))),
    ?_, rfl, ?_, ?_⟩
  · have ht : (b.updateGrid params fwdFactors fwdVols stepIdx).timesteps_ = b.timesteps_ := rfl
    unfold PdeBase.advance
    simp only [ht]
    rw [hstep]
    rfl
  · rw [hstep]
    rfl
  · intro j hj
    obtain ⟨sc, hcol, _⟩ := hlay j hj
    have hX := (solveTridiagonal_spec sc (b.solver1D.prevValues.col j)
      M.lower_ M.diag_ M.upper_
      (E.apply (b.solver1D.prevValues.col j) (b.solver1D.currValues.col j))
      b.solver1D.grax.NX (by omega) hMd (hprev j hj) _ rfl).2.2.2.1
    obtain ⟨_, c0, cN, ci⟩ := applyBoundaryConditionsCol_spec b.solver1D.grax.NX _ hNX
      (hX.trans (hprev j hj))
    show rd ((f.prevValues.scale _).col j) 0 = 2 * rd ((f.prevValues.scale _).col j) 1
        - rd ((f.prevValues.scale _).col j) 2 ∧
      rd ((f.prevValues.scale _).col j) (b.solver1D.grax.NX + 1)
        = 2 * rd ((f.prevValues.scale _).col j) b.solver1D.grax.NX
          - rd ((f.prevValues.scale _).col j) (b.solver1D.grax.NX - 1)
    rw [col_scale, hcol]
    simp only [rd_map_mul]
    rw [c0, cN, ci 1 le_rfl (by omega), ci 2 (by omega) (by omega),
      ci b.solver1D.grax.NX (by omega) le_rfl, ci (b.solver1D.grax.NX - 1) (by omega) (by omega)]
    constructor <;> ring

/-! ## Linear interpolation -/

/-- The loop of `findIndices` on a strictly increasing vector, entered at `i` with
`v[i-1] < y` and with a later entry `v[m] ≥ y`: it returns a node equal to `y` or the two
neighbours that enclose `y`. -/
theorem findIndicesLoop_spec (v : Vector) (y : ℚ) (m : Nat) (hm : m < v.length)
    (hym : y ≤ rd v m) :
    ∀ k i, i + k = v.length → 1 ≤ i → i ≤ m → rd v (i - 1) < y →
      ∃ i1 i2, findIndicesLoop v y k i = some (i1, i2) ∧ i2 < v.length ∧
        ((i1 = i2 ∧ y = rd v i1) ∨ (i2 = i1 + 1 ∧ rd v i1 < y ∧ y < rd v i2)) := by
  intro k
  induction k with
  | zero => intro i hik _ him _; omega
  | succ k ih =>
    intro i hik hi him hprev
    unfold findIndicesLoop
    by_cases h1 : y = rd v i
    · exact ⟨i, i, by simp [h1], by omega, Or.inl ⟨rfl, h1⟩⟩
    · by_cases h2 : y < rd v i
      · refine ⟨i - 1, i, by simp [h1, h2], by omega, Or.inr ⟨by omega, hprev, h2⟩⟩
      · have hlt : rd v i < y := lt_of_le_of_ne (not_lt.mp h2) (Ne.symm h1)
        have him2 : i + 1 ≤ m := by
          rcases Nat.lt_or_ge i m with h | h
          · exact h
          · have : i = m := by omega
            subst this
            exact absurd hym (not_le.mpr hlt)
        obtain ⟨i1, i2, e, hb, hc⟩ := ih (i + 1) (by omega) (by omega) him2 (by simpa using hlt)
        exact ⟨i1, i2, by simp [h1, h2, e], hb, hc⟩

/-- The chord through the nodes `i` and `i + 1` takes the value `ys[i]` at `xs[i]` and
`ys[i+1]` at `xs[i+1]`. -/
theorem chord_nodes (x0 x1 y0 y1 : ℚ) (h : x0 < x1) :
    y0 + (y1 - y0) * (x0 - x0) / (x1 - x0) = y0 ∧
    y0 + (y1 - y0) * (x1 - x0) / (x1 - x0) = y1 := by
  have hne : x1 - x0 ≠ 0 := sub_ne_zero.mpr (ne_of_gt h)
  constructor
  · simp
  · field_simp

/-- On a strictly increasing vector, two brackets `[xs[i], xs[i+1]]` and
`[xs[k], xs[k+1]]` that both contain `x` give the same chord value. -/
theorem chord_unique (xs ys : Vector)
    (hinc : ∀ i j, i < j → j < xs.length → rd xs i < rd xs j)
    (i k : Nat) (x : ℚ) (hi : i + 1 < xs.length) (hk : k + 1 < xs.length)
    (hxi : rd xs i ≤ x) (hxi2 : x ≤ rd xs (i + 1))
    (hxk : rd xs k ≤ x) (hxk2 : x ≤ rd xs (k + 1)) :
    rd ys k + (rd ys (k + 1) - rd ys k) * (x - rd xs k) / (rd xs (k + 1) - rd xs k)
      = rd ys i + (rd ys (i + 1) - rd ys i) * (x - rd xs i) / (rd xs (i + 1) - rd xs i) := by
  rcases Nat.lt_trichotomy i k with h | h | h
  · have hk1 : k = i + 1 := by
      by_contra hne
      have := hinc (i + 1) k (by omega) (by omega)
      linarith
    subst hk1
    have hx : x = rd xs (i + 1) := le_antisymm hxi2 hxk
    rw [hx, (chord_nodes _ _ _ _ (hinc (i + 1) (i + 1 + 1) (by omega) hk)).1,
      (chord_nodes _ _ _ _ (hinc i (i + 1) (by omega) hi)).2]
  · subst h; rfl
  · have hk1 : i = k + 1 := by
      by_contra hne
      have := hinc (k + 1) i (by omega) (by omega)
      linarith
    subst hk1
    have hx : x = rd xs (k + 1) := le_antisymm hxk2 hxi
    rw [hx, (chord_nodes _ _ _ _ (hinc (k + 1) (k + 1 + 1) (by omega) hi)).1,
      (chord_nodes _ _ _ _ (hinc k (k + 1) (by omega) hk)).2]

/-- The member `getValue(x)` on a strictly increasing abscissa vector, for `x` in the
bracket `[xs[i], xs[i+1]]`: the value of the chord through the nodes `i` and `i + 1`. -/
theorem getValue_bracket (xs ys : Vector) (hlen : 2 ≤ xs.length)
    (hinc : ∀ i j, i < j → j < xs.length → rd xs i < rd xs j)
    (i : Nat) (x : ℚ) (hi : i + 1 < xs.length)
    (hxi : rd xs i ≤ x) (hxi2 : x ≤ rd xs (i + 1)) :
    LinearInterpolation1D.getValue ⟨xs, ys⟩ x
      = some (rd ys i + (rd ys (i + 1) - rd ys i) * (x - rd xs i)
          / (rd xs (i + 1) - rd xs i)) := by
  have hx0 : rd xs 0 ≤ x := by
    rcases Nat.eq_zero_or_pos i with h | h
    · subst h; exact hxi
    · exact le_trans (le_of_lt (hinc 0 i h (by omega))) hxi
  have hxn : x ≤ rd xs (xs.length - 1) := by
    rcases Nat.lt_or_ge (i + 1) (xs.length - 1) with h | h
    · exact le_trans hxi2 (le_of_lt (hinc (i + 1) (xs.length - 1) h (by omega)))
    · have : i + 1 = xs.length - 1 := by omega
      rw [← this]; exact hxi2
  unfold LinearInterpolation1D.getValue LinearInterpolation1D.getValueAt findIndices
  simp only []
  by_cases h1 : x ≤ rd xs 1
  · rw [if_pos h1]
    simp only [show ¬ (1 = 0) by decide, if_false]
    rw [chord_unique xs ys hinc i 0 x hi (by omega) hxi hxi2 hx0 h1]
  · rw [if_neg h1]
    by_cases h2 : x ≥ rd xs (xs.length - 2)
    · rw [if_pos h2]
      have e : xs.length - 1 = (xs.length - 2) + 1 := by omega
      simp only [show ¬ (xs.length - 1 = xs.length - 2) by omega, if_false]
      rw [e]
      rw [chord_unique xs ys hinc i (xs.length - 2) x hi (by omega) hxi hxi2 h2
        (by rw [← e]; exact hxn)]
    · rw [if_neg h2]
      obtain ⟨i1, i2, e, hb, hc⟩ := findIndicesLoop_spec xs x (xs.length - 2) (by omega)
        (le_of_lt (not_le.mp h2)) (xs.length - 1) 1 (by omega) le_rfl
        (by
          by_contra hcon
          have h3 : xs.length - 2 = 0 := by omega
          rw [h3] at h2
          exact h2 hx0)
        (lt_of_lt_of_le (hinc 0 1 (by decide) (by omega)) (le_of_lt (not_le.mp h1)))
      rw [e]
      rcases hc with ⟨h12, hx⟩ | ⟨h12, hlo, hhi⟩
      · subst h12
        simp only [if_true]
        -- the node `i1` is one of the two ends of the bracket
        have hcase : i1 = i ∨ i1 = i + 1 := by
          by_contra hcon
          push_neg at hcon
          rcases Nat.lt_or_ge i1 i with h | h
          · have := hinc i1 i h (by omega)
            linarith
          · have := hinc (i + 1) i1 (by omega) hb
            linarith
        rcases hcase with h | h
        · subst h
          rw [hx, (chord_nodes _ _ _ _ (hinc i1 (i1 + 1) (by omega) hi)).1]
        · subst h
          rw [hx, (chord_nodes _ _ _ _ (hinc i (i + 1) (by omega) hi)).2]
      · subst h12
        simp only [show ¬ (i1 + 1 = i1) by omega, if_false]
        rw [chord_unique xs ys hinc i i1 x hi hb hxi hxi2 (le_of_lt hlo) (le_of_lt hhi)]


/-! ## The time partition -/

/-- A loop of paired `push_back`s appends the two mapped index lists. -/
theorem foldl_push_pair {α β : Type} (f : Nat → α) (g : Nat → β) (l : List Nat) :
    ∀ acc : List α × List β,
      l.foldl (fun a j => (a.1 ++ [f j], a.2 ++ [g j])) acc
        = (acc.1 ++ l.map f, acc.2 ++ l.map g) := by
  induction l with
  | nil => intro acc; simp
  | cons j l ih => intro acc; simp [ih]

theorem map_rd_range (v : Vector) : (List.range v.length).map (rd v) = v := by
  apply List.ext_getElem
  · simp
  · intro i h1 h2
    simp [rd, List.getD_eq_getElem?_getD, List.getElem?_eq_getElem h2]

/-- The temporary arrays of `timeSteps` before the test for a fixing at `t = 0`. -/
theorem timeStepsTemp_eq (fixTimes : Vector) :
    timeStepsTemp fixTimes =
      if (0 : ℚ) = rd fixTimes 0
      then (fixTimes, (List.range fixTimes.length).map Int.ofNat)
      else (0 :: fixTimes, -1 :: (List.range fixTimes.length).map Int.ofNat) := by
  unfold timeStepsTemp
  have h := foldl_push_pair (rd fixTimes) (fun i => (i : Int)) (List.range fixTimes.length)
    ([0], [-1])
  rw [map_rd_range] at h
  simp only [h]
  have e0 : rd ([0] ++ fixTimes) 0 = 0 := rfl
  have e1 : rd ([0] ++ fixTimes) 1 = rd fixTimes 0 := by
    cases fixTimes <;> rfl
  rw [e0, e1]
  split_ifs <;> rfl

/-- One pass of the main loop of `timeSteps` pushes the point `tstemp[i]` with its index
and then a strictly increasing run of points strictly between `tstemp[i]` and
`tstemp[i+1]`, each with index `-1`. -/
theorem timeStepsPass_eq (T : Vector) (J : List Int) (maxdt : ℚ) (hmax : 0 ≤ maxdt)
    (acc : Vector × List Int) (i : Nat) :
    ∃ l : List ℚ,
      timeStepsPass T J maxdt acc i
        = (acc.1 ++ rd T i :: l, acc.2 ++ J.getD i 0 :: l.map (fun _ => (-1 : Int))) ∧
      l.Pairwise (· < ·) ∧ ∀ t ∈ l, rd T i < t ∧ t < rd T (i + 1) := by
  unfold timeStepsPass
  simp only []
  by_cases hc : rd T (i + 1) - rd T i - maxdt > 1 / 100000000
  · rw [if_pos hc]
    have hdt : 0 < rd T (i + 1) - rd T i := by
      have : (0 : ℚ) < 1 / 100000000 := by norm_num
      linarith
    generalize hn : (Rat.floor ((rd T (i + 1) - rd T i) / maxdt)).toNat = n
    unfold timeStepsInsert
    rw [foldl_push_pair (fun (j : Nat) => rd T i + (j : ℚ) * ((rd T (i + 1) - rd T i) / (n : ℚ)))
      (fun _ => (-1 : Int))]
    refine ⟨(forUp 1 (n - 1)).map
      (fun (j : Nat) => rd T i + (j : ℚ) * ((rd T (i + 1) - rd T i) / (n : ℚ))), ?_, ?_, ?_⟩
    · simp [List.map_map, Function.comp_def]
    · by_cases h2 : 2 ≤ n
      · have hnpos : (0 : ℚ) < (n : ℚ) := by exact_mod_cast (by omega : 0 < n)
        have hq : 0 < (rd T (i + 1) - rd T i) / (n : ℚ) := div_pos hdt hnpos
        rw [List.pairwise_map]
        refine List.Pairwise.imp ?_ (List.pairwise_lt_range' 1 (n - 1 + 1 - 1))
        intro a b hab
        have : (a : ℚ) < (b : ℚ) := by exact_mod_cast hab
        nlinarith
      · have : forUp 1 (n - 1) = [] := by
          unfold forUp
          have : n - 1 + 1 - 1 = 0 := by omega
          rw [this]; rfl
        rw [this]; simp
    · intro t ht
      rw [List.mem_map] at ht
      obtain ⟨j, hj, rfl⟩ := ht
      rw [mem_forUp] at hj
      have hnpos : (0 : ℚ) < (n : ℚ) := by exact_mod_cast (by omega : 0 < n)
      have hq : 0 < (rd T (i + 1) - rd T i) / (n : ℚ) := div_pos hdt hnpos
      have hj1 : (1 : ℚ) ≤ (j : ℚ) := by exact_mod_cast hj.1
      have hjn : (j : ℚ) + 1 ≤ (n : ℚ) := by exact_mod_cast (by omega : j + 1 ≤ n)
      have hmul : (n : ℚ) * ((rd T (i + 1) - rd T i) / (n : ℚ)) = rd T (i + 1) - rd T i := by
        field_simp
      constructor
      · nlinarith
      · nlinarith
  · rw [if_neg hc]
    exact ⟨[], by simp, List.Pairwise.nil, by simp⟩

theorem rd_eq_getElem (v : Vector) (i : Nat) (h : i < v.length) : rd v i = v[i] := by
  simp [rd, List.getD_eq_getElem?_getD, List.getElem?_eq_getElem h]

/-- The invariant of the main loop of `timeSteps` after `m` passes, on temporary arrays
`T`, `J` with `T` strictly increasing: the two output vectors are the components of one
list of entries, the times are strictly increasing and below `T[m]`, the first entry is
`(T[0], J[0])`, every entry reads correctly, and the indices `≥ 0` pushed so far are those
of `J[0..m-1]`. -/
theorem timeStepsFill_loop (fixTimes T : Vector) (J : List Int) (maxdt : ℚ)
    (hJ : J.length = T.length)
    (hT : ∀ i j, i < j → j < T.length → rd T i < rd T j)
    (hmax : 0 ≤ maxdt)
    (hfix : ∀ t ∈ fixTimes, ∃ k, k < T.length ∧ t = rd T k)
    (hgood : ∀ k, k < T.length → timeStepsEntryOk fixTimes (rd T k, J.getD k 0)) :
    ∀ m, m + 1 ≤ T.length → ∃ ps : List (ℚ × Int),
      (List.range m).foldl (timeStepsPass T J maxdt) ([], [])
        = (ps.map Prod.fst, ps.map Prod.snd) ∧
      (ps.map Prod.fst).Pairwise (· < ·) ∧
      (∀ p ∈ ps, p.1 < rd T m) ∧
      (1 ≤ m → ps.head? = some (rd T 0, J.getD 0 0)) ∧
      (∀ p ∈ ps, timeStepsEntryOk fixTimes p) ∧
      (ps.map Prod.snd).filter (fun k => decide (0 ≤ k))
        = (J.take m).filter (fun k => decide (0 ≤ k)) := by
  intro m
  induction m with
  | zero =>
    intro _
    exact ⟨[], rfl, List.Pairwise.nil, by simp, by simp, by simp, by simp⟩
  | succ m ih =>
    intro hm
    obtain ⟨ps, he, hs, hlt, hhd, hok, hflt⟩ := ih (by omega)
    obtain ⟨l, hl, hls, hlb⟩ :=
      timeStepsPass_eq T J maxdt hmax (ps.map Prod.fst, ps.map Prod.snd) m
    have hstep : rd T m < rd T (m + 1) := hT m (m + 1) (by omega) (by omega)
    refine ⟨ps ++ (rd T m, J.getD m 0) :: l.map (fun t => (t, (-1 : Int))), ?_, ?_, ?_, ?_,
      ?_, ?_⟩
    · rw [List.range_succ, List.foldl_append, he]
      simp only [List.foldl_cons, List.foldl_nil]
      rw [hl]
      simp [List.map_map, Function.comp_def]
    · have e : (ps ++ (rd T m, J.getD m 0) :: l.map (fun t => (t, (-1 : Int)))).map Prod.fst
          = ps.map Prod.fst ++ rd T m :: l := by
        simp [List.map_map, Function.comp_def]
      rw [e, List.pairwise_append]
      refine ⟨hs, List.pairwise_cons.mpr ⟨fun t ht => (hlb t ht).1, hls⟩, ?_⟩
      intro a ha b hb
      rw [List.mem_map] at ha
      obtain ⟨p, hp, rfl⟩ := ha
      have h1 := hlt p hp
      rcases List.mem_cons.mp hb with h | h
      · rw [h]; exact h1
      · exact lt_trans h1 (hlb b h).1
    · intro p hp
      rcases List.mem_append.mp hp with h | h
      · exact lt_trans (hlt p h) hstep
      · rcases List.mem_cons.mp h with h | h
        · rw [h]; exact hstep
        · rw [List.mem_map] at h
          obtain ⟨t, ht, rfl⟩ := h
          exact (hlb t ht).2
    · intro _
      rcases Nat.eq_zero_or_pos m with h0 | h0
      · subst h0
        have : ps = [] := by
          have h2 : ps.map Prod.fst = [] := by
            have := congrArg Prod.fst he
            simpa using this.symm
          simpa using h2
        subst this
        rfl
      · have := hhd h0
        cases ps with
        | nil => simp at this
        | cons a ps => simpa using this
    · intro p hp
      rcases List.mem_append.mp hp with h | h
      · exact hok p h
      · rcases List.mem_cons.mp h with h | h
        · rw [h]; exact hgood m (by omega)
        · rw [List.mem_map] at h
          obtain ⟨t, ht, rfl⟩ := h
          refine Or.inl ⟨rfl, ?_⟩
          intro hmem
          obtain ⟨k, hk, hkt⟩ := hfix t hmem
          have hb := hlb t ht
          rcases Nat.lt_or_ge m k with hmk | hmk
          · have : rd T (m + 1) ≤ rd T k := by
              rcases Nat.lt_or_ge (m + 1) k with h2 | h2
              · exact le_of_lt (hT (m + 1) k h2 hk)
              · have : k = m + 1 := by omega
                rw [this]
            rw [← hkt] at this
            exact absurd hb.2 (not_lt.mpr this)
          · have : rd T k ≤ rd T m := by
              rcases Nat.lt_or_ge k m with h2 | h2
              · exact le_of_lt (hT k m h2 (by omega))
              · have : k = m := by omega
                rw [this]
            rw [← hkt] at this
            exact absurd hb.1 (not_lt.mpr this)
    · have hmJ : m < J.length := by omega
      have e : (ps ++ (rd T m, J.getD m 0) :: l.map (fun t => (t, (-1 : Int)))).map Prod.snd
          = ps.map Prod.snd ++ J.getD m 0 :: l.map (fun _ => (-1 : Int)) := by
        simp [List.map_map, Function.comp_def]
      have e2 : (l.map (fun _ => (-1 : Int))).filter (fun k => decide (0 ≤ k)) = [] := by
        rw [List.filter_eq_nil_iff]
        intro a ha
        rw [List.mem_map] at ha
        obtain ⟨_, _, rfl⟩ := ha
        decide
      rw [e, List.take_succ, List.getElem?_eq_getElem hmJ, List.filter_append,
        List.filter_append, hflt]
      have e3 : J.getD m 0 = J[m] := by
        simp [List.getD_eq_getElem?_getD, List.getElem?_eq_getElem hmJ]
      rw [e3]
      simp only [Option.toList, List.filter_cons, e2, List.filter_nil]

/-- The second block of `timeSteps` on temporary arrays `T`, `J` with `T` strictly
increasing and non-empty. -/
theorem timeStepsFill_spec (fixTimes T : Vector) (J : List Int) (maxdt : ℚ)
    (hL : 1 ≤ T.length) (hJ : J.length = T.length)
    (hT : ∀ i j, i < j → j < T.length → rd T i < rd T j)
    (hmax : 0 ≤ maxdt)
    (hfix : ∀ t ∈ fixTimes, ∃ k, k < T.length ∧ t = rd T k)
    (hgood : ∀ k, k < T.length → timeStepsEntryOk fixTimes (rd T k, J.getD k 0)) :
    ∃ ps : List (ℚ × Int),
      timeStepsFill T J maxdt = (ps.map Prod.fst, ps.map Prod.snd) ∧
      (ps.map Prod.fst).Pairwise (· < ·) ∧
      ps.head? = some (rd T 0, J.getD 0 0) ∧
      ps.getLast? = some (rd T (T.length - 1), J.getD (T.length - 1) 0) ∧
      (∀ p ∈ ps, timeStepsEntryOk fixTimes p) ∧
      (ps.map Prod.snd).filter (fun k => decide (0 ≤ k))
        = J.filter (fun k => decide (0 ≤ k)) := by
  obtain ⟨ps, he, hs, hlt, hhd, hok, hflt⟩ :=
    timeStepsFill_loop fixTimes T J maxdt hJ hT hmax hfix hgood (T.length - 1) (by omega)
  refine ⟨ps ++ [(rd T (T.length - 1), J.getD (T.length - 1) 0)], ?_, ?_, ?_, ?_, ?_, ?_⟩
  · unfold timeStepsFill
    simp only [he, hJ]
    simp
  · rw [List.map_append, List.pairwise_append]
    refine ⟨hs, by simp, ?_⟩
    intro a ha b hb
    rw [List.mem_map] at ha
    obtain ⟨p, hp, rfl⟩ := ha
    simp at hb
    rw [hb]
    exact hlt p hp
  · rcases Nat.eq_zero_or_pos (T.length - 1) with h0 | h0
    · have : ps = [] := by
        rw [h0] at he
        have h2 : ps.map Prod.fst = [] := by
          have := congrArg Prod.fst he
          simpa using this.symm
        simpa using h2
      subst this
      simp [h0]
    · have := hhd h0
      cases ps with
      | nil => simp at this
      | cons a ps => simpa using this
  · simp
  · intro p hp
    rcases List.mem_append.mp hp with h | h
    · exact hok p h
    · rw [List.mem_singleton] at h
      rw [h]
      exact hgood (T.length - 1) (by omega)
  · have hmJ : T.length - 1 < J.length := by omega
    have e3 : J.getD (T.length - 1) 0 = J[T.length - 1] := by
      simp [List.getD_eq_getElem?_getD, List.getElem?_eq_getElem hmJ]
    have hsplit : J = J.take (T.length - 1) ++ [J[T.length - 1]] := by
      have := List.take_succ (l := J) (n := T.length - 1)
      rw [List.getElem?_eq_getElem hmJ] at this
      have h2 : T.length - 1 + 1 = J.length := by omega
      rw [h2, List.take_length] at this
      simpa using this
    rw [List.map_append, List.filter_append, hflt]
    simp only [List.map_cons, List.map_nil]
    rw [e3]
    conv_rhs => rw [hsplit]
    rw [List.filter_append]

/-- The method `timeSteps` on a non-empty, strictly increasing, non-negative fixing
schedule: the two returned vectors are the components of one list of entries with
strictly increasing times, first time `0`, last time the last fixing time, every entry
reading correctly, and the indices `≥ 0` being `0, 1, ..., nFix - 1` in this order. -/
theorem timeSteps_entries (p : Product) (nsteps : Nat) (hne : 1 ≤ p.fixTimes_.length)
    (hinc : ∀ i j, i < j → j < p.fixTimes_.length → rd p.fixTimes_ i < rd p.fixTimes_ j)
    (hpos : ∀ i, i < p.fixTimes_.length → 0 ≤ rd p.fixTimes_ i) :
    ∃ ps : List (ℚ × Int),
      p.timeSteps nsteps = (ps.map Prod.fst, ps.map Prod.snd) ∧
      (ps.map Prod.fst).Pairwise (· < ·) ∧
      (∃ k, ps.head? = some (0, k)) ∧
      (∃ k, ps.getLast? = some (rd p.fixTimes_ (p.fixTimes_.length - 1), k)) ∧
      (∀ e ∈ ps, timeStepsEntryOk p.fixTimes_ e) ∧
      (ps.map Prod.snd).filter (fun k => decide (0 ≤ k))
        = (List.range p.fixTimes_.length).map Int.ofNat := by
  generalize hF : p.fixTimes_ = F at hne hinc hpos
  have hmono : ∀ k, k < F.length → rd F 0 ≤ rd F k := by
    intro k hk
    rcases Nat.eq_zero_or_pos k with h | h
    · rw [h]
    · exact le_of_lt (hinc 0 k h hk)
  have hmem : ∀ t ∈ F, ∃ k, k < F.length ∧ t = rd F k := by
    intro t ht
    obtain ⟨k, hk, rfl⟩ := List.mem_iff_getElem.mp ht
    exact ⟨k, hk, (rd_eq_getElem F k hk).symm⟩
  have hidx : ∀ k, k < F.length →
      ((List.range F.length).map Int.ofNat).getD k 0 = (k : Int) := by
    intro k hk
    simp [List.getD_eq_getElem?_getD, hk]
  have hfilter : ((List.range F.length).map Int.ofNat).filter (fun k => decide (0 ≤ k))
      = (List.range F.length).map Int.ofNat := by
    rw [List.filter_eq_self]
    intro a ha
    rw [List.mem_map] at ha
    obtain ⟨k, _, rfl⟩ := ha
    simp
  unfold Product.timeSteps
  rw [hF, timeStepsTemp_eq]
  by_cases h0 : (0 : ℚ) = rd F 0
  · simp only [if_pos h0]
    have hmax : 0 ≤ rd F (F.length - 1) / (((max nsteps 1 : Nat)) : ℚ) :=
      div_nonneg (hpos _ (by omega)) (Nat.cast_nonneg _)
    obtain ⟨ps, he, hs, hhd, hlast, hok, hflt⟩ :=
      timeStepsFill_spec F F ((List.range F.length).map Int.ofNat) _ hne (by simp) hinc hmax
        hmem
        (by
          intro k hk
          rw [hidx k hk]
          exact Or.inr ⟨by simp, by simpa using hk, by simp⟩)
    refine ⟨ps, he, hs, ⟨_, by rw [hhd, ← h0]⟩, ⟨_, hlast⟩, hok, by rw [hflt, hfilter]⟩
  · simp only [if_neg h0]
    have hF0 : 0 < rd F 0 := lt_of_le_of_ne (hpos 0 (by omega)) h0
    have hlen : (0 :: F).length - 1 = F.length := by simp
    have hlast : rd (0 :: F) F.length = rd F (F.length - 1) := by
      obtain ⟨n, hn⟩ : ∃ n, F.length = n + 1 := ⟨F.length - 1, by omega⟩
      rw [hn]; rfl
    have hmax : 0 ≤ rd (0 :: F) ((0 :: F).length - 1) / (((max nsteps 1 : Nat)) : ℚ) := by
      rw [hlen, hlast]
      exact div_nonneg (hpos _ (by omega)) (Nat.cast_nonneg _)
    obtain ⟨ps, he, hs, hhd, hlst, hok, hflt⟩ :=
      timeStepsFill_spec F (0 :: F) (-1 :: (List.range F.length).map Int.ofNat) _
        (by simp) (by simp)
        (by
          intro i j hij hj
          have hj2 : j < F.length + 1 := by simpa using hj
          obtain ⟨j2, rfl⟩ : ∃ j2, j = j2 + 1 := ⟨j - 1, by omega⟩
          rcases Nat.eq_zero_or_pos i with h | h
          · subst h
            exact lt_of_lt_of_le hF0 (hmono j2 (by omega))
          · obtain ⟨i2, rfl⟩ : ∃ i2, i = i2 + 1 := ⟨i - 1, by omega⟩
            exact hinc i2 j2 (by omega) (by omega))
        hmax
        (by
          intro t ht
          obtain ⟨k, hk, e⟩ := hmem t ht
          exact ⟨k + 1, by simpa using hk, e⟩)
        (by
          intro k hk
          have hk2 : k < F.length + 1 := by simpa using hk
          rcases Nat.eq_zero_or_pos k with h | h
          · subst h
            refine Or.inl ⟨rfl, ?_⟩
            intro hm
            obtain ⟨k, hk, e⟩ := hmem 0 hm
            have := hmono k hk
            linarith
          · obtain ⟨k2, rfl⟩ : ∃ k2, k = k2 + 1 := ⟨k - 1, by omega⟩
            have e1 : rd (0 :: F) (k2 + 1) = rd F k2 := rfl
            have e2 : (-1 :: (List.range F.length).map Int.ofNat).getD (k2 + 1) 0
                = (k2 : Int) := hidx k2 (by omega)
            rw [e1, e2]
            exact Or.inr ⟨by simp, by simpa using (by omega : k2 < F.length), by simp⟩)
    refine ⟨ps, he, hs, ⟨_, hhd⟩, ⟨_, by rw [hlst, hlen, hlast]⟩, hok, ?_⟩
    rw [hflt, List.filter_cons]
    simp only [show ¬ ((0 : Int) ≤ -1) by decide, decide_False, Bool.false_eq_true, if_false]
    exact hfilter


/-! ## The grid set-up over the reals -/

theorem real_rd_wr (v : real.Vector) (i j : Nat) (a : ℝ) :
    real.rd (real.wr v i a) j = if i = j ∧ i < v.length then a else real.rd v j := by
  unfold real.rd real.wr
  simp only [List.getD_eq_getElem?_getD, List.getElem?_set]
  by_cases h : i = j
  · subst h
    by_cases h2 : i < v.length
    · simp [h2]
    · simp [h2, List.getElem?_eq_none (Nat.le_of_not_lt h2)]
  · simp [h]

theorem real_length_wr (v : real.Vector) (i : Nat) (a : ℝ) :
    (real.wr v i a).length = v.length := by
  simp [real.wr]

theorem real_length_resize (v : real.Vector) (n : Nat) : (real.resize v n).length = n := by
  unfold real.resize
  simp only [List.length_append, List.length_take, List.length_replicate]
  omega

theorem real_length_foldl_wr (f : Nat → ℝ) (l : List Nat) (r : real.Vector) :
    (l.foldl (fun r i => real.wr r i (f i)) r).length = r.length := by
  induction l generalizing r with
  | nil => rfl
  | cons a t ih => simp [List.foldl_cons, ih, real_length_wr]

theorem real_rd_foldl_wr (f : Nat → ℝ) (l : List Nat) (r : real.Vector) (j : Nat) :
    real.rd (l.foldl (fun r i => real.wr r i (f i)) r) j
      = if j ∈ l ∧ j < r.length then f j else real.rd r j := by
  induction l generalizing r with
  | nil => simp
  | cons a t ih =>
    rw [List.foldl_cons, ih, real_length_wr, real_rd_wr]
    by_cases hjt : j ∈ t
    · by_cases hlen : j < r.length
      · simp [hjt, hlen]
      · have : ¬ (a = j ∧ a < r.length) := by
          rintro ⟨rfl, h⟩
          exact hlen h
        simp [hjt, hlen, this]
    · by_cases haj : a = j
      · subst haj
        by_cases hlen : a < r.length
        · simp [hjt, hlen]
        · simp [hjt, hlen]
      · have : ¬ (j = a) := fun h => haj h.symm
        simp [hjt, haj, this]

/-- The node loop of `initGrid` writes the two vectors independently: `Slevels[j]` is the
image of the value just written to `Xlevels[j]`. -/
theorem fillLevels_split (cc : real.CoordinateChangeBase) (Xmin DX : ℝ) (l : List Nat) :
    ∀ st : real.Vector × real.Vector, (∀ j ∈ l, j < st.1.length) →
      l.foldl (fun (st : real.Vector × real.Vector) (j : Nat) =>
          (real.wr st.1 j (Xmin + (j : ℝ) * DX),
           real.wr st.2 j (cc.fromDiffusedToReal
             (real.rd (real.wr st.1 j (Xmin + (j : ℝ) * DX)) j)))) st
        = (l.foldl (fun r j => real.wr r j (Xmin + (j : ℝ) * DX)) st.1,
           l.foldl (fun r j => real.wr r j (cc.fromDiffusedToReal (Xmin + (j : ℝ) * DX)))
             st.2) := by
  induction l with
  | nil => intro st _; rfl
  | cons a t ih =>
    intro st h
    have ha : a < st.1.length := h a (List.mem_cons_self a t)
    simp only [List.foldl_cons]
    rw [ih]
    · simp only [real_rd_wr, ha, and_self, if_true]
    · intro j hj
      simp only [real_length_wr]
      exact h j (List.mem_cons_of_mem a hj)

/-- The node loop of `initGrid` on two vectors of `n + 2` entries. -/
theorem fillLevels_spec (cc : real.CoordinateChangeBase) (Xmin DX : ℝ) (n : Nat)
    (lv : real.Vector × real.Vector) (h1 : lv.1.length = n + 2) (h2 : lv.2.length = n + 2) :
    (real.fillLevels cc Xmin DX n lv).1.length = n + 2 ∧
    (real.fillLevels cc Xmin DX n lv).2.length = n + 2 ∧
    ∀ j, j ≤ n + 1 →
      real.rd (real.fillLevels cc Xmin DX n lv).1 j = Xmin + (j : ℝ) * DX ∧
      real.rd (real.fillLevels cc Xmin DX n lv).2 j
        = cc.fromDiffusedToReal (Xmin + (j : ℝ) * DX) := by
  have hsplit := fillLevels_split cc Xmin DX (forUp 0 (n + 1)) lv
    (by
      intro j hj
      rw [mem_forUp] at hj
      omega)
  unfold real.fillLevels
  simp only []
  rw [hsplit]
  refine ⟨?_, ?_, ?_⟩
  · simp only [real_length_foldl_wr, h1]
  · simp only [real_length_foldl_wr, h2]
  · intro j hj
    have hm : j ∈ forUp 0 (n + 1) := (mem_forUp 0 (n + 1) j).mpr ⟨Nat.zero_le j, hj⟩
    constructor
    · simp only []
      rw [real_rd_foldl_wr (fun j => Xmin + (j : ℝ) * DX), if_pos ⟨hm, by omega⟩]
    · simp only []
      rw [real_rd_foldl_wr (fun j => cc.fromDiffusedToReal (Xmin + (j : ℝ) * DX)),
        if_pos ⟨hm, by omega⟩]

/-- The body of the asset loop of `initGrid` on one axis: with `(Xmin0, Xmax0)` the bounds
returned by the coordinate change and `off` the alignment offset `closestX - alignValue`,
the axis gets `DX = (Xmax0 - Xmin0) / (NX + 1)`, `Xmin = Xmin0 - off`,
`Xmax = Xmax0 - off`, the levels `Xlevels[j] = Xmin + j * DX` and their images
`Slevels[j]`, and coefficient buffers of `NX` entries. -/
theorem initGridAxis_spec (grax : real.GridAxis) (S0 rate divyield vol T nStdDevs
    alignment : ℝ) (n : Nat) (g : real.GridAxis)
    (hg : g = real.PdeBase.initGridAxis grax S0 rate divyield vol T nStdDevs alignment n)
    (b : ℝ × ℝ)
    (hb : b = grax.coordinateChange.bounds (grax.coordinateChange.fromRealToDiffused S0)
      (grax.coordinateChange.forwardAndVariance (S0 * Real.exp ((rate - divyield) * T))
        vol T).1
      (grax.coordinateChange.forwardAndVariance (S0 * Real.exp ((rate - divyield) * T))
        vol T).2 T nStdDevs)
    (k : Int)
    (hk : k = real.toInt (0.5 + (grax.coordinateChange.fromRealToDiffused alignment - b.1)
      / ((b.2 - b.1) / (((n + 1 : Nat)) : ℝ)))) :
    g.NX = n ∧ g.coordinateChange = grax.coordinateChange ∧
    g.DX = (b.2 - b.1) / (((n + 1 : Nat)) : ℝ) ∧
    g.Xmin = b.1 - (b.1 + (k : ℝ) * g.DX - grax.coordinateChange.fromRealToDiffused alignment) ∧
    g.Xmax = b.2 - (b.1 + (k : ℝ) * g.DX - grax.coordinateChange.fromRealToDiffused alignment) ∧
    g.Xlevels.length = n + 2 ∧ g.Slevels.length = n + 2 ∧
    (∀ j, j ≤ n + 1 → real.rd g.Xlevels j = g.Xmin + (j : ℝ) * g.DX ∧
      real.rd g.Slevels j = grax.coordinateChange.fromDiffusedToReal (real.rd g.Xlevels j)) ∧
    g.drifts.length = n ∧ g.variances.length = n ∧ g.vols.length = n := by
  subst hg hb hk
  obtain ⟨l1, l2, l3⟩ := fillLevels_spec grax.coordinateChange
    (real.PdeBase.initGridAxis grax S0 rate divyield vol T nStdDevs alignment n).Xmin
    (real.PdeBase.initGridAxis grax S0 rate divyield vol T nStdDevs alignment n).DX n
    (real.resize grax.Xlevels (n + 2), real.resize grax.Slevels (n + 2))
    (real_length_resize _ _) (real_length_resize _ _)
  refine ⟨rfl, rfl, rfl, rfl, rfl, l1, l2, ?_, real_length_resize _ _, real_length_resize _ _,
    real_length_resize _ _⟩
  intro j hj
  obtain ⟨e1, e2⟩ := l3 j hj
  refine ⟨e1, ?_⟩
  have e3 : real.rd (real.PdeBase.initGridAxis grax S0 rate divyield vol T nStdDevs
      alignment n).Xlevels j = (real.PdeBase.initGridAxis grax S0 rate divyield vol T nStdDevs
      alignment n).Xmin + (j : ℝ) * (real.PdeBase.initGridAxis grax S0 rate divyield vol T
      nStdDevs alignment n).DX := e1
  rw [e3]
  exact e2

/-- The asset loop of `initGrid` after `m` passes: the market data are untouched, the axes
`i < m` have been set up from the axes before the call, the others are as before. -/
theorem initGrid_loop (T : ℝ) (params : real.PdeParams) (s : real.PdeBase) (m : Nat)
    (hm : m ≤ s.gridAxes_.length) :
    ((List.range m).foldl (real.PdeBase.initGridPass T params) s).spots_ = s.spots_ ∧
    ((List.range m).foldl (real.PdeBase.initGridPass T params) s).spaccrycs_ = s.spaccrycs_ ∧
    ((List.range m).foldl (real.PdeBase.initGridPass T params) s).divyields_ = s.divyields_ ∧
    ((List.range m).foldl (real.PdeBase.initGridPass T params) s).vols_ = s.vols_ ∧
    ((List.range m).foldl (real.PdeBase.initGridPass T params) s).alignments_
      = s.alignments_ ∧
    ((List.range m).foldl (real.PdeBase.initGridPass T params) s).gridAxes_.length
      = s.gridAxes_.length ∧
    ∀ i, ((List.range m).foldl (real.PdeBase.initGridPass T params) s).gridAxes_.getD i
        real.GridAxis.new
      = if i < m then
          real.PdeBase.initGridAxis (s.gridAxes_.getD i real.GridAxis.new) (real.rd s.spots_ i)
            ((s.spaccrycs_.getD i ⟨fun _ => 0⟩).spotRate T) (real.rd s.divyields_ i)
            ((s.vols_.getD i ⟨fun _ => 0⟩).spotVol T) T (real.rd params.nStdDevs i)
            (real.rd s.alignments_ i) (params.nSpotNodes.getD i 0)
        else s.gridAxes_.getD i real.GridAxis.new := by
  induction m with
  | zero => simp
  | succ m ih =>
    obtain ⟨h1, h2, h3, h4, h5, h6, h7⟩ := ih (by omega)
    rw [List.range_succ, List.foldl_append]
    simp only [List.foldl_cons, List.foldl_nil]
    generalize (List.range m).foldl (real.PdeBase.initGridPass T params) s = st at *
    refine ⟨h1, h2, h3, h4, h5, ?_, ?_⟩
    · simp [real.PdeBase.initGridPass, h6]
    · intro i
      unfold real.PdeBase.initGridPass
      simp only [List.getD_eq_getElem?_getD, List.getElem?_set]
      have h7m := h7 m
      have h7i := h7 i
      simp only [List.getD_eq_getElem?_getD, lt_irrefl, if_false] at h7m h7i
      by_cases him : m = i
      · subst him
        have hlt : m < st.gridAxes_.length := by omega
        simp only [hlt, if_true, Option.getD_some, Nat.lt_succ_self, h7m, h1, h2, h3, h4, h5]
      · simp only [him, if_false]
        rw [h7i]
        by_cases hi : i < m
        · simp only [hi, if_true, show i < m + 1 by omega]
        · simp only [hi, if_false, show ¬ (i < m + 1) by omega]

theorem getD_resize_axes (l : List real.GridAxis) (n i : Nat) (hi : i < n) :
    (l.take n ++ List.replicate (n - l.length) real.GridAxis.new).getD i real.GridAxis.new
      = l.getD i real.GridAxis.new := by
  simp only [List.getD_eq_getElem?_getD]
  by_cases h : i < l.length
  · rw [List.getElem?_append_left (by simp; omega), List.getElem?_take_of_lt hi]
  · rw [List.getElem?_append_right (by simp; omega), List.getElem?_eq_none (Nat.le_of_not_lt h)]
    simp only [List.getElem?_replicate, Option.getD_none]
    split_ifs <;> rfl

/-- The method `initGrid` with as many axis specifications as assets does not throw, and
sets up the axis `i` from `gridAxes_[i]` before the call (a default-constructed axis if
the vector was shorter) and the market data of asset `i`. -/
theorem initGrid_axis (s : real.PdeBase) (T : ℝ) (params : real.PdeParams)
    (hassets : s.nAssets_ = params.nSpotNodes.length) (i : Nat) (hi : i < s.nAssets_) :
    (s.initGrid T params).1 = .ok () ∧
    (s.initGrid T params).2.gridAxes_.getD i real.GridAxis.new
      = real.PdeBase.initGridAxis (s.gridAxes_.getD i real.GridAxis.new) (real.rd s.spots_ i)
          ((s.spaccrycs_.getD i ⟨fun _ => 0⟩).spotRate T) (real.rd s.divyields_ i)
          ((s.vols_.getD i ⟨fun _ => 0⟩).spotVol T) T (real.rd params.nStdDevs i)
          (real.rd s.alignments_ i) (params.nSpotNodes.getD i 0) := by
  unfold real.PdeBase.initGrid
  simp only [hassets, not_true_eq_false, if_false, true_and]
  have hlen : (s.resize params.nSpotNodes.length).gridAxes_.length
      = params.nSpotNodes.length := by
    unfold real.PdeBase.resize
    simp only [List.length_append, List.length_take, List.length_replicate]
    omega
  have h := (initGrid_loop T params (s.resize params.nSpotNodes.length)
    params.nSpotNodes.length (by omega)).2.2.2.2.2.2 i
  rw [h, if_pos (by omega)]
  have hax : (s.resize params.nSpotNodes.length).gridAxes_.getD i real.GridAxis.new
      = s.gridAxes_.getD i real.GridAxis.new :=
    getD_resize_axes s.gridAxes_ params.nSpotNodes.length i (by omega)
  rw [hax]
  rfl

/-- The alignment of `initGrid` on one axis: with `a` the diffused alignment value and
`k = X0NodeIdx`, every level is `Xlevels[j] = a + (j - k) * DX`. -/
theorem initGridAxis_levels (grax : real.GridAxis) (S0 rate divyield vol T nStdDevs
    alignment : ℝ) (n : Nat) (g : real.GridAxis)
    (hg : g = real.PdeBase.initGridAxis grax S0 rate divyield vol T nStdDevs alignment n)
    (b : ℝ × ℝ)
    (hb : b = grax.coordinateChange.bounds (grax.coordinateChange.fromRealToDiffused S0)
      (grax.coordinateChange.forwardAndVariance (S0 * Real.exp ((rate - divyield) * T))
        vol T).1
      (grax.coordinateChange.forwardAndVariance (S0 * Real.exp ((rate - divyield) * T))
        vol T).2 T nStdDevs)
    (k : Int)
    (hk : k = real.toInt (0.5 + (grax.coordinateChange.fromRealToDiffused alignment - b.1)
      / ((b.2 - b.1) / (((n + 1 : Nat)) : ℝ)))) :
    ∀ j, j ≤ n + 1 → real.rd g.Xlevels j
      = grax.coordinateChange.fromRealToDiffused alignment + ((j : ℝ) - (k : ℝ)) * g.DX := by
  obtain ⟨_, _, _, hXmin, _, _, _, hlev, _⟩ :=
    initGridAxis_spec grax S0 rate divyield vol T nStdDevs alignment n g hg b hb k hk
  intro j hj
  rw [(hlev j hj).1, hXmin]
  ring

/-- When the spacing is positive and the diffused alignment value lies between the bounds
returned by the coordinate change, the node `X0NodeIdx` is one of `0 .. NX + 1` and its
level is the alignment value. -/
theorem initGridAxis_aligned (grax : real.GridAxis) (S0 rate divyield vol T nStdDevs
    alignment : ℝ) (n : Nat) (g : real.GridAxis)
    (hg : g = real.PdeBase.initGridAxis grax S0 rate divyield vol T nStdDevs alignment n)
    (b : ℝ × ℝ)
    (hb : b = grax.coordinateChange.bounds (grax.coordinateChange.fromRealToDiffused S0)
      (grax.coordinateChange.forwardAndVariance (S0 * Real.exp ((rate - divyield) * T))
        vol T).1
      (grax.coordinateChange.forwardAndVariance (S0 * Real.exp ((rate - divyield) * T))
        vol T).2 T nStdDevs)
    (hlt : b.1 < b.2)
    (h1 : b.1 ≤ grax.coordinateChange.fromRealToDiffused alignment)
    (h2 : grax.coordinateChange.fromRealToDiffused alignment ≤ b.2) :
    ∃ j, j ≤ n + 1 ∧
      (j : Int) = real.toInt (0.5 + (grax.coordinateChange.fromRealToDiffused alignment - b.1)
        / ((b.2 - b.1) / (((n + 1 : Nat)) : ℝ))) ∧
      real.rd g.Xlevels j = grax.coordinateChange.fromRealToDiffused alignment := by
  have hlev := initGridAxis_levels grax S0 rate divyield vol T nStdDevs alignment n g hg b hb
    _ rfl
  generalize grax.coordinateChange.fromRealToDiffused alignment = a at *
  have hn : (0 : ℝ) < (((n + 1 : Nat)) : ℝ) := by positivity
  have hDX : 0 < (b.2 - b.1) / (((n + 1 : Nat)) : ℝ) := div_pos (by linarith) hn
  generalize hD : (b.2 - b.1) / (((n + 1 : Nat)) : ℝ) = D at *
  have hspan : (((n + 1 : Nat)) : ℝ) * D = b.2 - b.1 := by
    rw [← hD]; field_simp
  have ht0 : 0 ≤ (a - b.1) / D := div_nonneg (by linarith) (le_of_lt hDX)
  have ht1 : (a - b.1) / D ≤ (((n + 1 : Nat)) : ℝ) := by
    rw [div_le_iff₀ hDX]; linarith
  have hx0 : (0 : ℝ) ≤ 0.5 + (a - b.1) / D := by
    have : (0 : ℝ) ≤ 0.5 := by norm_num
    linarith
  have hk : real.toInt (0.5 + (a - b.1) / D) = ⌊0.5 + (a - b.1) / D⌋ := by
    unfold real.toInt
    rw [if_pos hx0]
  have hk0 : 0 ≤ ⌊0.5 + (a - b.1) / D⌋ := Int.floor_nonneg.mpr hx0
  have hk1 : ⌊0.5 + (a - b.1) / D⌋ < ((n + 1 : Nat) : Int) + 1 := by
    rw [Int.floor_lt]
    push_cast
    have : (0.5 : ℝ) < 1 := by norm_num
    push_cast at ht1
    linarith
  obtain ⟨j, hj⟩ := Int.eq_ofNat_of_zero_le hk0
  have hjn : j ≤ n + 1 := by
    rw [hj] at hk1
    omega
  refine ⟨j, hjn, by rw [hk, hj], ?_⟩
  rw [hlev j hjn, hk, hj]
  simp

/-- When the diffused alignment value lies at least half a spacing above the upper bound
returned by the coordinate change, `X0NodeIdx` exceeds `NX + 1` and every level of the
aligned axis is strictly below the alignment value. -/
theorem initGridAxis_above (grax : real.GridAxis) (S0 rate divyield vol T nStdDevs
    alignment : ℝ) (n : Nat) (g : real.GridAxis)
    (hg : g = real.PdeBase.initGridAxis grax S0 rate divyield vol T nStdDevs alignment n)
    (b : ℝ × ℝ)
    (hb : b = grax.coordinateChange.bounds (grax.coordinateChange.fromRealToDiffused S0)
      (grax.coordinateChange.forwardAndVariance (S0 * Real.exp ((rate - divyield) * T))
        vol T).1
      (grax.coordinateChange.forwardAndVariance (S0 * Real.exp ((rate - divyield) * T))
        vol T).2 T nStdDevs)
    (hlt : b.1 < b.2)
    (hfar : b.2 + (b.2 - b.1) / (((n + 1 : Nat)) : ℝ) / 2
      ≤ grax.coordinateChange.fromRealToDiffused alignment) :
    ∀ j, j ≤ n + 1 →
      real.rd g.Xlevels j < grax.coordinateChange.fromRealToDiffused alignment := by
  have hlev := initGridAxis_levels grax S0 rate divyield vol T nStdDevs alignment n g hg b hb
    _ rfl
  obtain ⟨_, _, hDX, _⟩ :=
    initGridAxis_spec grax S0 rate divyield vol T nStdDevs alignment n g hg b hb _ rfl
  generalize grax.coordinateChange.fromRealToDiffused alignment = a at *
  have hn : (0 : ℝ) < (((n + 1 : Nat)) : ℝ) := by positivity
  have hD0 : 0 < (b.2 - b.1) / (((n + 1 : Nat)) : ℝ) := div_pos (by linarith) hn
  generalize hD : (b.2 - b.1) / (((n + 1 : Nat)) : ℝ) = D at *
  have hspan : (((n + 1 : Nat)) : ℝ) * D = b.2 - b.1 := by
    rw [← hD]; field_simp
  have ht : (((n + 1 : Nat)) : ℝ) + 0.5 ≤ (a - b.1) / D := by
    rw [le_div_iff₀ hD0]
    have : ((((n + 1 : Nat)) : ℝ) + 0.5) * D = b.2 - b.1 + D / 2 := by
      rw [add_mul, hspan]; norm_num; ring
    linarith
  have hx : (((n + 1 : Nat) : Int) + 1 : ℝ) ≤ 0.5 + (a - b.1) / D := by
    have : (0.5 : ℝ) + 0.5 = 1 := by norm_num
    push_cast at ht ⊢
    linarith
  have hx0 : (0 : ℝ) ≤ 0.5 + (a - b.1) / D := by
    have : (0 : ℝ) ≤ (((n + 1 : Nat) : Int) + 1 : ℝ) := by positivity
    linarith
  have hk : ((n + 1 : Nat) : Int) + 1 ≤ real.toInt (0.5 + (a - b.1) / D) := by
    unfold real.toInt
    rw [if_pos hx0, Int.le_floor]
    push_cast at hx ⊢
    exact hx
  intro j hj
  rw [hlev j hj, hDX]
  have hkR : (((n + 1 : Nat)) : ℝ) + 1 ≤ ((real.toInt (0.5 + (a - b.1) / D) : Int) : ℝ) := by
    exact_mod_cast hk
  have hjR : (j : ℝ) ≤ (((n + 1 : Nat)) : ℝ) := by exact_mod_cast hj
  nlinarith


/-- The function `solveTridiagonal` reads the bands and the right-hand side at the rows
`1..n` only: two inputs that agree there give the same scratch arrays and solution. -/
theorem solveTridiagonal_congr (st : Scratch) (x l d u y l2 d2 u2 y2 : Vector) (n : Nat)
    (hd : d.length = n + 2) (hd2 : d2.length = n + 2)
    (hl : ∀ i, 1 ≤ i → i ≤ n → rd l2 i = rd l i)
    (hdd : ∀ i, 1 ≤ i → i ≤ n → rd d2 i = rd d i)
    (hu : ∀ i, 1 ≤ i → i ≤ n → rd u2 i = rd u i)
    (hy : ∀ i, 1 ≤ i → i ≤ n → rd y2 i = rd y i) (hn : 1 ≤ n) :
    solveTridiagonal st x l2 d2 u2 y2 = solveTridiagonal st x l d u y := by
  unfold solveTridiagonal
  simp only [hd, hd2, Nat.add_sub_cancel]
  rw [hdd n hn le_rfl, hy n hn le_rfl]
  have he : ∀ s : Scratch,
      (forDown (n - 1) 1).foldl (eliminateAt l2 d2 u2 y2) s
        = (forDown (n - 1) 1).foldl (eliminateAt l d u y) s := by
    intro s
    apply List.foldl_ext
    intro a i hi
    have hi2 : 1 ≤ i ∧ i ≤ n - 1 := by
      unfold forDown at hi
      rw [List.mem_reverse, mem_forUp] at hi
      exact hi
    unfold eliminateAt
    rw [hdd i hi2.1 (by omega), hu i hi2.1 (by omega), hl (i + 1) (by omega) (by omega),
      hy i hi2.1 (by omega)]
  rw [he]
  have hs : ∀ (s : Scratch) (x1 : Vector),
      (forUp 2 n).foldl (substituteAt l2 s) x1 = (forUp 2 n).foldl (substituteAt l s) x1 := by
    intro s x1
    apply List.foldl_ext
    intro a i hi
    rw [mem_forUp] at hi
    unfold substituteAt
    rw [hl i (by omega) hi.2]
  rw [hs]

/-- The inner loop of `updateGrid` keeps the levels, the spacing and the coordinate change
of the axis, and writes the three coefficient buffers independently. -/
theorem foldl_updateGridAt_coeffs (theta DT a v : ℚ) (l : List Nat) (hl : ∀ j ∈ l, 1 ≤ j) :
    ∀ g : GridAxis,
      (l.foldl (PdeBase.updateGridAt theta DT a v) g).Slevels = g.Slevels ∧
      (l.foldl (PdeBase.updateGridAt theta DT a v) g).coordinateChange = g.coordinateChange ∧
      (l.foldl (PdeBase.updateGridAt theta DT a v) g).drifts
        = (l.map (fun j => j - 1)).foldl (fun r i => wr r i
            (g.coordinateChange.driftAndVariance (rd g.Slevels (i + 1))
              (rd g.Slevels (i + 1) * a) theta DT v a g.DX).1) g.drifts ∧
      (l.foldl (PdeBase.updateGridAt theta DT a v) g).variances
        = (l.map (fun j => j - 1)).foldl (fun r i => wr r i
            (g.coordinateChange.driftAndVariance (rd g.Slevels (i + 1))
              (rd g.Slevels (i + 1) * a) theta DT v a g.DX).2.1) g.variances := by
  induction l with
  | nil => intro g; exact ⟨rfl, rfl, rfl, rfl⟩
  | cons j t ih =>
    intro g
    have hj : 1 ≤ j := hl j (List.mem_cons_self j t)
    have hj1 : j - 1 + 1 = j := by omega
    obtain ⟨h1, h2, h3, h4⟩ := ih (fun k hk => hl k (List.mem_cons_of_mem j hk))
      (PdeBase.updateGridAt theta DT a v g j)
    simp only [List.foldl_cons, List.map_cons]
    rw [h1, h2, h3, h4]
    refine ⟨rfl, rfl, ?_, ?_⟩
    · simp only [PdeBase.updateGridAt, hj1]
    · simp only [PdeBase.updateGridAt, hj1]

/-- The coefficients left by `updateGrid`: entry `j - 1` of the drift and variance buffers is
computed from node `j`, for `1 ≤ j ≤ nSpotNodes[0]`. -/
theorem updateGrid_coeffs (b : PdeBase) (params : PdeParams) (fwdFactors fvols : Matrix)
    (stepIdx : Nat) (j : Nat) (h1 : 1 ≤ j) (h2 : j ≤ params.nSpotNodes.getD 0 0)
    (hdr : j ≤ b.solver1D.grax.drifts.length) (hvar : j ≤ b.solver1D.grax.variances.length) :
    rd (b.updateGrid params fwdFactors fvols stepIdx).solver1D.grax.drifts (j - 1)
      = (b.solver1D.grax.coordinateChange.driftAndVariance (rd b.solver1D.grax.Slevels j)
          (rd b.solver1D.grax.Slevels j * fwdFactors.at stepIdx 0) b.solver1D.theta_
          (rd b.timesteps_ (stepIdx + 1) - rd b.timesteps_ stepIdx) (fvols.at stepIdx 0)
          (fwdFactors.at stepIdx 0) b.solver1D.grax.DX).1 ∧
    rd (b.updateGrid params fwdFactors fvols stepIdx).solver1D.grax.variances (j - 1)
      = (b.solver1D.grax.coordinateChange.driftAndVariance (rd b.solver1D.grax.Slevels j)
          (rd b.solver1D.grax.Slevels j * fwdFactors.at stepIdx 0) b.solver1D.theta_
          (rd b.timesteps_ (stepIdx + 1) - rd b.timesteps_ stepIdx) (fvols.at stepIdx 0)
          (fwdFactors.at stepIdx 0) b.solver1D.grax.DX).2.1 := by
  obtain ⟨_, _, h3, h4⟩ := foldl_updateGridAt_coeffs b.solver1D.theta_
    (rd b.timesteps_ (stepIdx + 1) - rd b.timesteps_ stepIdx) (fwdFactors.at stepIdx 0)
    (fvols.at stepIdx 0) (forUp 1 (params.nSpotNodes.getD 0 0))
    (fun k hk => ((mem_forUp _ _ _).mp hk).1) b.solver1D.grax
  have hmem : j - 1 ∈ (forUp 1 (params.nSpotNodes.getD 0 0)).map (fun j => j - 1) :=
    List.mem_map.mpr ⟨j, (mem_forUp _ _ _).mpr ⟨h1, h2⟩, rfl⟩
  have hj1 : j - 1 + 1 = j := by omega
  unfold PdeBase.updateGrid
  simp only []
  rw [h3, h4, rd_foldl_wr, rd_foldl_wr, if_pos ⟨hmem, by omega⟩, if_pos ⟨hmem, by omega⟩, hj1]
  exact ⟨rfl, rfl⟩


/-- The alignment offset of `initGrid` when the diffused alignment value is not more than
half a spacing below the lower bound: `X0NodeIdx` is the nearest node index and the offset
`closestX - alignValue` is at most `DX / 2` in absolute value. -/
theorem alignment_offset_le (Xmin D a : ℝ) (hD : 0 < D) (ha : Xmin - D / 2 ≤ a) :
    |Xmin + ((real.toInt (0.5 + (a - Xmin) / D) : Int) : ℝ) * D - a| ≤ D / 2 := by
  have hx0 : (0 : ℝ) ≤ 0.5 + (a - Xmin) / D := by
    have h1 : -(1 / 2 : ℝ) ≤ (a - Xmin) / D := by
      rw [le_div_iff₀ hD]; linarith
    norm_num at h1 ⊢
    linarith
  unfold real.toInt
  rw [if_pos hx0]
  have h1 := Int.floor_le (0.5 + (a - Xmin) / D)
  have h2 := Int.lt_floor_add_one (0.5 + (a - Xmin) / D)
  have hmul : (a - Xmin) / D * D = a - Xmin := by field_simp
  rw [abs_le]
  constructor
  · have : ((⌊0.5 + (a - Xmin) / D⌋ : Int) : ℝ) * D ≥ (0.5 + (a - Xmin) / D - 1) * D :=
      mul_le_mul_of_nonneg_right (by linarith) (le_of_lt hD)
    have e : (0.5 + (a - Xmin) / D - 1) * D = (a - Xmin) - D / 2 := by
      rw [sub_mul, add_mul, hmul]; norm_num; ring
    linarith
  · have : ((⌊0.5 + (a - Xmin) / D⌋ : Int) : ℝ) * D ≤ (0.5 + (a - Xmin) / D) * D :=
      mul_le_mul_of_nonneg_right h1 (le_of_lt hD)
    have e : (0.5 + (a - Xmin) / D) * D = (a - Xmin) + D / 2 := by
      rw [add_mul, hmul]; norm_num; ring
    linarith


/-- The loop over the nodes of `evalProduct` after `m` passes, for a product whose `eval`
does not throw at the event index and whose payment times reach the fixing time: only the
payment amounts of the product and the first `m` entries of layer 0 have changed. -/
theorem evalProduct_nodes (b : PdeBase) (k : Nat) (fixtime : ℚ)
    (hev : ∀ pa spots c, ∃ pa2, b.spprod_.evalIdx pa k spots c = .ok pa2)
    (hpay : PdeBase.findPayIndex fixtime b.spprod_.payTimes_ ≠ none)
    (hcols : 0 < b.solver1D.prevValues.cols.length) :
    ∀ m, ∃ bm,
      (List.range m).foldl
          (fun acc node => andThen acc fun b1 => PdeBase.evalProductNode k fixtime b1 node)
          (.ok (), b) = (.ok (), bm) ∧
      bm.timesteps_ = b.timesteps_ ∧ bm.stepindex_ = b.stepindex_ ∧
      bm.spdiscyc_ = b.spdiscyc_ ∧ bm.storeAllResults_ = b.storeAllResults_ ∧
      bm.results_ = b.results_ ∧
      bm.spprod_.evalIdx = b.spprod_.evalIdx ∧ bm.spprod_.payTimes_ = b.spprod_.payTimes_ ∧
      bm.spprod_.fixTimes_ = b.spprod_.fixTimes_ ∧
      bm.spprod_.payAmounts_ = b.payAmountsAfterNodes k m ∧
      { bm.solver1D with prevValues := b.solver1D.prevValues } = b.solver1D ∧
      bm.solver1D.prevValues.n_rows = b.solver1D.prevValues.n_rows ∧
      bm.solver1D.prevValues.cols.length = b.solver1D.prevValues.cols.length ∧
      (∀ j, 1 ≤ j → bm.solver1D.prevValues.col j = b.solver1D.prevValues.col j) ∧
      bm.solver1D.prevValues.col 0
        = (List.range m).foldl
            (fun c node => wr c node (rd (b.payAmountsAfterNodes k (node + 1)) k))
            (b.solver1D.prevValues.col 0) := by
  intro m
  induction m with
  | zero =>
    exact ⟨b, rfl, rfl, rfl, rfl, rfl, rfl, rfl, rfl, rfl, rfl, rfl, rfl, rfl, fun _ _ => rfl,
      rfl⟩
  | succ m ih =>
    obtain ⟨bm, hfold, h1, h2, h3, h4, h5, h6, h7, h8, h9, h10, h11, h12, h13, h14⟩ := ih
    have hgrax : bm.solver1D.grax = b.solver1D.grax := by
      have := congrArg Pde1DSolver.grax h10
      exact this
    have hval : bm.solver1D.prevValues.at m 0 = b.solver1D.prevValues.at m 0 := by
      unfold Matrix.at
      rw [h14, rd_foldl_wr (fun node => rd (b.payAmountsAfterNodes k (node + 1)) k),
        if_neg (by simp)]
    obtain ⟨pa2, hpa⟩ := hev (b.payAmountsAfterNodes k m)
      (wr [0] 0 (rd b.solver1D.grax.Slevels m)) (b.solver1D.prevValues.at m 0)
    have hnext : b.payAmountsAfterNodes k (m + 1) = pa2 := by
      show (match b.spprod_.evalIdx (b.payAmountsAfterNodes k m) k
          (wr [0] 0 (rd b.solver1D.grax.Slevels m)) (b.solver1D.prevValues.at m 0) with
        | .ok pa => pa
        | .error _ => b.payAmountsAfterNodes k m) = pa2
      rw [hpa]
    obtain ⟨idx, hidx⟩ := Option.ne_none_iff_exists'.mp hpay
    have hnode : PdeBase.evalProductNode k fixtime bm m
        = (.ok (), { bm with
            spprod_ := { bm.spprod_ with payAmounts_ := pa2 }
            solver1D := { bm.solver1D with
              prevValues := bm.solver1D.prevValues.setAt m 0 (rd pa2 k) } }) := by
      unfold PdeBase.evalProductNode Product.eval
      simp only [hgrax, hval, h6, h9, hpa, h7, hidx]
    refine ⟨{ bm with
        spprod_ := { bm.spprod_ with payAmounts_ := pa2 }
        solver1D := { bm.solver1D with
          prevValues := bm.solver1D.prevValues.setAt m 0 (rd pa2 k) } },
      ?_, h1, h2, h3, h4, h5, h6, h7, h8, ?_, ?_, ?_, ?_, ?_, ?_⟩
    · rw [List.range_succ, List.foldl_append, hfold]
      simp only [List.foldl_cons, List.foldl_nil, andThen_ok]
      exact hnode
    · exact hnext.symm
    · simpa using h10
    · simpa [Matrix.setAt, Matrix.setCol] using h11
    · simpa [Matrix.setAt, Matrix.setCol] using h12
    · intro j hj
      rw [← h13 j hj]
      simp only [Matrix.setAt]
      rw [col_setCol, if_neg (by omega)]
    · simp only [Matrix.setAt]
      rw [col_setCol, if_pos ⟨rfl, by rw [h12]; exact hcols⟩, List.range_succ,
        List.foldl_append, ← h14]
      simp only [List.foldl_cons, List.foldl_nil, hnext]


theorem forUp_zero (n : Nat) : forUp 0 n = List.range (n + 1) := by
  unfold forUp
  rw [List.range_eq_range']
  rfl

/-- A step with a contract event `k`, for a product whose `eval` does not throw at index `k`
and whose payment times reach the fixing time: `evalProduct` completes, every node
`0..NX+1` of layer 0 holds `payAmounts[k]` as left by the call of `eval` at that node, and
everything else in the solver is as before. -/
theorem evalProduct_event (b : PdeBase) (stepIdx k : Nat)
    (hk : b.stepindex_.getD stepIdx 0 = (k : Int))
    (hev : ∀ pa spots c, ∃ pa2, b.spprod_.evalIdx pa k spots c = .ok pa2)
    (hpay : PdeBase.findPayIndex (rd b.spprod_.fixTimes_ k) b.spprod_.payTimes_ ≠ none)
    (hcol : b.solver1D.grax.NX + 2 ≤ (b.solver1D.prevValues.col 0).length) :
    (b.evalProduct stepIdx).1 = .ok () ∧
    (∀ node, node ≤ b.solver1D.grax.NX + 1 →
      (b.evalProduct stepIdx).2.solver1D.prevValues.at node 0
        = rd (b.payAmountsAfterNodes k (node + 1)) k) ∧
    (∀ node, b.solver1D.grax.NX + 1 < node →
      (b.evalProduct stepIdx).2.solver1D.prevValues.at node 0
        = b.solver1D.prevValues.at node 0) ∧
    (∀ j, 1 ≤ j →
      (b.evalProduct stepIdx).2.solver1D.prevValues.col j = b.solver1D.prevValues.col j) ∧
    { (b.evalProduct stepIdx).2.solver1D with prevValues := b.solver1D.prevValues }
      = b.solver1D ∧
    ((b.evalProduct stepIdx).2.solver1D.prevValues.col 0).length
      = (b.solver1D.prevValues.col 0).length ∧
    (b.evalProduct stepIdx).2.solver1D.prevValues.n_rows = b.solver1D.prevValues.n_rows ∧
    (b.evalProduct stepIdx).2.timesteps_ = b.timesteps_ ∧
    (b.evalProduct stepIdx).2.stepindex_ = b.stepindex_ ∧
    (b.evalProduct stepIdx).2.spdiscyc_ = b.spdiscyc_ ∧
    (b.evalProduct stepIdx).2.spprod_.payAmounts_
      = b.payAmountsAfterNodes k (b.solver1D.grax.NX + 2) := by
  have hcols : 0 < b.solver1D.prevValues.cols.length := by
    by_contra hc
    have h0 : b.solver1D.prevValues.col 0 = [] := by
      unfold Matrix.col
      rw [List.getD_eq_getElem?_getD, List.getElem?_eq_none (Nat.le_of_not_lt hc)]
      rfl
    rw [h0] at hcol
    simp at hcol
  obtain ⟨bm, hfold, h1, h2, h3, h4, h5, h6, h7, h8, h9, h10, h11, h12, h13, h14⟩ :=
    evalProduct_nodes b k (rd b.spprod_.fixTimes_ k) hev hpay hcols (b.solver1D.grax.NX + 2)
  have hge : b.stepindex_.getD stepIdx 0 ≥ 0 := by rw [hk]; exact Int.natCast_nonneg k
  have htn : (b.stepindex_.getD stepIdx 0).toNat = k := by rw [hk]; rfl
  have hrd : ∀ node, rd (bm.solver1D.prevValues.col 0) node
      = if node ≤ b.solver1D.grax.NX + 1 then rd (b.payAmountsAfterNodes k (node + 1)) k
        else rd (b.solver1D.prevValues.col 0) node := by
    intro node
    rw [h14, rd_foldl_wr (fun node => rd (b.payAmountsAfterNodes k (node + 1)) k)]
    by_cases hn : node ≤ b.solver1D.grax.NX + 1
    · rw [if_pos ⟨by rw [List.mem_range]; omega, by omega⟩, if_pos hn]
    · rw [if_neg (fun h => hn (by have := List.mem_range.mp h.1; omega)), if_neg hn]
  have hlen : (bm.solver1D.prevValues.col 0).length = (b.solver1D.prevValues.col 0).length := by
    rw [h14, length_foldl_wr (fun node => rd (b.payAmountsAfterNodes k (node + 1)) k)]
  have hres : b.evalProduct stepIdx
      = if bm.storeAllResults_ then
          (.ok (), { bm with
            results_ := { times := wr bm.results_.times stepIdx (rd bm.timesteps_ stepIdx)
                          values := bm.results_.values.set stepIdx bm.solver1D.prevValues } })
        else
          (.ok (), { bm with
            results_ := { bm.results_ with
              times := wr bm.results_.times stepIdx (rd bm.timesteps_ stepIdx) } }) := by
    unfold PdeBase.evalProduct
    simp only [hge, if_true, htn, forUp_zero, hfold, andThen_ok]
  have key : (b.evalProduct stepIdx).1 = .ok () ∧
      (b.evalProduct stepIdx).2.solver1D = bm.solver1D ∧
      (b.evalProduct stepIdx).2.timesteps_ = bm.timesteps_ ∧
      (b.evalProduct stepIdx).2.stepindex_ = bm.stepindex_ ∧
      (b.evalProduct stepIdx).2.spdiscyc_ = bm.spdiscyc_ ∧
      (b.evalProduct stepIdx).2.spprod_ = bm.spprod_ := by
    rw [hres]
    split_ifs <;> exact ⟨rfl, rfl, rfl, rfl, rfl, rfl⟩
  obtain ⟨k1, k2, k3, k4, k5, k6⟩ := key
  rw [k2, k3, k4, k5, k6]
  refine ⟨k1, ?_, ?_, h13, h10, hlen, h11, h1, h2, h3, h9⟩
  · intro node hn
    unfold Matrix.at
    rw [hrd node, if_pos hn]
  · intro node hn
    unfold Matrix.at
    rw [hrd node, if_neg (by omega)]


/-- What `AmericanCallPut::eval` does at an index inside `payAmounts_`: it returns, keeps
the size, stores the payoff at the last index and the larger of the continuation value and
the intrinsic value at the others, where it also clears the later amounts. -/
theorem AmericanCallPut_eval_spec (payoffType : Int) (strike : ℚ) (payAmounts : Vector)
    (idx : Nat) (spots : Vector) (c : ℚ) (h : idx < payAmounts.length) :
    ∃ pa, AmericanCallPut.eval payoffType strike payAmounts idx spots c = .ok pa ∧
      pa.length = payAmounts.length ∧
      rd pa idx = (if idx + 1 = payAmounts.length
        then max ((payoffType : ℚ) * (rd spots 0 - strike)) 0
        else max c (max ((payoffType : ℚ) * (rd spots 0 - strike)) 0)) ∧
      (idx + 1 ≠ payAmounts.length →
        ∀ j, idx < j → j < payAmounts.length → rd pa j = 0) := by
  unfold AmericanCallPut.eval
  by_cases hl : idx = payAmounts.length - 1
  · have hl2 : idx + 1 = payAmounts.length := by omega
    simp only [if_pos hl, if_pos hl2]
    refine ⟨_, rfl, length_wr _ _ _, ?_, fun hne => absurd hl2 hne⟩
    rw [rd_wr_same _ _ _ (by omega), mul_comm]
    by_cases hp : (payoffType : ℚ) * (rd spots 0 - strike) > 0
    · rw [if_pos hp, max_eq_left (le_of_lt hp)]
    · rw [if_neg hp, max_eq_right (not_lt.mp hp)]
  · have hl2 : idx + 1 ≠ payAmounts.length := by omega
    simp only [if_neg hl, if_neg hl2]
    refine ⟨_, rfl, ?_, ?_, ?_⟩
    · rw [length_foldl_wr (fun _ => (0 : ℚ)), length_wr]
    · rw [rd_foldl_wr (fun _ => (0 : ℚ)),
        if_neg (fun hm => by have := (mem_forUp _ _ _).mp hm.1; omega),
        rd_wr_same _ _ _ h, mul_comm]
      by_cases hp : (payoffType : ℚ) * (rd spots 0 - strike) ≥ 0
      · simp only [if_pos hp, max_eq_left hp]
        by_cases hc : c ≥ (payoffType : ℚ) * (rd spots 0 - strike)
        · rw [if_pos hc, max_eq_left hc]
        · rw [if_neg hc, max_eq_right (le_of_lt (not_le.mp hc))]
      · simp only [if_neg hp, max_eq_right (le_of_lt (not_le.mp hp))]
        by_cases hc : c ≥ 0
        · rw [if_pos hc, max_eq_left hc]
        · rw [if_neg hc, max_eq_right (le_of_lt (not_le.mp hc))]
    · intro _ j hj1 hj2
      rw [rd_foldl_wr (fun _ => (0 : ℚ)),
        if_pos ⟨(mem_forUp _ _ _).mpr ⟨by omega, by omega⟩, by rw [length_wr]; exact hj2⟩]

/-- What `EuropeanCallPut::eval` does at the index `0` for a call or a put: it returns,
keeps the size and stores the payoff. -/
theorem EuropeanCallPut_eval_spec (payoffType : Int) (strike : ℚ) (payAmounts : Vector)
    (spots : Vector) (c : ℚ) (h : 0 < payAmounts.length)
    (hpt : payoffType = 1 ∨ payoffType = -1) :
    ∃ pa, EuropeanCallPut.eval payoffType strike payAmounts 0 spots c = .ok pa ∧
      pa.length = payAmounts.length ∧
      rd pa 0 = max ((payoffType : ℚ) * (rd spots 0 - strike)) 0 := by
  unfold EuropeanCallPut.eval
  simp only [not_true_eq_false, if_false]
  rcases hpt with rfl | rfl
  · simp only [if_true]
    refine ⟨_, rfl, length_wr _ _ _, ?_⟩
    rw [rd_wr_same _ _ _ h]
    by_cases hs : rd spots 0 ≥ strike
    · rw [if_pos hs, max_eq_left (by push_cast; linarith)]
      push_cast; ring
    · rw [if_neg hs, max_eq_right (by push_cast; linarith)]
  · simp only [show ¬ ((-1 : Int) = 1) by decide, if_false]
    refine ⟨_, rfl, length_wr _ _ _, ?_⟩
    rw [rd_wr_same _ _ _ h]
    by_cases hs : rd spots 0 ≥ strike
    · rw [if_pos hs, max_eq_right (by push_cast; linarith)]
    · rw [if_neg hs, max_eq_left (by push_cast; linarith)]
      push_cast; ring

/-- The payment amounts keep their size along the node loop of `evalProduct` when `eval`
keeps it. -/
theorem length_payAmountsAfterNodes (b : PdeBase) (k : Nat)
    (hlen : ∀ pa spots c pa2, b.spprod_.evalIdx pa k spots c = .ok pa2 →
      pa2.length = pa.length) (m : Nat) :
    (b.payAmountsAfterNodes k m).length = b.spprod_.payAmounts_.length := by
  induction m with
  | zero => rfl
  | succ m ih =>
    show (match b.spprod_.evalIdx (b.payAmountsAfterNodes k m) k
            (wr [0] 0 (rd b.solver1D.grax.Slevels m)) (b.solver1D.prevValues.at m 0) with
          | .ok pa => pa
          | .error _ => b.payAmountsAfterNodes k m).length = _
    cases he : b.spprod_.evalIdx (b.payAmountsAfterNodes k m) k
        (wr [0] 0 (rd b.solver1D.grax.Slevels m)) (b.solver1D.prevValues.at m 0) with
    | ok pa => exact (hlen _ _ _ _ he).trans ih
    | error e => exact ih


theorem rd_reverse (l : Vector) (i : Nat) (h : i < l.length) :
    rd l.reverse i = rd l (l.length - 1 - i) := by
  unfold rd
  rw [List.getD_eq_getElem?_getD, List.getD_eq_getElem?_getD, List.getElem?_reverse h]

theorem reverse_wr_reverse (l : Vector) (i : Nat) (a : ℚ) (h : i < l.length) :
    (wr l.reverse i a).reverse = wr l (l.length - 1 - i) a := by
  unfold wr
  apply List.ext_getElem?
  intro j
  by_cases hj : j < l.length
  · rw [List.getElem?_reverse (by simpa using hj), List.getElem?_set, List.getElem?_set,
      List.length_set, List.length_reverse]
    by_cases hij : l.length - 1 - i = j
    · rw [if_pos hij, if_pos (by omega)]
      rw [if_pos (by omega), if_pos (by omega)]
    · rw [if_neg hij, if_neg (by omega), List.getElem?_reverse (by omega)]
      congr 1
      omega
  · rw [List.getElem?_eq_none (by simpa using Nat.le_of_not_lt hj),
      List.getElem?_eq_none (by simpa using Nat.le_of_not_lt hj)]

theorem mirror_mirror (op : TridiagonalOp1D) : op.mirror.mirror = op := by
  cases op
  simp [TridiagonalOp1D.mirror]


theorem cols_length_setAt (m : Matrix) (i j : Nat) (a : ℚ) :
    (m.setAt i j a).cols.length = m.cols.length := by
  simp [Matrix.setAt, Matrix.setCol]

theorem col_setAt (m : Matrix) (i j k : Nat) (a : ℚ) :
    (m.setAt i j a).col k = if j = k then wr (m.col k) i a else m.col k := by
  unfold Matrix.setAt
  rw [col_setCol]
  by_cases h : j = k
  · subst h
    by_cases h2 : j < m.cols.length
    · simp [h2]
    · have hc : m.col j = [] := by
        unfold Matrix.col
        rw [List.getD_eq_getElem?_getD, List.getElem?_eq_none (Nat.le_of_not_lt h2)]
        rfl
      simp [h2, hc, wr]
  · simp [h]

theorem at_setAt (m : Matrix) (i j i2 j2 : Nat) (a : ℚ) :
    (m.setAt i j a).at i2 j2
      = if j = j2 ∧ i = i2 ∧ i < (m.col j).length then a else m.at i2 j2 := by
  unfold Matrix.at
  rw [col_setAt]
  by_cases h : j = j2
  · subst h
    rw [if_pos rfl, rd_wr]
    by_cases h2 : i = i2 ∧ i < (m.col j).length
    · rw [if_pos h2, if_pos ⟨rfl, h2⟩]
    · rw [if_neg h2, if_neg (fun hh => h2 hh.2)]
  · rw [if_neg h, if_neg (fun hh => h hh.1)]

theorem col_zeros (r c j : Nat) (h : j < c) : (Matrix.zeros r c).col j = List.replicate r 0 := by
  unfold Matrix.zeros Matrix.col
  rw [List.getD_eq_getElem?_getD, List.getElem?_replicate, if_pos h]
  rfl

/-- The loop `c_(0, j) = *(yFirst + j)` of the constructor of `PiecewisePolynomial`. -/
theorem foldl_setAt_zero (f : Nat → ℚ) (l : List Nat) (c : Matrix) :
    (l.foldl (fun c (j : Nat) => c.setAt 0 j (f j)) c).n_rows = c.n_rows ∧
    (∀ j, ((l.foldl (fun c (j : Nat) => c.setAt 0 j (f j)) c).col j).length
      = (c.col j).length) ∧
    ∀ j, (l.foldl (fun c (j : Nat) => c.setAt 0 j (f j)) c).at 0 j
      = if j ∈ l ∧ 0 < (c.col j).length then f j else c.at 0 j := by
  induction l generalizing c with
  | nil => simp
  | cons a t ih =>
    obtain ⟨h1, h2, h3⟩ := ih (c.setAt 0 a (f a))
    have hlen : ∀ j, ((c.setAt 0 a (f a)).col j).length = (c.col j).length := by
      intro j
      rw [col_setAt]
      split_ifs
      · rw [length_wr]
      · rfl
    rw [List.foldl_cons]
    refine ⟨h1, fun j => (h2 j).trans (hlen j), fun j => ?_⟩
    rw [h3 j, hlen j, at_setAt]
    by_cases hja : a = j
    · subst hja
      by_cases hl : 0 < (c.col a).length
      · simp [hl]
      · simp [hl]
    · have hm : j ∈ a :: t ↔ j ∈ t := by
        rw [List.mem_cons]
        exact ⟨fun h => h.resolve_left (fun e => hja e.symm), Or.inr⟩
      simp only [hm, hja, false_and, if_false]

theorem adjacentFindGe_eq_false (xs : Vector)
    (h : ∀ i, i + 1 < xs.length → rd xs i < rd xs (i + 1)) :
    PiecewisePolynomial.adjacentFindGe xs = false := by
  induction xs with
  | nil => rfl
  | cons a t ih =>
    cases t with
    | nil => rfl
    | cons b t2 =>
      have h0 : a < b := h 0 (by simp)
      unfold PiecewisePolynomial.adjacentFindGe
      rw [if_neg (not_le.mpr h0)]
      apply ih
      intro i hi
      exact h (i + 1) (by simpa using hi)

theorem all_pos_of_rd (xs : Vector) (h : ∀ i, i < xs.length → 0 < rd xs i) :
    (xs.all fun x => decide (x > 0)) = true := by
  rw [List.all_eq_true]
  intro x hx
  obtain ⟨i, hi, rfl⟩ := List.mem_iff_getElem.mp hx
  have := h i hi
  rw [rd_eq_getElem _ _ hi] at this
  simpa using this

/-- The constructor of `PiecewisePolynomial` with `order = 0` on strictly increasing
breakpoints: it returns, with the breakpoints and the values as stored. -/
theorem PiecewisePolynomial_new_zero (xs ys : Vector)
    (h : ∀ i, i + 1 < xs.length → rd xs i < rd xs (i + 1)) :
    ∃ p, PiecewisePolynomial.new xs ys 0 = .ok p ∧ p.x_ = xs ∧
      (∀ j, j < xs.length → p.c_.at 0 j = rd ys j) ∧
      (∀ j, xs.length ≤ j → p.c_.at 0 j = 0) ∧
      ∀ j, j < xs.length → (p.c_.col j).length = 1 := by
  obtain ⟨h1, h2, h3⟩ := foldl_setAt_zero (fun j => rd ys j) (List.range xs.length)
    (Matrix.zeros (0 + 1) xs.length)
  have hr : ((List.range xs.length).foldl (fun c (j : Nat) => c.setAt 0 j (rd ys j))
      (Matrix.zeros (0 + 1) xs.length)).n_rows - 1 ≠ 1 := by
    rw [h1]
    show 0 + 1 - 1 ≠ 1
    omega
  refine ⟨⟨xs, (List.range xs.length).foldl (fun c (j : Nat) => c.setAt 0 j (rd ys j))
      (Matrix.zeros (0 + 1) xs.length)⟩, ?_, rfl, ?_, ?_, ?_⟩
  · unfold PiecewisePolynomial.new
    simp only [adjacentFindGe_eq_false xs h, if_neg hr]
    simp
  · intro j hj
    show Matrix.at ((List.range xs.length).foldl (fun c (j : Nat) => c.setAt 0 j (rd ys j))
      (Matrix.zeros (0 + 1) xs.length)) 0 j = _
    rw [h3 j, if_pos ⟨List.mem_range.mpr hj, by rw [col_zeros _ _ _ hj]; simp⟩]
  · intro j hj
    show Matrix.at ((List.range xs.length).foldl (fun c (j : Nat) => c.setAt 0 j (rd ys j))
      (Matrix.zeros (0 + 1) xs.length)) 0 j = _
    rw [h3 j, if_neg (fun hh => by have := List.mem_range.mp hh.1; omega)]
    unfold Matrix.at Matrix.col Matrix.zeros
    rw [List.getD_eq_getElem?_getD, List.getElem?_eq_none (by simpa using hj)]
    rfl
  · intro j hj
    show (Matrix.col ((List.range xs.length).foldl (fun c (j : Nat) => c.setAt 0 j (rd ys j))
      (Matrix.zeros (0 + 1) xs.length)) j).length = 1
    rw [h2 j, col_zeros _ _ _ hj]
    rfl


/-- The loop shared by `initFromSpotVols` (`g V = V * V`) and `initFromSpotRates`
(`g R = R`): after the passes `1..m` over a curve that still holds the inputs at every index
`≥ 1`, an exception has been thrown exactly if some `i` in `1..m` has
`g (vals i) * mats i < g (vals (i - 1)) * mats (i - 1)`; otherwise the locals hold the
values of index `m` and the entries above `m` are untouched. -/
theorem bootstrap_loop (g : ℚ → ℚ)
    (step : PiecewisePolynomial × ℚ × ℚ → Nat → Except String (PiecewisePolynomial × ℚ × ℚ))
    (hok : ∀ st i, g (st.1.coefficient 0 i) * st.1.breakPoint i - st.2.2 * st.2.1 ≥ 0 →
      step st i = .ok ((st.1.setBreakPoint i st.2.1).setCoefficient 0 i
        ((g (st.1.coefficient 0 i) * st.1.breakPoint i - st.2.2 * st.2.1)
          / (st.1.breakPoint i - st.2.1)),
        st.1.breakPoint i, g (st.1.coefficient 0 i)))
    (herr : ∀ st i, ¬ (g (st.1.coefficient 0 i) * st.1.breakPoint i - st.2.2 * st.2.1 ≥ 0) →
      ∃ e, step st i = .error e)
    (mats vals : Vector) (p0 : PiecewisePolynomial)
    (hx : ∀ j, 1 ≤ j → rd p0.x_ j = rd mats j)
    (hc : ∀ j, 1 ≤ j → p0.c_.at 0 j = rd vals j) (m : Nat) :
    ((∃ e, (List.range' 1 m).foldl
        (fun (acc : Except String (PiecewisePolynomial × ℚ × ℚ)) (i : Nat) =>
          acc.bind fun st => step st i)
        (Except.ok (p0, rd mats 0, g (rd vals 0))) = .error e) ↔
      ∃ i, 1 ≤ i ∧ i ≤ m ∧ g (rd vals i) * rd mats i < g (rd vals (i - 1)) * rd mats (i - 1)) ∧
    (∀ st, (List.range' 1 m).foldl
        (fun (acc : Except String (PiecewisePolynomial × ℚ × ℚ)) (i : Nat) =>
          acc.bind fun st => step st i)
        (Except.ok (p0, rd mats 0, g (rd vals 0))) = .ok st →
      st.2.1 = rd mats m ∧ st.2.2 = g (rd vals m) ∧
      ∀ j, m < j → rd st.1.x_ j = rd mats j ∧ st.1.c_.at 0 j = rd vals j) := by
  induction m with
  | zero =>
    refine ⟨⟨fun ⟨e, he⟩ => ?_, fun ⟨i, h1, h2, _⟩ => by omega⟩, ?_⟩
    · simp [List.range'] at he
    · intro st hst
      simp only [List.range', List.foldl_nil] at hst
      injection hst with hst
      subst hst
      exact ⟨rfl, rfl, fun j hj => ⟨hx j hj, hc j hj⟩⟩
  | succ m ih =>
    rw [List.range'_concat, List.foldl_append]
    simp only [List.foldl_cons, List.foldl_nil, Nat.one_mul]
    obtain ⟨ih1, ih2⟩ := ih
    cases hr : (List.range' 1 m).foldl
        (fun (acc : Except String (PiecewisePolynomial × ℚ × ℚ)) (i : Nat) =>
          acc.bind fun st => step st i)
        (Except.ok (p0, rd mats 0, g (rd vals 0))) with
    | error e =>
      rw [hr] at ih1
      obtain ⟨i, h1, h2, h3⟩ := ih1.mp ⟨e, rfl⟩
      refine ⟨⟨fun _ => ⟨i, h1, by omega, h3⟩, fun _ => ⟨e, rfl⟩⟩, ?_⟩
      intro st hst
      exact absurd hst (by simp [Except.bind])
    | ok st =>
      rw [hr] at ih1 ih2
      obtain ⟨s1, s2, s3⟩ := ih2 st rfl
      obtain ⟨sx, sc⟩ := s3 (1 + m) (by omega)
      have hno : ¬ ∃ i, 1 ≤ i ∧ i ≤ m ∧
          g (rd vals i) * rd mats i < g (rd vals (i - 1)) * rd mats (i - 1) := by
        intro h
        obtain ⟨e, he⟩ := ih1.mpr h
        exact absurd he (by simp)
      have hF : g (st.1.coefficient 0 (1 + m)) * st.1.breakPoint (1 + m) - st.2.2 * st.2.1
          = g (rd vals (1 + m)) * rd mats (1 + m) - g (rd vals m) * rd mats m := by
        show g (st.1.c_.at 0 (1 + m)) * rd st.1.x_ (1 + m) - st.2.2 * st.2.1 = _
        rw [sx, sc, s1, s2]
      have hb : (Except.ok st : Except String (PiecewisePolynomial × ℚ × ℚ)).bind
          (fun st => step st (1 + m)) = step st (1 + m) := rfl
      rw [hb]
      by_cases hge : g (rd vals (1 + m)) * rd mats (1 + m) - g (rd vals m) * rd mats m ≥ 0
      · have hs := hok st (1 + m) (by rw [hF]; exact hge)
        rw [hs]
        refine ⟨⟨fun ⟨e, he⟩ => absurd he (by simp), fun ⟨i, h1, h2, h3⟩ => ?_⟩, ?_⟩
        · exfalso
          by_cases him : i ≤ m
          · exact hno ⟨i, h1, him, h3⟩
          · have : i = 1 + m := by omega
            subst this
            rw [show 1 + m - 1 = m by omega] at h3
            linarith
        · intro st2 hst2
          injection hst2 with hst2
          subst hst2
          refine ⟨?_, ?_, fun j hj => ⟨?_, ?_⟩⟩
          · show rd st.1.x_ (1 + m) = rd mats (m + 1)
            rw [sx, Nat.add_comm]
          · show g (st.1.c_.at 0 (1 + m)) = g (rd vals (m + 1))
            rw [sc, Nat.add_comm]
          · show rd (wr st.1.x_ (1 + m) st.2.1) j = _
            rw [rd_wr_ne _ _ _ _ (by omega)]
            exact (s3 j (by omega)).1
          · show Matrix.at (Matrix.setAt st.1.c_ 0 (1 + m) _) 0 j = _
            rw [at_setAt, if_neg (fun hh => by omega)]
            exact (s3 j (by omega)).2
      · obtain ⟨e, he⟩ := herr st (1 + m) (by rw [hF]; exact hge)
        rw [he]
        refine ⟨⟨fun _ => ⟨1 + m, by omega, by omega, ?_⟩, fun _ => ⟨e, rfl⟩⟩, ?_⟩
        · rw [show 1 + m - 1 = m by omega]
          linarith [not_le.mp hge]
        · intro st2 hst2
          exact absurd hst2 (by simp)


/-- A step without a contract event keeps the schedule, the step indices and the curve. -/
theorem evalProduct_no_event_frame (b : PdeBase) (stepIdx : Nat)
    (h : b.stepindex_.getD stepIdx 0 < 0) :
    (b.evalProduct stepIdx).2.timesteps_ = b.timesteps_ ∧
    (b.evalProduct stepIdx).2.stepindex_ = b.stepindex_ ∧
    (b.evalProduct stepIdx).2.spdiscyc_ = b.spdiscyc_ ∧
    (b.evalProduct stepIdx).2.spprod_ = b.spprod_ := by
  have hn : ¬ (b.stepindex_.getD stepIdx 0 ≥ 0) := by omega
  unfold PdeBase.evalProduct
  simp only [hn, if_false, andThen_ok]
  split_ifs <;> exact ⟨rfl, rfl, rfl, rfl⟩

/-- Under strict diagonal dominance of the rows `1..n`, every pivot of `solveTridiagonal`
is larger in absolute value than the sub-diagonal entry of its row. -/
theorem pivots_abs_gt_lower (st : Scratch) (x l d u y : Vector) (n : Nat) (hn : 1 ≤ n)
    (hd : d.length = n + 2) (hx : x.length = n + 2)
    (hdom : ∀ i, 1 ≤ i → i ≤ n → |rd l i| + |rd u i| < |rd d i|) :
    ∀ i, 1 ≤ i → i ≤ n → |rd l i| < |rd (solveTridiagonal st x l d u y).1.D i| := by
  obtain ⟨hDn, _, hrel, _⟩ := solveTridiagonal_spec st x l d u y n hn hd hx _ rfl
  generalize solveTridiagonal st x l d u y = r at hDn hrel
  have key : ∀ k i, i + k = n → 1 ≤ i → |rd l i| < |rd r.1.D i| := by
    intro k
    induction k with
    | zero =>
      intro i hi h1
      have hin : i = n := by omega
      subst hin
      have := hdom i h1 le_rfl
      rw [hDn]
      linarith [abs_nonneg (rd u i)]
    | succ k ih =>
      intro i hi h1
      have hlt : i < n := by omega
      have hnext := ih (i + 1) (by omega) (by omega)
      have hdi := hdom i h1 (by omega)
      have hDpos : 0 < |rd r.1.D (i + 1)| := lt_of_le_of_lt (abs_nonneg _) hnext
      have hq : |rd l (i + 1)| / |rd r.1.D (i + 1)| ≤ 1 := by
        rw [div_le_one hDpos]
        exact le_of_lt hnext
      have hb : |rd u i * rd l (i + 1) / rd r.1.D (i + 1)| ≤ |rd u i| := by
        rw [abs_div, abs_mul, mul_div_assoc]
        calc |rd u i| * (|rd l (i + 1)| / |rd r.1.D (i + 1)|)
            ≤ |rd u i| * 1 := mul_le_mul_of_nonneg_left hq (abs_nonneg _)
          _ = |rd u i| := mul_one _
      rw [(hrel i h1 hlt).1]
      have htri := abs_sub_abs_le_abs_sub (rd d i) (rd u i * rd l (i + 1) / rd r.1.D (i + 1))
      linarith
  intro i h1 h2
  exact key (n - i) i (by omega) h1

/-- The scratch entries `1..n` and the solution entries `1..n` computed by `solveTridiagonal`
are the same whatever the statics and the vector `x` held before the call. -/
theorem solveTridiagonal_indep (st st2 : Scratch) (x x2 l d u y : Vector) (n : Nat)
    (hn : 1 ≤ n) (hd : d.length = n + 2) (hx : x.length = n + 2) (hx2 : x2.length = n + 2) :
    ∀ i, 1 ≤ i → i ≤ n →
      rd (solveTridiagonal st x l d u y).1.D i = rd (solveTridiagonal st2 x2 l d u y).1.D i ∧
      rd (solveTridiagonal st x l d u y).1.Y i = rd (solveTridiagonal st2 x2 l d u y).1.Y i ∧
      rd (solveTridiagonal st x l d u y).2 i = rd (solveTridiagonal st2 x2 l d u y).2 i := by
  obtain ⟨aD, aY, arel, _, _, _, ax1, axi⟩ :=
    solveTridiagonal_spec st x l d u y n hn hd hx _ rfl
  obtain ⟨bD, bY, brel, _, _, _, bx1, bxi⟩ :=
    solveTridiagonal_spec st2 x2 l d u y n hn hd hx2 _ rfl
  generalize solveTridiagonal st x l d u y = r at aD aY arel ax1 axi
  generalize solveTridiagonal st2 x2 l d u y = r2 at bD bY brel bx1 bxi
  have hDY : ∀ k i, i + k = n → 1 ≤ i →
      rd r.1.D i = rd r2.1.D i ∧ rd r.1.Y i = rd r2.1.Y i := by
    intro k
    induction k with
    | zero =>
      intro i hi h1
      have hin : i = n := by omega
      subst hin
      exact ⟨by rw [aD, bD], by rw [aY, bY]⟩
    | succ k ih =>
      intro i hi h1
      obtain ⟨e1, e2⟩ := ih (i + 1) (by omega) (by omega)
      obtain ⟨a1, a2⟩ := arel i h1 (by omega)
      obtain ⟨b1, b2⟩ := brel i h1 (by omega)
      exact ⟨by rw [a1, b1, e1], by rw [a2, b2, e1, e2]⟩
  have hX : ∀ i, 1 ≤ i → i ≤ n → rd r.2 i = rd r2.2 i := by
    intro i
    induction i with
    | zero => intro h; omega
    | succ j ih =>
      intro _ h2
      obtain ⟨e1, e2⟩ := hDY (n - (j + 1)) (j + 1) (by omega) (by omega)
      by_cases hj : j = 0
      · subst hj
        rw [ax1, bx1, e1, e2]
      · rw [axi (j + 1) (by omega) h2, bxi (j + 1) (by omega) h2, e1, e2, Nat.add_sub_cancel,
          ih (by omega) (by omega)]
  intro i h1 h2
  obtain ⟨e1, e2⟩ := hDY (n - i) i (by omega) h1
  exact ⟨e1, e2, hX i h1 h2⟩


theorem foldl_mulAt (rhs : ℚ) (l : List Nat) (op : TridiagonalOp1D) :
    l.foldl (TridiagonalOp1D.mulAt rhs) op =
      { op with
        lower_ := l.foldl (fun r i => wr r i ((fun _ a => a * rhs) i (rd r i))) op.lower_
        diag_ := l.foldl (fun r i => wr r i ((fun _ a => a * rhs) i (rd r i))) op.diag_
        upper_ := l.foldl (fun r i => wr r i ((fun _ a => a * rhs) i (rd r i))) op.upper_ } := by
  induction l generalizing op with
  | nil => rfl
  | cons a t ih => rw [List.foldl_cons, ih]; rfl

theorem mulAssign_spec (op : TridiagonalOp1D) (c : ℚ) (hwf : op.WF) :
    (op.mulAssign c).N_ = op.N_ ∧ (op.mulAssign c).WF ∧
    (op.mulAssign c).LowerVal_ = op.LowerVal_ ∧
    (op.mulAssign c).UpperVal_ = op.UpperVal_ ∧
    ∀ i, i < op.N_ + 2 →
      rd (op.mulAssign c).lower_ i = rd op.lower_ i * c ∧
      rd (op.mulAssign c).diag_ i = rd op.diag_ i * c ∧
      rd (op.mulAssign c).upper_ i = rd op.upper_ i * c := by
  obtain ⟨hl, hd, hu⟩ := hwf
  have hL := length_foldl_upd (fun _ a => a * c) (List.range op.lower_.length) op.lower_
  have hD := length_foldl_upd (fun _ a => a * c) (List.range op.lower_.length) op.diag_
  have hU := length_foldl_upd (fun _ a => a * c) (List.range op.lower_.length) op.upper_
  have hrL := rd_foldl_upd (fun _ a => a * c) (List.range op.lower_.length)
    (List.nodup_range _) op.lower_
  have hrD := rd_foldl_upd (fun _ a => a * c) (List.range op.lower_.length)
    (List.nodup_range _) op.diag_
  have hrU := rd_foldl_upd (fun _ a => a * c) (List.range op.lower_.length)
    (List.nodup_range _) op.upper_
  unfold TridiagonalOp1D.mulAssign
  rw [foldl_mulAt]
  refine ⟨rfl, ⟨hL.trans hl, hD.trans hd, hU.trans hu⟩, rfl, rfl, ?_⟩
  intro i hi
  have h1 : i ∈ List.range op.lower_.length := List.mem_range.mpr (by omega)
  have h2 : i < op.lower_.length := by omega
  have h3 : i < op.diag_.length := by omega
  have h4 : i < op.upper_.length := by omega
  refine ⟨(hrL i).trans ?_, (hrD i).trans ?_, (hrU i).trans ?_⟩
  · simp [h1, h2]
  · simp [h1, h3]
  · simp [h1, h4]

/-- The rows `1..N_` written by `apply`, for every `N_ ≥ 1` (for `N_ = 1` the last
statement of `apply` overwrites the row written by the first). -/
theorem rd_apply_rows (op : TridiagonalOp1D) (x y : Vector) (hN : 1 ≤ op.N_)
    (hy : y.length = op.N_ + 2) (i : Nat) (h1 : 1 ≤ i) (h2 : i ≤ op.N_) :
    rd (op.apply x y) i =
      if i = op.N_ then
        rd op.lower_ op.N_ * rd x (op.N_ - 1) + rd op.diag_ op.N_ * rd x op.N_ + op.UpperVal_
      else if i = 1 then op.LowerVal_ + rd op.diag_ 1 * rd x 1 + rd op.upper_ 1 * rd x 2
      else op.row x i := by
  by_cases hN2 : 2 ≤ op.N_
  · rw [rd_apply op x y hN2 hy i]
    by_cases hi : i = op.N_
    · rw [if_pos hi, if_pos hi]
    · rw [if_neg hi, if_neg hi]
      by_cases hi1 : i = 1
      · rw [if_neg (by omega), if_pos hi1, if_pos hi1]
      · rw [if_pos (by omega), if_neg hi1]
  · have hN1 : op.N_ = 1 := by omega
    have hi : i = 1 := by omega
    subst hi
    rw [if_pos hN1.symm]
    unfold TridiagonalOp1D.apply
    rw [hN1]
    show rd (wr _ 1 _) 1 = _
    rw [rd_wr_same]
    show 1 < (wr y 1 _).length
    rw [length_wr, hy]
    omega


/-- The two degree-3 adjustments of two operators that agree on the rows `1..N` give
operators that agree on the rows `1..N`. -/
theorem adjusted3_congr (DX : ℚ) (op op2 E E2 : TridiagonalOp1D)
    (hE : TridiagonalOp1D.Adjusted3 DX op E) (hE2 : TridiagonalOp1D.Adjusted3 DX op2 E2)
    (hN : op2.N_ = op.N_) (hN2 : 2 ≤ op.N_)
    (hent : ∀ i, 1 ≤ i → i ≤ op.N_ →
      rd op2.lower_ i = rd op.lower_ i ∧ rd op2.diag_ i = rd op.diag_ i ∧
      rd op2.upper_ i = rd op.upper_ i) :
    ∀ i, 1 ≤ i → i ≤ op.N_ →
      rd E2.lower_ i = rd E.lower_ i ∧ rd E2.diag_ i = rd E.diag_ i ∧
      rd E2.upper_ i = rd E.upper_ i := by
  obtain ⟨_, _, _, _, d1, u1, dN, lN, dI, uI, lI⟩ := hE
  obtain ⟨_, _, _, _, d1', u1', dN', lN', dI', uI', lI'⟩ := hE2
  rw [hN] at dN' lN' dI' lI'
  obtain ⟨a1, a2, a3⟩ := hent 1 (le_refl 1) (by omega)
  obtain ⟨b1, b2, b3⟩ := hent op.N_ (by omega) (le_refl _)
  intro i h1 h2
  obtain ⟨e1, e2, e3⟩ := hent i h1 h2
  refine ⟨?_, ?_, ?_⟩
  · by_cases hi : i = op.N_
    · rw [hi, lN, lN', b1, b3]
    · rw [lI i hi, lI' i hi, e1]
  · by_cases hi1 : i = 1
    · rw [hi1, d1, d1', a1, a2]
    · by_cases hi : i = op.N_
      · rw [hi, dN, dN', b2, b3]
      · rw [dI i hi1 hi, dI' i hi1 hi, e2]
  · by_cases hi1 : i = 1
    · rw [hi1, u1, u1', a1, a3]
    · rw [uI i hi1, uI' i hi1, e3]

/-- The rows `1..N_` of `apply` read only the rows `1..N_` of the bands and the entries
`1..N_` of the argument, for `N_ ≥ 2`. -/
theorem apply_interior_congr (E E2 : TridiagonalOp1D) (v v2 c c2 : Vector) (hN : 2 ≤ E.N_)
    (hN2 : E2.N_ = E.N_) (hc : c.length = E.N_ + 2) (hc2 : c2.length = E.N_ + 2)
    (hL : E2.LowerVal_ = E.LowerVal_) (hU : E2.UpperVal_ = E.UpperVal_)
    (hent : ∀ i, 1 ≤ i → i ≤ E.N_ →
      rd E2.lower_ i = rd E.lower_ i ∧ rd E2.diag_ i = rd E.diag_ i ∧
      rd E2.upper_ i = rd E.upper_ i)
    (hv : ∀ i, 1 ≤ i → i ≤ E.N_ → rd v2 i = rd v i) :
    ∀ i, 1 ≤ i → i ≤ E.N_ → rd (E2.apply v2 c2) i = rd (E.apply v c) i := by
  intro i h1 h2
  rw [rd_apply_rows E v c (by omega) hc i h1 h2,
    rd_apply_rows E2 v2 c2 (by omega) (by rw [hN2]; exact hc2) i h1 (by rw [hN2]; exact h2),
    hN2, hL, hU]
  unfold TridiagonalOp1D.row
  obtain ⟨e1, e2, e3⟩ := hent i h1 h2
  by_cases hi : i = E.N_
  · rw [if_pos hi, if_pos hi, ← hi, e1, e2, hv i h1 h2, hv (i - 1) (by omega) (by omega)]
  · rw [if_neg hi, if_neg hi]
    by_cases hi1 : i = 1
    · rw [if_pos hi1, if_pos hi1]
      subst hi1
      rw [e2, e3, hv 1 h1 h2, hv 2 (by omega) (by omega)]
    · rw [if_neg hi1, if_neg hi1, e1, e2, e3, hv i h1 h2, hv (i - 1) (by omega) (by omega),
        hv (i + 1) (by omega) (by omega)]

/-- The boundary extrapolation of two columns that agree at the interior nodes gives columns
that agree at every node. -/
theorem applyBoundaryConditionsCol_congr (N : Nat) (r r2 : Vector) (hN : 2 ≤ N)
    (hr : r.length = N + 2) (hr2 : r2.length = N + 2)
    (h : ∀ i, 1 ≤ i → i ≤ N → rd r2 i = rd r i) :
    ∀ i, i ≤ N + 1 →
      rd (applyBoundaryConditionsCol N r2) i = rd (applyBoundaryConditionsCol N r) i := by
  obtain ⟨_, a0, aN, aI⟩ := applyBoundaryConditionsCol_spec N r hN hr
  obtain ⟨_, b0, bN, bI⟩ := applyBoundaryConditionsCol_spec N r2 hN hr2
  have h1 : rd r2 1 = rd r 1 := h 1 (le_refl 1) (by omega)
  have h2 : rd r2 2 = rd r 2 := h 2 (by omega) hN
  have hN1 : rd r2 N = rd r N := h N (by omega) (le_refl N)
  have hN2 : rd r2 (N - 1) = rd r (N - 1) := h (N - 1) (by omega) (by omega)
  intro i hi
  by_cases hi0 : i = 0
  · rw [hi0, a0, b0, h1, h2]
  · by_cases hiN : i = N + 1
    · rw [hiN, aN, bN, hN1, hN2]
    · have hi1 : 1 ≤ i := by omega
      have hi2 : i ≤ N := by omega
      rw [aI i hi1 hi2, bI i hi1 hi2]
      exact h i hi1 hi2

/-- The banded solve reads the rows `1..n` of the bands and of the right-hand side only, and
neither the statics nor the incoming `x`. -/
theorem solveTridiagonal_interior (st st2 : Scratch) (x x2 l d u y l2 d2 u2 y2 : Vector)
    (n : Nat) (hn : 1 ≤ n) (hd : d.length = n + 2) (hd2 : d2.length = n + 2)
    (hx : x.length = n + 2) (hx2 : x2.length = n + 2)
    (hl : ∀ i, 1 ≤ i → i ≤ n → rd l2 i = rd l i)
    (hdd : ∀ i, 1 ≤ i → i ≤ n → rd d2 i = rd d i)
    (hu : ∀ i, 1 ≤ i → i ≤ n → rd u2 i = rd u i)
    (hy : ∀ i, 1 ≤ i → i ≤ n → rd y2 i = rd y i) :
    (solveTridiagonal st2 x2 l2 d2 u2 y2).2.length = n + 2 ∧
    (solveTridiagonal st x l d u y).2.length = n + 2 ∧
    ∀ i, 1 ≤ i → i ≤ n →
      rd (solveTridiagonal st2 x2 l2 d2 u2 y2).2 i = rd (solveTridiagonal st x l d u y).2 i := by
  rw [solveTridiagonal_congr st2 x2 l d u y l2 d2 u2 y2 n hd hd2 hl hdd hu hy hn]
  have hlen := (solveTridiagonal_spec st x l d u y n hn hd hx _ rfl).2.2.2.1
  have hlen2 := (solveTridiagonal_spec st2 x2 l d u y n hn hd hx2 _ rfl).2.2.2.1
  refine ⟨hlen2.trans hx2, hlen.trans hx, ?_⟩
  intro i h1 h2
  exact (solveTridiagonal_indep st2 st x2 x l d u y n hn hd hx2 hx i h1 h2).2.2

/-- One layer of the step: two pairs of operators that agree on the rows `1..N`, applied to
two vectors that agree at the entries `1..N`, give after the banded solve and the boundary
extrapolation the same value at every node `0..N+1`. -/
theorem layer_interior_congr (E E2 M M2 : TridiagonalOp1D) (N : Nat) (sc sc2 : Scratch)
    (v v2 c c2 : Vector) (hN : 2 ≤ N) (hEN : E.N_ = N) (hE2N : E2.N_ = N)
    (hMd : M.diag_.length = N + 2) (hM2d : M2.diag_.length = N + 2)
    (hv : v.length = N + 2) (hv2 : v2.length = N + 2)
    (hc : c.length = N + 2) (hc2 : c2.length = N + 2)
    (hL : E2.LowerVal_ = E.LowerVal_) (hU : E2.UpperVal_ = E.UpperVal_)
    (hEE : ∀ i, 1 ≤ i → i ≤ N →
      rd E2.lower_ i = rd E.lower_ i ∧ rd E2.diag_ i = rd E.diag_ i ∧
      rd E2.upper_ i = rd E.upper_ i)
    (hMM : ∀ i, 1 ≤ i → i ≤ N →
      rd M2.lower_ i = rd M.lower_ i ∧ rd M2.diag_ i = rd M.diag_ i ∧
      rd M2.upper_ i = rd M.upper_ i)
    (hvv : ∀ i, 1 ≤ i → i ≤ N → rd v2 i = rd v i) :
    ∀ i, i ≤ N + 1 →
      rd (applyBoundaryConditionsCol N
          (solveTridiagonal sc2 v2 M2.lower_ M2.diag_ M2.upper_ (E2.apply v2 c2)).2) i
        = rd (applyBoundaryConditionsCol N
          (solveTridiagonal sc v M.lower_ M.diag_ M.upper_ (E.apply v c)).2) i := by
  have hy : ∀ i, 1 ≤ i → i ≤ N → rd (E2.apply v2 c2) i = rd (E.apply v c) i := by
    have h := apply_interior_congr E E2 v v2 c c2 (by rw [hEN]; exact hN)
      (by rw [hEN, hE2N]) (by rw [hEN]; exact hc) (by rw [hEN]; exact hc2) hL hU
      (by rw [hEN]; exact hEE) (by rw [hEN]; exact hvv)
    rw [hEN] at h
    exact h
  obtain ⟨k1, k2, k3⟩ := solveTridiagonal_interior sc sc2 v v2 M.lower_ M.diag_ M.upper_
    (E.apply v c) M2.lower_ M2.diag_ M2.upper_ (E2.apply v2 c2) N (by omega) hMd hM2d hv hv2
    (fun i h1 h2 => (hMM i h1 h2).1) (fun i h1 h2 => (hMM i h1 h2).2.1)
    (fun i h1 h2 => (hMM i h1 h2).2.2) hy
  exact applyBoundaryConditionsCol_congr N _ _ hN k2 k1 k3


/-- The schedule built by the constructor of `BarrierCallPut` with `n = floor(T * f) ≥ 1`
fixings: it returns, the entries before the last are `(i + stub) / f`, the last is `T`. -/
theorem BarrierCallPut_new_spec (payoffType : Int) (strike timeToExp : ℚ) (up_or_down : Int)
    (barrier : ℚ) (freq : BarrierCallPut.Freq) (hpt : payoffType = 1 ∨ payoffType = -1)
    (hud : up_or_down = 1 ∨ up_or_down = 0) (hK : strike > 0) (hT : timeToExp > 0)
    (hn : 0 < (Rat.floor (timeToExp * BarrierCallPut.num_freq freq)).toNat) :
    ∃ p, BarrierCallPut.new payoffType strike timeToExp up_or_down barrier freq = .ok p ∧
      p.fixTimes_.length = (Rat.floor (timeToExp * BarrierCallPut.num_freq freq)).toNat ∧
      p.payTimes_ = p.fixTimes_ ∧ p.payAmounts_.length = p.fixTimes_.length ∧
      p.evalIdx = BarrierCallPut.eval payoffType strike up_or_down barrier ∧
      rd p.fixTimes_ ((Rat.floor (timeToExp * BarrierCallPut.num_freq freq)).toNat - 1)
        = timeToExp ∧
      ∀ i, i + 1 < (Rat.floor (timeToExp * BarrierCallPut.num_freq freq)).toNat →
        rd p.fixTimes_ i
          = ((i : ℚ) + (timeToExp * BarrierCallPut.num_freq freq
              - (Rat.floor (timeToExp * BarrierCallPut.num_freq freq) : ℚ)))
            / BarrierCallPut.num_freq freq := by
  have hf : (0 : ℚ) < BarrierCallPut.num_freq freq := by
    cases freq <;> norm_num [BarrierCallPut.num_freq]
  have hfl : (1 : Int) ≤ Rat.floor (timeToExp * BarrierCallPut.num_freq freq) := by
    by_contra hc
    have : (Rat.floor (timeToExp * BarrierCallPut.num_freq freq)).toNat = 0 := by omega
    omega
  have hge : timeToExp ≥ 1 / BarrierCallPut.num_freq freq := by
    have h1 : ((1 : Int) : ℚ) ≤ timeToExp * BarrierCallPut.num_freq freq :=
      Rat.le_floor.mp hfl
    rw [ge_iff_le, div_le_iff₀ hf]
    exact_mod_cast h1
  generalize hN : (Rat.floor (timeToExp * BarrierCallPut.num_freq freq)).toNat = N at hn ⊢
  have hlen0 : (resize (wr (resize [] 1) 0 timeToExp) N).length = N := length_resize _ _
  have hlen1 : ((List.range (N - 1)).foldl
      (fun v (i : Nat) => wr v i ((i : ℚ) / BarrierCallPut.num_freq freq
        + (timeToExp * BarrierCallPut.num_freq freq
            - (Rat.floor (timeToExp * BarrierCallPut.num_freq freq) : ℚ))
          / BarrierCallPut.num_freq freq))
      (resize (wr (resize [] 1) 0 timeToExp) N)).length = N := by
    rw [length_foldl_wr (fun (i : Nat) => (i : ℚ) / BarrierCallPut.num_freq freq
        + (timeToExp * BarrierCallPut.num_freq freq
            - (Rat.floor (timeToExp * BarrierCallPut.num_freq freq) : ℚ))
          / BarrierCallPut.num_freq freq), hlen0]
  have hnew : BarrierCallPut.new payoffType strike timeToExp up_or_down barrier freq
      = .ok { fixTimes_ := wr ((List.range (N - 1)).foldl
                (fun v (i : Nat) => wr v i ((i : ℚ) / BarrierCallPut.num_freq freq
                  + (timeToExp * BarrierCallPut.num_freq freq
                      - (Rat.floor (timeToExp * BarrierCallPut.num_freq freq) : ℚ))
                    / BarrierCallPut.num_freq freq))
                (resize (wr (resize [] 1) 0 timeToExp) N)) (N - 1) timeToExp
              payTimes_ := wr ((List.range (N - 1)).foldl
                (fun v (i : Nat) => wr v i ((i : ℚ) / BarrierCallPut.num_freq freq
                  + (timeToExp * BarrierCallPut.num_freq freq
                      - (Rat.floor (timeToExp * BarrierCallPut.num_freq freq) : ℚ))
                    / BarrierCallPut.num_freq freq))
                (resize (wr (resize [] 1) 0 timeToExp) N)) (N - 1) timeToExp
              payAmounts_ := resize (resize [] 1) (wr ((List.range (N - 1)).foldl
                (fun v (i : Nat) => wr v i ((i : ℚ) / BarrierCallPut.num_freq freq
                  + (timeToExp * BarrierCallPut.num_freq freq
                      - (Rat.floor (timeToExp * BarrierCallPut.num_freq freq) : ℚ))
                    / BarrierCallPut.num_freq freq))
                (resize (wr (resize [] 1) 0 timeToExp) N)) (N - 1) timeToExp).length
              evalIdx := BarrierCallPut.eval payoffType strike up_or_down barrier } := by
    unfold BarrierCallPut.new EuropeanCallPut.new
    simp only [hpt, hud, hK, hT, hN, hn, hge, not_true_eq_false, if_false]
  refine ⟨_, hnew, ?_, rfl, ?_, rfl, ?_, ?_⟩
  · show (wr _ (N - 1) timeToExp).length = N
    rw [length_wr, hlen1]
  · show (resize _ _).length = _
    rw [length_resize]
  · show rd (wr _ (N - 1) timeToExp) (N - 1) = timeToExp
    rw [rd_wr_same _ _ _ (by rw [hlen1]; omega)]
  · intro i hi
    show rd (wr _ (N - 1) timeToExp) i = _
    rw [rd_wr_ne _ _ _ _ (by omega),
      rd_foldl_wr (fun (i : Nat) => (i : ℚ) / BarrierCallPut.num_freq freq
        + (timeToExp * BarrierCallPut.num_freq freq
            - (Rat.floor (timeToExp * BarrierCallPut.num_freq freq) : ℚ))
          / BarrierCallPut.num_freq freq),
      if_pos ⟨List.mem_range.mpr (by omega), by rw [hlen0]; omega⟩]
    ring

/-- The spacing of the schedule of `BarrierCallPut`: with `n = floor(T * f) ≥ 2` fixings the
times are strictly increasing, consecutive times before the last differ by `1 / f`, and the
last interval, from `fixTimes[n - 2]` to `fixTimes[n - 1] = T`, has the length `2 / f`. -/
theorem BarrierCallPut_spacing (payoffType : Int) (strike timeToExp : ℚ) (up_or_down : Int)
    (barrier : ℚ) (freq : BarrierCallPut.Freq) (hpt : payoffType = 1 ∨ payoffType = -1)
    (hud : up_or_down = 1 ∨ up_or_down = 0) (hK : strike > 0) (hT : timeToExp > 0)
    (hn : 2 ≤ (Rat.floor (timeToExp * BarrierCallPut.num_freq freq)).toNat) :
    ∃ p, BarrierCallPut.new payoffType strike timeToExp up_or_down barrier freq = .ok p ∧
      p.fixTimes_.length = (Rat.floor (timeToExp * BarrierCallPut.num_freq freq)).toNat ∧
      rd p.fixTimes_ (p.fixTimes_.length - 1) = timeToExp ∧
      (∀ i, i + 1 < p.fixTimes_.length → rd p.fixTimes_ i < rd p.fixTimes_ (i + 1)) ∧
      (∀ i, i + 2 < p.fixTimes_.length →
        rd p.fixTimes_ (i + 1) - rd p.fixTimes_ i = 1 / BarrierCallPut.num_freq freq) ∧
      rd p.fixTimes_ (p.fixTimes_.length - 1) - rd p.fixTimes_ (p.fixTimes_.length - 2)
        = 2 / BarrierCallPut.num_freq freq := by
  obtain ⟨p, hp, hlen, _, _, _, hlast, hent⟩ := BarrierCallPut_new_spec payoffType strike
    timeToExp up_or_down barrier freq hpt hud hK hT (by omega)
  have hf : (0 : ℚ) < BarrierCallPut.num_freq freq := by
    cases freq <;> norm_num [BarrierCallPut.num_freq]
  have hfl : (0 : Int) ≤ Rat.floor (timeToExp * BarrierCallPut.num_freq freq) := by omega
  have hcast : (((Rat.floor (timeToExp * BarrierCallPut.num_freq freq)).toNat : Nat) : ℚ)
      = (Rat.floor (timeToExp * BarrierCallPut.num_freq freq) : ℚ) := by
    have := Int.toNat_of_nonneg hfl
    exact_mod_cast congrArg (fun z : Int => (z : ℚ)) this
  generalize hN : (Rat.floor (timeToExp * BarrierCallPut.num_freq freq)).toNat = N at *
  have hprev : rd p.fixTimes_ (N - 2)
      = (((N - 2 : Nat) : ℚ) + (timeToExp * BarrierCallPut.num_freq freq
          - (Rat.floor (timeToExp * BarrierCallPut.num_freq freq) : ℚ)))
        / BarrierCallPut.num_freq freq := hent (N - 2) (by omega)
  have hN2 : (((N - 2 : Nat) : Nat) : ℚ) = (N : ℚ) - 2 := by
    rw [Nat.cast_sub hn]
    norm_num
  have hgap : rd p.fixTimes_ (N - 1) - rd p.fixTimes_ (N - 2)
      = 2 / BarrierCallPut.num_freq freq := by
    rw [hlast, hprev, hN2, hcast]
    field_simp
  refine ⟨p, hp, hlen, by rw [hlen]; exact hlast, ?_, ?_, by rw [hlen]; exact hgap⟩
  · intro i hi
    rw [hlen] at hi
    by_cases hi2 : i + 2 < N
    · rw [hent i (by omega), hent (i + 1) (by omega)]
      apply div_lt_div_of_pos_right _ hf
      push_cast
      linarith
    · have e1 : i = N - 2 := by omega
      have e2 : i + 1 = N - 1 := by omega
      rw [e2, e1]
      have : 0 < 2 / BarrierCallPut.num_freq freq := by positivity
      linarith
  · intro i hi
    rw [hlen] at hi
    rw [hent i (by omega), hent (i + 1) (by omega)]
    push_cast
    field_simp

/-- What `BarrierCallPut::eval` does at an index inside `payAmounts_`. -/
theorem BarrierCallPut_eval_spec (payoffType : Int) (strike : ℚ) (up_or_down : Int)
    (barrier : ℚ) (payAmounts : Vector) (idx : Nat) (spots : Vector) (c : ℚ)
    (hud : up_or_down = 1 ∨ up_or_down = 0) (hidx : idx < payAmounts.length) :
    ∃ pa, BarrierCallPut.eval payoffType strike up_or_down barrier payAmounts idx spots c
        = .ok pa ∧
      pa.length = payAmounts.length ∧
      (∀ j, j ≠ idx → rd pa j = rd payAmounts j) ∧
      rd pa idx =
        (if (up_or_down = 1 ∧ rd spots 0 ≥ barrier) ∨ (up_or_down = 0 ∧ rd spots 0 ≤ barrier)
          then 0
          else if idx + 1 = payAmounts.length
            then max ((payoffType : ℚ) * (rd spots 0 - strike)) 0
            else max c 0) := by
  unfold BarrierCallPut.eval
  by_cases hl : idx = payAmounts.length - 1
  · have hl2 : idx + 1 = payAmounts.length := by omega
    simp only [if_pos hl, if_pos hl2]
    refine ⟨_, rfl, length_wr _ _ _, fun j hj => rd_wr_ne _ _ _ _ (Ne.symm hj), ?_⟩
    rw [rd_wr_same _ _ _ hidx]
    rcases hud with rfl | rfl
    · by_cases hs : rd spots 0 ≥ barrier
      · simp [hs]
      · simp only [hs, and_false, false_and, or_false, if_false,
          show ¬ ((1 : Int) = 0) by decide]
        rw [Int.cast_one, one_mul, mul_comm]
        by_cases hp : (payoffType : ℚ) * (rd spots 0 - strike) > 0
        · rw [if_pos hp, max_eq_left (le_of_lt hp)]
        · rw [if_neg hp, max_eq_right (not_lt.mp hp)]
    · by_cases hs : rd spots 0 ≤ barrier
      · simp [hs]
      · simp only [hs, and_false, false_and, or_false, false_or, if_false,
          show ¬ ((0 : Int) = 1) by decide]
        rw [Int.cast_one, one_mul, mul_comm]
        by_cases hp : (payoffType : ℚ) * (rd spots 0 - strike) > 0
        · rw [if_pos hp, max_eq_left (le_of_lt hp)]
        · rw [if_neg hp, max_eq_right (not_lt.mp hp)]
  · have hl2 : ¬ (idx + 1 = payAmounts.length) := by omega
    simp only [if_neg hl, if_neg hl2]
    refine ⟨_, rfl, length_wr _ _ _, fun j hj => rd_wr_ne _ _ _ _ (Ne.symm hj), ?_⟩
    rw [rd_wr_same _ _ _ hidx]
    rcases hud with rfl | rfl
    · by_cases hs : rd spots 0 ≥ barrier
      · simp [hs]
      · simp only [hs, and_false, false_and, or_false, if_false,
          show ¬ ((1 : Int) = 0) by decide]
        by_cases hp : c > 0
        · rw [if_pos hp, max_eq_left (le_of_lt hp)]
        · rw [if_neg hp, max_eq_right (not_lt.mp hp)]
    · by_cases hs : rd spots 0 ≤ barrier
      · simp [hs]
      · simp only [hs, and_false, false_and, or_false, false_or, if_false,
          show ¬ ((0 : Int) = 1) by decide]
        by_cases hp : c > 0
        · rw [if_pos hp, max_eq_left (le_of_lt hp)]
        · rw [if_neg hp, max_eq_right (not_lt.mp hp)]

/-- The hyperbolic functions of `DX` and `DX / 2` through `u = exp DX`. -/
theorem sinh_tanh_half (DX : ℝ) (hDX : DX ≠ 0) :
    0 < Real.exp DX ∧ Real.exp DX ≠ 1 ∧
    Real.exp (-DX) = (Real.exp DX)⁻¹ ∧
    Real.sinh DX = (Real.exp DX - (Real.exp DX)⁻¹) / 2 ∧
    Real.tanh (DX / 2) = (Real.exp DX - 1) / (Real.exp DX + 1) := by
  have h2 : Real.exp DX = Real.exp (DX / 2) * Real.exp (DX / 2) := by
    rw [← Real.exp_add]
    congr 1
    ring
  have h4 : Real.exp (-(DX / 2)) = (Real.exp (DX / 2))⁻¹ := Real.exp_neg _
  refine ⟨Real.exp_pos _, ?_, Real.exp_neg _, ?_, ?_⟩
  · intro h
    exact hDX (Real.exp_eq_one_iff DX |>.mp h)
  · rw [Real.sinh_eq, Real.exp_neg]
  · rw [Real.tanh_eq_sinh_div_cosh, Real.sinh_eq, Real.cosh_eq, h4, h2]
    have ha := Real.exp_pos (DX / 2)
    have ha0 : Real.exp (DX / 2) ≠ 0 := ne_of_gt ha
    have h1 : Real.exp (DX / 2) * Real.exp (DX / 2) + 1 ≠ 0 := by positivity
    field_simp

/-- The quotient of the second and the first central difference of `exp` at `log S`, and the
inverse of the first one, through `u = exp DX`. -/
theorem log_drift_algebra (S u DX : ℝ) (hS : S ≠ 0) (hu : 0 < u) (hu1 : u ≠ 1)
    (hDX : DX ≠ 0) :
    (S * u - 2 * S + S * u⁻¹) / (DX * DX) / ((S * u - S * u⁻¹) / (2 * DX))
      = 2 * ((u - 1) / (u + 1)) / DX ∧
    S / ((S * u - S * u⁻¹) / (2 * DX)) = DX / ((u - u⁻¹) / 2) := by
  have hu0 : u ≠ 0 := ne_of_gt hu
  have h1 : u - 1 ≠ 0 := sub_ne_zero.mpr hu1
  have h2 : u + 1 ≠ 0 := by positivity
  have e1 : S * u - S * u⁻¹ = S * ((u - 1) * (u + 1)) / u := by
    field_simp
    ring
  have e2 : S * u - 2 * S + S * u⁻¹ = S * ((u - 1) * (u - 1)) / u := by
    field_simp
    ring
  have e3 : u - u⁻¹ = (u - 1) * (u + 1) / u := by
    field_simp
    ring
  rw [e1, e2, e3]
  constructor
  · field_simp
    ring
  · field_simp
    ring


/-- The function `fwdPrice` returns for non-negative arguments. -/
theorem fwdPrice_ok (spot timeToExp intRate divYield : ℝ) (h4 : 0 ≤ spot)
    (h2 : 0 ≤ timeToExp) (h6 : 0 ≤ intRate) (h7 : 0 ≤ divYield) :
    real.fwdPrice spot timeToExp intRate divYield
      = .ok (spot * Real.exp ((intRate - divYield) * timeToExp)) := by
  have e0 : (0.0 : ℝ) = 0 := by norm_num
  simp only [real.fwdPrice, e0, ge_iff_le, h4, h2, h6, h7, not_true_eq_false, if_false]

/-- The locals `in` and `out` of `barrierOptionBS` at its return statement, for arguments
that pass the assertions: both are assigned and their sum is `price_1`. -/
theorem barrierOptionBS_inOut_spec (normal : real.NormalDistribution) (payoffType : Int)
    (up_or_down in_or_out : Char)
    (spot strike barrier timeToExp intRate divYield volatility : ℝ)
    (hp : payoffType = 1 ∨ payoffType = -1) (hud : up_or_down = 'u' ∨ up_or_down = 'd')
    (hio : in_or_out = 'i' ∨ in_or_out = 'o')
    (hspot : 0 ≤ spot) (hstrike : 0 ≤ strike) (hbarrier : 0 ≤ barrier)
    (hT : 0 ≤ timeToExp) (hr : 0 ≤ intRate) (hq : 0 ≤ divYield) (hvol : 0 ≤ volatility)
    (hd : up_or_down = 'd' → barrier < spot) (hu : up_or_down = 'u' → spot < barrier)
    (r : Except String (Option ℝ × Option ℝ))
    (h : real.barrierOptionBS.inOut normal payoffType (up_or_down, in_or_out) spot strike
      barrier timeToExp intRate divYield volatility = r) :
    ∃ pin pout : ℝ, r = .ok (some pin, some pout) ∧
      pin + pout = real.barrierOptionBS.price_1 normal payoffType spot strike timeToExp
        intRate divYield volatility := by
  have e0 : (0.0 : ℝ) = 0 := by norm_num
  have hf := fwdPrice_ok spot timeToExp intRate divYield hspot hT hr hq
  have hdd : ¬ (up_or_down = 'd' ∧ ¬ (barrier < spot)) := fun h => h.2 (hd h.1)
  have huu : ¬ (up_or_down = 'u' ∧ ¬ (barrier > spot)) := fun h => h.2 (hu h.1)
  simp only [real.barrierOptionBS.inOut, e0, ge_iff_le, hp, hud, hio, hstrike, hT, hbarrier,
    hspot, hvol, hf, hdd, huu, not_true_eq_false, if_false] at h
  split_ifs at h with c1 c2 c3 c4 c5 c6 c7 c8 c9
  all_goals first
    | (subst h
       exact ⟨_, _, rfl, by simp only [real.barrierOptionBS.price_1]; ring⟩)
    | (exfalso
       rcases hp with hp | hp <;> rcases hud with hud | hud <;> simp_all)


/-- The loop of `findIndices` over the reals on a strictly increasing vector, entered at `i`
with `v[i-1] < y` and with a later entry `v[m] ≥ y`: it returns a node equal to `y` or the
two neighbours that enclose `y`. -/
theorem real_findIndicesLoop_spec (v : real.Vector) (y : ℝ) (m : Nat) (hm : m < v.length)
    (hym : y ≤ real.rd v m) :
    ∀ k i, i + k = v.length → 1 ≤ i → i ≤ m → real.rd v (i - 1) < y →
      ∃ i1 i2, real.findIndicesLoop v y k i = some (i1, i2) ∧ i2 < v.length ∧
        ((i1 = i2 ∧ y = real.rd v i1)
          ∨ (i2 = i1 + 1 ∧ real.rd v i1 < y ∧ y < real.rd v i2)) := by
  intro k
  induction k with
  | zero => intro i hik _ him _; omega
  | succ k ih =>
    intro i hik hi him hprev
    unfold real.findIndicesLoop
    by_cases h1 : y = real.rd v i
    · exact ⟨i, i, by simp [h1], by omega, Or.inl ⟨rfl, h1⟩⟩
    · by_cases h2 : y < real.rd v i
      · refine ⟨i - 1, i, by simp [h1, h2], by omega, Or.inr ⟨by omega, hprev, h2⟩⟩
      · have hlt : real.rd v i < y := lt_of_le_of_ne (not_lt.mp h2) (Ne.symm h1)
        have him2 : i + 1 ≤ m := by
          rcases Nat.lt_or_ge i m with h | h
          · exact h
          · have : i = m := by omega
            subst this
            exact absurd hym (not_le.mpr hlt)
        obtain ⟨i1, i2, e, hb, hc⟩ := ih (i + 1) (by omega) (by omega) him2 (by simpa using hlt)
        exact ⟨i1, i2, by simp [h1, h2, e], hb, hc⟩

/-- The member `getValue(x)` over the reals at a node `x = xs[k]` of a strictly increasing
abscissa vector returns the ordinate `ys[k]`. -/
theorem real_getValue_node (xs ys : real.Vector) (hlen : 2 ≤ xs.length)
    (hinc : ∀ i j, i < j → j < xs.length → real.rd xs i < real.rd xs j)
    (k : Nat) (hk : k < xs.length) :
    real.LinearInterpolation1D.getValue ⟨xs, ys⟩ (real.rd xs k) = some (real.rd ys k) := by
  have hinj : ∀ i, i < xs.length → real.rd xs k = real.rd xs i → i = k := by
    intro i hi he
    rcases Nat.lt_trichotomy i k with h | h | h
    · exact absurd he (ne_of_gt (hinc i k h hk))
    · exact h
    · exact absurd he (ne_of_lt (hinc k i h hi))
  have hmono : ∀ i, i < xs.length → real.rd xs k ≤ real.rd xs i → k ≤ i := by
    intro i hi he
    by_contra hcon
    exact absurd (hinc i k (by omega) hk) (not_lt.mpr he)
  have hmono2 : ∀ i, i < xs.length → real.rd xs i ≤ real.rd xs k → i ≤ k := by
    intro i hi he
    by_contra hcon
    exact absurd (hinc k i (by omega) hi) (not_lt.mpr he)
  have chord1 : ∀ x0 x1 y0 y1 : ℝ, x0 < x1 →
      y0 + (y1 - y0) * (x0 - x0) / (x1 - x0) = y0 ∧
      y0 + (y1 - y0) * (x1 - x0) / (x1 - x0) = y1 := by
    intro x0 x1 y0 y1 h
    have hne : x1 - x0 ≠ 0 := sub_ne_zero.mpr (ne_of_gt h)
    constructor
    · simp
    · field_simp
  unfold real.LinearInterpolation1D.getValue real.LinearInterpolation1D.getValueAt
    real.findIndices
  simp only []
  by_cases h1 : real.rd xs k ≤ real.rd xs 1
  · rw [if_pos h1]
    simp only [show ¬ (1 = 0) by decide, if_false]
    have hk1 : k ≤ 1 := hmono 1 (by omega) h1
    have h01 := hinc 0 1 (by decide) (by omega)
    rcases Nat.eq_zero_or_pos k with h | h
    · subst h
      rw [(chord1 _ _ _ _ h01).1]
    · have : k = 1 := by omega
      subst this
      rw [(chord1 _ _ _ _ h01).2]
  · rw [if_neg h1]
    by_cases h2 : real.rd xs k ≥ real.rd xs (xs.length - 2)
    · rw [if_pos h2]
      simp only [show ¬ (xs.length - 1 = xs.length - 2) by omega, if_false]
      have hk2 : xs.length - 2 ≤ k := hmono2 (xs.length - 2) (by omega) h2
      have h01 := hinc (xs.length - 2) (xs.length - 1) (by omega) (by omega)
      rcases Nat.lt_or_ge (xs.length - 2) k with h | h
      · have : k = xs.length - 1 := by omega
        subst this
        rw [(chord1 _ _ _ _ h01).2]
      · have : k = xs.length - 2 := by omega
        rw [this, (chord1 _ _ _ _ h01).1]
    · rw [if_neg h2]
      have hk1 : 1 < k := by
        by_contra hcon
        rcases Nat.lt_or_ge k 1 with h | h
        · exact h1 (le_of_lt (hinc k 1 h (by omega)))
        · have : k = 1 := by omega
          rw [this] at h1
          exact h1 le_rfl
      obtain ⟨i1, i2, e, hb, hc⟩ := real_findIndicesLoop_spec xs (real.rd xs k)
        (xs.length - 2) (by omega) (le_of_lt (not_le.mp h2)) (xs.length - 1) 1 (by omega) le_rfl
        (by
          by_contra hcon
          have h3 : xs.length - 2 = 0 := by omega
          rw [h3] at h2
          exact h2 (le_of_lt (hinc 0 k (by omega) hk)))
        (lt_of_lt_of_le (hinc 0 1 (by decide) (by omega)) (le_of_lt (not_le.mp h1)))
      rw [e]
      rcases hc with ⟨h12, hx⟩ | ⟨h12, hlo, hhi⟩
      · subst h12
        simp only [if_true]
        rw [hinj i1 hb hx]
      · exfalso
        have a1 : i1 < k := by
          by_contra hcon
          have hle : real.rd xs k ≤ real.rd xs i1 := by
            rcases Nat.lt_or_ge k i1 with h | h
            · exact le_of_lt (hinc k i1 h (by omega))
            · have : k = i1 := by omega
              rw [this]
          exact absurd hlo (not_lt.mpr hle)
        have a2 : i2 ≤ k := by omega
        rcases Nat.lt_or_ge i2 k with h | h
        · exact absurd hhi (not_lt.mpr (le_of_lt (hinc i2 k h hk)))
        · have : i2 = k := by omega
          rw [this] at hhi
          exact lt_irrefl _ hhi

/-- The loop of `storeResults` when every interpolation returns a value: it returns the
prices vector with entry `j` written for each layer `j` below `n`. -/
theorem storeResultsLoop_spec (s : real.Pde1DSolver) (f : Nat → ℝ) (N : Nat)
    (hinterp : ∀ j, j < N →
      real.LinearInterpolation1D.new (s.gridAxes_.getD 0 real.GridAxis.new).Xlevels
        (s.prevValues.col j) = .ok ⟨(s.gridAxes_.getD 0 real.GridAxis.new).Xlevels,
          s.prevValues.col j⟩ ∧
      real.LinearInterpolation1D.getValue ⟨(s.gridAxes_.getD 0 real.GridAxis.new).Xlevels,
          s.prevValues.col j⟩
        ((s.gridAxes_.getD 0 real.GridAxis.new).coordinateChange.fromRealToDiffused
          (real.rd s.spots_ 0)) = some (f j))
    (prices : real.Vector) :
    ∀ n, n ≤ N → s.storeResultsLoop n prices
      = .ok (some ((List.range n).foldl (fun r j => real.wr r j (f j)) prices)) := by
  intro n
  induction n with
  | zero => intro _; rfl
  | succ m ih =>
    intro hm
    have h := ih (by omega)
    unfold real.Pde1DSolver.storeResultsLoop at h ⊢
    rw [List.range_succ, List.foldl_append, List.foldl_append, h]
    simp only [List.foldl_cons, List.foldl_nil]
    obtain ⟨e1, e2⟩ := hinterp m (by omega)
    simp only [real.Pde1DSolver.storeResultsPass, e1, e2]

/-- The method `storeResults` when a node `k` of a strictly increasing level vector carries
the diffused spot and every value layer has as many entries as there are levels: it
returns, and the price of layer `j` is entry `k` of that layer. -/
theorem storeResults_node (s : real.Pde1DSolver) (k : Nat)
    (hlen : 2 ≤ (s.gridAxes_.getD 0 real.GridAxis.new).Xlevels.length)
    (hinc : ∀ i j, i < j → j < (s.gridAxes_.getD 0 real.GridAxis.new).Xlevels.length →
      real.rd (s.gridAxes_.getD 0 real.GridAxis.new).Xlevels i
        < real.rd (s.gridAxes_.getD 0 real.GridAxis.new).Xlevels j)
    (hk : k < (s.gridAxes_.getD 0 real.GridAxis.new).Xlevels.length)
    (hnode : real.rd (s.gridAxes_.getD 0 real.GridAxis.new).Xlevels k
      = (s.gridAxes_.getD 0 real.GridAxis.new).coordinateChange.fromRealToDiffused
          (real.rd s.spots_ 0))
    (hcols : ∀ j, j < s.nLayers_ → (s.prevValues.col j).length
      = (s.gridAxes_.getD 0 real.GridAxis.new).Xlevels.length) :
    ∃ s1 : real.Pde1DSolver, s.storeResults = .ok (some s1) ∧
      s1.results_.gridAxes = s.gridAxes_ ∧
      s1.results_.prices.length = s.nLayers_ ∧
      ∀ j, j < s.nLayers_ → real.rd s1.results_.prices j = real.rd (s.prevValues.col j) k := by
  have hloop := storeResultsLoop_spec s (fun j => real.rd (s.prevValues.col j) k) s.nLayers_
    (fun j hj => by
      refine ⟨?_, ?_⟩
      · simp only [real.LinearInterpolation1D.new, (hcols j hj).symm, if_true]
      · rw [← hnode]
        exact real_getValue_node _ _ hlen hinc k hk)
    (real.resize s.results_.prices s.nLayers_) s.nLayers_ le_rfl
  have hst : s.storeResults = .ok (some { s with results_ :=
      { gridAxes := s.gridAxes_
        prices := (List.range s.nLayers_).foldl
          (fun r j => real.wr r j (real.rd (s.prevValues.col j) k))
          (real.resize s.results_.prices s.nLayers_) } }) := by
    unfold real.Pde1DSolver.storeResults
    rw [hloop]
  refine ⟨_, hst, rfl, ?_, ?_⟩
  · exact (real_length_foldl_wr _ _ _).trans (real_length_resize _ _)
  · intro j hj
    refine (real_rd_foldl_wr (fun j => real.rd (s.prevValues.col j) k) _ _ j).trans ?_
    rw [real_length_resize, if_pos ⟨List.mem_range.mpr hj, hj⟩]

/-! ## Integrals of the curves -/

/-- The scan of `upperBound`: the entries before the returned index are not greater than
`x`, and the entry at it, if there is one, is greater. -/
theorem upperBound_spec (v : Vector) (x : ℚ) :
    PiecewisePolynomial.upperBound v x ≤ v.length ∧
    (∀ i, i < PiecewisePolynomial.upperBound v x → rd v i ≤ x) ∧
    (PiecewisePolynomial.upperBound v x < v.length →
      x < rd v (PiecewisePolynomial.upperBound v x)) := by
  induction v with
  | nil =>
    exact ⟨le_refl 0, fun i hi => absurd hi (Nat.not_lt_zero i),
      fun h => absurd h (lt_irrefl 0)⟩
  | cons a t ih =>
    obtain ⟨h1, h2, h3⟩ := ih
    unfold PiecewisePolynomial.upperBound
    by_cases hxa : x < a
    · rw [if_pos hxa]
      exact ⟨Nat.zero_le _, fun i hi => absurd hi (Nat.not_lt_zero i), fun _ => hxa⟩
    · rw [if_neg hxa]
      refine ⟨Nat.succ_le_succ h1, ?_, ?_⟩
      · intro i hi
        cases i with
        | zero => exact not_lt.mp hxa
        | succ i => exact h2 i (Nat.lt_of_succ_lt_succ hi)
      · intro hlt
        exact h3 (Nat.lt_of_succ_lt_succ hlt)

/-- The member `index(x)` on strictly increasing breakpoints, for `x` not below the first
one: the index `j` with `x_[j] ≤ x` and `x < x_[i]` for every later `i`. -/
theorem index_spec (p : PiecewisePolynomial)
    (hinc : ∀ i j, i < j → j < p.x_.length → rd p.x_ i < rd p.x_ j)
    (hn : 1 ≤ p.x_.length) (x : ℚ) (hx : rd p.x_ 0 ≤ x) :
    ∃ j : Nat, j < p.x_.length ∧ p.index x = (j : Int) ∧ rd p.x_ j ≤ x ∧
      ∀ i, j < i → i < p.x_.length → x < rd p.x_ i := by
  obtain ⟨h1, h2, h3⟩ := upperBound_spec p.x_ x
  have hu : 1 ≤ PiecewisePolynomial.upperBound p.x_ x := by
    by_contra hcon
    have h0 : PiecewisePolynomial.upperBound p.x_ x = 0 := by omega
    have := h3 (by omega)
    rw [h0] at this
    exact absurd hx (not_le.mpr this)
  refine ⟨PiecewisePolynomial.upperBound p.x_ x - 1, by omega, ?_, h2 _ (by omega), ?_⟩
  · unfold PiecewisePolynomial.index
    omega
  · intro i hi hin
    rcases Nat.lt_or_ge (PiecewisePolynomial.upperBound p.x_ x) i with h | h
    · exact lt_trans (h3 (by omega)) (hinc _ i h hin)
    · have : i = PiecewisePolynomial.upperBound p.x_ x := by omega
      rw [this]
      exact h3 (by omega)

/-- The index given by the two bounds of `index_spec` is unique. -/
theorem index_eq (p : PiecewisePolynomial)
    (hinc : ∀ i j, i < j → j < p.x_.length → rd p.x_ i < rd p.x_ j)
    (hn : 1 ≤ p.x_.length) (x : ℚ) (j : Nat) (hj : j < p.x_.length) (hlo : rd p.x_ j ≤ x)
    (hhi : j + 1 < p.x_.length → x < rd p.x_ (j + 1)) :
    p.index x = (j : Int) := by
  have hx0 : rd p.x_ 0 ≤ x := by
    rcases Nat.eq_zero_or_pos j with h | h
    · rw [h] at hlo
      exact hlo
    · exact le_trans (le_of_lt (hinc 0 j h hj)) hlo
  obtain ⟨k, hk, e, klo, khi⟩ := index_spec p hinc hn x hx0
  rw [e]
  rcases Nat.lt_trichotomy j k with h | h | h
  · exfalso
    have h1 := hhi (by omega)
    rcases Nat.lt_or_ge (j + 1) k with h2 | h2
    · have := hinc (j + 1) k h2 hk
      linarith
    · have : k = j + 1 := by omega
      rw [this] at klo
      linarith
  · rw [h]
  · exfalso
    have := khi j h hj
    linarith

/-- The member `primitive(xIdx, h, 1)` of a curve of order `0`: the constant times `h`. -/
theorem primitive_order_zero (p : PiecewisePolynomial) (horder : p.c_.n_rows = 1)
    (xIdx : Nat) (h : ℚ) :
    p.primitive xIdx h 1 = p.c_.at 0 xIdx * h := by
  unfold PiecewisePolynomial.primitive PiecewisePolynomial.order
  rw [horder]
  by_cases hc : (xIdx = 0 ∧ h < 0) ∨ (xIdx + 1 = p.size ∧ h > 0)
  · rw [if_pos hc]
    simp [forUp]
  · rw [if_neg hc]
    simp [forDown, forUp, List.range_succ]

/-- A loop that adds `f idx` for `idx = s, ..., s + n - 1`. -/
theorem foldl_add_range (f : Nat → ℚ) (s n : Nat) (v0 : ℚ) :
    (List.range' s n).foldl (fun (val : ℚ) (idx : Nat) => val + f idx) v0
      = v0 + ((Finset.range (s + n)).sum f - (Finset.range s).sum f) := by
  induction n with
  | zero => simp
  | succ n ih =>
    rw [List.range'_concat, List.foldl_append, ih]
    simp only [List.foldl_cons, List.foldl_nil, Nat.one_mul]
    rw [show s + (n + 1) = (s + n) + 1 by omega, Finset.sum_range_succ]
    ring

/-- The member `integral(a, b)` of a curve of order `0` on strictly increasing breakpoints,
for `x_[0] ≤ a ≤ b`: the difference of the cumulative sums. -/
theorem integral_eq (p : PiecewisePolynomial) (horder : p.c_.n_rows = 1)
    (hinc : ∀ i j, i < j → j < p.x_.length → rd p.x_ i < rd p.x_ j)
    (hn : 1 ≤ p.x_.length) (a b : ℚ) (ha : rd p.x_ 0 ≤ a) (hab : a ≤ b) :
    p.integral a b = p.cumulative b - p.cumulative a := by
  by_cases he : a = b
  · rw [he]
    unfold PiecewisePolynomial.integral
    rw [if_pos rfl, sub_self]
  have hlt : a < b := lt_of_le_of_ne hab he
  obtain ⟨j0, hj0, e0, lo0, hi0⟩ := index_spec p hinc hn a ha
  obtain ⟨j1, hj1, e1, lo1, hi1⟩ := index_spec p hinc hn b (le_trans ha hab)
  have hj01 : j0 ≤ j1 := by
    by_contra hcon
    have := hi1 j0 (by omega) hj0
    linarith
  have hprim : (fun (val : ℚ) (idx : Nat) =>
      val + p.primitive idx (rd p.x_ (idx + 1) - rd p.x_ idx) 1)
      = fun (val : ℚ) (idx : Nat) =>
        val + (fun i => p.c_.at 0 i * (rd p.x_ (i + 1) - rd p.x_ i)) idx := by
    funext val idx
    rw [primitive_order_zero p horder]
  unfold PiecewisePolynomial.integral PiecewisePolynomial.cumulative
  simp only [if_neg he, if_neg (not_lt.mpr hab), e0, e1, Int.toNat_ofNat, Nat.cast_inj,
    primitive_order_zero p horder, hprim]
  by_cases h01 : j0 = j1
  · rw [if_pos h01, h01]
    simp only [show ¬ ((j1 : Int) < 0) by omega, if_false]
    ring
  · rw [if_neg h01]
    have hne : ¬ ((j0 : Int) = -1) := by omega
    simp only [hne, if_false]
    by_cases hst : a > rd p.x_ j0
    · simp only [hst, if_true]
      rw [foldl_add_range, show j0 + 1 + (j1 - (j0 + 1)) = j1 by omega,
        Finset.sum_range_succ]
      ring
    · have hax : a = rd p.x_ j0 := le_antisymm (not_lt.mp hst) lo0
      simp only [hst, if_false]
      rw [foldl_add_range, show j0 + (j1 - j0) = j1 by omega, hax]
      ring

/-- The loop shared by `initFromSpotVols` (`g V = V * V`) and `initFromSpotRates`
(`g R = R`) when no implied forward quantity is negative: after the passes `1..m` it has
returned, entry `j` in `1..m` holds the breakpoint `mats (j - 1)` and the forward quantity
between `mats (j - 1)` and `mats j`, and the entries `0` and above `m` are untouched. -/
theorem bootstrap_loop_entries (g : ℚ → ℚ)
    (step : PiecewisePolynomial × ℚ × ℚ → Nat → Except String (PiecewisePolynomial × ℚ × ℚ))
    (hok : ∀ st i, g (st.1.coefficient 0 i) * st.1.breakPoint i - st.2.2 * st.2.1 ≥ 0 →
      step st i = .ok ((st.1.setBreakPoint i st.2.1).setCoefficient 0 i
        ((g (st.1.coefficient 0 i) * st.1.breakPoint i - st.2.2 * st.2.1)
          / (st.1.breakPoint i - st.2.1)),
        st.1.breakPoint i, g (st.1.coefficient 0 i)))
    (mats vals : Vector) (p0 : PiecewisePolynomial)
    (hx : ∀ j, 1 ≤ j → rd p0.x_ j = rd mats j)
    (hc : ∀ j, 1 ≤ j → p0.c_.at 0 j = rd vals j)
    (hcol : ∀ j, j < p0.x_.length → 0 < (p0.c_.col j).length) (m : Nat)
    (hm : m < p0.x_.length)
    (hfwd : ∀ i, 1 ≤ i → i ≤ m →
      g (rd vals i) * rd mats i - g (rd vals (i - 1)) * rd mats (i - 1) ≥ 0) :
    ∃ st, (List.range' 1 m).foldl
        (fun (acc : Except String (PiecewisePolynomial × ℚ × ℚ)) (i : Nat) =>
          acc.bind fun st => step st i)
        (Except.ok (p0, rd mats 0, g (rd vals 0))) = .ok st ∧
      st.1.x_.length = p0.x_.length ∧ st.1.c_.n_rows = p0.c_.n_rows ∧
      (∀ j, (st.1.c_.col j).length = (p0.c_.col j).length) ∧
      rd st.1.x_ 0 = rd p0.x_ 0 ∧ st.1.c_.at 0 0 = p0.c_.at 0 0 ∧
      (∀ j, 1 ≤ j → j ≤ m → rd st.1.x_ j = rd mats (j - 1) ∧
        st.1.c_.at 0 j = (g (rd vals j) * rd mats j - g (rd vals (j - 1)) * rd mats (j - 1))
          / (rd mats j - rd mats (j - 1))) ∧
      (∀ j, m < j → rd st.1.x_ j = rd mats j ∧ st.1.c_.at 0 j = rd vals j) ∧
      st.2.1 = rd mats m ∧ st.2.2 = g (rd vals m) := by
  induction m with
  | zero =>
    refine ⟨_, rfl, rfl, rfl, fun _ => rfl, rfl, rfl, fun j h1 h2 => by omega,
      fun j hj => ⟨hx j hj, hc j hj⟩, rfl, rfl⟩
  | succ m ih =>
    obtain ⟨st, hst, s1, s2, s3, s4, s5, s6, s7, s8, s9⟩ := ih (by omega)
      (fun i h1 h2 => hfwd i h1 (by omega))
    rw [List.range'_concat, List.foldl_append, hst]
    simp only [List.foldl_cons, List.foldl_nil, Nat.one_mul]
    obtain ⟨sx, sc⟩ := s7 (1 + m) (by omega)
    have hF : g (st.1.coefficient 0 (1 + m)) * st.1.breakPoint (1 + m) - st.2.2 * st.2.1
        = g (rd vals (1 + m)) * rd mats (1 + m) - g (rd vals m) * rd mats m := by
      show g (st.1.c_.at 0 (1 + m)) * rd st.1.x_ (1 + m) - st.2.2 * st.2.1 = _
      rw [sx, sc, s8, s9]
    have hge := hfwd (1 + m) (by omega) (by omega)
    rw [show 1 + m - 1 = m by omega] at hge
    have hb : (Except.ok st : Except String (PiecewisePolynomial × ℚ × ℚ)).bind
        (fun st => step st (1 + m)) = step st (1 + m) := rfl
    rw [hb, hok st (1 + m) (by rw [hF]; exact hge)]
    have hB : st.1.breakPoint (1 + m) = rd mats (1 + m) := sx
    have hC : st.1.coefficient 0 (1 + m) = rd vals (1 + m) := sc
    rw [hF, hB, hC, s8]
    refine ⟨_, rfl, ?_, s2, ?_, ?_, ?_, ?_, ?_, by rw [Nat.add_comm m 1],
      by rw [Nat.add_comm m 1]⟩
    · show (wr st.1.x_ (1 + m) _).length = _
      rw [length_wr, s1]
    · intro j
      show ((Matrix.setAt st.1.c_ 0 (1 + m) _).col j).length = _
      rw [col_setAt]
      split_ifs with h
      · rw [length_wr, s3]
      · rw [s3]
    · show rd (wr st.1.x_ (1 + m) _) 0 = _
      rw [rd_wr_ne _ _ _ _ (by omega), s4]
    · show Matrix.at (Matrix.setAt st.1.c_ 0 (1 + m) _) 0 0 = _
      rw [at_setAt, if_neg (fun hh => by omega), s5]
    · intro j h1 h2
      by_cases hj : j = 1 + m
      · subst hj
        refine ⟨?_, ?_⟩
        · show rd (wr st.1.x_ (1 + m) _) (1 + m) = _
          rw [rd_wr_same _ _ _ (by omega), show 1 + m - 1 = m by omega]
        · show Matrix.at (Matrix.setAt st.1.c_ 0 (1 + m) _) 0 (1 + m) = _
          rw [at_setAt, if_pos ⟨rfl, rfl, by rw [s3]; exact hcol _ (by omega)⟩,
            show 1 + m - 1 = m by omega]
      · obtain ⟨a1, a2⟩ := s6 j h1 (by omega)
        refine ⟨?_, ?_⟩
        · show rd (wr st.1.x_ (1 + m) _) j = _
          rw [rd_wr_ne _ _ _ _ (by omega), a1]
        · show Matrix.at (Matrix.setAt st.1.c_ 0 (1 + m) _) 0 j = _
          rw [at_setAt, if_neg (fun hh => by omega), a2]
    · intro j hj
      obtain ⟨a1, a2⟩ := s7 j (by omega)
      refine ⟨?_, ?_⟩
      · show rd (wr st.1.x_ (1 + m) _) j = _
        rw [rd_wr_ne _ _ _ _ (by omega), a1]
      · show Matrix.at (Matrix.setAt st.1.c_ 0 (1 + m) _) 0 j = _
        rw [at_setAt, if_neg (fun hh => by omega), a2]

/-- The constructor of `PiecewisePolynomial` with `order = 0` returns a coefficient matrix
with one row. -/
theorem PiecewisePolynomial_new_rows (xs ys : Vector) (p : PiecewisePolynomial)
    (h : PiecewisePolynomial.new xs ys 0 = .ok p) : p.c_.n_rows = 1 := by
  obtain ⟨h1, _, _⟩ := foldl_setAt_zero (fun j => rd ys j) (List.range xs.length)
    (Matrix.zeros (0 + 1) xs.length)
  have hr : ((List.range xs.length).foldl (fun c (j : Nat) => c.setAt 0 j (rd ys j))
      (Matrix.zeros (0 + 1) xs.length)).n_rows - 1 ≠ 1 := by
    rw [h1]
    show 0 + 1 - 1 ≠ 1
    omega
  unfold PiecewisePolynomial.new at h
  simp only [if_neg hr] at h
  split_ifs at h with c1 c2
  injection h with h
  rw [← h]
  exact h1

/-- Adjacent strict increase gives strict increase over all pairs of indices. -/
theorem increasing_of_adjacent (v : Vector)
    (h : ∀ i, i + 1 < v.length → rd v i < rd v (i + 1)) :
    ∀ i j, i < j → j < v.length → rd v i < rd v j := by
  intro i j hij
  induction j with
  | zero => omega
  | succ j ih =>
    intro hj
    rcases Nat.lt_or_ge i j with h1 | h1
    · exact lt_trans (ih h1 (by omega)) (h j hj)
    · have : i = j := by omega
      rw [this]
      exact h j hj

/-- The yield curve built from spot rates at strictly increasing positive tenors with
non-negative implied forward rates: the constructor returns; the breakpoints are `0` and
the tenors but the last; the coefficients are the first spot rate and the implied forward
rates. -/
theorem YieldCurve_new_spot_entries (tMat rates : Vector) (hlen : tMat.length = rates.length)
    (hm : 1 ≤ tMat.length)
    (hinc : ∀ i, i + 1 < tMat.length → rd tMat i < rd tMat (i + 1))
    (hpos : ∀ i, i < tMat.length → 0 < rd tMat i)
    (hfwd : ∀ i, 1 ≤ i → i < tMat.length →
      rd rates i * rd tMat i - rd rates (i - 1) * rd tMat (i - 1) ≥ 0) :
    ∃ y, market.YieldCurve.new tMat rates .SPOTRATE = .ok y ∧
      y.fwdrates_.x_.length = tMat.length ∧ y.fwdrates_.c_.n_rows = 1 ∧
      rd y.fwdrates_.x_ 0 = 0 ∧ y.fwdrates_.c_.at 0 0 = rd rates 0 ∧
      ∀ j, 1 ≤ j → j < tMat.length → rd y.fwdrates_.x_ j = rd tMat (j - 1) ∧
        y.fwdrates_.c_.at 0 j
          = (rd rates j * rd tMat j - rd rates (j - 1) * rd tMat (j - 1))
            / (rd tMat j - rd tMat (j - 1)) := by
  obtain ⟨p, hp, hpx, hpc, hpz, hpl⟩ := PiecewisePolynomial_new_zero tMat rates hinc
  have hrows := PiecewisePolynomial_new_rows tMat rates p hp
  have hall := all_pos_of_rd tMat hpos
  have hc_all : ∀ j, p.c_.at 0 j = rd rates j := by
    intro j
    by_cases hj : j < tMat.length
    · exact hpc j hj
    · rw [hpz j (Nat.le_of_not_lt hj)]
      unfold rd
      rw [List.getD_eq_getElem?_getD, List.getElem?_eq_none (by omega)]
      rfl
  obtain ⟨st, hst, s1, s2, _, s4, s5, s6, _⟩ :=
    bootstrap_loop_entries (fun R => R) market.YieldCurve.spotRatesStep
      (fun st i h => by
        unfold market.YieldCurve.spotRatesStep
        simp only [not_not.mpr h, if_false])
      tMat rates (p.setBreakPoint 0 0)
      (fun j hj => by
        show rd (wr p.x_ 0 0) j = _
        rw [rd_wr_ne _ _ _ _ (by omega), hpx])
      (fun j _ => hc_all j)
      (fun j hj => by
        have hj2 : j < tMat.length := by
          have : (wr p.x_ 0 0).length = tMat.length := by rw [length_wr, hpx]
          exact this ▸ hj
        show 0 < (p.c_.col j).length
        rw [hpl j hj2]
        exact Nat.zero_lt_one)
      (tMat.length - 1)
      (by
        show tMat.length - 1 < (wr p.x_ 0 0).length
        rw [length_wr, hpx]
        omega)
      (fun i h1 h2 => hfwd i h1 (by omega))
  have hnew : market.YieldCurve.new tMat rates .SPOTRATE
      = ((List.range' 1 (tMat.length - 1)).foldl
          (fun (acc : Except String (PiecewisePolynomial × ℚ × ℚ)) (i : Nat) =>
            acc.bind fun st => market.YieldCurve.spotRatesStep st i)
          (Except.ok (p.setBreakPoint 0 0, rd tMat 0, (fun R => R) (rd rates 0)))).map
            fun st => { (⟨"USD", p⟩ : market.YieldCurve) with fwdrates_ := st.1 } := by
    unfold market.YieldCurve.new
    rw [hp]
    simp only [eq_true hlen, hall, not_true_eq_false, if_false]
    unfold market.YieldCurve.initFromSpotRates
    have hsz : (p.setBreakPoint 0 0).size = tMat.length := by
      show (wr p.x_ 0 0).length = _
      rw [length_wr, hpx]
    have hT : p.breakPoint 0 = rd tMat 0 := by
      show rd p.x_ 0 = _
      rw [hpx]
    have hV : p.coefficient 0 0 = rd rates 0 := hc_all 0
    simp only [hsz]
    simp only [hT, hV]
  rw [hnew, hst]
  refine ⟨_, rfl, ?_, ?_, ?_, ?_, ?_⟩
  · show st.1.x_.length = _
    rw [s1]
    show (wr p.x_ 0 0).length = _
    rw [length_wr, hpx]
  · show st.1.c_.n_rows = 1
    rw [s2]
    exact hrows
  · show rd st.1.x_ 0 = 0
    rw [s4]
    show rd (wr p.x_ 0 0) 0 = 0
    rw [rd_wr_same _ _ _ (by rw [hpx]; omega)]
  · show st.1.c_.at 0 0 = _
    rw [s5]
    exact hc_all 0
  · intro j h1 h2
    exact s6 j h1 (by omega)

/-- The cumulative sums of a curve bootstrapped from the spot rates `rates` at the tenors
`tMat`: `0` at time `0` and `rates[k] * tMat[k]` at the tenor `tMat[k]`; the breakpoints are
strictly increasing. -/
theorem cumulative_bootstrapped (p : PiecewisePolynomial) (tMat rates : Vector)
    (hm : 1 ≤ tMat.length)
    (hinc : ∀ i, i + 1 < tMat.length → rd tMat i < rd tMat (i + 1))
    (hpos : ∀ i, i < tMat.length → 0 < rd tMat i)
    (hlenx : p.x_.length = tMat.length) (hx0 : rd p.x_ 0 = 0)
    (hc0 : p.c_.at 0 0 = rd rates 0)
    (hent : ∀ j, 1 ≤ j → j < tMat.length → rd p.x_ j = rd tMat (j - 1) ∧
      p.c_.at 0 j = (rd rates j * rd tMat j - rd rates (j - 1) * rd tMat (j - 1))
        / (rd tMat j - rd tMat (j - 1))) :
    (∀ i j, i < j → j < p.x_.length → rd p.x_ i < rd p.x_ j) ∧
    p.cumulative 0 = 0 ∧
    ∀ k, k < tMat.length → p.cumulative (rd tMat k) = rd rates k * rd tMat k := by
  have hincT := increasing_of_adjacent tMat hinc
  have hincx : ∀ i j, i < j → j < p.x_.length → rd p.x_ i < rd p.x_ j := by
    intro i j hij hj
    rw [hlenx] at hj
    rw [(hent j (by omega) hj).1]
    rcases Nat.eq_zero_or_pos i with h | h
    · rw [h, hx0]
      exact hpos _ (by omega)
    · rw [(hent i h (by omega)).1]
      exact hincT _ _ (by omega) (by omega)
  -- one piece
  have hpiece : ∀ n, n < tMat.length →
      p.c_.at 0 n * (rd tMat n - rd p.x_ n)
        = rd rates n * rd tMat n - (if n = 0 then 0 else rd rates (n - 1) * rd tMat (n - 1)) := by
    intro n hn
    rcases Nat.eq_zero_or_pos n with h | h
    · rw [h, hc0, hx0]
      simp
    · obtain ⟨a1, a2⟩ := hent n h hn
      have hne : rd tMat n - rd tMat (n - 1) ≠ 0 := by
        have := hincT (n - 1) n (by omega) hn
        exact sub_ne_zero.mpr (ne_of_gt this)
      rw [a1, a2, if_neg (by omega)]
      field_simp
  -- the telescoping sum
  have hsum : ∀ n, n < tMat.length →
      (Finset.range n).sum (fun i => p.c_.at 0 i * (rd p.x_ (i + 1) - rd p.x_ i))
        = if n = 0 then 0 else rd rates (n - 1) * rd tMat (n - 1) := by
    intro n
    induction n with
    | zero => intro _; simp
    | succ n ih =>
      intro hn
      rw [Finset.sum_range_succ, ih (by omega), (hent (n + 1) (by omega) hn).1,
        show n + 1 - 1 = n by omega, hpiece n (by omega), if_neg (Nat.succ_ne_zero n)]
      ring
  refine ⟨hincx, ?_, ?_⟩
  · have hidx : p.index 0 = ((0 : Nat) : Int) := index_eq p hincx (by omega) 0 0 (by omega)
      (by rw [hx0]) (fun h => by
        rw [(hent 1 le_rfl (by omega)).1]
        exact hpos 0 (by omega))
    unfold PiecewisePolynomial.cumulative
    rw [hidx, Int.toNat_ofNat, hx0]
    simp
  · intro k hk
    by_cases hk1 : k + 1 < tMat.length
    · have hidx : p.index (rd tMat k) = ((k + 1 : Nat) : Int) :=
        index_eq p hincx (by omega) _ (k + 1) (by omega)
          (by rw [(hent (k + 1) (by omega) hk1).1]; exact le_refl _)
          (fun h => by
            rw [(hent (k + 1 + 1) (by omega) (by omega)).1]
            exact hinc k hk1)
      unfold PiecewisePolynomial.cumulative
      rw [hidx, Int.toNat_ofNat, hsum (k + 1) hk1, (hent (k + 1) (by omega) hk1).1,
        if_neg (Nat.succ_ne_zero k)]
      simp
    · have hidx : p.index (rd tMat k) = ((k : Nat) : Int) :=
        index_eq p hincx (by omega) _ k (by omega)
          (by
            rcases Nat.eq_zero_or_pos k with h | h
            · rw [h, hx0]
              exact le_of_lt (hpos 0 (by omega))
            · rw [(hent k h hk).1]
              exact le_of_lt (hincT _ _ (by omega) hk))
          (fun h => by omega)
      unfold PiecewisePolynomial.cumulative
      rw [hidx, Int.toNat_ofNat, hsum k hk, hpiece k hk]
      ring


/-! ## Claims -/

/-- C1: for an operator with `N ≥ 2` interior nodes, `apply` writes
`y[1] = edgeLow + diag[1]*x[1] + upper[1]*x[2]`,
`y[i] = lower[i]*x[i-1] + diag[i]*x[i] + upper[i]*x[i+1]` for `2 ≤ i ≤ N-1` and
`y[N] = lower[N]*x[N-1] + diag[N]*x[N] + edgeHigh`; `y[0]`, `y[N+1]` and the size of `y` are
left untouched; and `y[1..N]` is the same for any other operator, input and output buffer
that differ only in the band entries at `0` and `N+1`, in `lower[1]`, in `upper[N]`, in
`x[0]`, `x[N+1]` and in the previous contents of `y`. -/
theorem C1_apply_rows (op : TridiagonalOp1D) (x y : Vector) (hN : 2 ≤ op.N_)
    (hy : y.length = op.N_ + 2) :
    rd (op.apply x y) 1 = op.LowerVal_ + rd op.diag_ 1 * rd x 1 + rd op.upper_ 1 * rd x 2 ∧
    (∀ i, 2 ≤ i → i ≤ op.N_ - 1 →
      rd (op.apply x y) i
        = rd op.lower_ i * rd x (i - 1) + rd op.diag_ i * rd x i + rd op.upper_ i * rd x (i + 1)) ∧
    rd (op.apply x y) op.N_
      = rd op.lower_ op.N_ * rd x (op.N_ - 1) + rd op.diag_ op.N_ * rd x op.N_ + op.UpperVal_ ∧
    rd (op.apply x y) 0 = rd y 0 ∧
    rd (op.apply x y) (op.N_ + 1) = rd y (op.N_ + 1) ∧
    (op.apply x y).length = y.length ∧
    (∀ (op2 : TridiagonalOp1D) (x2 y2 : Vector),
      op2.N_ = op.N_ → op2.LowerVal_ = op.LowerVal_ → op2.UpperVal_ = op.UpperVal_ →
      y2.length = op.N_ + 2 →
      (∀ i, 1 ≤ i → i ≤ op.N_ → rd op2.diag_ i = rd op.diag_ i) →
      (∀ i, 2 ≤ i → i ≤ op.N_ → rd op2.lower_ i = rd op.lower_ i) →
      (∀ i, 1 ≤ i → i ≤ op.N_ - 1 → rd op2.upper_ i = rd op.upper_ i) →
      (∀ i, 1 ≤ i → i ≤ op.N_ → rd x2 i = rd x i) →
      ∀ i, 1 ≤ i → i ≤ op.N_ → rd (op2.apply x2 y2) i = rd (op.apply x y) i) := by
  refine ⟨?_, ?_, ?_, ?_, ?_, length_apply op x y, ?_⟩
  · rw [rd_apply op x y hN hy]
    have h1 : ¬ (1 = op.N_) := by omega
    have h2 : ¬ (2 ≤ 1 ∧ 1 ≤ op.N_ - 1) := by omega
    simp [h1, h2]
  · intro i hi1 hi2
    rw [rd_apply op x y hN hy]
    have h1 : ¬ (i = op.N_) := by omega
    simp [h1, hi1, hi2, TridiagonalOp1D.row]
  · rw [rd_apply op x y hN hy]
    simp
  · rw [rd_apply op x y hN hy]
    have h1 : ¬ (0 = op.N_) := by omega
    simp [h1]
  · rw [rd_apply op x y hN hy]
    have h1 : ¬ (op.N_ + 1 = op.N_) := by omega
    have h2 : ¬ (2 ≤ op.N_ + 1 ∧ op.N_ + 1 ≤ op.N_ - 1) := by omega
    have h3 : ¬ (op.N_ + 1 = 1) := by omega
    simp only [h1, h2, h3, if_false]
  · intro op2 x2 y2 hN2 hL hU hy2 hd hl hu hx i hi1 hi2
    rw [rd_apply op x y hN hy, rd_apply op2 x2 y2 (by omega) (by omega)]
    simp only [hN2, hL, hU]
    by_cases h1 : i = op.N_
    · subst h1
      simp only [if_true]
      rw [hl _ (by omega) le_rfl, hd _ (by omega) le_rfl, hx _ (by omega) le_rfl,
        hx _ (by omega) (by omega)]
    · simp only [h1, if_false]
      by_cases h2 : 2 ≤ i ∧ i ≤ op.N_ - 1
      · simp only [h2, and_self, if_true, TridiagonalOp1D.row]
        rw [hl _ h2.1 (by omega), hd _ (by omega) (by omega), hu _ (by omega) h2.2,
          hx _ (by omega) (by omega), hx _ (by omega) (by omega), hx _ (by omega) (by omega)]
      · have h3 : i = 1 := by omega
        subst h3
        simp only [h2, if_false, if_true]
        rw [hd _ le_rfl (by omega), hu _ le_rfl (by omega), hx _ le_rfl (by omega),
          hx _ (by omega) (by omega)]

/-- C1 at the operator with bands `[9,1,2,3,9]`, `[9,4,5,6,9]`, `[9,1,1,1,9]` (`N = 3`),
`x = [100,1,2,3,100]`: rows 1, 2, 3 of the result are `6`, `15`, `24`. -/
theorem C1_apply_rows_witness :
    rd ((TridiagonalOp1D.init [9, 1, 2, 3, 9] [9, 4, 5, 6, 9] [9, 1, 1, 1, 9]).apply
        [100, 1, 2, 3, 100] [7, 7, 7, 7, 7]) 1 = 6 ∧
    rd ((TridiagonalOp1D.init [9, 1, 2, 3, 9] [9, 4, 5, 6, 9] [9, 1, 1, 1, 9]).apply
        [100, 1, 2, 3, 100] [7, 7, 7, 7, 7]) 3 = 24 := by
  have h := C1_apply_rows (TridiagonalOp1D.init [9, 1, 2, 3, 9] [9, 4, 5, 6, 9] [9, 1, 1, 1, 9])
    [100, 1, 2, 3, 100] [7, 7, 7, 7, 7] (by decide) (by decide)
  refine ⟨h.1.trans ?_, h.2.2.1.trans ?_⟩
  · norm_num [TridiagonalOp1D.init, rd]
  · norm_num [TridiagonalOp1D.init, rd]

/-- C2: for `N ≥ 2`, an operator freshly initialised from three bands of `N + 2` entries
(edge values zero) whose matrix rows `1..N` are strictly diagonally dominant (which holds
in particular when `|diag[i]| > |lower[i]| + |upper[i]|` on `1..N`), and every `x`,
`applyInverse(apply(x))` equals `x` at every index `1..N`, whatever the previous contents of
the two output buffers and of the scratch arrays. -/
theorem C2_applyInverse_apply (st : Scratch) (lower diag upper x ybuf xbuf : Vector) (N : Nat)
    (hN : 2 ≤ N) (hl : lower.length = N + 2) (hd : diag.length = N + 2)
    (hyb : ybuf.length = N + 2) (hxb : xbuf.length = N + 2)
    (hdom : ∀ i, 1 ≤ i → i ≤ N →
      (if i = 1 then 0 else |rd lower i|) + (if i = N then 0 else |rd upper i|) < |rd diag i|) :
    ∀ i, 1 ≤ i → i ≤ N →
      rd ((TridiagonalOp1D.init lower diag upper).applyInverse st
        ((TridiagonalOp1D.init lower diag upper).apply x ybuf) xbuf).2 i = rd x i := by
  have hNop : (TridiagonalOp1D.init lower diag upper).N_ = N := by
    simp [TridiagonalOp1D.init, hl]
  have hy : ∀ i, 1 ≤ i → i ≤ N →
      tridiagRow lower diag upper x N i
        = rd ((TridiagonalOp1D.init lower diag upper).apply x ybuf) i := by
    intro i h1 h2
    rw [rd_apply _ x ybuf (by omega) (by omega), hNop]
    unfold tridiagRow
    by_cases hiN : i = N
    · subst hiN
      have hne : ¬ (i = 1) := by omega
      simp [hne, TridiagonalOp1D.init]
    · by_cases hi1 : i = 1
      · subst hi1
        have h2' : ¬ (2 ≤ 1 ∧ 1 ≤ N - 1) := by omega
        simp [hiN, h2', TridiagonalOp1D.init]
      · have h2' : 2 ≤ i ∧ i ≤ N - 1 := by omega
        simp [hiN, hi1, h2', TridiagonalOp1D.row, TridiagonalOp1D.init]
  unfold TridiagonalOp1D.applyInverse
  exact solveTridiagonal_unique st xbuf lower diag upper _ x N (by omega) hd hxb
    (pivots_ne_zero_of_dominant st xbuf lower diag upper _ N (by omega) hd hxb hdom) hy

/-- C2 at `N = 3`, bands `[9,1,2,3,9]`, `[9,4,5,6,9]`, `[9,1,1,1,9]` and
`x = [100,1,2,3,100]`. -/
theorem C2_applyInverse_apply_witness :
    rd ((TridiagonalOp1D.init [9, 1, 2, 3, 9] [9, 4, 5, 6, 9] [9, 1, 1, 1, 9]).applyInverse
        Scratch.initial
        ((TridiagonalOp1D.init [9, 1, 2, 3, 9] [9, 4, 5, 6, 9] [9, 1, 1, 1, 9]).apply
          [100, 1, 2, 3, 100] [7, 7, 7, 7, 7]) [8, 8, 8, 8, 8]).2 2
      = rd [100, 1, 2, 3, 100] 2 :=
  C2_applyInverse_apply Scratch.initial [9, 1, 2, 3, 9] [9, 4, 5, 6, 9] [9, 1, 1, 1, 9]
    [100, 1, 2, 3, 100] [7, 7, 7, 7, 7] [8, 8, 8, 8, 8] 3 (by decide) rfl rfl rfl rfl (by
      intro i hi1 hi2
      have : i = 1 ∨ i = 2 ∨ i = 3 := by omega
      rcases this with rfl | rfl | rfl <;> norm_num [rd, abs_of_pos]) 2 (by decide) (by decide)

/-- C3 as stated fails for `n = 1`: with bands `lower = [0,0,0]`, `diag = [0,1,0]`,
`upper = [0,1,0]`, right-hand side `y = [0,1,0]` and `x = [0,0,1]` before the call, the
pivot `D[1] = 1` is non-zero and the call sets `x[1] = 1`, so
`diag[1]*x[1] + upper[1]*x[2] = 2`, which is not `y[1] = 1`. -/
theorem C3_counterexample :
    ¬ (∀ (st : Scratch) (x lower diag upper y : Vector) (n : Nat), 1 ≤ n →
        lower.length = n + 2 → diag.length = n + 2 → upper.length = n + 2 →
        y.length = n + 2 → x.length = n + 2 →
        (∀ i, 1 ≤ i → i ≤ n → rd (solveTridiagonal st x lower diag upper y).1.D i ≠ 0) →
        rd diag 1 * rd (solveTridiagonal st x lower diag upper y).2 1
          + rd upper 1 * rd (solveTridiagonal st x lower diag upper y).2 2 = rd y 1 ∧
        (∀ i, 2 ≤ i → i ≤ n - 1 →
          rd lower i * rd (solveTridiagonal st x lower diag upper y).2 (i - 1)
            + rd diag i * rd (solveTridiagonal st x lower diag upper y).2 i
            + rd upper i * rd (solveTridiagonal st x lower diag upper y).2 (i + 1) = rd y i) ∧
        rd lower n * rd (solveTridiagonal st x lower diag upper y).2 (n - 1)
          + rd diag n * rd (solveTridiagonal st x lower diag upper y).2 n = rd y n) := by
  intro h
  have h1 := (h Scratch.initial [0, 0, 1] [0, 0, 0] [0, 1, 0] [0, 1, 0] [0, 1, 0] 1 le_rfl
    rfl rfl rfl rfl rfl (by
      intro i hi1 hi2
      have : i = 1 := by omega
      subst this
      norm_num [solveTridiagonal, forDown, forUp, eliminateAt, substituteAt, rd, wr,
        Scratch.initial])).1
  norm_num [solveTridiagonal, forDown, forUp, eliminateAt, substituteAt, rd, wr,
    Scratch.initial] at h1

/-- C3 (amended): for bands of `n + 2` entries, `n ≥ 1`, whose scratch pivots `D[1..n]` are
all non-zero, the vector `x` returned by `solveTridiagonal` satisfies, when `n = 1`, the
single equation `diag[1]*x[1] = y[1]`, and when `n ≥ 2`, the equations
`diag[1]*x[1] + upper[1]*x[2] = y[1]`,
`lower[i]*x[i-1] + diag[i]*x[i] + upper[i]*x[i+1] = y[i]` for `2 ≤ i ≤ n-1` and
`lower[n]*x[n-1] + diag[n]*x[n] = y[n]`; moreover every solution `z` of `T*z = y` (such as
the one produced by the standard two-pass elimination) agrees with `x` on `1..n`. -/
theorem C3_solveTridiagonal_solves (st : Scratch) (x lower diag upper y : Vector) (n : Nat)
    (hn : 1 ≤ n) (hd : diag.length = n + 2) (hx : x.length = n + 2)
    (hpiv : ∀ i, 1 ≤ i → i ≤ n → rd (solveTridiagonal st x lower diag upper y).1.D i ≠ 0) :
    (n = 1 → rd diag 1 * rd (solveTridiagonal st x lower diag upper y).2 1 = rd y 1) ∧
    (2 ≤ n →
      rd diag 1 * rd (solveTridiagonal st x lower diag upper y).2 1
        + rd upper 1 * rd (solveTridiagonal st x lower diag upper y).2 2 = rd y 1 ∧
      (∀ i, 2 ≤ i → i ≤ n - 1 →
        rd lower i * rd (solveTridiagonal st x lower diag upper y).2 (i - 1)
          + rd diag i * rd (solveTridiagonal st x lower diag upper y).2 i
          + rd upper i * rd (solveTridiagonal st x lower diag upper y).2 (i + 1) = rd y i) ∧
      rd lower n * rd (solveTridiagonal st x lower diag upper y).2 (n - 1)
        + rd diag n * rd (solveTridiagonal st x lower diag upper y).2 n = rd y n) ∧
    (∀ z : Vector, (∀ i, 1 ≤ i → i ≤ n → tridiagRow lower diag upper z n i = rd y i) →
      ∀ i, 1 ≤ i → i ≤ n → rd (solveTridiagonal st x lower diag upper y).2 i = rd z i) := by
  have hs := solveTridiagonal_solves st x lower diag upper y n hn hd hx hpiv
  refine ⟨?_, ?_, ?_⟩
  · intro h1
    subst h1
    have := hs 1 le_rfl le_rfl
    simpa [tridiagRow] using this
  · intro h2
    refine ⟨?_, ?_, ?_⟩
    · have := hs 1 le_rfl hn
      have hne : ¬ (1 = n) := by omega
      simpa [tridiagRow, hne] using this
    · intro i hi1 hi2
      have := hs i (by omega) (by omega)
      have hne1 : ¬ (i = 1) := by omega
      have hne2 : ¬ (i = n) := by omega
      simpa [tridiagRow, hne1, hne2] using this
    · have := hs n hn le_rfl
      have hne : ¬ (n = 1) := by omega
      simpa [tridiagRow, hne] using this
  · intro z hz
    exact solveTridiagonal_unique st x lower diag upper y z n hn hd hx hpiv hz

/-- C3 (amended) at `n = 3`, bands `[9,1,2,3,9]`, `[9,4,5,6,9]`, `[9,1,1,1,9]` and
`y = [7,6,15,24,7]`: the first and the last equation of the system hold. -/
theorem C3_solveTridiagonal_solves_witness :
    rd [9, 4, 5, 6, 9] 1 * rd (solveTridiagonal Scratch.initial [7, 7, 7, 7, 7]
        [9, 1, 2, 3, 9] [9, 4, 5, 6, 9] [9, 1, 1, 1, 9] [7, 6, 15, 24, 7]).2 1
      + rd [9, 1, 1, 1, 9] 1 * rd (solveTridiagonal Scratch.initial [7, 7, 7, 7, 7]
        [9, 1, 2, 3, 9] [9, 4, 5, 6, 9] [9, 1, 1, 1, 9] [7, 6, 15, 24, 7]).2 2
      = rd [7, 6, 15, 24, 7] 1 ∧
    rd [9, 1, 2, 3, 9] 3 * rd (solveTridiagonal Scratch.initial [7, 7, 7, 7, 7]
        [9, 1, 2, 3, 9] [9, 4, 5, 6, 9] [9, 1, 1, 1, 9] [7, 6, 15, 24, 7]).2 (3 - 1)
      + rd [9, 4, 5, 6, 9] 3 * rd (solveTridiagonal Scratch.initial [7, 7, 7, 7, 7]
        [9, 1, 2, 3, 9] [9, 4, 5, 6, 9] [9, 1, 1, 1, 9] [7, 6, 15, 24, 7]).2 3
      = rd [7, 6, 15, 24, 7] 3 := by
  have h := (C3_solveTridiagonal_solves Scratch.initial [7, 7, 7, 7, 7]
    [9, 1, 2, 3, 9] [9, 4, 5, 6, 9] [9, 1, 1, 1, 9] [7, 6, 15, 24, 7] 3 (by decide) rfl rfl (by
      intro i hi1 hi2
      have : i = 1 ∨ i = 2 ∨ i = 3 := by omega
      rcases this with rfl | rfl | rfl <;>
        norm_num [solveTridiagonal, forDown, forUp, eliminateAt, substituteAt, rd, wr,
          Scratch.initial, List.range'])).2.1 (by decide)
  exact ⟨h.1, h.2.2⟩

/-- C6: for a well-formed operator with at least 4 band entries and every `DX`,
`adjustForLowerBoundaryCondition(3, 0, DX, ., .)` returns `0`, adds
`2/(1+DX/2)*lower[1]` to `diag[1]`, subtracts `(1-DX/2)/(1+DX/2)*lower[1]` from `upper[1]`
and changes nothing else; `adjustForHigherBoundaryCondition(3, 0, DX, ., .)` returns `0`,
adds `2/(1-DX/2)*upper[N]` to `diag[N]`, subtracts `(1+DX/2)/(1-DX/2)*upper[N]` from
`lower[N]` and changes nothing else. -/
theorem C6_degree3_weights (op : TridiagonalOp1D) (DX a b : ℚ) (hwf : op.WF)
    (h4 : 4 ≤ op.diag_.length) :
    ((op.adjustForLowerBoundaryCondition 3 0 DX a b).1 = .ok 0 ∧
      rd (op.adjustForLowerBoundaryCondition 3 0 DX a b).2.diag_ 1
        = rd op.diag_ 1 + 2 / (1 + DX / 2) * rd op.lower_ 1 ∧
      rd (op.adjustForLowerBoundaryCondition 3 0 DX a b).2.upper_ 1
        = rd op.upper_ 1 - (1 - DX / 2) / (1 + DX / 2) * rd op.lower_ 1 ∧
      (∀ i, i ≠ 1 →
        rd (op.adjustForLowerBoundaryCondition 3 0 DX a b).2.diag_ i = rd op.diag_ i ∧
        rd (op.adjustForLowerBoundaryCondition 3 0 DX a b).2.upper_ i = rd op.upper_ i) ∧
      (op.adjustForLowerBoundaryCondition 3 0 DX a b).2.diag_.length = op.diag_.length ∧
      (op.adjustForLowerBoundaryCondition 3 0 DX a b).2.upper_.length = op.upper_.length ∧
      (op.adjustForLowerBoundaryCondition 3 0 DX a b).2.lower_ = op.lower_ ∧
      (op.adjustForLowerBoundaryCondition 3 0 DX a b).2.N_ = op.N_ ∧
      (op.adjustForLowerBoundaryCondition 3 0 DX a b).2.LowerVal_ = op.LowerVal_ ∧
      (op.adjustForLowerBoundaryCondition 3 0 DX a b).2.UpperVal_ = op.UpperVal_) ∧
    ((op.adjustForHigherBoundaryCondition 3 0 DX a b).1 = .ok 0 ∧
      rd (op.adjustForHigherBoundaryCondition 3 0 DX a b).2.diag_ op.N_
        = rd op.diag_ op.N_ + 2 / (1 - DX / 2) * rd op.upper_ op.N_ ∧
      rd (op.adjustForHigherBoundaryCondition 3 0 DX a b).2.lower_ op.N_
        = rd op.lower_ op.N_ - (1 + DX / 2) / (1 - DX / 2) * rd op.upper_ op.N_ ∧
      (∀ i, i ≠ op.N_ →
        rd (op.adjustForHigherBoundaryCondition 3 0 DX a b).2.diag_ i = rd op.diag_ i ∧
        rd (op.adjustForHigherBoundaryCondition 3 0 DX a b).2.lower_ i = rd op.lower_ i) ∧
      (op.adjustForHigherBoundaryCondition 3 0 DX a b).2.diag_.length = op.diag_.length ∧
      (op.adjustForHigherBoundaryCondition 3 0 DX a b).2.lower_.length = op.lower_.length ∧
      (op.adjustForHigherBoundaryCondition 3 0 DX a b).2.upper_ = op.upper_ ∧
      (op.adjustForHigherBoundaryCondition 3 0 DX a b).2.N_ = op.N_ ∧
      (op.adjustForHigherBoundaryCondition 3 0 DX a b).2.LowerVal_ = op.LowerVal_ ∧
      (op.adjustForHigherBoundaryCondition 3 0 DX a b).2.UpperVal_ = op.UpperVal_) := by
  obtain ⟨hl, hd, hu⟩ := hwf
  have hge : op.diag_.length ≥ 4 := h4
  constructor
  · simp only [TridiagonalOp1D.adjustForLowerBoundaryCondition, hge, not_true_eq_false,
      if_false, if_true]
    norm_num
    refine ⟨rd_wr_same _ _ _ (by omega), rd_wr_same _ _ _ (by omega), ?_, length_wr _ _ _,
      length_wr _ _ _⟩
    intro i hi
    exact ⟨rd_wr_ne _ _ _ _ (fun h => hi h.symm), rd_wr_ne _ _ _ _ (fun h => hi h.symm)⟩
  · simp only [TridiagonalOp1D.adjustForHigherBoundaryCondition, hge, not_true_eq_false,
      if_false, if_true]
    norm_num
    refine ⟨rd_wr_same _ _ _ (by omega), rd_wr_same _ _ _ (by omega), ?_, length_wr _ _ _,
      length_wr _ _ _⟩
    intro i hi
    exact ⟨rd_wr_ne _ _ _ _ (fun h => hi h.symm), rd_wr_ne _ _ _ _ (fun h => hi h.symm)⟩

/-- C6 at the operator with bands `[9,1,2,3,9]`, `[9,4,5,6,9]`, `[9,1,1,1,9]` and
`DX = 1`: the low side gives `diag[1] = 4 + (4/3)*1 = 16/3`, the high side gives
`lower[3] = 3 - 3*1 = 0`. -/
theorem C6_degree3_weights_witness :
    rd ((TridiagonalOp1D.init [9, 1, 2, 3, 9] [9, 4, 5, 6, 9]
      [9, 1, 1, 1, 9]).adjustForLowerBoundaryCondition 3 0 1 0 0).2.diag_ 1 = 16 / 3 ∧
    rd ((TridiagonalOp1D.init [9, 1, 2, 3, 9] [9, 4, 5, 6, 9]
      [9, 1, 1, 1, 9]).adjustForHigherBoundaryCondition 3 0 1 0 0).2.lower_ 3 = 0 := by
  have h := C6_degree3_weights
    (TridiagonalOp1D.init [9, 1, 2, 3, 9] [9, 4, 5, 6, 9] [9, 1, 1, 1, 9]) 1 0 0
    ⟨rfl, rfl, rfl⟩ (by decide)
  refine ⟨h.1.2.1.trans ?_, h.2.2.2.1.trans ?_⟩
  · norm_num [TridiagonalOp1D.init, rd]
  · norm_num [TridiagonalOp1D.init, rd]

/-- C7: for a well-formed operator with at least 4 band entries, the degree-3 adjustment
eliminates the ghost node of the discrete zero-second-derivative-in-spot condition.  Low
side, `DX ≠ -2`: if `(1+DX/2)*v[0] - 2*v[1] + (1-DX/2)*v[2] = 0` then
`diag'[1]*v[1] + upper'[1]*v[2] = lower[1]*v[0] + diag[1]*v[1] + upper[1]*v[2]`.  High side,
`DX ≠ 2`: if `(1-DX/2)*v[N+1] - 2*v[N] + (1+DX/2)*v[N-1] = 0` then
`lower'[N]*v[N-1] + diag'[N]*v[N] = lower[N]*v[N-1] + diag[N]*v[N] + upper[N]*v[N+1]`.
For `DX ≠ 0` the low-side condition is equivalent to
`(v[0]-2v[1]+v[2])/DX^2 = (v[2]-v[0])/(2DX)`. -/
theorem C7_degree3_ghost_elimination (op : TridiagonalOp1D) (DX a b : ℚ) (v : Vector)
    (hwf : op.WF) (h4 : 4 ≤ op.diag_.length) :
    (DX ≠ -2 → (1 + DX / 2) * rd v 0 - 2 * rd v 1 + (1 - DX / 2) * rd v 2 = 0 →
      rd (op.adjustForLowerBoundaryCondition 3 0 DX a b).2.diag_ 1 * rd v 1
        + rd (op.adjustForLowerBoundaryCondition 3 0 DX a b).2.upper_ 1 * rd v 2
        = rd op.lower_ 1 * rd v 0 + rd op.diag_ 1 * rd v 1 + rd op.upper_ 1 * rd v 2) ∧
    (DX ≠ 2 →
      (1 - DX / 2) * rd v (op.N_ + 1) - 2 * rd v op.N_ + (1 + DX / 2) * rd v (op.N_ - 1) = 0 →
      rd (op.adjustForHigherBoundaryCondition 3 0 DX a b).2.lower_ op.N_ * rd v (op.N_ - 1)
        + rd (op.adjustForHigherBoundaryCondition 3 0 DX a b).2.diag_ op.N_ * rd v op.N_
        = rd op.lower_ op.N_ * rd v (op.N_ - 1) + rd op.diag_ op.N_ * rd v op.N_
          + rd op.upper_ op.N_ * rd v (op.N_ + 1)) ∧
    (DX ≠ 0 →
      ((1 + DX / 2) * rd v 0 - 2 * rd v 1 + (1 - DX / 2) * rd v 2 = 0 ↔
        (rd v 0 - 2 * rd v 1 + rd v 2) / DX ^ 2 = (rd v 2 - rd v 0) / (2 * DX))) := by
  obtain ⟨hLd, hLu⟩ := degree3_lower_entries op DX a b hwf h4
  obtain ⟨hHd, hHl⟩ := degree3_higher_entries op DX a b hwf h4
  refine ⟨?_, ?_, ?_⟩
  · intro hDX hv
    have hne : 1 + DX / 2 ≠ 0 := by
      intro h
      apply hDX
      linarith
    have hv0 : rd v 0 = (2 * rd v 1 - (1 - DX / 2) * rd v 2) / (1 + DX / 2) := by
      rw [eq_div_iff hne]
      linarith
    rw [hLd, hLu, hv0]
    field_simp
    ring
  · intro hDX hv
    have hne : 1 - DX / 2 ≠ 0 := by
      intro h
      apply hDX
      linarith
    have hv0 : rd v (op.N_ + 1)
        = (2 * rd v op.N_ - (1 + DX / 2) * rd v (op.N_ - 1)) / (1 - DX / 2) := by
      rw [eq_div_iff hne]
      linarith
    rw [hHd, hHl, hv0]
    field_simp
    ring
  · intro hDX
    constructor
    · intro h
      field_simp
      linear_combination (2 * DX) * h
    · intro h
      field_simp at h
      have h2 : DX * (2 * ((1 + DX / 2) * rd v 0 - 2 * rd v 1 + (1 - DX / 2) * rd v 2)) = 0 := by
        linear_combination h
      rcases mul_eq_zero.mp h2 with h3 | h3
      · exact absurd h3 hDX
      · linarith

/-- C7 at the operator with bands `[9,1,2,3,9]`, `[9,4,5,6,9]`, `[9,1,1,1,9]`, `DX = 1`
and `v = [1,1,1,1,1]` (which satisfies the ghost condition `(3/2) - 2 + (1/2) = 0`). -/
theorem C7_degree3_ghost_elimination_witness :
    rd ((TridiagonalOp1D.init [9, 1, 2, 3, 9] [9, 4, 5, 6, 9]
        [9, 1, 1, 1, 9]).adjustForLowerBoundaryCondition 3 0 1 0 0).2.diag_ 1
        * rd [1, 1, 1, 1, 1] 1
      + rd ((TridiagonalOp1D.init [9, 1, 2, 3, 9] [9, 4, 5, 6, 9]
        [9, 1, 1, 1, 9]).adjustForLowerBoundaryCondition 3 0 1 0 0).2.upper_ 1
        * rd [1, 1, 1, 1, 1] 2
      = rd (TridiagonalOp1D.init [9, 1, 2, 3, 9] [9, 4, 5, 6, 9] [9, 1, 1, 1, 9]).lower_ 1
          * rd [1, 1, 1, 1, 1] 0
        + rd (TridiagonalOp1D.init [9, 1, 2, 3, 9] [9, 4, 5, 6, 9] [9, 1, 1, 1, 9]).diag_ 1
          * rd [1, 1, 1, 1, 1] 1
        + rd (TridiagonalOp1D.init [9, 1, 2, 3, 9] [9, 4, 5, 6, 9] [9, 1, 1, 1, 9]).upper_ 1
          * rd [1, 1, 1, 1, 1] 2 :=
  (C7_degree3_ghost_elimination
    (TridiagonalOp1D.init [9, 1, 2, 3, 9] [9, 4, 5, 6, 9] [9, 1, 1, 1, 9]) 1 0 0
    [1, 1, 1, 1, 1] ⟨rfl, rfl, rfl⟩ (by decide)).1 (by norm_num) (by norm_num [rd])

/-- C9: `adjustForLowerBoundaryCondition` and `adjustForHigherBoundaryCondition` raise
exactly when the band array has fewer than 4 entries, or the degree is not one of
`0,1,2,3,4`, or the degree is `3` or `4` and `value ≠ 0`; whenever they raise, the operator
is unchanged. -/
theorem C9_adjust_raises_iff (op : TridiagonalOp1D) (degree : Int) (value DX a b : ℚ) :
    ((∃ e, (op.adjustForLowerBoundaryCondition degree value DX a b).1 = .error e) ↔
      (op.diag_.length < 4 ∨
        ¬ (degree = 0 ∨ degree = 1 ∨ degree = 2 ∨ degree = 3 ∨ degree = 4) ∨
        ((degree = 3 ∨ degree = 4) ∧ value ≠ 0))) ∧
    ((∃ e, (op.adjustForLowerBoundaryCondition degree value DX a b).1 = .error e) →
      (op.adjustForLowerBoundaryCondition degree value DX a b).2 = op) ∧
    ((∃ e, (op.adjustForHigherBoundaryCondition degree value DX a b).1 = .error e) ↔
      (op.diag_.length < 4 ∨
        ¬ (degree = 0 ∨ degree = 1 ∨ degree = 2 ∨ degree = 3 ∨ degree = 4) ∨
        ((degree = 3 ∨ degree = 4) ∧ value ≠ 0))) ∧
    ((∃ e, (op.adjustForHigherBoundaryCondition degree value DX a b).1 = .error e) →
      (op.adjustForHigherBoundaryCondition degree value DX a b).2 = op) := by
  have key : ∀ (f : TridiagonalOp1D → Int → ℚ → ℚ → ℚ → ℚ → Outcome ℚ TridiagonalOp1D),
      (f = TridiagonalOp1D.adjustForLowerBoundaryCondition ∨
        f = TridiagonalOp1D.adjustForHigherBoundaryCondition) →
      ((∃ e, (f op degree value DX a b).1 = .error e) ↔
        (op.diag_.length < 4 ∨
          ¬ (degree = 0 ∨ degree = 1 ∨ degree = 2 ∨ degree = 3 ∨ degree = 4) ∨
          ((degree = 3 ∨ degree = 4) ∧ value ≠ 0))) ∧
      ((∃ e, (f op degree value DX a b).1 = .error e) → (f op degree value DX a b).2 = op) := by
    intro f hf
    by_cases h4 : op.diag_.length ≥ 4
    · have h4' : ¬ (op.diag_.length < 4) := by omega
      by_cases d0 : degree = 0
      · subst d0
        rcases hf with rfl | rfl <;>
          simp [TridiagonalOp1D.adjustForLowerBoundaryCondition,
            TridiagonalOp1D.adjustForHigherBoundaryCondition, h4, h4']
      by_cases d1 : degree = 1
      · subst d1
        rcases hf with rfl | rfl <;>
          simp [TridiagonalOp1D.adjustForLowerBoundaryCondition,
            TridiagonalOp1D.adjustForHigherBoundaryCondition, h4, h4']
      by_cases d2 : degree = 2
      · subst d2
        rcases hf with rfl | rfl <;>
          simp [TridiagonalOp1D.adjustForLowerBoundaryCondition,
            TridiagonalOp1D.adjustForHigherBoundaryCondition, h4, h4']
      by_cases d3 : degree = 3
      · subst d3
        by_cases hv : value = 0
        · rcases hf with rfl | rfl <;>
            simp [TridiagonalOp1D.adjustForLowerBoundaryCondition,
              TridiagonalOp1D.adjustForHigherBoundaryCondition, h4, h4', hv]
        · rcases hf with rfl | rfl <;>
            simp [TridiagonalOp1D.adjustForLowerBoundaryCondition,
              TridiagonalOp1D.adjustForHigherBoundaryCondition, h4, h4', hv]
      by_cases d4 : degree = 4
      · subst d4
        by_cases hv : value = 0
        · rcases hf with rfl | rfl <;>
            simp [TridiagonalOp1D.adjustForLowerBoundaryCondition,
              TridiagonalOp1D.adjustForHigherBoundaryCondition, h4, h4', hv]
        · rcases hf with rfl | rfl <;>
            simp [TridiagonalOp1D.adjustForLowerBoundaryCondition,
              TridiagonalOp1D.adjustForHigherBoundaryCondition, h4, h4', hv]
      · rcases hf with rfl | rfl <;>
          simp [TridiagonalOp1D.adjustForLowerBoundaryCondition,
            TridiagonalOp1D.adjustForHigherBoundaryCondition, h4, h4', d0, d1, d2, d3, d4]
    · have h4' : op.diag_.length < 4 := by omega
      rcases hf with rfl | rfl <;>
        simp [TridiagonalOp1D.adjustForLowerBoundaryCondition,
          TridiagonalOp1D.adjustForHigherBoundaryCondition, h4']
  exact ⟨(key _ (Or.inl rfl)).1, (key _ (Or.inl rfl)).2, (key _ (Or.inr rfl)).1,
    (key _ (Or.inr rfl)).2⟩

/-- C4: for a grid with `NX ≥ 2`, coefficient buffers of `NX` entries and value matrices of
`NX + 2` rows, `solveFromStepToStep` completes, leaves in the solver the explicit and
implicit operators `E_adj`, `M_adj` produced by `adjustOpsForBoundaryConditions`, and,
whenever the pivots of the implicit operator left in the scratch array `D[1..NX]` are
non-zero, the new values `v'` of every layer satisfy `M_adj * v' = E_adj * v` on rows
`1..NX`, where `v` are the values of the layer before the call. -/
theorem C4_theta_step_equation (s : Pde1DSolver) (step : Int) (DT : ℚ) (hNX : 2 ≤ s.grax.NX)
    (hdr : s.grax.drifts.length = s.grax.NX) (hvar : s.grax.variances.length = s.grax.NX)
    (hrows : s.prevValues.n_rows = s.grax.NX + 2)
    (hprev : ∀ j, j < s.nLayers_ → (s.prevValues.col j).length = s.grax.NX + 2)
    (hcurr : ∀ j, j < s.nLayers_ → (s.currValues.col j).length = s.grax.NX + 2) :
    (s.solveFromStepToStep step DT).1 = .ok () ∧
    (s.solveFromStepToStep step DT).2.opExplicit_ = ((s.buildOps DT).2.adjustOps).2.opExplicit_ ∧
    (s.solveFromStepToStep step DT).2.opImplicit_ = ((s.buildOps DT).2.adjustOps).2.opImplicit_ ∧
    ((∀ i, 1 ≤ i → i ≤ s.grax.NX → rd (s.solveFromStepToStep step DT).2.scratch.D i ≠ 0) →
      ∀ j, j < s.nLayers_ → ∀ b1 b2 : Vector,
        b1.length = s.grax.NX + 2 → b2.length = s.grax.NX + 2 →
        ∀ i, 1 ≤ i → i ≤ s.grax.NX →
          rd ((s.solveFromStepToStep step DT).2.opImplicit_.apply
              ((s.solveFromStepToStep step DT).2.prevValues.col j) b1) i
            = rd ((s.solveFromStepToStep step DT).2.opExplicit_.apply
              (s.prevValues.col j) b2) i) := by
  obtain ⟨s1, E, M, f, hs1, hstep, hfE, hfM, haE, haM, hEadj, hMadj, hEN, hMN, hEL, hEU, hML,
    hMU, _, hlay⟩ := step_layers s step DT hNX hdr hvar hrows hprev hcurr
  rw [hstep, hs1]
  refine ⟨rfl, hfE.trans haE.symm, hfM.trans haM.symm, ?_⟩
  intro hpiv j hj b1 b2 hb1 hb2 i h1 h2
  obtain ⟨sc, hcol, hD⟩ := hlay j hj
  have hMd : M.diag_.length = s.grax.NX + 2 := by rw [hMadj.2.1.2.1, hMadj.1, hMN]
  have h := layer_equation E M s.grax.NX sc (s.prevValues.col j) (s.currValues.col j) b1 b2 hNX
    (hEadj.1.trans hEN) (hMadj.1.trans hMN) hMd (hEadj.2.2.1.trans hEL)
    (hEadj.2.2.2.1.trans hEU) (hMadj.2.2.1.trans hML) (hMadj.2.2.2.1.trans hMU) (hprev j hj)
    (hcurr j hj) hb1 hb2 (fun k hk1 hk2 => (hD k hk1 hk2).trans_ne (hpiv k hk1 hk2)) i h1 h2
  show rd (f.opImplicit_.apply (f.prevValues.col j) b1) i
    = rd (f.opExplicit_.apply (s.prevValues.col j) b2) i
  rw [hfM, hfE, hcol]
  exact h

/-- C4 at the sample state (`NX = 2`, `DX = 1`, `theta = 1/2`, one layer `[0,1,2,3]`) with
`DT = 1`: the pivots left in the scratch array are `4/3` and `1/2`, and row 1 of
`M_adj * v'` equals row 1 of `E_adj * v`. -/
theorem C4_theta_step_equation_witness :
    rd ((Pde1DSolver.sample.solveFromStepToStep 0 1).2.opImplicit_.apply
        ((Pde1DSolver.sample.solveFromStepToStep 0 1).2.prevValues.col 0) [0, 0, 0, 0]) 1
      = rd ((Pde1DSolver.sample.solveFromStepToStep 0 1).2.opExplicit_.apply
        (Pde1DSolver.sample.prevValues.col 0) [0, 0, 0, 0]) 1 :=
  (C4_theta_step_equation Pde1DSolver.sample 0 1 (by decide) rfl rfl rfl
    (by
      intro j hj
      have : j = 0 := by
        have : j < 1 := hj
        omega
      subst this
      rfl)
    (by
      intro j hj
      have : j = 0 := by
        have : j < 1 := hj
        omega
      subst this
      rfl)).2.2.2
    (by
      intro i h1 h2
      have h2' : i ≤ 2 := h2
      have : i = 1 ∨ i = 2 := by omega
      rcases this with rfl | rfl
      · with_unfolding_all decide
      · with_unfolding_all decide)
    0 (by decide) [0, 0, 0, 0] [0, 0, 0, 0] rfl rfl 1 (by decide) (by decide)

/-- C5: when the drift and variance buffers have `NX` entries, the construction in
`solveFromStepToStep` (before the boundary adjustment) completes, and for every interior row
`i` in `1..NX` with `d = drifts[i-1]`, `s = variances[i-1]` the explicit operator has
`lower = (1-theta)*DT*(-d/(2*DX) + s/(2*DX^2))`, `diag = 1 - (1-theta)*DT*s/DX^2`,
`upper = (1-theta)*DT*(d/(2*DX) + s/(2*DX^2))` and the implicit operator has
`lower = -theta*DT*(-d/(2*DX) + s/(2*DX^2))`, `diag = 1 + theta*DT*s/DX^2`,
`upper = -theta*DT*(d/(2*DX) + s/(2*DX^2))`; both have zero edge values. -/
theorem C5_operator_construction (s : Pde1DSolver) (DT : ℚ)
    (hdr : s.grax.drifts.length = s.grax.NX) (hvar : s.grax.variances.length = s.grax.NX) :
    (s.buildOps DT).1 = .ok () ∧
    (s.buildOps DT).2.opExplicit_.LowerVal_ = 0 ∧ (s.buildOps DT).2.opExplicit_.UpperVal_ = 0 ∧
    (s.buildOps DT).2.opImplicit_.LowerVal_ = 0 ∧ (s.buildOps DT).2.opImplicit_.UpperVal_ = 0 ∧
    ∀ i, 1 ≤ i → i ≤ s.grax.NX →
      rd (s.buildOps DT).2.opExplicit_.lower_ i = (1 - s.theta_) * DT *
        (-(rd s.grax.drifts (i - 1)) / (2 * s.grax.DX)
          + rd s.grax.variances (i - 1) / (2 * s.grax.DX ^ 2)) ∧
      rd (s.buildOps DT).2.opExplicit_.diag_ i
        = 1 - (1 - s.theta_) * DT * rd s.grax.variances (i - 1) / s.grax.DX ^ 2 ∧
      rd (s.buildOps DT).2.opExplicit_.upper_ i = (1 - s.theta_) * DT *
        (rd s.grax.drifts (i - 1) / (2 * s.grax.DX)
          + rd s.grax.variances (i - 1) / (2 * s.grax.DX ^ 2)) ∧
      rd (s.buildOps DT).2.opImplicit_.lower_ i = -s.theta_ * DT *
        (-(rd s.grax.drifts (i - 1)) / (2 * s.grax.DX)
          + rd s.grax.variances (i - 1) / (2 * s.grax.DX ^ 2)) ∧
      rd (s.buildOps DT).2.opImplicit_.diag_ i
        = 1 + s.theta_ * DT * rd s.grax.variances (i - 1) / s.grax.DX ^ 2 ∧
      rd (s.buildOps DT).2.opImplicit_.upper_ i = -s.theta_ * DT *
        (rd s.grax.drifts (i - 1) / (2 * s.grax.DX)
          + rd s.grax.variances (i - 1) / (2 * s.grax.DX ^ 2)) := by
  obtain ⟨s1, hs1, _, _, _, _, _, _, _, _, hEL, hEU, _, _, hML, hMU, hrows⟩ :=
    buildOps_spec s DT hdr hvar
  rw [hs1]
  exact ⟨rfl, hEL, hEU, hML, hMU, hrows⟩

/-- C5 at the sample state (`NX = 2`, `DX = 1`, `theta = 1/2`, drifts `0`, variances `1`)
with `DT = 1`: row 1 of the explicit operator is `(1/4, 1/2, 1/4)` and the diagonal of the
implicit operator is `3/2`. -/
theorem C5_operator_construction_witness :
    rd (Pde1DSolver.sample.buildOps 1).2.opExplicit_.lower_ 1 = 1 / 4 ∧
    rd (Pde1DSolver.sample.buildOps 1).2.opExplicit_.diag_ 1 = 1 / 2 ∧
    rd (Pde1DSolver.sample.buildOps 1).2.opExplicit_.upper_ 1 = 1 / 4 ∧
    rd (Pde1DSolver.sample.buildOps 1).2.opImplicit_.diag_ 1 = 3 / 2 := by
  have h := (C5_operator_construction Pde1DSolver.sample 1 rfl rfl).2.2.2.2.2 1 (by decide)
    (by decide)
  refine ⟨h.1.trans ?_, h.2.1.trans ?_, h.2.2.1.trans ?_, h.2.2.2.2.1.trans ?_⟩ <;>
    norm_num [Pde1DSolver.sample, rd]

/-- C8: for `NX ≥ 2`, coefficient buffers of `NX` entries and `DX ≠ 2`, `DX ≠ -2`, the
construction of `solveFromStepToStep` and `adjustOpsForBoundaryConditions` complete, and
both the explicit and the implicit operator have zero edge values and rows that sum to one
(row 1: `diag+upper`, row `NX`: `lower+diag`, interior rows: `lower+diag+upper`); so each
maps a grid function that is a constant `c` on `1..NX` to `c` on `1..NX`; hence if the
implicit operator is injective on the interior values, every `v'` with `M v' = E c` is
`c` on `1..NX`; and when the pivots the code divides by are non-zero, one call of
`solveFromStepToStep` maps flat layers to the same flat layers (boundary nodes included). -/
theorem C8_flat_payoff_preserved (s : Pde1DSolver) (step : Int) (DT : ℚ) (hNX : 2 ≤ s.grax.NX)
    (hdr : s.grax.drifts.length = s.grax.NX) (hvar : s.grax.variances.length = s.grax.NX)
    (h2 : s.grax.DX ≠ 2) (hm2 : s.grax.DX ≠ -2) :
    (s.buildOps DT).1 = .ok () ∧ ((s.buildOps DT).2.adjustOps).1 = .ok () ∧
    ((s.buildOps DT).2.adjustOps).2.opExplicit_.N_ = s.grax.NX ∧
    ((s.buildOps DT).2.adjustOps).2.opImplicit_.N_ = s.grax.NX ∧
    ((s.buildOps DT).2.adjustOps).2.opExplicit_.RowsSumToOne ∧
    ((s.buildOps DT).2.adjustOps).2.opImplicit_.RowsSumToOne ∧
    (∀ (c : ℚ) (x y : Vector), y.length = s.grax.NX + 2 →
      (∀ i, 1 ≤ i → i ≤ s.grax.NX → rd x i = c) →
      ∀ i, 1 ≤ i → i ≤ s.grax.NX →
        rd (((s.buildOps DT).2.adjustOps).2.opExplicit_.apply x y) i = c ∧
        rd (((s.buildOps DT).2.adjustOps).2.opImplicit_.apply x y) i = c) ∧
    (∀ (c : ℚ) (v v2 y : Vector), y.length = s.grax.NX + 2 →
      (∀ i, 1 ≤ i → i ≤ s.grax.NX → rd v i = c) →
      (∀ a b : Vector,
        (∀ i, 1 ≤ i → i ≤ s.grax.NX →
          rd (((s.buildOps DT).2.adjustOps).2.opImplicit_.apply a y) i
            = rd (((s.buildOps DT).2.adjustOps).2.opImplicit_.apply b y) i) →
        ∀ i, 1 ≤ i → i ≤ s.grax.NX → rd a i = rd b i) →
      (∀ i, 1 ≤ i → i ≤ s.grax.NX →
        rd (((s.buildOps DT).2.adjustOps).2.opImplicit_.apply v2 y) i
          = rd (((s.buildOps DT).2.adjustOps).2.opExplicit_.apply v y) i) →
      ∀ i, 1 ≤ i → i ≤ s.grax.NX → rd v2 i = c) ∧
    (∀ c : ℚ, s.prevValues.n_rows = s.grax.NX + 2 →
      (∀ j, j < s.nLayers_ → s.prevValues.col j = List.replicate (s.grax.NX + 2) c) →
      (∀ j, j < s.nLayers_ → (s.currValues.col j).length = s.grax.NX + 2) →
      (∀ i, 1 ≤ i → i ≤ s.grax.NX →
        rd (s.solveFromStepToStep step DT).2.scratch.D i ≠ 0) →
      (s.solveFromStepToStep step DT).1 = .ok () ∧
      ∀ j, j < s.nLayers_ → ∀ i, i ≤ s.grax.NX + 1 →
        rd ((s.solveFromStepToStep step DT).2.prevValues.col j) i = c) := by
  obtain ⟨s1, s2, hs1, hs2, hEN, hMN, hER, hMR⟩ := ops_rowsSumToOne s DT hNX hdr hvar h2 hm2
  have hconst : ∀ (c : ℚ) (x y : Vector), y.length = s.grax.NX + 2 →
      (∀ i, 1 ≤ i → i ≤ s.grax.NX → rd x i = c) →
      ∀ i, 1 ≤ i → i ≤ s.grax.NX →
        rd (s2.opExplicit_.apply x y) i = c ∧ rd (s2.opImplicit_.apply x y) i = c := by
    intro c x y hy hx i h1 hi
    constructor
    · exact apply_const _ x y c (by omega) (by omega) hER.1 hER.2.1 hER.2.2.1 hER.2.2.2.1
        hER.2.2.2.2 (fun k hk1 hk2 => hx k hk1 (by omega)) i h1 (by omega)
    · exact apply_const _ x y c (by omega) (by omega) hMR.1 hMR.2.1 hMR.2.2.1 hMR.2.2.2.1
        hMR.2.2.2.2 (fun k hk1 hk2 => hx k hk1 (by omega)) i h1 (by omega)
  rw [hs1, hs2]
  refine ⟨rfl, rfl, hEN, hMN, hER, hMR, hconst, ?_, ?_⟩
  · intro c v v2 y hy hv hinj hsol i h1 hi
    have hvi := hinj v2 v (fun k hk1 hk2 => by
      rw [hsol k hk1 hk2, (hconst c v y hy hv k hk1 hk2).1, (hconst c v y hy hv k hk1 hk2).2])
    rw [hvi i h1 hi, hv i h1 hi]
  · intro c hrows hflat hcurr hpiv
    exact step_flat s step DT c hNX hdr hvar h2 hm2 hrows hflat hcurr hpiv

/-- C8 at the flat sample state (`NX = 2`, `DX = 1`, `theta = 1/2`, one layer `[5,5,5,5]`)
with `DT = 1`: after the step node 1 and the boundary node 3 still hold `5`. -/
theorem C8_flat_payoff_preserved_witness :
    rd ((Pde1DSolver.sampleFlat.solveFromStepToStep 0 1).2.prevValues.col 0) 1 = 5 ∧
    rd ((Pde1DSolver.sampleFlat.solveFromStepToStep 0 1).2.prevValues.col 0) 3 = 5 := by
  have h := ((C8_flat_payoff_preserved Pde1DSolver.sampleFlat 0 1 (by decide) rfl rfl
    (by with_unfolding_all decide) (by with_unfolding_all decide)).2.2.2.2.2.2.2.2 5 rfl
    (by
      intro j hj
      have : j = 0 := by
        have : j < 1 := hj
        omega
      subst this
      rfl)
    (by
      intro j hj
      have : j = 0 := by
        have : j < 1 := hj
        omega
      subst this
      rfl)
    (by
      intro i h1 h2
      have h2' : i ≤ 2 := h2
      have : i = 1 ∨ i = 2 := by omega
      rcases this with rfl | rfl
      · with_unfolding_all decide
      · with_unfolding_all decide)).2 0 (by decide)
  exact ⟨h 1 (by decide), h 3 (by decide)⟩

/-- C10 as stated fails: in the run of the American put `AmericanCallPut.samplePut` on the
grid `[1, 2, 3, 4]`, the iteration `stepIdx = 1` (a step with a contract event) completes
and ends with the layer `[219134/109529, 1, 0, 0]`, for which
`v[0] ≠ 2*v[1] - v[2] = 2` and `v[3] ≠ 2*v[2] - v[1] = -1`: `evalProduct` runs after the
boundary conditions have been reapplied and overwrites the boundary nodes. -/
theorem C10_counterexample :
    ¬ (∀ (b : PdeBase) (params : PdeParams) (fwdFactors fwdVols : Matrix) (stepIdx : Nat),
        2 ≤ b.solver1D.grax.NX →
        b.solver1D.grax.drifts.length = b.solver1D.grax.NX →
        b.solver1D.grax.variances.length = b.solver1D.grax.NX →
        b.solver1D.prevValues.n_rows = b.solver1D.grax.NX + 2 →
        (∀ j, j < b.solver1D.nLayers_ →
          (b.solver1D.prevValues.col j).length = b.solver1D.grax.NX + 2) →
        (∀ j, j < b.solver1D.nLayers_ →
          (b.solver1D.currValues.col j).length = b.solver1D.grax.NX + 2) →
        (b.solveStep params fwdFactors fwdVols stepIdx).1 = .ok () →
        ∀ j, j < b.solver1D.nLayers_ →
          rd ((b.solveStep params fwdFactors fwdVols stepIdx).2.solver1D.prevValues.col j) 0
            = 2 * rd ((b.solveStep params fwdFactors fwdVols stepIdx).2.solver1D.prevValues.col j) 1
              - rd ((b.solveStep params fwdFactors fwdVols stepIdx).2.solver1D.prevValues.col j) 2 ∧
          rd ((b.solveStep params fwdFactors fwdVols stepIdx).2.solver1D.prevValues.col j)
              (b.solver1D.grax.NX + 1)
            = 2 * rd ((b.solveStep params fwdFactors fwdVols stepIdx).2.solver1D.prevValues.col j)
                b.solver1D.grax.NX
              - rd ((b.solveStep params fwdFactors fwdVols stepIdx).2.solver1D.prevValues.col j)
                (b.solver1D.grax.NX - 1)) := by
  intro h
  have h1 := h PdeBase.sampleAmerican PdeParams.sample PdeBase.sampleFwdFactors
    PdeBase.sampleFwdVols 1 (by decide) rfl rfl rfl
    (by
      intro j hj
      have : j = 0 := by
        have : j < 1 := hj
        omega
      subst this
      rfl)
    (by
      intro j hj
      have : j = 0 := by
        have : j < 1 := hj
        omega
      subst this
      rfl)
    (by with_unfolding_all rfl) 0 (by decide)
  exact absurd h1.1 (by with_unfolding_all decide)

/-- C10 (amended): in every iteration of the main loop of `PdeBase::solve`, started from a
well-formed state (`NX ≥ 2`, coefficient buffers of `NX` entries, value matrices of
`NX + 2` rows), the sub-steps happen in the order: advance (`v <- M^-1 E v`), reapply the
linear-extrapolation boundary conditions, discount, then re-evaluate the contract at this
index.  The part before the re-evaluation completes, its values are the discounted output
of `solveFromStepToStep`, and each layer then satisfies `v[0] = 2*v[1] - v[2]` and
`v[N+1] = 2*v[N] - v[N-1]`; at the end of an iteration whose step carries no contract event
(`stepindex_[stepIdx] < 0`) the values are the same, so the two relations still hold. -/
theorem C10_loop_iteration (b : PdeBase) (params : PdeParams) (fwdFactors fwdVols : Matrix)
    (stepIdx : Nat) (hNX : 2 ≤ b.solver1D.grax.NX)
    (hdr : b.solver1D.grax.drifts.length = b.solver1D.grax.NX)
    (hvar : b.solver1D.grax.variances.length = b.solver1D.grax.NX)
    (hrows : b.solver1D.prevValues.n_rows = b.solver1D.grax.NX + 2)
    (hprev : ∀ j, j < b.solver1D.nLayers_ →
      (b.solver1D.prevValues.col j).length = b.solver1D.grax.NX + 2)
    (hcurr : ∀ j, j < b.solver1D.nLayers_ →
      (b.solver1D.currValues.col j).length = b.solver1D.grax.NX + 2) :
    b.solveStep params fwdFactors fwdVols stepIdx
      = andThen (b.advance params fwdFactors fwdVols stepIdx) (fun b1 => b1.evalProduct stepIdx) ∧
    (b.advance params fwdFactors fwdVols stepIdx).1 = .ok () ∧
    (b.advance params fwdFactors fwdVols stepIdx).2.solver1D.prevValues
      = (((b.updateGrid params fwdFactors fwdVols stepIdx).solver1D.solveFromStepToStep stepIdx
          (rd b.timesteps_ (stepIdx + 1) - rd b.timesteps_ stepIdx)).2.prevValues).scale
        (b.spdiscyc_.fwdDiscount (rd b.timesteps_ stepIdx) (rd b.timesteps_ (stepIdx + 1))) ∧
    (∀ j, j < b.solver1D.nLayers_ →
      rd ((b.advance params fwdFactors fwdVols stepIdx).2.solver1D.prevValues.col j) 0
        = 2 * rd ((b.advance params fwdFactors fwdVols stepIdx).2.solver1D.prevValues.col j) 1
          - rd ((b.advance params fwdFactors fwdVols stepIdx).2.solver1D.prevValues.col j) 2 ∧
      rd ((b.advance params fwdFactors fwdVols stepIdx).2.solver1D.prevValues.col j)
          (b.solver1D.grax.NX + 1)
        = 2 * rd ((b.advance params fwdFactors fwdVols stepIdx).2.solver1D.prevValues.col j)
            b.solver1D.grax.NX
          - rd ((b.advance params fwdFactors fwdVols stepIdx).2.solver1D.prevValues.col j)
            (b.solver1D.grax.NX - 1)) ∧
    (b.stepindex_.getD stepIdx 0 < 0 →
      (b.solveStep params fwdFactors fwdVols stepIdx).1 = .ok () ∧
      (b.solveStep params fwdFactors fwdVols stepIdx).2.solver1D.prevValues
        = (b.advance params fwdFactors fwdVols stepIdx).2.solver1D.prevValues ∧
      ∀ j, j < b.solver1D.nLayers_ →
        rd ((b.solveStep params fwdFactors fwdVols stepIdx).2.solver1D.prevValues.col j) 0
          = 2 * rd ((b.solveStep params fwdFactors fwdVols stepIdx).2.solver1D.prevValues.col j) 1
            - rd ((b.solveStep params fwdFactors fwdVols stepIdx).2.solver1D.prevValues.col j) 2 ∧
        rd ((b.solveStep params fwdFactors fwdVols stepIdx).2.solver1D.prevValues.col j)
            (b.solver1D.grax.NX + 1)
          = 2 * rd ((b.solveStep params fwdFactors fwdVols stepIdx).2.solver1D.prevValues.col j)
              b.solver1D.grax.NX
            - rd ((b.solveStep params fwdFactors fwdVols stepIdx).2.solver1D.prevValues.col j)
              (b.solver1D.grax.NX - 1)) := by
  obtain ⟨b2, hadv, hidx, hval, hrel⟩ :=
    advance_spec b params fwdFactors fwdVols stepIdx hNX hdr hvar hrows hprev hcurr
  have hstepEq : b.solveStep params fwdFactors fwdVols stepIdx = b2.evalProduct stepIdx := by
    unfold PdeBase.solveStep
    rw [hadv, andThen_ok]
  refine ⟨rfl, ?_, ?_, ?_, ?_⟩
  · rw [hadv]
  · rw [hadv]; exact hval
  · rw [hadv]; exact hrel
  · intro hno
    obtain ⟨e1, e2⟩ := evalProduct_no_event b2 stepIdx (by rw [hidx]; exact hno)
    rw [hstepEq, hadv, e2]
    exact ⟨e1, rfl, hrel⟩

/-- C10 (amended) at the run of the European put on the grid `[1, 2, 3, 4]`, iteration
`stepIdx = 1`, a step without contract event: at the end of the iteration the single layer
satisfies both extrapolation relations. -/
theorem C10_loop_iteration_witness :
    rd ((PdeBase.sampleEuropean.solveStep PdeParams.sample PdeBase.sampleFwdFactors
        PdeBase.sampleFwdVols 1).2.solver1D.prevValues.col 0) 0
      = 2 * rd ((PdeBase.sampleEuropean.solveStep PdeParams.sample PdeBase.sampleFwdFactors
          PdeBase.sampleFwdVols 1).2.solver1D.prevValues.col 0) 1
        - rd ((PdeBase.sampleEuropean.solveStep PdeParams.sample PdeBase.sampleFwdFactors
          PdeBase.sampleFwdVols 1).2.solver1D.prevValues.col 0) 2 ∧
    rd ((PdeBase.sampleEuropean.solveStep PdeParams.sample PdeBase.sampleFwdFactors
        PdeBase.sampleFwdVols 1).2.solver1D.prevValues.col 0) (2 + 1)
      = 2 * rd ((PdeBase.sampleEuropean.solveStep PdeParams.sample PdeBase.sampleFwdFactors
          PdeBase.sampleFwdVols 1).2.solver1D.prevValues.col 0) 2
        - rd ((PdeBase.sampleEuropean.solveStep PdeParams.sample PdeBase.sampleFwdFactors
          PdeBase.sampleFwdVols 1).2.solver1D.prevValues.col 0) (2 - 1) :=
  ((C10_loop_iteration PdeBase.sampleEuropean PdeParams.sample PdeBase.sampleFwdFactors
    PdeBase.sampleFwdVols 1 (by decide) rfl rfl rfl
    (by
      intro j hj
      have : j = 0 := by
        have : j < 1 := hj
        omega
      subst this
      rfl)
    (by
      intro j hj
      have : j = 0 := by
        have : j < 1 := hj
        omega
      subst this
      rfl)).2.2.2.2 (by decide)).2.2 0 (by decide)

/-- C11. `applyBoundaryConditions` on a solution matrix with `n + 2 ≥ 4` rows: the shape
is kept, and in every column `j` the new row 0 is `2 * s(1, j) - s(2, j)`, the new row
`n + 1` is `2 * s(n, j) - s(n - 1, j)`, where `s` is the matrix before the call, and the
interior rows `1..n` are unchanged. -/
theorem C11_applyBoundaryConditions (s : Matrix) (n : Nat) (hn : 2 ≤ n)
    (hrows : s.n_rows = n + 2)
    (hcols : ∀ j, j < s.n_cols → (s.col j).length = s.n_rows) :
    (applyBoundaryConditions s).n_rows = s.n_rows ∧
    (applyBoundaryConditions s).n_cols = s.n_cols ∧
    ∀ j, j < s.n_cols →
      (applyBoundaryConditions s).at 0 j = 2 * s.at 1 j - s.at 2 j ∧
      (applyBoundaryConditions s).at (n + 1) j = 2 * s.at n j - s.at (n - 1) j ∧
      ∀ i, 1 ≤ i → i ≤ n → (applyBoundaryConditions s).at i j = s.at i j := by
  refine ⟨rfl, by simp [applyBoundaryConditions, Matrix.n_cols], ?_⟩
  intro j hj
  have hlen : (s.col j).length = n + 2 := by rw [hcols j hj, hrows]
  have hcol := col_applyBoundaryConditions s j hj
  have hn2 : s.n_rows - 2 = n := by omega
  rw [hn2] at hcol
  obtain ⟨_, h0, h1, hint⟩ := applyBoundaryConditionsCol_spec n (s.col j) hn hlen
  unfold Matrix.at
  rw [hcol]
  exact ⟨h0, h1, hint⟩

/-- C11 at the matrix with the two columns `[1, 3, 4, 9]` and `[0, 1, 4, 5]` (`n = 2`):
column 1 gets `2 * 1 - 4 = -2` in row 0 and `2 * 4 - 1 = 7` in row 3, row 1 stays. -/
theorem C11_applyBoundaryConditions_witness :
    (applyBoundaryConditions ⟨4, [[1, 3, 4, 9], [0, 1, 4, 5]]⟩).at 0 1 = -2 ∧
    (applyBoundaryConditions ⟨4, [[1, 3, 4, 9], [0, 1, 4, 5]]⟩).at 3 1 = 7 ∧
    (applyBoundaryConditions ⟨4, [[1, 3, 4, 9], [0, 1, 4, 5]]⟩).at 1 1 = 1 := by
  have h := (C11_applyBoundaryConditions ⟨4, [[1, 3, 4, 9], [0, 1, 4, 5]]⟩ 2 (by decide) rfl
    (by
      intro j hj
      have hj2 : j < 2 := hj
      interval_cases j <;> rfl)).2.2 1 (by decide)
  refine ⟨?_, ?_, ?_⟩
  · rw [h.1]; with_unfolding_all rfl
  · rw [h.2.1]; with_unfolding_all rfl
  · rw [h.2.2 1 (by decide) (by decide)]; with_unfolding_all rfl

/-- C20. For a strictly increasing abscissa vector `xs` of length at least 2 and an
ordinate vector `ys` of the same length the interpolator is constructed, and for every
`x` with `xs[i] ≤ x ≤ xs[i+1]` the member `getValue(x)` returns
`ys[i] + (ys[i+1] - ys[i]) * (x - xs[i]) / (xs[i+1] - xs[i])`; in particular
`getValue(xs[i]) = ys[i]` at every node `i`. -/
theorem C20_getValue_linear (xs ys : Vector) (hlen : 2 ≤ xs.length)
    (hys : ys.length = xs.length)
    (hinc : ∀ i j, i < j → j < xs.length → rd xs i < rd xs j) :
    LinearInterpolation1D.new xs ys = .ok ⟨xs, ys⟩ ∧
    (∀ i x, i + 1 < xs.length → rd xs i ≤ x → x ≤ rd xs (i + 1) →
      LinearInterpolation1D.getValue ⟨xs, ys⟩ x
        = some (rd ys i + (rd ys (i + 1) - rd ys i) * (x - rd xs i)
            / (rd xs (i + 1) - rd xs i))) ∧
    (∀ i, i < xs.length → LinearInterpolation1D.getValue ⟨xs, ys⟩ (rd xs i) = some (rd ys i)) := by
  refine ⟨by simp [LinearInterpolation1D.new, hys], ?_, ?_⟩
  · intro i x hi h1 h2
    exact getValue_bracket xs ys hlen hinc i x hi h1 h2
  · intro i hi
    rcases Nat.lt_or_ge (i + 1) xs.length with h | h
    · rw [getValue_bracket xs ys hlen hinc i (rd xs i) h le_rfl
        (le_of_lt (hinc i (i + 1) (by omega) h)),
        (chord_nodes _ _ _ _ (hinc i (i + 1) (by omega) h)).1]
    · obtain ⟨k, rfl⟩ : ∃ k, i = k + 1 := ⟨i - 1, by omega⟩
      rw [getValue_bracket xs ys hlen hinc k (rd xs (k + 1)) hi
        (le_of_lt (hinc k (k + 1) (by omega) hi)) le_rfl,
        (chord_nodes _ _ _ _ (hinc k (k + 1) (by omega) hi)).2]

/-- C20 at `xs = [0, 1, 3]`, `ys = [2, 4, 0]`: at `x = 2`, inside the bracket `[1, 3]`,
the value is `4 + (0 - 4) * (2 - 1) / (3 - 1) = 2`, and at the node `xs[1] = 1` it is
`ys[1] = 4`. -/
theorem C20_getValue_linear_witness :
    LinearInterpolation1D.getValue ⟨[0, 1, 3], [2, 4, 0]⟩ 2 = some 2 ∧
    LinearInterpolation1D.getValue ⟨[0, 1, 3], [2, 4, 0]⟩ 1 = some 4 := by
  have h := C20_getValue_linear [0, 1, 3] [2, 4, 0] (by decide) rfl
    (by
      intro i j hij hj
      have hj3 : j < 3 := hj
      interval_cases j <;> interval_cases i <;> with_unfolding_all decide)
  refine ⟨?_, ?_⟩
  · rw [h.2.1 1 2 (by decide) (by with_unfolding_all decide) (by with_unfolding_all decide)]
    with_unfolding_all rfl
  · exact h.2.2 1 (by decide)

/-- C18 fails in the code: for the American put built by
`AmericanCallPut(-1, 3, 2.5 / DAYS_PER_YEAR)` (fixings at `0`, one day and two and a half
days, maturity `10/1461`) and `nsteps = 3` the method `timeSteps` returns the partition
`[0, 4/1461, 10/1461]` with no point inserted; its intervals `4/1461` and `6/1461` are
`1.2` and `1.8` times `maturity / nsteps = 10/4383` and exceed it by more than the
tolerance `1e-8`: `size_t(dt / maxdt)` rounds the number of sub-steps down to `1`. -/
theorem C18_timeSteps_interval_exceeds :
    (AmericanCallPut.new (-1) 3 (10 / 1461)).toOption.map
        (fun p => (p.fixTimes_, p.timeSteps 3))
      = some ([0, 4 / 1461, 10 / 1461], ([0, 4 / 1461, 10 / 1461], [0, 1, 2])) ∧
    rd [0, 4 / 1461, 10 / 1461] 1 - rd [0, 4 / 1461, 10 / 1461] 0
      > rd [0, 4 / 1461, 10 / 1461] 2 / 3 + 1 / 100000000 ∧
    rd [0, 4 / 1461, 10 / 1461] 2 - rd [0, 4 / 1461, 10 / 1461] 1
      > rd [0, 4 / 1461, 10 / 1461] 2 / 3 + 1 / 100000000 := by
  refine ⟨?_, ?_, ?_⟩
  · with_unfolding_all rfl
  · with_unfolding_all decide
  · with_unfolding_all decide

/-- C19. For a product with a non-empty, strictly increasing, non-negative fixing
schedule and any `nsteps`, `timeSteps` returns `timesteps` and `stepindex` of equal
length; `timesteps` is strictly increasing, starts at `0` and ends at the last fixing
time; an entry with `stepindex[i] ≥ 0` has `timesteps[i] = fixTimes[stepindex[i]]`; the
entries of `stepindex` that are `≥ 0` are exactly `0, 1, ..., nFix - 1`, each once and in
this order; and an entry with `stepindex[i] = -1` has a time that is not a fixing time. -/
theorem C19_timeSteps_correspondence (p : Product) (nsteps : Nat)
    (hne : 1 ≤ p.fixTimes_.length)
    (hinc : ∀ i j, i < j → j < p.fixTimes_.length → rd p.fixTimes_ i < rd p.fixTimes_ j)
    (hpos : ∀ i, i < p.fixTimes_.length → 0 ≤ rd p.fixTimes_ i) :
    (p.timeSteps nsteps).1.length = (p.timeSteps nsteps).2.length ∧
    (∀ i j, i < j → j < (p.timeSteps nsteps).1.length →
      rd (p.timeSteps nsteps).1 i < rd (p.timeSteps nsteps).1 j) ∧
    rd (p.timeSteps nsteps).1 0 = 0 ∧
    rd (p.timeSteps nsteps).1 ((p.timeSteps nsteps).1.length - 1)
      = rd p.fixTimes_ (p.fixTimes_.length - 1) ∧
    (∀ i, i < (p.timeSteps nsteps).2.length → 0 ≤ (p.timeSteps nsteps).2.getD i 0 →
      ((p.timeSteps nsteps).2.getD i 0).toNat < p.fixTimes_.length ∧
      rd (p.timeSteps nsteps).1 i = rd p.fixTimes_ ((p.timeSteps nsteps).2.getD i 0).toNat) ∧
    (p.timeSteps nsteps).2.filter (fun k => decide (0 ≤ k))
      = (List.range p.fixTimes_.length).map Int.ofNat ∧
    (∀ i, i < (p.timeSteps nsteps).2.length → (p.timeSteps nsteps).2.getD i 0 = -1 →
      rd (p.timeSteps nsteps).1 i ∉ p.fixTimes_) := by
  obtain ⟨ps, he, hs, ⟨k0, hhd⟩, ⟨k1, hlast⟩, hok, hflt⟩ :=
    timeSteps_entries p nsteps hne hinc hpos
  rw [he]
  have hentry : ∀ i, i < ps.length →
      timeStepsEntryOk p.fixTimes_ (rd (ps.map Prod.fst) i, (ps.map Prod.snd).getD i 0) := by
    intro i hi
    have h1 : rd (ps.map Prod.fst) i = ps[i].1 := by
      rw [rd_eq_getElem _ _ (by simpa using hi)]; simp
    have h2 : (ps.map Prod.snd).getD i 0 = ps[i].2 := by
      simp [List.getD_eq_getElem?_getD, List.getElem?_eq_getElem hi]
    rw [h1, h2]
    exact hok _ (List.getElem_mem hi)
  refine ⟨by simp, ?_, ?_, ?_, ?_, hflt, ?_⟩
  · intro i j hij hj
    have hj2 : j < (ps.map Prod.fst).length := hj
    have hi2 : i < (ps.map Prod.fst).length := by omega
    rw [rd_eq_getElem _ _ hi2, rd_eq_getElem _ _ hj2]
    exact List.pairwise_iff_getElem.mp hs i j hi2 hj2 hij
  · cases ps with
    | nil => simp at hhd
    | cons a ps =>
      simp only [List.head?_cons, Option.some.injEq] at hhd
      rw [hhd]; rfl
  · obtain ⟨ys, rfl⟩ := List.getLast?_eq_some_iff.mp hlast
    have hlen : (List.map Prod.fst (ys ++ [(rd p.fixTimes_ (p.fixTimes_.length - 1), k1)])).length
        - 1 = ys.length := by simp
    rw [hlen]
    simp [rd, List.getD_eq_getElem?_getD]
  · intro i hi hnn
    have hi2 : i < ps.length := by simpa using hi
    rcases hentry i hi2 with ⟨h, _⟩ | ⟨_, h2, h3⟩
    · simp only [] at h
      rw [h] at hnn
      exact absurd hnn (by decide)
    · exact ⟨h2, h3⟩
  · intro i hi hneg
    have hi2 : i < ps.length := by simpa using hi
    rcases hentry i hi2 with ⟨_, h⟩ | ⟨h, _, _⟩
    · exact h
    · simp only [] at h
      rw [hneg] at h
      exact absurd h (by decide)

/-- C19 at the European put with the single fixing `8/1461` and `nsteps = 2`: the result
is `timesteps = [0, 4/1461, 8/1461]`, `stepindex = [-1, -1, 0]`. -/
theorem C19_timeSteps_correspondence_witness :
    (PdeBase.sampleEuropean.spprod_.timeSteps 2).1.length
      = (PdeBase.sampleEuropean.spprod_.timeSteps 2).2.length ∧
    rd (PdeBase.sampleEuropean.spprod_.timeSteps 2).1 0 = 0 ∧
    rd (PdeBase.sampleEuropean.spprod_.timeSteps 2).1
        ((PdeBase.sampleEuropean.spprod_.timeSteps 2).1.length - 1)
      = rd PdeBase.sampleEuropean.spprod_.fixTimes_
          (PdeBase.sampleEuropean.spprod_.fixTimes_.length - 1) ∧
    (PdeBase.sampleEuropean.spprod_.timeSteps 2).2.filter (fun k => decide (0 ≤ k))
      = (List.range PdeBase.sampleEuropean.spprod_.fixTimes_.length).map Int.ofNat ∧
    PdeBase.sampleEuropean.spprod_.timeSteps 2 = ([0, 4 / 1461, 8 / 1461], [-1, -1, 0]) := by
  have h := C19_timeSteps_correspondence PdeBase.sampleEuropean.spprod_ 2 (by decide)
    (by
      intro i j hij hj
      have hj1 : j < 1 := hj
      omega)
    (by
      intro i hi
      have hi1 : i < 1 := hi
      interval_cases i
      with_unfolding_all decide)
  exact ⟨h.1, h.2.2.1, h.2.2.2.1, h.2.2.2.2.2.1, by with_unfolding_all rfl⟩

/-- C12. Round trip of the coordinate changes: for `LogCoordinateChange`,
`fromDiffusedToReal(fromRealToDiffused(x)) = x` for every `x > 0` and
`fromRealToDiffused(fromDiffusedToReal(y)) = y` for every real `y`; for
`NoCoordinateChange` both compositions are the identity on every input. -/
theorem C12_coordinate_round_trip :
    (∀ x : ℝ, 0 < x →
      real.LogCoordinateChange.fromDiffusedToReal
        (real.LogCoordinateChange.fromRealToDiffused x) = x) ∧
    (∀ y : ℝ,
      real.LogCoordinateChange.fromRealToDiffused
        (real.LogCoordinateChange.fromDiffusedToReal y) = y) ∧
    (∀ x : ℝ,
      real.NoCoordinateChange.fromDiffusedToReal
        (real.NoCoordinateChange.fromRealToDiffused x) = x) ∧
    (∀ y : ℝ,
      real.NoCoordinateChange.fromRealToDiffused
        (real.NoCoordinateChange.fromDiffusedToReal y) = y) :=
  ⟨fun _ hx => Real.exp_log hx, fun y => Real.log_exp y, fun _ => rfl, fun _ => rfl⟩

/-- C12 at `x = 2` and `y = -3` for the logarithmic change. -/
theorem C12_coordinate_round_trip_witness :
    real.LogCoordinateChange.fromDiffusedToReal
      (real.LogCoordinateChange.fromRealToDiffused 2) = 2 ∧
    real.LogCoordinateChange.fromRealToDiffused
      (real.LogCoordinateChange.fromDiffusedToReal (-3)) = -3 :=
  ⟨C12_coordinate_round_trip.1 2 (by norm_num), C12_coordinate_round_trip.2.1 (-3)⟩

/-- C13. `LogCoordinateChange::bounds` with `vol ≥ 0`, `T ≥ 0`, `nstds ≥ 0` returns
`Xmin = min(X0, F) - nstds * vol * sqrt(T)` and `Xmax = max(X0, F) + nstds * vol * sqrt(T)`;
hence `Xmin ≤ X0 ≤ Xmax`, `Xmin ≤ F ≤ Xmax`, and `Xmin < Xmax` whenever
`nstds * vol * sqrt(T) > 0`. -/
theorem C13_log_bounds (X0 F vol T nstds : ℝ) (hvol : 0 ≤ vol) (_hT : 0 ≤ T)
    (hn : 0 ≤ nstds) :
    (real.LogCoordinateChange.bounds X0 F vol T nstds).1
      = min X0 F - nstds * vol * Real.sqrt T ∧
    (real.LogCoordinateChange.bounds X0 F vol T nstds).2
      = max X0 F + nstds * vol * Real.sqrt T ∧
    (real.LogCoordinateChange.bounds X0 F vol T nstds).1 ≤ X0 ∧
    X0 ≤ (real.LogCoordinateChange.bounds X0 F vol T nstds).2 ∧
    (real.LogCoordinateChange.bounds X0 F vol T nstds).1 ≤ F ∧
    F ≤ (real.LogCoordinateChange.bounds X0 F vol T nstds).2 ∧
    (0 < nstds * vol * Real.sqrt T →
      (real.LogCoordinateChange.bounds X0 F vol T nstds).1
        < (real.LogCoordinateChange.bounds X0 F vol T nstds).2) := by
  have hw : 0 ≤ nstds * vol * Real.sqrt T :=
    mul_nonneg (mul_nonneg hn hvol) (Real.sqrt_nonneg T)
  have h1 := min_le_left X0 F
  have h2 := min_le_right X0 F
  have h3 := le_max_left X0 F
  have h4 := le_max_right X0 F
  simp only [real.LogCoordinateChange]
  refine ⟨trivial, trivial, by linarith, by linarith, by linarith, by linarith, ?_⟩
  intro hpos
  linarith

/-- C13 at `X0 = 0`, `F = 1`, `vol = 1/5`, `T = 4`, `nstds = 3`. -/
theorem C13_log_bounds_witness :
    (real.LogCoordinateChange.bounds 0 1 (1 / 5) 4 3).1 ≤ 0 ∧
    (1 : ℝ) ≤ (real.LogCoordinateChange.bounds 0 1 (1 / 5) 4 3).2 :=
  ⟨(C13_log_bounds 0 1 (1 / 5) 4 3 (by norm_num) (by norm_num) (by norm_num)).2.2.1,
   (C13_log_bounds 0 1 (1 / 5) 4 3 (by norm_num) (by norm_num) (by norm_num)).2.2.2.2.2.1⟩

/-- C14 as stated fails: with `S0 = F = 1`, `vol = 1`, `T = 1` and `nstds = 0` the upper
bound returned by `NoCoordinateChange::bounds` is `exp(-1/2) < 1 = max(S0, F)`. -/
theorem C14_counterexample :
    (0 : ℝ) < 1 ∧ (0 : ℝ) ≤ 1 ∧ (0 : ℝ) ≤ 0 ∧
    ¬ (max (1 : ℝ) 1 ≤ (real.NoCoordinateChange.bounds 1 1 1 1 0).2) := by
  refine ⟨by norm_num, by norm_num, le_rfl, ?_⟩
  simp only [real.NoCoordinateChange]
  have h : Real.exp (-0.5 * 1 * 1 * 1 + 0 * 1 * Real.sqrt 1) < 1 := by
    rw [Real.exp_lt_one_iff]
    norm_num
  simp only [max_self, one_mul, not_le]
  exact h

/-- C14 (amended). `NoCoordinateChange::bounds` with `S0 > 0`, `F > 0`, `vol ≥ 0`, `T ≥ 0`,
`nstds ≥ 0` returns `Xmin ≤ min(S0, F)`; and `max(S0, F) ≤ Xmax` holds exactly when
`0.5 * vol * vol * T ≤ nstds * vol * sqrt(T)`. -/
theorem C14_identity_bounds (S0 F vol T nstds : ℝ) (hS : 0 < S0) (hF : 0 < F)
    (hvol : 0 ≤ vol) (hT : 0 ≤ T) (hn : 0 ≤ nstds) :
    (real.NoCoordinateChange.bounds S0 F vol T nstds).1 ≤ min S0 F ∧
    (max S0 F ≤ (real.NoCoordinateChange.bounds S0 F vol T nstds).2
      ↔ 0.5 * vol * vol * T ≤ nstds * vol * Real.sqrt T) := by
  have hw : 0 ≤ nstds * vol * Real.sqrt T :=
    mul_nonneg (mul_nonneg hn hvol) (Real.sqrt_nonneg T)
  have hv : 0 ≤ 0.5 * vol * vol * T := by positivity
  have hmin : 0 < min S0 F := lt_min hS hF
  have hmax : 0 < max S0 F := lt_max_of_lt_left hS
  simp only [real.NoCoordinateChange]
  constructor
  · have h1 : Real.exp (-0.5 * vol * vol * T - nstds * vol * Real.sqrt T) ≤ 1 := by
      rw [Real.exp_le_one_iff]
      linarith
    calc min S0 F * Real.exp (-0.5 * vol * vol * T - nstds * vol * Real.sqrt T)
        ≤ min S0 F * 1 := mul_le_mul_of_nonneg_left h1 (le_of_lt hmin)
      _ = min S0 F := mul_one _
  · rw [le_mul_iff_one_le_right hmax, Real.one_le_exp_iff]
    constructor <;> intro h <;> linarith

/-- C14 (amended) at `S0 = 1`, `F = 2`, `vol = 1/5`, `T = 1`, `nstds = 4`. -/
theorem C14_identity_bounds_witness :
    (real.NoCoordinateChange.bounds 1 2 (1 / 5) 1 4).1 ≤ min 1 2 ∧
    max (1 : ℝ) 2 ≤ (real.NoCoordinateChange.bounds 1 2 (1 / 5) 1 4).2 := by
  have h := C14_identity_bounds 1 2 (1 / 5) 1 4 (by norm_num) (by norm_num) (by norm_num)
    (by norm_num) (by norm_num)
  exact ⟨h.1, h.2.mpr (by rw [Real.sqrt_one]; norm_num)⟩

/-- C15. After `initGrid` (which does not throw when there are as many axis
specifications as assets), every axis `g = gridAxes_[i]` has `NX = nSpotNodes[i]`; with
`fv` the pair written by `forwardAndVariance` and `b = (Xmin0, Xmax0)` the bounds written
by `bounds`, the spacing is `DX = (Xmax0 - Xmin0) / (NX + 1)`, the alignment subtracts one
offset `off` from both bounds, so that also `DX = (Xmax - Xmin) / (NX + 1)`; `Xlevels` has
`NX + 2` entries `Xlevels[j] = Xmin + j * DX`, with `Xlevels[0] = Xmin` and
`Xlevels[NX + 1] = Xmax`; `Slevels[j] = fromDiffusedToReal(Xlevels[j])`; and the drift,
variance and vol buffers have `NX` entries. -/
theorem C15_grid_spacing (s : real.PdeBase) (T : ℝ) (params : real.PdeParams)
    (hassets : s.nAssets_ = params.nSpotNodes.length) (i : Nat) (hi : i < s.nAssets_)
    (g : real.GridAxis)
    (hg : g = (s.initGrid T params).2.gridAxes_.getD i real.GridAxis.new)
    (fv : ℝ × ℝ)
    (hfv : fv = g.coordinateChange.forwardAndVariance
      (real.rd s.spots_ i * Real.exp
        (((s.spaccrycs_.getD i ⟨fun _ => 0⟩).spotRate T - real.rd s.divyields_ i) * T))
      ((s.vols_.getD i ⟨fun _ => 0⟩).spotVol T) T)
    (b : ℝ × ℝ)
    (hb : b = g.coordinateChange.bounds
      (g.coordinateChange.fromRealToDiffused (real.rd s.spots_ i)) fv.1 fv.2 T
      (real.rd params.nStdDevs i)) :
    (s.initGrid T params).1 = .ok () ∧
    g.NX = params.nSpotNodes.getD i 0 ∧
    (∃ off : ℝ,
      g.DX = (b.2 - b.1) / ((g.NX : ℝ) + 1) ∧ g.Xmin = b.1 - off ∧ g.Xmax = b.2 - off) ∧
    g.DX = (g.Xmax - g.Xmin) / ((g.NX : ℝ) + 1) ∧
    g.Xlevels.length = g.NX + 2 ∧
    (∀ j, j ≤ g.NX + 1 → real.rd g.Xlevels j = g.Xmin + (j : ℝ) * g.DX) ∧
    real.rd g.Xlevels 0 = g.Xmin ∧
    real.rd g.Xlevels (g.NX + 1) = g.Xmax ∧
    g.Slevels.length = g.NX + 2 ∧
    (∀ j, j ≤ g.NX + 1 →
      real.rd g.Slevels j = g.coordinateChange.fromDiffusedToReal (real.rd g.Xlevels j)) ∧
    g.drifts.length = g.NX ∧ g.variances.length = g.NX ∧ g.vols.length = g.NX := by
  obtain ⟨hok, hax⟩ := initGrid_axis s T params hassets i hi
  rw [hax] at hg
  obtain ⟨hNX, hcc, hDX, hXmin, hXmax, hXl, hSl, hlev, hd, hv, hvo⟩ :=
    initGridAxis_spec _ _ _ _ _ _ _ _ _ g hg _ rfl _ rfl
  rw [hcc] at hfv hb
  subst hfv
  rw [← hb] at hDX hXmin hXmax
  have hcast : (((params.nSpotNodes.getD i 0 + 1 : Nat)) : ℝ)
      = ((params.nSpotNodes.getD i 0 : Nat) : ℝ) + 1 := by push_cast; ring
  have hne : ((params.nSpotNodes.getD i 0 : Nat) : ℝ) + 1 ≠ 0 := by positivity
  rw [hcast] at hDX
  rw [hNX, hcc]
  have hDX2 : g.DX = (g.Xmax - g.Xmin) / (((params.nSpotNodes.getD i 0 : Nat) : ℝ) + 1) := by
    rw [hXmax, hXmin, hDX]
    ring
  refine ⟨hok, rfl, ⟨_, hDX, hXmin, hXmax⟩, hDX2, hXl, fun j hj => (hlev j hj).1, ?_, ?_,
    hSl, fun j hj => (hlev j hj).2, hd, hv, hvo⟩
  · rw [(hlev 0 (by omega)).1]
    simp
  · rw [(hlev (params.nSpotNodes.getD i 0 + 1) le_rfl).1, hcast]
    have h2 : (((params.nSpotNodes.getD i 0 : Nat) : ℝ) + 1) * g.DX = g.Xmax - g.Xmin := by
      rw [hDX2]
      field_simp
    linarith

/-- C15 for the sample solver aligned to the spot, axis `0`. -/
theorem C15_grid_spacing_witness :
    (real.PdeBase.sampleSpot.initGrid 1 real.PdeParams.sample).1 = .ok () ∧
    ((real.PdeBase.sampleSpot.initGrid 1 real.PdeParams.sample).2.gridAxes_.getD 0
        real.GridAxis.new).NX = real.PdeParams.sample.nSpotNodes.getD 0 0 ∧
    ((real.PdeBase.sampleSpot.initGrid 1 real.PdeParams.sample).2.gridAxes_.getD 0
        real.GridAxis.new).DX
      = (((real.PdeBase.sampleSpot.initGrid 1 real.PdeParams.sample).2.gridAxes_.getD 0
            real.GridAxis.new).Xmax
          - ((real.PdeBase.sampleSpot.initGrid 1 real.PdeParams.sample).2.gridAxes_.getD 0
            real.GridAxis.new).Xmin)
        / ((((real.PdeBase.sampleSpot.initGrid 1 real.PdeParams.sample).2.gridAxes_.getD 0
            real.GridAxis.new).NX : ℝ) + 1) := by
  have h := C15_grid_spacing real.PdeBase.sampleSpot 1 real.PdeParams.sample rfl 0
    Nat.zero_lt_one _ rfl _ rfl _ rfl
  exact ⟨h.1, h.2.1, h.2.2.2.1⟩

/-- C16 fails in the code: for the sample solver aligned to the barrier `1000` (spot `1`,
flat volatility `20%`, maturity `1`, four standard deviations, one interior node) the grid
spans `[-41/50, 4/5]` before alignment, `log(1000) > 2.7` lies far above it,
`X0NodeIdx ≥ 3 > NX + 1`, and after `initGrid` no node `0 .. NX + 1` has the level
`fromRealToDiffused(1000)`: all levels are below it. -/
theorem C16_barrier_alignment_misses :
    (real.PdeBase.sampleBarrier.initGrid 1 real.PdeParams.sample).1 = .ok () ∧
    real.rd real.PdeBase.sampleBarrier.alignments_ 0 = 1000 ∧
    ¬ ∃ j, j ≤ ((real.PdeBase.sampleBarrier.initGrid 1 real.PdeParams.sample).2.gridAxes_.getD 0
          real.GridAxis.new).NX + 1 ∧
      real.rd ((real.PdeBase.sampleBarrier.initGrid 1 real.PdeParams.sample).2.gridAxes_.getD 0
          real.GridAxis.new).Xlevels j
        = ((real.PdeBase.sampleBarrier.initGrid 1 real.PdeParams.sample).2.gridAxes_.getD 0
          real.GridAxis.new).coordinateChange.fromRealToDiffused 1000 := by
  obtain ⟨hok, hax⟩ := initGrid_axis real.PdeBase.sampleBarrier 1 real.PdeParams.sample rfl 0
    Nat.zero_lt_one
  have hax2 : (real.PdeBase.sampleBarrier.initGrid 1 real.PdeParams.sample).2.gridAxes_.getD 0
      real.GridAxis.new
      = real.PdeBase.initGridAxis real.GridAxis.new 1 0 0 (1 / 5) 1 4 1000 1 := hax
  refine ⟨hok, rfl, ?_⟩
  rw [hax2]
  have hb : real.LogCoordinateChange.bounds (real.LogCoordinateChange.fromRealToDiffused 1)
      (real.LogCoordinateChange.forwardAndVariance (1 * Real.exp ((0 - 0) * 1)) (1 / 5) 1).1
      (real.LogCoordinateChange.forwardAndVariance (1 * Real.exp ((0 - 0) * 1)) (1 / 5) 1).2
      1 4 = (-41 / 50, 4 / 5) := by
    simp only [real.LogCoordinateChange]
    norm_num
  have hlog : (27 / 10 : ℝ) ≤ Real.log 1000 := by
    have h10 : (1 : ℝ) - (10 : ℝ)⁻¹ ≤ Real.log 10 :=
      Real.one_sub_inv_le_log_of_pos (by norm_num)
    have h3 : Real.log 1000 = 3 * Real.log 10 := by
      rw [show (1000 : ℝ) = 10 ^ 3 by norm_num, Real.log_pow]
      norm_num
    rw [h3]
    norm_num at h10
    linarith
  have habove := initGridAxis_above real.GridAxis.new 1 0 0 (1 / 5) 1 4 1000 1 _ rfl
    (-41 / 50, 4 / 5) hb.symm (by norm_num)
    (by
      show (4 / 5 : ℝ) + (4 / 5 - -41 / 50) / (((1 + 1 : Nat)) : ℝ) / 2 ≤ Real.log 1000
      norm_num
      linarith)
  obtain ⟨hNX, hcc, -⟩ := initGridAxis_spec real.GridAxis.new 1 0 0 (1 / 5) 1 4 1000 1 _ rfl
    _ rfl _ rfl
  rintro ⟨j, hj, he⟩
  rw [hNX] at hj
  rw [hcc] at he
  exact absurd he (ne_of_lt (habove j hj))

/-- C17. For an axis with the logarithmic coordinate change, spot `> 0`, spot volatility to
maturity `> 0`, `T > 0`, `nStdDevs > 0` and `NX ≥ 1`, `initGrid` yields `DX > 0`, and
`Xlevels` and `Slevels` are strictly increasing in the node index, with every
`Slevels[j] > 0`. -/
theorem C17_levels_increasing (s : real.PdeBase) (T : ℝ) (params : real.PdeParams)
    (hassets : s.nAssets_ = params.nSpotNodes.length) (i : Nat) (hi : i < s.nAssets_)
    (g : real.GridAxis)
    (hg : g = (s.initGrid T params).2.gridAxes_.getD i real.GridAxis.new)
    (hlog : (s.gridAxes_.getD i real.GridAxis.new).coordinateChange
      = real.LogCoordinateChange)
    (_hspot : 0 < real.rd s.spots_ i)
    (hvol : 0 < (s.vols_.getD i ⟨fun _ => 0⟩).spotVol T) (hT : 0 < T)
    (hn : 0 < real.rd params.nStdDevs i) (_hNX : 1 ≤ params.nSpotNodes.getD i 0) :
    (s.initGrid T params).1 = .ok () ∧
    0 < g.DX ∧
    (∀ j k, j < k → k ≤ g.NX + 1 → real.rd g.Xlevels j < real.rd g.Xlevels k) ∧
    (∀ j k, j < k → k ≤ g.NX + 1 → real.rd g.Slevels j < real.rd g.Slevels k) ∧
    (∀ j, j ≤ g.NX + 1 → 0 < real.rd g.Slevels j) := by
  obtain ⟨hok, hax⟩ := initGrid_axis s T params hassets i hi
  rw [hax] at hg
  obtain ⟨hNX, hcc, hDX, _, _, _, _, hlev, _⟩ :=
    initGridAxis_spec _ _ _ _ _ _ _ _ _ g hg _ rfl _ rfl
  rw [hlog] at hDX hlev
  have hpos : 0 < g.DX := by
    rw [hDX]
    apply div_pos _ (by positivity)
    simp only [real.LogCoordinateChange]
    have hw : 0 < real.rd params.nStdDevs i * (s.vols_.getD i ⟨fun _ => 0⟩).spotVol T
        * Real.sqrt T := mul_pos (mul_pos hn hvol) (Real.sqrt_pos.mpr hT)
    have hmm : ∀ x y : ℝ, min x y ≤ max x y := fun x y => le_trans (min_le_left x y)
      (le_max_left x y)
    have := hmm (Real.log (real.rd s.spots_ i))
      (Real.log (real.rd s.spots_ i * Real.exp
        (((s.spaccrycs_.getD i ⟨fun _ => 0⟩).spotRate T - real.rd s.divyields_ i) * T))
        - 0.5 * (s.vols_.getD i ⟨fun _ => 0⟩).spotVol T
          * (s.vols_.getD i ⟨fun _ => 0⟩).spotVol T * T)
    linarith
  have hX : ∀ j k, j < k → k ≤ g.NX + 1 → real.rd g.Xlevels j < real.rd g.Xlevels k := by
    intro j k hjk hk
    rw [hNX] at hk
    rw [(hlev j (by omega)).1, (hlev k hk).1]
    have : (j : ℝ) < (k : ℝ) := by exact_mod_cast hjk
    nlinarith
  have hS : ∀ j, j ≤ g.NX + 1 → real.rd g.Slevels j = Real.exp (real.rd g.Xlevels j) := by
    intro j hj
    rw [hNX] at hj
    exact (hlev j hj).2
  refine ⟨hok, hpos, hX, ?_, ?_⟩
  · intro j k hjk hk
    rw [hS j (by omega), hS k hk]
    exact Real.exp_lt_exp.mpr (hX j k hjk hk)
  · intro j hj
    rw [hS j hj]
    exact Real.exp_pos _

/-- C17 for the sample solver aligned to the spot: the spacing is positive and the three
spot levels are increasing and positive. -/
theorem C17_levels_increasing_witness :
    0 < ((real.PdeBase.sampleSpot.initGrid 1 real.PdeParams.sample).2.gridAxes_.getD 0
        real.GridAxis.new).DX ∧
    real.rd ((real.PdeBase.sampleSpot.initGrid 1 real.PdeParams.sample).2.gridAxes_.getD 0
        real.GridAxis.new).Slevels 0
      < real.rd ((real.PdeBase.sampleSpot.initGrid 1 real.PdeParams.sample).2.gridAxes_.getD 0
        real.GridAxis.new).Slevels 1 ∧
    0 < real.rd ((real.PdeBase.sampleSpot.initGrid 1 real.PdeParams.sample).2.gridAxes_.getD 0
        real.GridAxis.new).Slevels 0 := by
  have h := C17_levels_increasing real.PdeBase.sampleSpot 1 real.PdeParams.sample rfl 0
    Nat.zero_lt_one _ rfl rfl
    (by show (0 : ℝ) < 1; norm_num)
    (by show (0 : ℝ) < 1 / 5; norm_num)
    (by norm_num)
    (by show (0 : ℝ) < 4; norm_num)
    (le_refl 1)
  exact ⟨h.2.1, h.2.2.2.1 0 1 (by decide) (Nat.le_add_left 1 _), h.2.2.2.2 0 (Nat.zero_le _)⟩

/-- C21 as stated fails: on `xs = [0, 1]`, `ys = [0, 1]` the member `getValue(-1)`, with
`-1 < xs[0]`, returns `-1` (the chord through the first two nodes continued to the left),
not `ys[0] = 0`; and `getValue(2)`, with `2 > xs[1]`, returns `2`, not `ys[1] = 1`. -/
theorem C21_counterexample :
    (-1 : ℚ) < rd [0, 1] 0 ∧
    LinearInterpolation1D.getValue ⟨[0, 1], [0, 1]⟩ (-1) = some (-1) ∧
    LinearInterpolation1D.getValue ⟨[0, 1], [0, 1]⟩ (-1) ≠ some (rd [0, 1] 0) ∧
    (2 : ℚ) > rd [0, 1] (2 - 1) ∧
    LinearInterpolation1D.getValue ⟨[0, 1], [0, 1]⟩ 2 ≠ some (rd [0, 1] (2 - 1)) := by
  refine ⟨?_, ?_, ?_, ?_, ?_⟩ <;> with_unfolding_all decide

/-- C21 (amended). For a strictly increasing abscissa vector `xs` of length `n ≥ 2` and
ordinates `ys`, `getValue(x)` extrapolates linearly: for `x < xs[0]` it returns the value
at `x` of the chord through the first two nodes, and for `x > xs[n-1]` the value at `x`
of the chord through the last two nodes; the result is `ys[0]` (resp. `ys[n-1]`) exactly
when the two end ordinates are equal. -/
theorem C21_getValue_extrapolates (xs ys : Vector) (hlen : 2 ≤ xs.length)
    (hinc : ∀ i j, i < j → j < xs.length → rd xs i < rd xs j) :
    (∀ x, x < rd xs 0 →
      LinearInterpolation1D.getValue ⟨xs, ys⟩ x
        = some (rd ys 0 + (rd ys 1 - rd ys 0) * (x - rd xs 0) / (rd xs 1 - rd xs 0)) ∧
      (LinearInterpolation1D.getValue ⟨xs, ys⟩ x = some (rd ys 0) ↔ rd ys 1 = rd ys 0)) ∧
    (∀ x, x > rd xs (xs.length - 1) →
      LinearInterpolation1D.getValue ⟨xs, ys⟩ x
        = some (rd ys (xs.length - 2) + (rd ys (xs.length - 1) - rd ys (xs.length - 2))
            * (x - rd xs (xs.length - 2)) / (rd xs (xs.length - 1) - rd xs (xs.length - 2))) ∧
      (LinearInterpolation1D.getValue ⟨xs, ys⟩ x = some (rd ys (xs.length - 1))
        ↔ rd ys (xs.length - 1) = rd ys (xs.length - 2))) := by
  have h01 : rd xs 0 < rd xs 1 := hinc 0 1 (by decide) (by omega)
  have hlast : rd xs (xs.length - 2) < rd xs (xs.length - 1) :=
    hinc (xs.length - 2) (xs.length - 1) (by omega) (by omega)
  have h1n : rd xs 1 ≤ rd xs (xs.length - 1) := by
    rcases Nat.lt_or_ge 1 (xs.length - 1) with h | h
    · exact le_of_lt (hinc 1 (xs.length - 1) h (by omega))
    · have : xs.length - 1 = 1 := by omega
      rw [this]
  constructor
  · intro x hx
    have hv : LinearInterpolation1D.getValue ⟨xs, ys⟩ x
        = some (rd ys 0 + (rd ys 1 - rd ys 0) * (x - rd xs 0) / (rd xs 1 - rd xs 0)) := by
      unfold LinearInterpolation1D.getValue LinearInterpolation1D.getValueAt findIndices
      simp only []
      rw [if_pos (by linarith)]
      simp only [show ¬ (1 = 0) by decide, if_false]
    refine ⟨hv, ?_⟩
    rw [hv, Option.some.injEq]
    have hd : rd xs 1 - rd xs 0 ≠ 0 := by linarith
    have hx0 : x - rd xs 0 ≠ 0 := by linarith
    constructor
    · intro h
      have h2 : (rd ys 1 - rd ys 0) * (x - rd xs 0) / (rd xs 1 - rd xs 0) = 0 := by linarith
      rw [div_eq_zero_iff] at h2
      rcases h2 with h2 | h2
      · rcases mul_eq_zero.mp h2 with h3 | h3
        · linarith
        · exact absurd h3 hx0
      · exact absurd h2 hd
    · intro h
      rw [h]; simp
  · intro x hx
    have hv : LinearInterpolation1D.getValue ⟨xs, ys⟩ x
        = some (rd ys (xs.length - 2) + (rd ys (xs.length - 1) - rd ys (xs.length - 2))
          * (x - rd xs (xs.length - 2)) / (rd xs (xs.length - 1) - rd xs (xs.length - 2))) := by
      unfold LinearInterpolation1D.getValue LinearInterpolation1D.getValueAt findIndices
      simp only []
      rw [if_neg (by
        have : rd xs 1 < x := lt_of_le_of_lt h1n hx
        exact not_le.mpr this), if_pos (by
        have : rd xs (xs.length - 2) ≤ x := by linarith
        exact this)]
      simp only [show ¬ (xs.length - 1 = xs.length - 2) by omega, if_false]
    refine ⟨hv, ?_⟩
    rw [hv, Option.some.injEq]
    have hd : rd xs (xs.length - 1) - rd xs (xs.length - 2) ≠ 0 := by linarith
    have hne : x - rd xs (xs.length - 1) ≠ 0 := by linarith
    constructor
    · intro h
      have h2 : (rd ys (xs.length - 1) - rd ys (xs.length - 2))
          * (x - rd xs (xs.length - 1)) = 0 := by
        field_simp at h
        linarith
      rcases mul_eq_zero.mp h2 with h3 | h3
      · linarith
      · exact absurd h3 hne
    · intro h
      rw [h]; simp

/-- C21 (amended) at `xs = [0, 1]`, `ys = [0, 1]` and `x = -1`. -/
theorem C21_getValue_extrapolates_witness :
    LinearInterpolation1D.getValue ⟨[0, 1], [0, 1]⟩ (-1)
      = some (rd [0, 1] 0 + (rd [0, 1] 1 - rd [0, 1] 0) * (-1 - rd [0, 1] 0)
          / (rd [0, 1] 1 - rd [0, 1] 0)) :=
  ((C21_getValue_extrapolates [0, 1] [0, 1] (by decide)
    (by
      intro i j hij hj
      have hj2 : j < 2 := hj
      obtain ⟨rfl, rfl⟩ : i = 0 ∧ j = 1 := by omega
      with_unfolding_all decide)).1 (-1)
    (by with_unfolding_all decide)).1

/-- C29. For a well-formed operator with at least 4 band entries and every `value`:
degree 0 leaves the operator unchanged and returns `value`; degrees 1 and 2 do not throw,
and with `r` the returned edge contribution and `diag'`, `upper'` the adjusted bands, for
degree 1 and every `v` with `v[0] = v[2] - value`, and for degree 2 and every `v` with
`v[0] - 2*v[1] + v[2] = value`,
`r + diag'[1]*v[1] + upper'[1]*v[2] = lower[1]*v[0] + diag[1]*v[1] + upper[1]*v[2]`. -/
theorem C29_lower_ghost_elimination (op : TridiagonalOp1D) (value DX a b : ℚ)
    (hwf : op.WF) (h4 : 4 ≤ op.diag_.length) :
    op.adjustForLowerBoundaryCondition 0 value DX a b = (.ok value, op) ∧
    (∃ r op1, op.adjustForLowerBoundaryCondition 1 value DX a b = (.ok r, op1) ∧
      ∀ v : Vector, rd v 0 = rd v 2 - value →
        r + rd op1.diag_ 1 * rd v 1 + rd op1.upper_ 1 * rd v 2
          = rd op.lower_ 1 * rd v 0 + rd op.diag_ 1 * rd v 1 + rd op.upper_ 1 * rd v 2) ∧
    (∃ r op2, op.adjustForLowerBoundaryCondition 2 value DX a b = (.ok r, op2) ∧
      ∀ v : Vector, rd v 0 - 2 * rd v 1 + rd v 2 = value →
        r + rd op2.diag_ 1 * rd v 1 + rd op2.upper_ 1 * rd v 2
          = rd op.lower_ 1 * rd v 0 + rd op.diag_ 1 * rd v 1 + rd op.upper_ 1 * rd v 2) := by
  obtain ⟨hl, hd, hu⟩ := hwf
  have hu1 : 1 < op.upper_.length := by omega
  have hd1 : 1 < op.diag_.length := by omega
  have hge : op.diag_.length ≥ 4 := h4
  refine ⟨?_, ?_, ?_⟩
  · simp [TridiagonalOp1D.adjustForLowerBoundaryCondition, hge]
  · refine ⟨-(rd op.lower_ 1) * value,
      { op with upper_ := wr op.upper_ 1 (rd op.upper_ 1 + rd op.lower_ 1) },
      by simp [TridiagonalOp1D.adjustForLowerBoundaryCondition, hge], ?_⟩
    intro v hv
    simp only [rd_wr_same _ _ _ hu1]
    rw [hv]
    ring
  · refine ⟨rd op.lower_ 1 * value,
      { op with
        diag_ := wr op.diag_ 1 (rd op.diag_ 1 + 2 * rd op.lower_ 1)
        upper_ := wr op.upper_ 1 (rd op.upper_ 1 - rd op.lower_ 1) },
      by simp [TridiagonalOp1D.adjustForLowerBoundaryCondition, hge], ?_⟩
    intro v hv
    simp only [rd_wr_same _ _ _ hu1, rd_wr_same _ _ _ hd1]
    have : rd v 0 = value + 2 * rd v 1 - rd v 2 := by linarith
    rw [this]
    ring

/-- C29 at the operator with bands `lower = [0, 1, 2, 0]`, `diag = [0, 3, 4, 0]`,
`upper = [0, 5, 6, 0]`: degree 0 with `value = 2` returns `2` and leaves the operator as
it was; degree 1 with `value = 2` does not throw. -/
theorem C29_lower_ghost_elimination_witness :
    (TridiagonalOp1D.init [0, 1, 2, 0] [0, 3, 4, 0] [0, 5, 6, 0]).adjustForLowerBoundaryCondition
        0 2 1 0 0
      = (.ok 2, TridiagonalOp1D.init [0, 1, 2, 0] [0, 3, 4, 0] [0, 5, 6, 0]) ∧
    ∃ r op1,
      (TridiagonalOp1D.init [0, 1, 2, 0] [0, 3, 4, 0] [0, 5, 6, 0]).adjustForLowerBoundaryCondition
          1 2 1 0 0 = (.ok r, op1) ∧
      r + rd op1.diag_ 1 * rd [5, 1, 7, 0] 1 + rd op1.upper_ 1 * rd [5, 1, 7, 0] 2 = 43 := by
  have h := C29_lower_ghost_elimination
    (TridiagonalOp1D.init [0, 1, 2, 0] [0, 3, 4, 0] [0, 5, 6, 0]) 2 1 0 0 ⟨rfl, rfl, rfl⟩
    (by decide)
  obtain ⟨r, op1, he, hv⟩ := h.2.1
  refine ⟨h.1, r, op1, he, ?_⟩
  rw [hv [5, 1, 7, 0] (by with_unfolding_all decide)]
  with_unfolding_all decide

/-- C25. For inputs of size `n + 2` with `n ≥ 1`, `solveTridiagonal` keeps the size of
`x` and the values `x[0]` and `x[n+1]`, and its result (solution and scratch arrays) is
the same for any two sets of bands and right-hand sides that agree at the indices `1..n`,
whatever their first and last elements. -/
theorem C25_solveTridiagonal_frame (st : Scratch) (x l d u y l2 d2 u2 y2 : Vector) (n : Nat)
    (hn : 1 ≤ n) (hx : x.length = n + 2) (hd : d.length = n + 2) (hd2 : d2.length = n + 2)
    (hl : ∀ i, 1 ≤ i → i ≤ n → rd l2 i = rd l i)
    (hdd : ∀ i, 1 ≤ i → i ≤ n → rd d2 i = rd d i)
    (hu : ∀ i, 1 ≤ i → i ≤ n → rd u2 i = rd u i)
    (hy : ∀ i, 1 ≤ i → i ≤ n → rd y2 i = rd y i) :
    (solveTridiagonal st x l d u y).2.length = x.length ∧
    rd (solveTridiagonal st x l d u y).2 0 = rd x 0 ∧
    rd (solveTridiagonal st x l d u y).2 (n + 1) = rd x (n + 1) ∧
    solveTridiagonal st x l2 d2 u2 y2 = solveTridiagonal st x l d u y := by
  obtain ⟨_, _, _, h1, h2, h3, _⟩ := solveTridiagonal_spec st x l d u y n hn hd hx _ rfl
  exact ⟨h1, h2, h3, solveTridiagonal_congr st x l d u y l2 d2 u2 y2 n hd hd2 hl hdd hu hy hn⟩

/-- C25 at `n = 2`: the system with bands `lower = [9, 0, 1, 9]`, `diag = [9, 2, 2, 9]`,
`upper = [9, 1, 0, 9]` and right-hand side `[9, 3, 3, 9]` has the same solution as the one
whose first and last band entries are `0`, and `x[0] = 7`, `x[3] = 8` are kept. -/
theorem C25_solveTridiagonal_frame_witness :
    rd (solveTridiagonal Scratch.initial [7, 0, 0, 8] [0, 0, 1, 0] [0, 2, 2, 0] [0, 1, 0, 0]
      [0, 3, 3, 0]).2 0 = 7 ∧
    rd (solveTridiagonal Scratch.initial [7, 0, 0, 8] [0, 0, 1, 0] [0, 2, 2, 0] [0, 1, 0, 0]
      [0, 3, 3, 0]).2 (2 + 1) = 8 ∧
    solveTridiagonal Scratch.initial [7, 0, 0, 8] [9, 0, 1, 9] [9, 2, 2, 9] [9, 1, 0, 9]
        [9, 3, 3, 9]
      = solveTridiagonal Scratch.initial [7, 0, 0, 8] [0, 0, 1, 0] [0, 2, 2, 0] [0, 1, 0, 0]
        [0, 3, 3, 0] := by
  have h := C25_solveTridiagonal_frame Scratch.initial [7, 0, 0, 8] [0, 0, 1, 0] [0, 2, 2, 0]
    [0, 1, 0, 0] [0, 3, 3, 0] [9, 0, 1, 9] [9, 2, 2, 9] [9, 1, 0, 9] [9, 3, 3, 9] 2
    (by decide) rfl rfl rfl
    (by intro i h1 h2; interval_cases i <;> rfl)
    (by intro i h1 h2; interval_cases i <;> rfl)
    (by intro i h1 h2; interval_cases i <;> rfl)
    (by intro i h1 h2; interval_cases i <;> rfl)
  exact ⟨h.2.1, h.2.2.1, h.2.2.2⟩

/-- C24. For a coefficient vector `c` of length `N ≥ 3`, a weight `w`, `DT`, `DX ≠ 0`, every
vector `v` and every interior row `2 ≤ i ≤ N - 1`,
`DeltaOp1D(c, DT, DX, w).apply(v)[i] = w*DT*c[i-1]*(v[i+1] - v[i-1]) / (2*DX)` and
`GammaOp1D(c, DT, DX, w).apply(v)[i] = 0.5*w*DT*c[i-1]*(v[i+1] - 2*v[i] + v[i-1]) / DX^2`;
both operators have zero edge values and every row `1..N` of their bands sums to zero; and
the entry `j - 1` of the drift and variance buffers is the one that `updateGrid` computes
from node `j` (`Slevels[j]`). -/
theorem C24_central_differences (op : TridiagonalOp1D) (c v buf : Vector) (w DT DX : ℚ)
    (hN : 3 ≤ c.length) (hDX : DX ≠ 0) (hbuf : buf.length = c.length + 2) :
    (∀ i, 2 ≤ i → i ≤ c.length - 1 →
      rd ((DeltaOp1D.init op c DT DX w).apply v buf) i
        = w * DT * rd c (i - 1) * (rd v (i + 1) - rd v (i - 1)) / (2 * DX) ∧
      rd ((GammaOp1D.init op c DT DX w).apply v buf) i
        = (1 / 2) * w * DT * rd c (i - 1) * (rd v (i + 1) - 2 * rd v i + rd v (i - 1))
          / DX ^ 2) ∧
    (DeltaOp1D.init op c DT DX w).LowerVal_ = 0 ∧ (DeltaOp1D.init op c DT DX w).UpperVal_ = 0 ∧
    (GammaOp1D.init op c DT DX w).LowerVal_ = 0 ∧ (GammaOp1D.init op c DT DX w).UpperVal_ = 0 ∧
    (∀ i, 1 ≤ i → i ≤ c.length →
      rd (DeltaOp1D.init op c DT DX w).lower_ i + rd (DeltaOp1D.init op c DT DX w).diag_ i
        + rd (DeltaOp1D.init op c DT DX w).upper_ i = 0 ∧
      rd (GammaOp1D.init op c DT DX w).lower_ i + rd (GammaOp1D.init op c DT DX w).diag_ i
        + rd (GammaOp1D.init op c DT DX w).upper_ i = 0) ∧
    (∀ (b : PdeBase) (params : PdeParams) (fwdFactors fvols : Matrix) (stepIdx j : Nat),
      1 ≤ j → j ≤ params.nSpotNodes.getD 0 0 → j ≤ b.solver1D.grax.drifts.length →
      j ≤ b.solver1D.grax.variances.length →
      rd (b.updateGrid params fwdFactors fvols stepIdx).solver1D.grax.drifts (j - 1)
        = (b.solver1D.grax.coordinateChange.driftAndVariance (rd b.solver1D.grax.Slevels j)
            (rd b.solver1D.grax.Slevels j * fwdFactors.at stepIdx 0) b.solver1D.theta_
            (rd b.timesteps_ (stepIdx + 1) - rd b.timesteps_ stepIdx) (fvols.at stepIdx 0)
            (fwdFactors.at stepIdx 0) b.solver1D.grax.DX).1 ∧
      rd (b.updateGrid params fwdFactors fvols stepIdx).solver1D.grax.variances (j - 1)
        = (b.solver1D.grax.coordinateChange.driftAndVariance (rd b.solver1D.grax.Slevels j)
            (rd b.solver1D.grax.Slevels j * fwdFactors.at stepIdx 0) b.solver1D.theta_
            (rd b.timesteps_ (stepIdx + 1) - rd b.timesteps_ stepIdx) (fvols.at stepIdx 0)
            (fwdFactors.at stepIdx 0) b.solver1D.grax.DX).2.1) := by
  obtain ⟨hdN, _, hd⟩ := deltaInit_spec op c DT DX w
  obtain ⟨hgN, _, hg⟩ := gammaInit_spec op c DT DX w
  refine ⟨?_, rfl, rfl, rfl, rfl, ?_, ?_⟩
  · intro i h1 h2
    obtain ⟨d1, d2, d3⟩ := hd i (by omega) (by omega)
    obtain ⟨g1, g2, g3⟩ := hg i (by omega) (by omega)
    constructor
    · rw [rd_apply _ _ _ (by rw [hdN]; omega) (by rw [hdN]; exact hbuf), hdN,
        if_neg (by omega), if_pos ⟨h1, h2⟩]
      unfold TridiagonalOp1D.row
      rw [d1, d2, d3]
      field_simp
      ring
    · rw [rd_apply _ _ _ (by rw [hgN]; omega) (by rw [hgN]; exact hbuf), hgN,
        if_neg (by omega), if_pos ⟨h1, h2⟩]
      unfold TridiagonalOp1D.row
      rw [g1, g2, g3]
      field_simp
      ring
  · intro i h1 h2
    obtain ⟨d1, d2, d3⟩ := hd i h1 h2
    obtain ⟨g1, g2, g3⟩ := hg i h1 h2
    constructor
    · rw [d1, d2, d3]; ring
    · rw [g1, g2, g3]; ring
  · intro b params fwdFactors fvols stepIdx j h1 h2 h3 h4
    exact updateGrid_coeffs b params fwdFactors fvols stepIdx j h1 h2 h3 h4

/-- C24 at `c = [1, 2, 3]`, `w = 1/2`, `DT = 1`, `DX = 1`, `v = [0, 1, 4, 9, 16]`, row `2`:
the first difference gives `(1/2)*2*(9 - 1)/2 = 4` and the second difference
`(1/2)*(1/2)*2*(9 - 8 + 1) = 1`. -/
theorem C24_central_differences_witness :
    rd ((DeltaOp1D.init TridiagonalOp1D.default [1, 2, 3] 1 1 (1 / 2)).apply
        [0, 1, 4, 9, 16] [0, 0, 0, 0, 0]) 2 = 4 ∧
    rd ((GammaOp1D.init TridiagonalOp1D.default [1, 2, 3] 1 1 (1 / 2)).apply
        [0, 1, 4, 9, 16] [0, 0, 0, 0, 0]) 2 = 1 := by
  have h := (C24_central_differences TridiagonalOp1D.default [1, 2, 3] [0, 1, 4, 9, 16]
    [0, 0, 0, 0, 0] (1 / 2) 1 1 (by decide) (by norm_num) rfl).1 2 (by decide) (by decide)
  refine ⟨h.1.trans ?_, h.2.trans ?_⟩ <;> with_unfolding_all decide

/-- C30 fails in the code: for the sample solver aligned to the down barrier `1/4` (spot
`1`, flat volatility `20%`, maturity `1`, four standard deviations, one interior node) the
bounds before alignment are `[-41/50, 4/5]` and `DX = 81/100`; `log(1/4) ≈ -1.386` lies
more than `DX / 2` below `Xmin`, the argument of `int(...)` is about `-0.2`, which `int`
rounds towards zero to `X0NodeIdx = 0`, so `closestX = Xmin` and the offset subtracted
from both bounds is `Xmin - log(1/4) ≈ 0.566`, more than `DX / 2 = 0.405`. -/
theorem C30_alignment_offset_exceeds :
    (real.PdeBase.sampleDownBarrier.initGrid 1 real.PdeParams.sample).1 = .ok () ∧
    real.rd real.PdeBase.sampleDownBarrier.alignments_ 0 = 1 / 4 ∧
    real.LogCoordinateChange.bounds (real.LogCoordinateChange.fromRealToDiffused 1)
      (real.LogCoordinateChange.forwardAndVariance (1 * Real.exp ((0 - 0) * 1)) (1 / 5) 1).1
      (real.LogCoordinateChange.forwardAndVariance (1 * Real.exp ((0 - 0) * 1)) (1 / 5) 1).2
      1 4 = (-41 / 50, 4 / 5) ∧
    0 < ((real.PdeBase.sampleDownBarrier.initGrid 1 real.PdeParams.sample).2.gridAxes_.getD 0
        real.GridAxis.new).DX ∧
    ∃ off : ℝ,
      ((real.PdeBase.sampleDownBarrier.initGrid 1 real.PdeParams.sample).2.gridAxes_.getD 0
        real.GridAxis.new).Xmin = -41 / 50 - off ∧
      ((real.PdeBase.sampleDownBarrier.initGrid 1 real.PdeParams.sample).2.gridAxes_.getD 0
        real.GridAxis.new).Xmax = 4 / 5 - off ∧
      ((real.PdeBase.sampleDownBarrier.initGrid 1 real.PdeParams.sample).2.gridAxes_.getD 0
        real.GridAxis.new).DX / 2 < |off| := by
  obtain ⟨hok, hax⟩ := initGrid_axis real.PdeBase.sampleDownBarrier 1 real.PdeParams.sample
    rfl 0 Nat.zero_lt_one
  have hax2 : (real.PdeBase.sampleDownBarrier.initGrid 1
      real.PdeParams.sample).2.gridAxes_.getD 0 real.GridAxis.new
      = real.PdeBase.initGridAxis real.GridAxis.new 1 0 0 (1 / 5) 1 4 (1 / 4) 1 := hax
  have hb : real.LogCoordinateChange.bounds (real.LogCoordinateChange.fromRealToDiffused 1)
      (real.LogCoordinateChange.forwardAndVariance (1 * Real.exp ((0 - 0) * 1)) (1 / 5) 1).1
      (real.LogCoordinateChange.forwardAndVariance (1 * Real.exp ((0 - 0) * 1)) (1 / 5) 1).2
      1 4 = (-41 / 50, 4 / 5) := by
    simp only [real.LogCoordinateChange]
    norm_num
  refine ⟨hok, rfl, hb, ?_⟩
  rw [hax2]
  obtain ⟨_, _, hDX, hXmin, hXmax, -⟩ := initGridAxis_spec real.GridAxis.new 1 0 0 (1 / 5) 1 4
    (1 / 4) 1 _ rfl (-41 / 50, 4 / 5) hb.symm _ rfl
  have hD : (real.PdeBase.initGridAxis real.GridAxis.new 1 0 0 (1 / 5) 1 4 (1 / 4) 1).DX
      = 81 / 100 := by
    rw [hDX]; norm_num
  -- the diffused alignment value
  have ha : real.GridAxis.new.coordinateChange.fromRealToDiffused (1 / 4)
      = -(2 * Real.log 2) := by
    show Real.log (1 / 4) = -(2 * Real.log 2)
    rw [one_div, Real.log_inv, show (4 : ℝ) = 2 ^ 2 by norm_num, Real.log_pow]
    norm_num
  have hlo := Real.log_two_gt_d9
  have hhi := Real.log_two_lt_d9
  -- the node index is 0
  have hk : real.toInt (0.5 + (real.GridAxis.new.coordinateChange.fromRealToDiffused (1 / 4)
      - (-41 / 50, 4 / 5).1) / ((((-41 / 50 : ℝ), (4 / 5 : ℝ)).2 - (-41 / 50, 4 / 5).1)
        / (((1 + 1 : Nat)) : ℝ))) = 0 := by
    rw [ha]
    have hx : (0.5 : ℝ) + (-(2 * Real.log 2) - (-41 / 50 : ℝ))
        / ((4 / 5 - -41 / 50) / (((1 + 1 : Nat)) : ℝ))
        = 1 / 2 + 100 / 81 * (41 / 50 - 2 * Real.log 2) := by
      norm_num
      ring
    show real.toInt (0.5 + (-(2 * Real.log 2) - (-41 / 50 : ℝ))
        / ((4 / 5 - -41 / 50) / (((1 + 1 : Nat)) : ℝ))) = 0
    rw [hx]
    have hneg : ¬ (0 : ℝ) ≤ 1 / 2 + 100 / 81 * (41 / 50 - 2 * Real.log 2) := by
      rw [not_le]
      linarith
    unfold real.toInt
    rw [if_neg hneg, Int.ceil_eq_iff]
    constructor
    · push_cast
      linarith
    · push_cast
      exact le_of_lt (not_le.mp hneg)
  rw [hk] at hXmin hXmax
  rw [ha] at hXmin hXmax
  refine ⟨by rw [hD]; norm_num, -41 / 50 + ((0 : Int) : ℝ)
    * (real.PdeBase.initGridAxis real.GridAxis.new 1 0 0 (1 / 5) 1 4 (1 / 4) 1).DX
    - -(2 * Real.log 2), hXmin, hXmax, ?_⟩
  rw [hD]
  have : (0 : ℝ) < -41 / 50 + ((0 : Int) : ℝ) * (81 / 100) - -(2 * Real.log 2) := by
    norm_num
    linarith
  rw [abs_of_pos this]
  norm_num
  linarith

/-- C26: `evalProduct` at a step without a contract event (step index `-1`, or any negative
value) completes, leaves the solver and the product as they are and only records the step
time and, if `storeAllResults_` is set, the snapshot of the values.  At a step whose event index is
`k ≥ 0` (for a product whose `eval` does not throw at `k` and has a payment at or after the
fixing time, on a value matrix holding the nodes `0..NX+1`) it completes, and every node
`0..NX+1` of layer 0 is replaced by `payAmounts[k]` as left by the call
`eval(k, Slevels[node], value at that node before the step)`; the other layers are kept. -/
theorem C26_evalProduct_nodes (b : PdeBase) (stepIdx : Nat)
    (h : b.stepindex_.getD stepIdx 0 < 0 ∨
      ∃ k : Nat, b.stepindex_.getD stepIdx 0 = (k : Int) ∧
        (∀ pa spots c, ∃ pa2, b.spprod_.evalIdx pa k spots c = .ok pa2) ∧
        PdeBase.findPayIndex (rd b.spprod_.fixTimes_ k) b.spprod_.payTimes_ ≠ none ∧
        b.solver1D.grax.NX + 2 ≤ (b.solver1D.prevValues.col 0).length) :
    (b.evalProduct stepIdx).1 = .ok () ∧
    (b.stepindex_.getD stepIdx 0 < 0 →
      (b.evalProduct stepIdx).2.solver1D = b.solver1D ∧
      (b.evalProduct stepIdx).2.spprod_ = b.spprod_ ∧
      (b.evalProduct stepIdx).2.results_.times
        = wr b.results_.times stepIdx (rd b.timesteps_ stepIdx) ∧
      (b.evalProduct stepIdx).2.results_.values
        = if b.storeAllResults_ then b.results_.values.set stepIdx b.solver1D.prevValues
          else b.results_.values) ∧
    (∀ k : Nat, b.stepindex_.getD stepIdx 0 = (k : Int) →
      (∀ node, node ≤ b.solver1D.grax.NX + 1 →
        ∃ pa, b.spprod_.evalIdx (b.payAmountsAfterNodes k node) k
                (wr [0] 0 (rd b.solver1D.grax.Slevels node))
                (b.solver1D.prevValues.at node 0) = .ok pa ∧
          (b.evalProduct stepIdx).2.solver1D.prevValues.at node 0 = rd pa k) ∧
      (∀ j, 1 ≤ j →
        (b.evalProduct stepIdx).2.solver1D.prevValues.col j = b.solver1D.prevValues.col j)) := by
  rcases h with hneg | ⟨k, hk, hev, hpay, hcol⟩
  · obtain ⟨h1, h2⟩ := evalProduct_no_event b stepIdx hneg
    obtain ⟨_, _, _, h3⟩ := evalProduct_no_event_frame b stepIdx hneg
    have hres : (b.evalProduct stepIdx).2.results_.times
          = wr b.results_.times stepIdx (rd b.timesteps_ stepIdx) ∧
        (b.evalProduct stepIdx).2.results_.values
          = if b.storeAllResults_ then b.results_.values.set stepIdx b.solver1D.prevValues
            else b.results_.values := by
      have hn : ¬ (b.stepindex_.getD stepIdx 0 ≥ 0) := by omega
      unfold PdeBase.evalProduct
      simp only [hn, if_false, andThen_ok]
      cases hs : b.storeAllResults_ <;> exact ⟨rfl, rfl⟩
    refine ⟨h1, fun _ => ⟨h2, h3, hres.1, hres.2⟩, ?_⟩
    intro k hk
    rw [hk] at hneg
    exact absurd hneg (by simp)
  · obtain ⟨h1, h2, _, h4, _⟩ := evalProduct_event b stepIdx k hk hev hpay hcol
    refine ⟨h1, ?_, ?_⟩
    · intro hneg
      rw [hk] at hneg
      exact absurd hneg (by simp)
    · intro k2 hk2
      have hkk : k2 = k := by
        have : (k2 : Int) = (k : Int) := by rw [← hk2, hk]
        exact_mod_cast this
      subst hkk
      refine ⟨?_, h4⟩
      intro node hn
      obtain ⟨pa, hpa⟩ := hev (b.payAmountsAfterNodes k2 node)
        (wr [0] 0 (rd b.solver1D.grax.Slevels node)) (b.solver1D.prevValues.at node 0)
      refine ⟨pa, hpa, ?_⟩
      rw [h2 node hn]
      show rd (match b.spprod_.evalIdx (b.payAmountsAfterNodes k2 node) k2
            (wr [0] 0 (rd b.solver1D.grax.Slevels node)) (b.solver1D.prevValues.at node 0) with
          | .ok pa => pa
          | .error _ => b.payAmountsAfterNodes k2 node) k2 = rd pa k2
      rw [hpa]

/-- C26 on the sample runs: the European engine has no event at step `0` and keeps its
values; the American engine has the event `1` at step `1`, where `eval` replaces the values
`[2, 1, 0, 0]` of the nodes by the larger of each and the exercise value (here the same
numbers). -/
theorem C26_evalProduct_nodes_witness :
    ((PdeBase.sampleEuropean.evalProduct 0).1 = .ok () ∧
      (PdeBase.sampleEuropean.evalProduct 0).2.solver1D = PdeBase.sampleEuropean.solver1D) ∧
    ((PdeBase.sampleAmerican.evalProduct 1).1 = .ok () ∧
      ∀ node, node ≤ 3 →
        ∃ pa, AmericanCallPut.eval (-1) 3 (PdeBase.sampleAmerican.payAmountsAfterNodes 1 node) 1
                (wr [0] 0 (rd [1, 2, 3, 4] node))
                (PdeBase.sampleAmerican.solver1D.prevValues.at node 0) = .ok pa ∧
          (PdeBase.sampleAmerican.evalProduct 1).2.solver1D.prevValues.at node 0 = rd pa 1) := by
  have hE := C26_evalProduct_nodes PdeBase.sampleEuropean 0 (Or.inl (by decide))
  have hA := C26_evalProduct_nodes PdeBase.sampleAmerican 1
    (Or.inr ⟨1, rfl, fun pa spots c => by
        show ∃ pa2, AmericanCallPut.eval (-1) 3 pa 1 spots c = .ok pa2
        unfold AmericanCallPut.eval
        split_ifs <;> exact ⟨_, rfl⟩,
      by with_unfolding_all decide, by with_unfolding_all decide⟩)
  exact ⟨⟨hE.1, (hE.2.1 (by decide)).1⟩, hA.1, (hA.2.2 1 rfl).1⟩

/-- C22: for every `AmericanCallPut`, `eval(idx, spot, c)` at a fixing index that is not the
last sets `payAmounts[idx] = max(c, max(payoffType * (spot - strike), 0))`, which is at least
`c` and at least the intrinsic value, and sets every later amount to `0`; at the last index
it sets `payAmounts[idx] = max(payoffType * (spot - strike), 0)` whatever `c` is.  Hence at
an event step `evalProduct` stores at every node `0..NX+1` of the American engine a value
that is not below the value the same step leaves in the engine of the European contract on
the same grid values: the continuation value where the European contract has no event, the
payoff at the last fixing. -/
theorem C22_early_exercise_floor (payoffType : Int) (strike : ℚ) :
    (∀ (payAmounts : Vector) (idx : Nat) (spots : Vector) (c : ℚ),
      idx + 1 < payAmounts.length →
      ∃ pa, AmericanCallPut.eval payoffType strike payAmounts idx spots c = .ok pa ∧
        rd pa idx = max c (max ((payoffType : ℚ) * (rd spots 0 - strike)) 0) ∧
        c ≤ rd pa idx ∧
        max ((payoffType : ℚ) * (rd spots 0 - strike)) 0 ≤ rd pa idx ∧
        ∀ j, idx < j → j < payAmounts.length → rd pa j = 0) ∧
    (∀ (payAmounts : Vector) (idx : Nat) (spots : Vector) (c : ℚ),
      idx + 1 = payAmounts.length →
      ∃ pa, AmericanCallPut.eval payoffType strike payAmounts idx spots c = .ok pa ∧
        rd pa idx = max ((payoffType : ℚ) * (rd spots 0 - strike)) 0) ∧
    (∀ (b bE : PdeBase) (stepIdx k : Nat),
      b.spprod_.evalIdx = AmericanCallPut.eval payoffType strike →
      bE.spprod_.evalIdx = EuropeanCallPut.eval payoffType strike →
      (payoffType = 1 ∨ payoffType = -1) →
      bE.solver1D = b.solver1D →
      b.stepindex_.getD stepIdx 0 = (k : Int) →
      k < b.spprod_.payAmounts_.length →
      PdeBase.findPayIndex (rd b.spprod_.fixTimes_ k) b.spprod_.payTimes_ ≠ none →
      b.solver1D.grax.NX + 2 ≤ (b.solver1D.prevValues.col 0).length →
      (if k + 1 = b.spprod_.payAmounts_.length then
          bE.stepindex_.getD stepIdx 0 = 0 ∧ 0 < bE.spprod_.payAmounts_.length ∧
            PdeBase.findPayIndex (rd bE.spprod_.fixTimes_ 0) bE.spprod_.payTimes_ ≠ none
        else bE.stepindex_.getD stepIdx 0 < 0) →
      (b.evalProduct stepIdx).1 = .ok () ∧ (bE.evalProduct stepIdx).1 = .ok () ∧
      ∀ node, node ≤ b.solver1D.grax.NX + 1 →
        (bE.evalProduct stepIdx).2.solver1D.prevValues.at node 0
          ≤ (b.evalProduct stepIdx).2.solver1D.prevValues.at node 0 ∧
        (b.evalProduct stepIdx).2.solver1D.prevValues.at node 0
          = (if k + 1 = b.spprod_.payAmounts_.length
            then max ((payoffType : ℚ) * (rd b.solver1D.grax.Slevels node - strike)) 0
            else max (b.solver1D.prevValues.at node 0)
              (max ((payoffType : ℚ) * (rd b.solver1D.grax.Slevels node - strike)) 0))) := by
  refine ⟨?_, ?_, ?_⟩
  · intro payAmounts idx spots c h
    obtain ⟨pa, h1, _, h3, h4⟩ :=
      AmericanCallPut_eval_spec payoffType strike payAmounts idx spots c (by omega)
    rw [if_neg (by omega)] at h3
    exact ⟨pa, h1, h3, by rw [h3]; exact le_max_left _ _, by rw [h3]; exact le_max_right _ _,
      h4 (by omega)⟩
  · intro payAmounts idx spots c h
    obtain ⟨pa, h1, _, h3, _⟩ :=
      AmericanCallPut_eval_spec payoffType strike payAmounts idx spots c (by omega)
    rw [if_pos h] at h3
    exact ⟨pa, h1, h3⟩
  · intro b bE stepIdx k hA hE hpt hsol hk hklen hpay hcol hEstep
    have hevA : ∀ pa spots c, ∃ pa2, b.spprod_.evalIdx pa k spots c = .ok pa2 := by
      intro pa spots c
      rw [hA]
      unfold AmericanCallPut.eval
      split_ifs <;> exact ⟨_, rfl⟩
    have hlenA : ∀ pa spots c pa2, b.spprod_.evalIdx pa k spots c = .ok pa2 →
        pa2.length = pa.length := by
      intro pa spots c pa2 he
      rw [hA] at he
      unfold AmericanCallPut.eval at he
      split_ifs at he
      · injection he with he
        rw [← he, length_wr]
      · injection he with he
        rw [← he, length_foldl_wr (fun _ => (0 : ℚ)), length_wr]
    obtain ⟨a1, a2, _⟩ := evalProduct_event b stepIdx k hk hevA hpay hcol
    have hval : ∀ node, node ≤ b.solver1D.grax.NX + 1 →
        (b.evalProduct stepIdx).2.solver1D.prevValues.at node 0
          = (if k + 1 = b.spprod_.payAmounts_.length
            then max ((payoffType : ℚ) * (rd b.solver1D.grax.Slevels node - strike)) 0
            else max (b.solver1D.prevValues.at node 0)
              (max ((payoffType : ℚ) * (rd b.solver1D.grax.Slevels node - strike)) 0)) := by
      intro node hn
      rw [a2 node hn]
      have hl := length_payAmountsAfterNodes b k hlenA node
      obtain ⟨pa, h1, _, h3, _⟩ := AmericanCallPut_eval_spec payoffType strike
        (b.payAmountsAfterNodes k node) k (wr [0] 0 (rd b.solver1D.grax.Slevels node))
        (b.solver1D.prevValues.at node 0) (by rw [hl]; exact hklen)
      have hstep : b.payAmountsAfterNodes k (node + 1) = pa := by
        show (match b.spprod_.evalIdx (b.payAmountsAfterNodes k node) k
              (wr [0] 0 (rd b.solver1D.grax.Slevels node)) (b.solver1D.prevValues.at node 0) with
            | .ok pa => pa
            | .error _ => b.payAmountsAfterNodes k node) = pa
        rw [hA, h1]
      rw [hstep, h3, hl, rd_wr_same _ _ _ (by simp)]
    by_cases hlast : k + 1 = b.spprod_.payAmounts_.length
    · rw [if_pos hlast] at hEstep
      obtain ⟨e1, e2, e3⟩ := hEstep
      have hevE : ∀ pa spots c, ∃ pa2, bE.spprod_.evalIdx pa 0 spots c = .ok pa2 := by
        intro pa spots c
        rw [hE]
        unfold EuropeanCallPut.eval
        split_ifs <;> first | exact ⟨_, rfl⟩ | exact absurd rfl ‹_›
      have hlenE : ∀ pa spots c pa2, bE.spprod_.evalIdx pa 0 spots c = .ok pa2 →
          pa2.length = pa.length := by
        intro pa spots c pa2 he
        rw [hE] at he
        unfold EuropeanCallPut.eval at he
        split_ifs at he <;> (injection he with he; rw [← he, length_wr])
      obtain ⟨b1, b2, _⟩ := evalProduct_event bE stepIdx 0 (by rw [e1]; rfl) hevE e3
        (by rw [hsol]; exact hcol)
      refine ⟨a1, b1, fun node hn => ⟨?_, hval node hn⟩⟩
      rw [hval node hn, if_pos hlast, b2 node (by rw [hsol]; exact hn)]
      have hl := length_payAmountsAfterNodes bE 0 hlenE node
      obtain ⟨pa, h1, _, h3⟩ := EuropeanCallPut_eval_spec payoffType strike
        (bE.payAmountsAfterNodes 0 node) (wr [0] 0 (rd bE.solver1D.grax.Slevels node))
        (bE.solver1D.prevValues.at node 0) (by rw [hl]; exact e2) hpt
      have hstep : bE.payAmountsAfterNodes 0 (node + 1) = pa := by
        show (match bE.spprod_.evalIdx (bE.payAmountsAfterNodes 0 node) 0
              (wr [0] 0 (rd bE.solver1D.grax.Slevels node))
              (bE.solver1D.prevValues.at node 0) with
            | .ok pa => pa
            | .error _ => bE.payAmountsAfterNodes 0 node) = pa
        rw [hE, h1]
      rw [hstep, h3, rd_wr_same _ _ _ (by simp), hsol]
    · rw [if_neg hlast] at hEstep
      obtain ⟨b1, b2⟩ := evalProduct_no_event bE stepIdx hEstep
      refine ⟨a1, b1, fun node hn => ⟨?_, hval node hn⟩⟩
      rw [hval node hn, if_neg hlast, b2, hsol]
      exact le_max_left _ _

/-- C22 on the sample put with strike `3`: at the fixing `1` of three, with spot `1` and
continuation value `1/2`, `eval` stores the exercise value `2` and clears the last amount;
at the last fixing it stores the payoff `2`; and at step `1` the American engine holds at
every node at least what the European engine (no event at that step) holds. -/
theorem C22_early_exercise_floor_witness :
    (∃ pa, AmericanCallPut.eval (-1) 3 [0, 0, 0] 1 [1] (1 / 2) = .ok pa ∧
      rd pa 1 = max (1 / 2) (max (((-1 : Int) : ℚ) * (rd [1] 0 - 3)) 0) ∧
      (1 / 2 : ℚ) ≤ rd pa 1 ∧
      max (((-1 : Int) : ℚ) * (rd [1] 0 - 3)) 0 ≤ rd pa 1 ∧
      ∀ j, 1 < j → j < 3 → rd pa j = 0) ∧
    (∃ pa, AmericanCallPut.eval (-1) 3 [0, 0, 0] 2 [1] (1 / 2) = .ok pa ∧
      rd pa 2 = max (((-1 : Int) : ℚ) * (rd [1] 0 - 3)) 0) ∧
    ((PdeBase.sampleAmerican.evalProduct 1).1 = .ok () ∧
      (PdeBase.sampleEuropean.evalProduct 1).1 = .ok () ∧
      ∀ node, node ≤ 3 →
        (PdeBase.sampleEuropean.evalProduct 1).2.solver1D.prevValues.at node 0
          ≤ (PdeBase.sampleAmerican.evalProduct 1).2.solver1D.prevValues.at node 0) := by
  have h := C22_early_exercise_floor (-1) 3
  have h3 := h.2.2 PdeBase.sampleAmerican PdeBase.sampleEuropean 1 1 rfl rfl (Or.inr rfl) rfl
    rfl (by decide) (by with_unfolding_all decide) (by with_unfolding_all decide)
    (by
      rw [if_neg (by decide)]
      decide)
  exact ⟨h.1 [0, 0, 0] 1 [1] (1 / 2) (by decide), h.2.1 [0, 0, 0] 2 [1] (1 / 2) rfl,
    h3.1, h3.2.1, fun node hn => (h3.2.2 node hn).1⟩


/-- C28: for every operator whose bands have the size `N + 2`, every degree and every value
(the rejected ones included), `adjustForHigherBoundaryCondition(degree, value, DX, dAdj, lAdj)`
gives the same outcome and the same operator as mirroring the operator (row `i` to row
`N + 1 - i`, lower and upper bands exchanged), calling
`adjustForLowerBoundaryCondition(degree, value, -DX, dAdj, lAdj)` and mirroring back. -/
theorem C28_higher_is_mirrored_lower (op : TridiagonalOp1D) (hwf : op.WF) (degree : Int)
    (value DX diagAdjust lowAdjust : ℚ) :
    (∀ i, i ≤ op.N_ + 1 →
      rd op.mirror.lower_ i = rd op.upper_ (op.N_ + 1 - i) ∧
      rd op.mirror.diag_ i = rd op.diag_ (op.N_ + 1 - i) ∧
      rd op.mirror.upper_ i = rd op.lower_ (op.N_ + 1 - i)) ∧
    op.adjustForHigherBoundaryCondition degree value DX diagAdjust lowAdjust
      = ((op.mirror.adjustForLowerBoundaryCondition degree value (-DX) diagAdjust lowAdjust).1,
         (op.mirror.adjustForLowerBoundaryCondition degree value (-DX) diagAdjust
            lowAdjust).2.mirror) := by
  refine ⟨?_, ?_⟩
  · obtain ⟨hl, hd, hu⟩ := hwf
    intro i hi
    have e : ∀ n : Nat, n = op.N_ + 2 → n - 1 - i = op.N_ + 1 - i := by
      intro n hn
      omega
    refine ⟨?_, ?_, ?_⟩
    · show rd op.upper_.reverse i = _
      rw [rd_reverse _ _ (by omega), e _ hu]
    · show rd op.diag_.reverse i = _
      rw [rd_reverse _ _ (by omega), e _ hd]
    · show rd op.lower_.reverse i = _
      rw [rd_reverse _ _ (by omega), e _ hl]
  · obtain ⟨hl, hd, hu⟩ := hwf
    have hmd : op.mirror.diag_.length = op.diag_.length := by simp [TridiagonalOp1D.mirror]
    unfold TridiagonalOp1D.adjustForHigherBoundaryCondition
      TridiagonalOp1D.adjustForLowerBoundaryCondition
    rw [hmd]
    by_cases hsz : op.diag_.length ≥ 4
    · have hN : 1 < op.N_ + 2 := by omega
      have i1 : op.N_ + 2 - 1 - 1 = op.N_ := by omega
      have rl : rd op.mirror.lower_ 1 = rd op.upper_ op.N_ := by
        show rd op.upper_.reverse 1 = _
        rw [rd_reverse _ _ (by omega), hu, i1]
      have rdg : rd op.mirror.diag_ 1 = rd op.diag_ op.N_ := by
        show rd op.diag_.reverse 1 = _
        rw [rd_reverse _ _ (by omega), hd, i1]
      have ru : rd op.mirror.upper_ 1 = rd op.lower_ op.N_ := by
        show rd op.lower_.reverse 1 = _
        rw [rd_reverse _ _ (by omega), hl, i1]
      have wl : ∀ a, (wr op.lower_.reverse 1 a).reverse = wr op.lower_ op.N_ a := by
        intro a
        rw [reverse_wr_reverse _ _ _ (by omega), hl, i1]
      have wd : ∀ a, (wr op.diag_.reverse 1 a).reverse = wr op.diag_ op.N_ a := by
        intro a
        rw [reverse_wr_reverse _ _ _ (by omega), hd, i1]
      simp only [hsz, not_true_eq_false, if_false]
      by_cases h0 : degree = 0
      · simp only [h0, if_true, mirror_mirror]
      by_cases h1 : degree = 1
      · simp only [h1, if_true, if_false, show ¬ ((1 : Int) = 0) by decide, rl, ru]
        simp only [TridiagonalOp1D.mirror, wl, List.reverse_reverse]
      by_cases h2 : degree = 2
      · simp only [h2, if_true, if_false, show ¬ ((2 : Int) = 0) by decide,
          show ¬ ((2 : Int) = 1) by decide, rl, ru, rdg]
        simp only [TridiagonalOp1D.mirror, wl, wd, List.reverse_reverse]
      by_cases h3 : degree = 3
      · simp only [h3, if_true, if_false, show ¬ ((3 : Int) = 0) by decide,
          show ¬ ((3 : Int) = 1) by decide, show ¬ ((3 : Int) = 2) by decide, rl, ru, rdg]
        by_cases hv : value = 0
        · simp only [hv, not_true_eq_false, if_false]
          simp only [TridiagonalOp1D.mirror, wl, wd, List.reverse_reverse]
          have e1 : (1 : ℚ) + -DX / 2 = 1 - DX / 2 := by ring
          have e2 : (1 : ℚ) - -DX / 2 = 1 + DX / 2 := by ring
          rw [e1, e2]
        · simp only [hv, not_false_eq_true, if_true, mirror_mirror]
      by_cases h4 : degree = 4
      · simp only [h4, if_true, if_false, show ¬ ((4 : Int) = 0) by decide,
          show ¬ ((4 : Int) = 1) by decide, show ¬ ((4 : Int) = 2) by decide,
          show ¬ ((4 : Int) = 3) by decide, rl, ru, rdg]
        by_cases hv : value = 0
        · simp only [hv, not_true_eq_false, if_false]
          simp only [TridiagonalOp1D.mirror, wl, wd, List.reverse_reverse]
        · simp only [hv, not_false_eq_true, if_true, mirror_mirror]
      simp only [h0, h1, h2, h3, h4, if_false, mirror_mirror]
    · simp only [hsz, not_false_eq_true, if_true, mirror_mirror]

/-- C28 on an operator with `N = 2`: the second-degree condition with value `5` on the high
side, computed directly and through the mirrored low-side routine. -/
theorem C28_higher_is_mirrored_lower_witness :
    (⟨2, [1, 2, 3, 4], [5, 6, 7, 8], [9, 10, 11, 12], 0, 0⟩ : TridiagonalOp1D).WF ∧
    (⟨2, [1, 2, 3, 4], [5, 6, 7, 8], [9, 10, 11, 12], 0, 0⟩ :
        TridiagonalOp1D).adjustForHigherBoundaryCondition 2 5 (1 / 2) 0 0
      = (.ok 55, ⟨2, [1, 2, -8, 4], [5, 6, 29, 8], [9, 10, 11, 12], 0, 0⟩) ∧
    (⟨2, [1, 2, 3, 4], [5, 6, 7, 8], [9, 10, 11, 12], 0, 0⟩ :
        TridiagonalOp1D).mirror.adjustForLowerBoundaryCondition 2 5 (-(1 / 2)) 0 0
      = (.ok 55, ⟨2, [12, 11, 10, 9], [8, 29, 6, 5], [4, -8, 2, 1], 0, 0⟩) := by
  have h := (C28_higher_is_mirrored_lower ⟨2, [1, 2, 3, 4], [5, 6, 7, 8], [9, 10, 11, 12], 0, 0⟩
    ⟨rfl, rfl, rfl⟩ 2 5 (1 / 2) 0 0).2
  refine ⟨⟨rfl, rfl, rfl⟩, ?_, ?_⟩
  · rw [h]
    with_unfolding_all rfl
  · with_unfolding_all rfl

/-- C27: for strictly increasing positive tenors `T_0 < T_1 < ...` (at least one) and as
many values, the constructor of `VolatilityTermStructure` from spot vols `V_i` throws if and
only if `V_i^2 * T_i < V_(i-1)^2 * T_(i-1)` for some `i ≥ 1`, and the constructor of
`YieldCurve` from spot rates `R_i` throws if and only if `R_i * T_i < R_(i-1) * T_(i-1)` for
some `i ≥ 1`. -/
theorem C27_bootstrap_rejects_negative_forwards (tMat vals : Vector)
    (_hne : 0 < tMat.length) (hlen : tMat.length = vals.length)
    (hinc : ∀ i, i + 1 < tMat.length → rd tMat i < rd tMat (i + 1))
    (hpos : ∀ i, i < tMat.length → 0 < rd tMat i) :
    ((∃ e, market.VolatilityTermStructure.new tMat vals .SPOTVOL = .error e) ↔
      ∃ i, 1 ≤ i ∧ i < tMat.length ∧
        rd vals i ^ 2 * rd tMat i < rd vals (i - 1) ^ 2 * rd tMat (i - 1)) ∧
    ((∃ e, market.YieldCurve.new tMat vals .SPOTRATE = .error e) ↔
      ∃ i, 1 ≤ i ∧ i < tMat.length ∧
        rd vals i * rd tMat i < rd vals (i - 1) * rd tMat (i - 1)) := by
  obtain ⟨p, hp, hpx, hpc, hpz, _⟩ := PiecewisePolynomial_new_zero tMat vals hinc
  have hall := all_pos_of_rd tMat hpos
  have hc_all : ∀ j, p.c_.at 0 j = rd vals j := by
    intro j
    by_cases hj : j < tMat.length
    · exact hpc j hj
    · rw [hpz j (Nat.le_of_not_lt hj)]
      unfold rd
      rw [List.getD_eq_getElem?_getD, List.getElem?_eq_none (by omega)]
      rfl
  have hidx : ∀ (P : Nat → Prop), (∃ i, 1 ≤ i ∧ i ≤ tMat.length - 1 ∧ P i) ↔
      ∃ i, 1 ≤ i ∧ i < tMat.length ∧ P i := by
    intro P
    constructor
    · rintro ⟨i, h1, h2, h3⟩
      exact ⟨i, h1, by omega, h3⟩
    · rintro ⟨i, h1, h2, h3⟩
      exact ⟨i, h1, by omega, h3⟩
  have hmap : ∀ {α β : Type} (r : Except String α) (f : α → β),
      (∃ e, r.map f = .error e) ↔ ∃ e, r = .error e := by
    intro α β r f
    cases r with
    | error e => exact ⟨fun _ => ⟨e, rfl⟩, fun _ => ⟨e, rfl⟩⟩
    | ok a =>
      exact ⟨fun ⟨e, he⟩ => absurd he (by simp [Except.map]),
        fun ⟨e, he⟩ => absurd he (by simp)⟩
  refine ⟨?_, ?_⟩
  · have hloop := (bootstrap_loop (fun V => V * V) market.VolatilityTermStructure.spotVolsStep
      (fun st i h => by
        unfold market.VolatilityTermStructure.spotVolsStep
        simp only [not_not.mpr h, if_false])
      (fun st i h => by
        unfold market.VolatilityTermStructure.spotVolsStep
        simp only [h, not_false_eq_true, if_true]
        exact ⟨_, rfl⟩)
      tMat vals ((p.setCoefficient 0 0 (p.coefficient 0 0 * p.coefficient 0 0)).setBreakPoint 0 0)
      (fun j hj => by
        show rd (wr p.x_ 0 0) j = _
        rw [rd_wr_ne _ _ _ _ (by omega), hpx])
      (fun j hj => by
        show Matrix.at (Matrix.setAt p.c_ 0 0 _) 0 j = _
        rw [at_setAt, if_neg (fun hh => by omega), hc_all])
      (tMat.length - 1)).1
    have hnew : market.VolatilityTermStructure.new tMat vals .SPOTVOL
        = ((List.range' 1 (tMat.length - 1)).foldl
            (fun (acc : Except String (PiecewisePolynomial × ℚ × ℚ)) (i : Nat) =>
              acc.bind fun st => market.VolatilityTermStructure.spotVolsStep st i)
            (Except.ok ((p.setCoefficient 0 0
                (p.coefficient 0 0 * p.coefficient 0 0)).setBreakPoint 0 0,
              rd tMat 0, (fun V => V * V) (rd vals 0)))).map fun st => ⟨st.1⟩ := by
      unfold market.VolatilityTermStructure.new
      rw [hp]
      simp only [eq_true hlen, hall, not_true_eq_false, if_false]
      unfold market.VolatilityTermStructure.initFromSpotVols
      have hsz : ((p.setCoefficient 0 0
          (p.coefficient 0 0 * p.coefficient 0 0)).setBreakPoint 0 0).size = tMat.length := by
        show (wr p.x_ 0 0).length = _
        rw [length_wr, hpx]
      have hT : p.breakPoint 0 = rd tMat 0 := by
        show rd p.x_ 0 = _
        rw [hpx]
      have hV : p.coefficient 0 0 = rd vals 0 := hc_all 0
      simp only [hsz]
      simp only [hT, hV]
    rw [hnew, hmap, hloop, hidx]
    simp only [pow_two]
  · have hloop := (bootstrap_loop (fun R => R) market.YieldCurve.spotRatesStep
      (fun st i h => by
        unfold market.YieldCurve.spotRatesStep
        simp only [not_not.mpr h, if_false])
      (fun st i h => by
        unfold market.YieldCurve.spotRatesStep
        simp only [h, not_false_eq_true, if_true]
        exact ⟨_, rfl⟩)
      tMat vals (p.setBreakPoint 0 0)
      (fun j hj => by
        show rd (wr p.x_ 0 0) j = _
        rw [rd_wr_ne _ _ _ _ (by omega), hpx])
      (fun j _ => hc_all j)
      (tMat.length - 1)).1
    have hnew : market.YieldCurve.new tMat vals .SPOTRATE
        = ((List.range' 1 (tMat.length - 1)).foldl
            (fun (acc : Except String (PiecewisePolynomial × ℚ × ℚ)) (i : Nat) =>
              acc.bind fun st => market.YieldCurve.spotRatesStep st i)
            (Except.ok (p.setBreakPoint 0 0, rd tMat 0, (fun R => R) (rd vals 0)))).map
              fun st => { (⟨"USD", p⟩ : market.YieldCurve) with fwdrates_ := st.1 } := by
      unfold market.YieldCurve.new
      rw [hp]
      simp only [eq_true hlen, hall, not_true_eq_false, if_false]
      unfold market.YieldCurve.initFromSpotRates
      have hsz : (p.setBreakPoint 0 0).size = tMat.length := by
        show (wr p.x_ 0 0).length = _
        rw [length_wr, hpx]
      have hT : p.breakPoint 0 = rd tMat 0 := by
        show rd p.x_ 0 = _
        rw [hpx]
      have hV : p.coefficient 0 0 = rd vals 0 := hc_all 0
      simp only [hsz]
      simp only [hT, hV]
    rw [hnew, hmap, hloop, hidx]

/-- C27 on the tenors `1, 2` with the values `0.3, 0.2`: as spot vols they imply the forward
variance `0.04 * 2 - 0.09 * 1 < 0` and the constructor throws; as spot rates they imply the
forward rate `0.2 * 2 - 0.3 * 1 ≥ 0` and the constructor returns. -/
theorem C27_bootstrap_rejects_negative_forwards_witness :
    (∃ e, market.VolatilityTermStructure.new [1, 2] [3 / 10, 1 / 5] .SPOTVOL = .error e) ∧
    ¬ (∃ e, market.YieldCurve.new [1, 2] [3 / 10, 1 / 5] .SPOTRATE = .error e) := by
  have h := C27_bootstrap_rejects_negative_forwards [1, 2] [3 / 10, 1 / 5] (by decide) rfl
    (fun i hi => by
      obtain rfl : i = 0 := by
        simp only [List.length_cons, List.length_nil] at hi
        omega
      with_unfolding_all decide)
    (fun i hi => by
      simp only [List.length_cons, List.length_nil] at hi
      obtain rfl | rfl : i = 0 ∨ i = 1 := by omega
      · with_unfolding_all decide
      · with_unfolding_all decide)
  refine ⟨h.1.mpr ⟨1, le_refl 1, by decide, by with_unfolding_all decide⟩, fun hh => ?_⟩
  obtain ⟨i, h1, h2, h3⟩ := h.2.mp hh
  simp only [List.length_cons, List.length_nil] at h2
  obtain rfl : i = 1 := by omega
  exact absurd h3 (by with_unfolding_all decide)


/-- C31: for `n ≥ 1` and bands whose rows `1..n` are strictly diagonally dominant
(`|diag[i]| > |lower[i]| + |upper[i]|`), every pivot `D[i]`, `1 ≤ i ≤ n`, computed by
`solveTridiagonal` satisfies `|D[i]| > |lower[i]|` and is non-zero.  These pivots are the
only divisors of the function (`D[i + 1]` in the elimination, `D[1]` and `D[i]` in the
substitution), so every division is well defined and the result solves the system. -/
theorem C31_dominant_pivots_nonzero (st : Scratch) (x l d u y : Vector) (n : Nat) (hn : 1 ≤ n)
    (hd : d.length = n + 2) (hx : x.length = n + 2)
    (hdom : ∀ i, 1 ≤ i → i ≤ n → |rd l i| + |rd u i| < |rd d i|) :
    (∀ i, 1 ≤ i → i ≤ n →
      |rd l i| < |rd (solveTridiagonal st x l d u y).1.D i| ∧
      rd (solveTridiagonal st x l d u y).1.D i ≠ 0) ∧
    (∀ i, 1 ≤ i → i < n →
      rd (solveTridiagonal st x l d u y).1.D i
        = rd d i - rd u i * rd l (i + 1) / rd (solveTridiagonal st x l d u y).1.D (i + 1) ∧
      rd (solveTridiagonal st x l d u y).1.Y i
        = rd y i - rd u i * rd (solveTridiagonal st x l d u y).1.Y (i + 1)
            / rd (solveTridiagonal st x l d u y).1.D (i + 1)) ∧
    rd (solveTridiagonal st x l d u y).2 1
      = rd (solveTridiagonal st x l d u y).1.Y 1 / rd (solveTridiagonal st x l d u y).1.D 1 ∧
    (∀ i, 2 ≤ i → i ≤ n →
      rd (solveTridiagonal st x l d u y).2 i
        = (rd (solveTridiagonal st x l d u y).1.Y i
            - rd l i * rd (solveTridiagonal st x l d u y).2 (i - 1))
          / rd (solveTridiagonal st x l d u y).1.D i) ∧
    ∀ i, 1 ≤ i → i ≤ n →
      tridiagRow l d u (solveTridiagonal st x l d u y).2 n i = rd y i := by
  have hgt := pivots_abs_gt_lower st x l d u y n hn hd hx hdom
  have hne : ∀ i, 1 ≤ i → i ≤ n → rd (solveTridiagonal st x l d u y).1.D i ≠ 0 := by
    intro i h1 h2 hz
    have := hgt i h1 h2
    rw [hz, abs_zero] at this
    linarith [abs_nonneg (rd l i)]
  obtain ⟨_, _, hrel, _, _, _, hx1, hxi⟩ := solveTridiagonal_spec st x l d u y n hn hd hx _ rfl
  exact ⟨fun i h1 h2 => ⟨hgt i h1 h2, hne i h1 h2⟩, hrel, hx1, hxi,
    solveTridiagonal_solves st x l d u y n hn hd hx hne⟩

/-- C31 on the `2 × 2` system with rows `(4, 1)` and `(1, 3)`: both pivots are non-zero. -/
theorem C31_dominant_pivots_nonzero_witness :
    rd (solveTridiagonal Scratch.initial [0, 0, 0, 0] [0, 0, 1, 0] [0, 4, 3, 0] [0, 1, 0, 0]
      [0, 5, 4, 0]).1.D 1 ≠ 0 ∧
    rd (solveTridiagonal Scratch.initial [0, 0, 0, 0] [0, 0, 1, 0] [0, 4, 3, 0] [0, 1, 0, 0]
      [0, 5, 4, 0]).1.D 2 ≠ 0 := by
  have h := (C31_dominant_pivots_nonzero Scratch.initial [0, 0, 0, 0] [0, 0, 1, 0] [0, 4, 3, 0]
    [0, 1, 0, 0] [0, 5, 4, 0] 2 (by decide) rfl rfl
    (fun i h1 h2 => by
      obtain rfl | rfl : i = 1 ∨ i = 2 := by omega
      · with_unfolding_all decide
      · with_unfolding_all decide)).1
  exact ⟨(h 1 (by decide) (by decide)).2, (h 2 (by decide) (by decide)).2⟩

/-- C40: for inputs of size `n + 2` with `n ≥ 1`, the vector `x` after `solveTridiagonal`
and the scratch entries `D[1..n]`, `Y[1..n]` are the same whatever the two static vectors
held before the call (any sizes, any contents): every scratch entry `1..n` is written
before it is read. -/
theorem C40_scratch_independent (st st2 : Scratch) (x l d u y : Vector) (n : Nat) (hn : 1 ≤ n)
    (hd : d.length = n + 2) (hx : x.length = n + 2) :
    (solveTridiagonal st x l d u y).2 = (solveTridiagonal st2 x l d u y).2 ∧
    ∀ i, 1 ≤ i → i ≤ n →
      rd (solveTridiagonal st x l d u y).1.D i = rd (solveTridiagonal st2 x l d u y).1.D i ∧
      rd (solveTridiagonal st x l d u y).1.Y i = rd (solveTridiagonal st2 x l d u y).1.Y i := by
  have hind := solveTridiagonal_indep st st2 x x l d u y n hn hd hx hx
  obtain ⟨_, _, _, al, a0, an, _, _⟩ := solveTridiagonal_spec st x l d u y n hn hd hx _ rfl
  obtain ⟨_, _, _, bl, b0, bn, _, _⟩ := solveTridiagonal_spec st2 x l d u y n hn hd hx _ rfl
  refine ⟨?_, fun i h1 h2 => ⟨(hind i h1 h2).1, (hind i h1 h2).2.1⟩⟩
  apply List.ext_getElem (by rw [al, bl])
  intro i h1 h2
  rw [← rd_eq_getElem _ _ h1, ← rd_eq_getElem _ _ h2]
  by_cases hi0 : i = 0
  · subst hi0
    rw [a0, b0]
  · by_cases hin : i = n + 1
    · subst hin
      rw [an, bn]
    · rw [al, hx] at h1
      exact (hind i (by omega) (by omega)).2.2

/-- C40 on the system of the previous witness: the solution computed with the statics as
first constructed and with statics left by a call of another size and with other contents. -/
theorem C40_scratch_independent_witness :
    (solveTridiagonal Scratch.initial [0, 0, 0, 0] [0, 0, 1, 0] [0, 4, 3, 0] [0, 1, 0, 0]
      [0, 5, 4, 0]).2
    = (solveTridiagonal ⟨[7, 8, 9], [1, 2, 3]⟩ [0, 0, 0, 0] [0, 0, 1, 0] [0, 4, 3, 0] [0, 1, 0, 0]
      [0, 5, 4, 0]).2 :=
  (C40_scratch_independent Scratch.initial ⟨[7, 8, 9], [1, 2, 3]⟩ [0, 0, 0, 0] [0, 0, 1, 0]
    [0, 4, 3, 0] [0, 1, 0, 0] [0, 5, 4, 0] 2 (by decide) rfl rfl).1

/-- C36: the in-place operators `+=`, `-=` and `*=` change the three bands entry by entry
and leave both edge values unchanged; `+=` and `-=` throw, leaving the left operand as it
was, when the two sizes `N` differ.  Consequently, for operators of the same size `N ≥ 1`
whose edge values are zero, `(a += b).apply(x) = a.apply(x) + b.apply(x)`,
`(a -= b).apply(x) = a.apply(x) - b.apply(x)` and `(a *= c).apply(x) = c * a.apply(x)` at
every index `1..N`. -/
theorem C36_operator_arithmetic (a b : TridiagonalOp1D) (c : ℚ) (ha : a.WF) (_hb : b.WF) :
    (a.N_ ≠ b.N_ →
      a.addAssign b
        = (.error "TridiagonalOperator1D: cannot add two operators of different sizes", a) ∧
      a.subAssign b = (.error "Cannot subtract two operators of different sizes", a)) ∧
    (a.N_ = b.N_ →
      ((a.addAssign b).1 = .ok () ∧
        (a.addAssign b).2.LowerVal_ = a.LowerVal_ ∧ (a.addAssign b).2.UpperVal_ = a.UpperVal_ ∧
        ∀ i, i < a.N_ + 2 →
          rd (a.addAssign b).2.lower_ i = rd a.lower_ i + rd b.lower_ i ∧
          rd (a.addAssign b).2.diag_ i = rd a.diag_ i + rd b.diag_ i ∧
          rd (a.addAssign b).2.upper_ i = rd a.upper_ i + rd b.upper_ i) ∧
      ((a.subAssign b).1 = .ok () ∧
        (a.subAssign b).2.LowerVal_ = a.LowerVal_ ∧ (a.subAssign b).2.UpperVal_ = a.UpperVal_ ∧
        ∀ i, i < a.N_ + 2 →
          rd (a.subAssign b).2.lower_ i = rd a.lower_ i - rd b.lower_ i ∧
          rd (a.subAssign b).2.diag_ i = rd a.diag_ i - rd b.diag_ i ∧
          rd (a.subAssign b).2.upper_ i = rd a.upper_ i - rd b.upper_ i)) ∧
    ((a.mulAssign c).LowerVal_ = a.LowerVal_ ∧ (a.mulAssign c).UpperVal_ = a.UpperVal_ ∧
      ∀ i, i < a.N_ + 2 →
        rd (a.mulAssign c).lower_ i = rd a.lower_ i * c ∧
        rd (a.mulAssign c).diag_ i = rd a.diag_ i * c ∧
        rd (a.mulAssign c).upper_ i = rd a.upper_ i * c) ∧
    (∀ x y y1 y2 : Vector, a.N_ = b.N_ → 1 ≤ a.N_ →
      y.length = a.N_ + 2 → y1.length = a.N_ + 2 → y2.length = a.N_ + 2 →
      a.LowerVal_ = 0 → a.UpperVal_ = 0 → b.LowerVal_ = 0 → b.UpperVal_ = 0 →
      ∀ i, 1 ≤ i → i ≤ a.N_ →
        rd ((a.addAssign b).2.apply x y) i = rd (a.apply x y1) i + rd (b.apply x y2) i ∧
        rd ((a.subAssign b).2.apply x y) i = rd (a.apply x y1) i - rd (b.apply x y2) i ∧
        rd ((a.mulAssign c).apply x y) i = c * rd (a.apply x y1) i) := by
  refine ⟨?_, ?_, ?_, ?_⟩
  · intro hne
    unfold TridiagonalOp1D.addAssign TridiagonalOp1D.subAssign
    rw [if_pos hne, if_pos hne]
    exact ⟨rfl, rfl⟩
  · intro hN
    obtain ⟨p1, _, _, p4, p5, p6⟩ := addAssign_spec a b hN ha
    obtain ⟨q1, _, _, q4, q5, q6⟩ := subAssign_spec a b hN ha
    exact ⟨⟨p1, p4, p5, p6⟩, q1, q4, q5, q6⟩
  · obtain ⟨_, _, m3, m4, m5⟩ := mulAssign_spec a c ha
    exact ⟨m3, m4, m5⟩
  · intro x y y1 y2 hN hN1 hy hy1 hy2 aL aU bL bU i h1 h2
    obtain ⟨_, pN, _, pL, pU, pE⟩ := addAssign_spec a b hN ha
    obtain ⟨_, qN, _, qL, qU, qE⟩ := subAssign_spec a b hN ha
    obtain ⟨mN, _, mL, mU, mE⟩ := mulAssign_spec a c ha
    have hA := rd_apply_rows a x y1 hN1 hy1 i h1 h2
    have hB := rd_apply_rows b x y2 (by omega) (by rw [← hN]; exact hy2) i h1 (by omega)
    have hP := rd_apply_rows (a.addAssign b).2 x y (by rw [pN]; exact hN1)
      (by rw [pN]; exact hy) i h1 (by rw [pN]; exact h2)
    have hQ := rd_apply_rows (a.subAssign b).2 x y (by rw [qN]; exact hN1)
      (by rw [qN]; exact hy) i h1 (by rw [qN]; exact h2)
    have hM := rd_apply_rows (a.mulAssign c) x y (by rw [mN]; exact hN1)
      (by rw [mN]; exact hy) i h1 (by rw [mN]; exact h2)
    rw [hA, hB, hP, hQ, hM, pN, qN, mN, pL, pU, qL, qU, mL, mU, aL, aU, bL, bU, ← hN]
    unfold TridiagonalOp1D.row
    obtain ⟨p1, p2, p3⟩ := pE i (by omega)
    obtain ⟨q1, q2, q3⟩ := qE i (by omega)
    obtain ⟨m1, m2, m3⟩ := mE i (by omega)
    by_cases hi : i = a.N_
    · simp only [if_pos hi]
      rw [← hi, p1, p2, q1, q2, m1, m2]
      refine ⟨by ring, by ring, by ring⟩
    · simp only [if_neg hi]
      by_cases hi1 : i = 1
      · simp only [if_pos hi1]
        subst hi1
        rw [p2, p3, q2, q3, m2, m3]
        refine ⟨by ring, by ring, by ring⟩
      · simp only [if_neg hi1]
        rw [p1, p2, p3, q1, q2, q3, m1, m2, m3]
        refine ⟨by ring, by ring, by ring⟩

/-- C36 on two operators with `N = 2`: the sum applied to `x = [0, 1, 2, 0]` gives at row
`1` the sum of the two results, and operators of sizes `2` and `1` cannot be added. -/
theorem C36_operator_arithmetic_witness :
    rd (((TridiagonalOp1D.initConst 2 1 2 3).addAssign
          (TridiagonalOp1D.initConst 2 4 5 6)).2.apply [0, 1, 2, 0] [0, 0, 0, 0]) 1
      = rd ((TridiagonalOp1D.initConst 2 1 2 3).apply [0, 1, 2, 0] [0, 0, 0, 0]) 1
        + rd ((TridiagonalOp1D.initConst 2 4 5 6).apply [0, 1, 2, 0] [0, 0, 0, 0]) 1 ∧
    (TridiagonalOp1D.initConst 2 1 2 3).addAssign (TridiagonalOp1D.initConst 1 1 2 3)
      = (.error "TridiagonalOperator1D: cannot add two operators of different sizes",
          TridiagonalOp1D.initConst 2 1 2 3) := by
  have h := C36_operator_arithmetic (TridiagonalOp1D.initConst 2 1 2 3)
    (TridiagonalOp1D.initConst 2 4 5 6) 1 (initConst_WF _ _ _ _) (initConst_WF _ _ _ _)
  have h2 := C36_operator_arithmetic (TridiagonalOp1D.initConst 2 1 2 3)
    (TridiagonalOp1D.initConst 1 1 2 3) 1 (initConst_WF _ _ _ _) (initConst_WF _ _ _ _)
  exact ⟨(h.2.2.2 [0, 1, 2, 0] [0, 0, 0, 0] [0, 0, 0, 0] [0, 0, 0, 0] rfl (by decide) rfl rfl
    rfl rfl rfl rfl rfl 1 (by decide) (by decide)).1, (h2.1 (by decide)).1⟩

/-- C37: two solvers with the same axis (the same coefficients and `DX`), the same `theta`
and the same number of layers, at least two interior nodes and layers of `NX + 2` values,
whose value grids agree at the interior nodes `1..NX` (they may differ at the nodes `0` and
`NX + 1`, and the operators, `currValues` and the statics may differ too): for the same `DT`,
`solveFromStepToStep` returns on both and produces the same value at every node `0..NX+1`
of every layer. -/
theorem C37_step_ignores_boundary_values (s s2 : Pde1DSolver) (step step2 : Int) (DT : ℚ)
    (hs : s.Sized) (hs2 : s2.Sized) (hg : s2.grax = s.grax) (hth : s2.theta_ = s.theta_)
    (hnl : s2.nLayers_ = s.nLayers_)
    (hv : ∀ j, j < s.nLayers_ → ∀ i, 1 ≤ i → i ≤ s.grax.NX →
      s2.prevValues.at i j = s.prevValues.at i j) :
    (s.solveFromStepToStep step DT).1 = .ok () ∧
    (s2.solveFromStepToStep step2 DT).1 = .ok () ∧
    ∀ j, j < s.nLayers_ → ∀ i, i ≤ s.grax.NX + 1 →
      (s2.solveFromStepToStep step2 DT).2.prevValues.at i j
        = (s.solveFromStepToStep step DT).2.prevValues.at i j := by
  obtain ⟨hNX, hdr, hvar, hrows, hprev, hcurr⟩ := hs
  obtain ⟨hNX2, hdr2, hvar2, hrows2, hprev2, hcurr2⟩ := hs2
  obtain ⟨s1, E, M, f, hs1, hstep, _, _, _, _, hEadj, hMadj, hEN, hMN, hEL, hEU, hML, hMU,
    _, hcol⟩ := step_layers s step DT hNX hdr hvar hrows hprev hcurr
  obtain ⟨t1, E2, M2, f2, ht1, hstep2, _, _, _, _, hEadj2, hMadj2, hEN2, hMN2, hEL2, hEU2,
    hML2, hMU2, _, hcol2⟩ := step_layers s2 step2 DT hNX2 hdr2 hvar2 hrows2 hprev2 hcurr2
  obtain ⟨s1b, hs1b, _, _, _, _, _, _, _, _, _, _, _, _, _, _, hent⟩ :=
    buildOps_spec s DT hdr hvar
  obtain ⟨t1b, ht1b, _, _, _, _, _, _, _, _, _, _, _, _, _, _, hent2⟩ :=
    buildOps_spec s2 DT hdr2 hvar2
  have e1 : s1b = s1 := by
    rw [hs1] at hs1b
    injection hs1b with _ h2
    exact h2.symm
  have e2 : t1b = t1 := by
    rw [ht1] at ht1b
    injection ht1b with _ h2
    exact h2.symm
  rw [e1] at hent
  rw [e2, hg, hth] at hent2
  clear hs1b ht1b e1 e2 hs1 ht1
  rw [hg] at hEadj2 hMadj2 hEN2 hMN2
  have hsE : ∀ i, 1 ≤ i → i ≤ s1.opExplicit_.N_ →
      rd t1.opExplicit_.lower_ i = rd s1.opExplicit_.lower_ i ∧
      rd t1.opExplicit_.diag_ i = rd s1.opExplicit_.diag_ i ∧
      rd t1.opExplicit_.upper_ i = rd s1.opExplicit_.upper_ i := by
    intro i h1 h2
    rw [hEN] at h2
    obtain ⟨a1, a2, a3, _, _, _⟩ := hent i h1 h2
    obtain ⟨b1, b2, b3, _, _, _⟩ := hent2 i h1 h2
    exact ⟨by rw [a1, b1], by rw [a2, b2], by rw [a3, b3]⟩
  have hsM : ∀ i, 1 ≤ i → i ≤ s1.opImplicit_.N_ →
      rd t1.opImplicit_.lower_ i = rd s1.opImplicit_.lower_ i ∧
      rd t1.opImplicit_.diag_ i = rd s1.opImplicit_.diag_ i ∧
      rd t1.opImplicit_.upper_ i = rd s1.opImplicit_.upper_ i := by
    intro i h1 h2
    rw [hMN] at h2
    obtain ⟨_, _, _, a1, a2, a3⟩ := hent i h1 h2
    obtain ⟨_, _, _, b1, b2, b3⟩ := hent2 i h1 h2
    exact ⟨by rw [a1, b1], by rw [a2, b2], by rw [a3, b3]⟩
  have hEE := adjusted3_congr s.grax.DX _ _ _ _ hEadj hEadj2 (by rw [hEN, hEN2])
    (by rw [hEN]; exact hNX) hsE
  have hMM := adjusted3_congr s.grax.DX _ _ _ _ hMadj hMadj2 (by rw [hMN, hMN2])
    (by rw [hMN]; exact hNX) hsM
  rw [hEN] at hEE
  rw [hMN] at hMM
  have hENf : E.N_ = s.grax.NX := by rw [hEadj.1, hEN]
  have hEN2f : E2.N_ = s.grax.NX := by rw [hEadj2.1, hEN2]
  have hMNf : M.N_ = s.grax.NX := by rw [hMadj.1, hMN]
  have hMN2f : M2.N_ = s.grax.NX := by rw [hMadj2.1, hMN2]
  have hMd : M.diag_.length = s.grax.NX + 2 := by rw [hMadj.2.1.2.1, hMNf]
  have hMd2 : M2.diag_.length = s.grax.NX + 2 := by rw [hMadj2.2.1.2.1, hMN2f]
  rw [hstep, hstep2]
  refine ⟨rfl, rfl, ?_⟩
  intro j hj i hi
  obtain ⟨sc, hc, _⟩ := hcol j hj
  obtain ⟨sc2, hc2, _⟩ := hcol2 j (by rw [hnl]; exact hj)
  have hp := hprev j hj
  have hp2 : (s2.prevValues.col j).length = s.grax.NX + 2 := by
    rw [← hg]
    exact hprev2 j (by rw [hnl]; exact hj)
  have hcu := hcurr j hj
  have hcu2 : (s2.currValues.col j).length = s.grax.NX + 2 := by
    rw [← hg]
    exact hcurr2 j (by rw [hnl]; exact hj)
  show rd (f2.prevValues.col j) i = rd (f.prevValues.col j) i
  rw [hc, hc2, hg]
  exact layer_interior_congr E E2 M M2 s.grax.NX sc sc2 (s.prevValues.col j)
    (s2.prevValues.col j) (s.currValues.col j) (s2.currValues.col j) hNX hENf hEN2f hMd hMd2
    hp hp2 hcu hcu2 (by rw [hEadj.2.2.1, hEadj2.2.2.1, hEL, hEL2])
    (by rw [hEadj.2.2.2.1, hEadj2.2.2.2.1, hEU, hEU2]) hEE hMM
    (fun i h1 h2 => hv j hj i h1 h2) i hi

/-- C37 on the sample solver: the layer `[0, 1, 2, 3]` and the layer `[9, 1, 2, -7]`, which
differ at the two edge nodes only, give the same values at the four nodes after one step. -/
theorem C37_step_ignores_boundary_values_witness :
    ({ Pde1DSolver.sample with
        prevValues := { n_rows := 4, cols := [[9, 1, 2, -7]] } }.solveFromStepToStep 0
          (1 / 10)).2.prevValues.col 0
      = (Pde1DSolver.sample.solveFromStepToStep 0 (1 / 10)).2.prevValues.col 0 := by
  have hsz : Pde1DSolver.sample.Sized := by
    refine ⟨by decide, rfl, rfl, rfl, ?_, ?_⟩ <;>
    · intro j hj
      obtain rfl : j = 0 := by
        have : j < 1 := hj
        omega
      rfl
  have hsz2 : ({ Pde1DSolver.sample with
      prevValues := { n_rows := 4, cols := [[9, 1, 2, -7]] } } : Pde1DSolver).Sized := by
    refine ⟨by decide, rfl, rfl, rfl, ?_, ?_⟩ <;>
    · intro j hj
      obtain rfl : j = 0 := by
        have : j < 1 := hj
        omega
      rfl
  have h := (C37_step_ignores_boundary_values Pde1DSolver.sample
    { Pde1DSolver.sample with prevValues := { n_rows := 4, cols := [[9, 1, 2, -7]] } } 0 0
    (1 / 10) hsz hsz2 rfl rfl rfl
    (fun j hj i h1 h2 => by
      obtain rfl : j = 0 := by
        have : j < 1 := hj
        omega
      have h3 : i ≤ 2 := h2
      obtain rfl | rfl : i = 1 ∨ i = 2 := by omega
      · rfl
      · rfl)).2.2 0 (by decide)
  with_unfolding_all decide


/-- C33: for every `BarrierCallPut` (`up_or_down` is `1` or `0`), every fixing index `idx`
inside `payAmounts_`, every spot and every continuation value `c`, `eval(idx, spot, c)`
returns and changes `payAmounts[idx]` only.  If the barrier is hit (up: `spot ≥ barrier`,
down: `spot ≤ barrier`) it sets `payAmounts[idx] = 0`; otherwise it sets
`max(payoffType * (spot - strike), 0)` at the last index and `max(c, 0)` at the earlier
ones.  The amount is never negative, and at an index before the last the call does not
depend on the payoff type and the strike: there is no early exercise. -/
theorem C33_barrier_knock_out (payoffType : Int) (strike : ℚ) (up_or_down : Int)
    (barrier : ℚ) (payAmounts : Vector) (idx : Nat) (spots : Vector) (c : ℚ)
    (hud : up_or_down = 1 ∨ up_or_down = 0) (hidx : idx < payAmounts.length) :
    ∃ pa, BarrierCallPut.eval payoffType strike up_or_down barrier payAmounts idx spots c
        = .ok pa ∧
      (((up_or_down = 1 ∧ rd spots 0 ≥ barrier) ∨ (up_or_down = 0 ∧ rd spots 0 ≤ barrier)) →
        rd pa idx = 0) ∧
      (¬ ((up_or_down = 1 ∧ rd spots 0 ≥ barrier) ∨ (up_or_down = 0 ∧ rd spots 0 ≤ barrier)) →
        (idx + 1 = payAmounts.length →
          rd pa idx = max ((payoffType : ℚ) * (rd spots 0 - strike)) 0) ∧
        (idx + 1 < payAmounts.length → rd pa idx = max c 0)) ∧
      0 ≤ rd pa idx ∧
      (∀ j, j ≠ idx → rd pa j = rd payAmounts j) ∧
      (idx + 1 < payAmounts.length → ∀ (payoffType2 : Int) (strike2 : ℚ),
        BarrierCallPut.eval payoffType2 strike2 up_or_down barrier payAmounts idx spots c
          = .ok pa) := by
  obtain ⟨pa, h1, _, h3, h4⟩ := BarrierCallPut_eval_spec payoffType strike up_or_down barrier
    payAmounts idx spots c hud hidx
  refine ⟨pa, h1, ?_, ?_, ?_, h3, ?_⟩
  · intro hit
    rw [h4, if_pos hit]
  · intro hno
    rw [h4, if_neg hno]
    exact ⟨fun hl => by rw [if_pos hl], fun hl => by rw [if_neg (by omega)]⟩
  · rw [h4]
    split_ifs
    · exact le_refl 0
    · exact le_max_right _ _
    · exact le_max_right _ _
  · intro hl payoffType2 strike2
    have hne : ¬ (idx = payAmounts.length - 1) := by omega
    rw [← h1]
    simp only [BarrierCallPut.eval, hne, if_false]

/-- C33 on an up-and-out call with strike `100` and barrier `120` and three fixings: at the
first fixing with spot `130` (barrier hit) and continuation value `7` the amount is `0`; with
spot `110` it is the continuation value `7`; at the last fixing with spot `110` it is the
payoff `10`. -/
theorem C33_barrier_knock_out_witness :
    BarrierCallPut.eval 1 100 1 120 [0, 0, 0] 0 [130] 7 = .ok [0, 0, 0] ∧
    BarrierCallPut.eval 1 100 1 120 [0, 0, 0] 0 [110] 7 = .ok [7, 0, 0] ∧
    BarrierCallPut.eval 1 100 1 120 [0, 0, 0] 2 [110] 7 = .ok [0, 0, 10] ∧
    ∃ pa, BarrierCallPut.eval 1 100 1 120 [0, 0, 0] 0 [130] 7 = .ok pa ∧ rd pa 0 = 0 := by
  obtain ⟨pa, h1, h2, _⟩ := C33_barrier_knock_out 1 100 1 120 [0, 0, 0] 0 [130] 7 (Or.inl rfl)
    (by decide)
  refine ⟨by with_unfolding_all rfl, by with_unfolding_all rfl, by with_unfolding_all rfl,
    pa, h1, h2 (Or.inl ⟨rfl, by with_unfolding_all decide⟩)⟩

/-- C34 fails in the code: the monthly barrier option with one year to expiry
(`BarrierCallPut(1, 100, 1, 1, 120, MONTHLY)`) gets the twelve fixing times
`0, 1/12, ..., 10/12, 1`.  They are strictly increasing and the last one is the expiry, but
the last two differ by `2/12`, not by `1/12`: the date `11/12` is not monitored. -/
theorem C34_last_interval_doubled :
    (BarrierCallPut.new 1 100 1 1 120 .MONTHLY).toOption.map (fun p => p.fixTimes_)
      = some [0, 1 / 12, 1 / 6, 1 / 4, 1 / 3, 5 / 12, 1 / 2, 7 / 12, 2 / 3, 3 / 4, 5 / 6, 1] ∧
    rd [0, 1 / 12, 1 / 6, 1 / 4, 1 / 3, 5 / 12, 1 / 2, 7 / 12, 2 / 3, 3 / 4, 5 / 6, 1] 11
      - rd [0, 1 / 12, 1 / 6, 1 / 4, 1 / 3, 5 / 12, 1 / 2, 7 / 12, 2 / 3, 3 / 4, 5 / 6, 1] 10
      = 2 / BarrierCallPut.num_freq .MONTHLY ∧
    rd [0, 1 / 12, 1 / 6, 1 / 4, 1 / 3, 5 / 12, 1 / 2, 7 / 12, 2 / 3, 3 / 4, 5 / 6, 1] 11
      - rd [0, 1 / 12, 1 / 6, 1 / 4, 1 / 3, 5 / 12, 1 / 2, 7 / 12, 2 / 3, 3 / 4, 5 / 6, 1] 10
      ≠ 1 / BarrierCallPut.num_freq .MONTHLY := by
  refine ⟨?_, ?_, ?_⟩ <;> with_unfolding_all decide

/-- C35: `LogCoordinateChange::driftAndVariance` called as `updateGrid` calls it
(`realF = realS * aCoeff`), for `realS > 0` and `DX ≠ 0` (and a step `DT ≠ 0` and a factor
`theta * aCoeff + 1 - theta ≠ 0`, by which the code divides): `variance = realLNVol^2`,
`finalVol = realLNVol` and
`drift = (aCoeff - 1) / ((theta * aCoeff + 1 - theta) * DT) * (DX / sinh DX)
  - realLNVol^2 * tanh(DX / 2) / DX`; so the three outputs are the same at every node. -/
theorem C35_log_coefficients_uniform (realS theta DT realLNVol aCoeff DX : ℝ)
    (hS : 0 < realS) (hDX : DX ≠ 0) (_hDT : DT ≠ 0)
    (_hcorr : theta * aCoeff + 1 - theta ≠ 0) :
    (real.LogCoordinateChange.driftAndVariance realS (realS * aCoeff) theta DT realLNVol
        aCoeff DX).1
      = (aCoeff - 1) / ((theta * aCoeff + 1 - theta) * DT) * (DX / Real.sinh DX)
        - realLNVol ^ 2 * Real.tanh (DX / 2) / DX ∧
    (real.LogCoordinateChange.driftAndVariance realS (realS * aCoeff) theta DT realLNVol
        aCoeff DX).2.1 = realLNVol ^ 2 ∧
    (real.LogCoordinateChange.driftAndVariance realS (realS * aCoeff) theta DT realLNVol
        aCoeff DX).2.2 = realLNVol ∧
    ∀ realS2 : ℝ, 0 < realS2 →
      real.LogCoordinateChange.driftAndVariance realS2 (realS2 * aCoeff) theta DT realLNVol
          aCoeff DX
        = real.LogCoordinateChange.driftAndVariance realS (realS * aCoeff) theta DT realLNVol
          aCoeff DX := by
  have key : ∀ S : ℝ, 0 < S →
      real.LogCoordinateChange.driftAndVariance S (S * aCoeff) theta DT realLNVol aCoeff DX
        = ((aCoeff - 1) / ((theta * aCoeff + 1 - theta) * DT) * (DX / Real.sinh DX)
            - realLNVol ^ 2 * Real.tanh (DX / 2) / DX, realLNVol ^ 2, realLNVol) := by
    intro S hS0
    obtain ⟨hu, hu1, e2, e3, e4⟩ := sinh_tanh_half DX hDX
    obtain ⟨a1, a2⟩ := log_drift_algebra S (Real.exp DX) DX (ne_of_gt hS0) hu hu1 hDX
    show ((S * aCoeff - S) / (theta * aCoeff + 1 - theta) / DT
          / ((Real.exp (Real.log S + DX) - Real.exp (Real.log S - DX)) / (2.0 * DX))
        - 0.5 * realLNVol * realLNVol
          * ((Real.exp (Real.log S + DX) - 2 * Real.exp (Real.log S)
              + Real.exp (Real.log S - DX)) / (DX * DX))
          / ((Real.exp (Real.log S + DX) - Real.exp (Real.log S - DX)) / (2.0 * DX)),
        realLNVol * realLNVol, realLNVol) = _
    rw [sub_eq_add_neg (Real.log S) DX, Real.exp_add, Real.exp_add, Real.exp_log hS0, e2,
      e3, e4]
    have e5 : (2.0 : ℝ) = 2 := by norm_num
    rw [e5]
    refine Prod.ext ?_ (Prod.ext (by ring) rfl)
    show _ - _ = _ - _
    have p1 : (S * aCoeff - S) / (theta * aCoeff + 1 - theta) / DT
          / ((S * Real.exp DX - S * (Real.exp DX)⁻¹) / (2 * DX))
        = (aCoeff - 1) / ((theta * aCoeff + 1 - theta) * DT)
          * (S / ((S * Real.exp DX - S * (Real.exp DX)⁻¹) / (2 * DX))) := by
      generalize theta * aCoeff + 1 - theta = c
      generalize (S * Real.exp DX - S * (Real.exp DX)⁻¹) / (2 * DX) = d
      ring
    have p2 : 0.5 * realLNVol * realLNVol
          * ((S * Real.exp DX - 2 * S + S * (Real.exp DX)⁻¹) / (DX * DX))
          / ((S * Real.exp DX - S * (Real.exp DX)⁻¹) / (2 * DX))
        = 0.5 * realLNVol * realLNVol
          * ((S * Real.exp DX - 2 * S + S * (Real.exp DX)⁻¹) / (DX * DX)
            / ((S * Real.exp DX - S * (Real.exp DX)⁻¹) / (2 * DX))) := by
      ring
    rw [p1, p2, a1, a2]
    ring
  have h := key realS hS
  refine ⟨by rw [h], by rw [h], by rw [h], fun S2 h2 => by rw [key S2 h2, h]⟩

/-- C35 at `DX = 1`, `DT = 1`, `theta = 1/2`, `aCoeff = 1`, volatility `1/5`: the outputs at
the spots `100` and `50` are the same. -/
theorem C35_log_coefficients_uniform_witness :
    real.LogCoordinateChange.driftAndVariance 50 (50 * 1) (1 / 2) 1 (1 / 5) 1 1
      = real.LogCoordinateChange.driftAndVariance 100 (100 * 1) (1 / 2) 1 (1 / 5) 1 1 :=
  (C35_log_coefficients_uniform 100 (1 / 2) 1 (1 / 5) 1 1 (by norm_num) (by norm_num)
    (by norm_num) (by norm_num)).2.2.2 50 (by norm_num)

/-- C39: for a pay-off type `1` or `-1`, a direction `'u'` or `'d'`, positive spot, strike,
barrier, expiry and volatility, non-negative rate and dividend yield, and the barrier on the
side of the spot that the direction asks for, `barrierOptionBS` reaches its return statement
with both `in` and `out` assigned, returns `in` for the type `'i'` and `out` for the type
`'o'`, and `in + out` is the vanilla price
`phi * (spot * exp(-q T) * N(phi d1) - strike * exp(-r T) * N(phi d2))` computed in the same
function, whatever the function `cdf` is. -/
theorem C39_in_out_parity (normal : real.NormalDistribution) (payoffType : Int)
    (up_or_down : Char) (spot strike barrier timeToExp intRate divYield volatility : ℝ)
    (hp : payoffType = 1 ∨ payoffType = -1) (hud : up_or_down = 'u' ∨ up_or_down = 'd')
    (hspot : 0 < spot) (hstrike : 0 < strike) (hbarrier : 0 < barrier)
    (hT : 0 < timeToExp) (hr : 0 ≤ intRate) (hq : 0 ≤ divYield) (hvol : 0 < volatility)
    (hd : up_or_down = 'd' → barrier < spot) (hu : up_or_down = 'u' → spot < barrier) :
    ∃ pin pout : ℝ,
      real.barrierOptionBS.inOut normal payoffType (up_or_down, 'i') spot strike
        barrier timeToExp intRate divYield volatility = .ok (some pin, some pout) ∧
      real.barrierOptionBS.inOut normal payoffType (up_or_down, 'o') spot strike
        barrier timeToExp intRate divYield volatility = .ok (some pin, some pout) ∧
      real.barrierOptionBS normal payoffType (up_or_down, 'i') spot strike barrier timeToExp
        intRate divYield volatility = .ok (some pin) ∧
      real.barrierOptionBS normal payoffType (up_or_down, 'o') spot strike barrier timeToExp
        intRate divYield volatility = .ok (some pout) ∧
      pin + pout = real.barrierOptionBS.price_1 normal payoffType spot strike timeToExp
        intRate divYield volatility ∧
      real.barrierOptionBS.price_1 normal payoffType spot strike timeToExp intRate divYield
          volatility
        = (payoffType : ℝ) * (spot * Real.exp (-divYield * timeToExp)
            * normal.cdf ((payoffType : ℝ) * ((Real.log (spot / strike)
                + (intRate - divYield + volatility ^ (2 : ℝ) / 2) * timeToExp)
              / (volatility * Real.sqrt timeToExp)))
          - strike * Real.exp (-intRate * timeToExp)
            * normal.cdf ((payoffType : ℝ) * ((Real.log (spot / strike)
                + (intRate - divYield + volatility ^ (2 : ℝ) / 2) * timeToExp)
              / (volatility * Real.sqrt timeToExp) - volatility * Real.sqrt timeToExp))) := by
  obtain ⟨pin, pout, e1, hsum⟩ := barrierOptionBS_inOut_spec normal payoffType up_or_down 'i'
    spot strike barrier timeToExp intRate divYield volatility hp hud (Or.inl rfl)
    (le_of_lt hspot) (le_of_lt hstrike) (le_of_lt hbarrier) (le_of_lt hT) hr hq
    (le_of_lt hvol) hd hu _ rfl
  obtain ⟨pin2, pout2, e2, _⟩ := barrierOptionBS_inOut_spec normal payoffType up_or_down 'o'
    spot strike barrier timeToExp intRate divYield volatility hp hud (Or.inr rfl)
    (le_of_lt hspot) (le_of_lt hstrike) (le_of_lt hbarrier) (le_of_lt hT) hr hq
    (le_of_lt hvol) hd hu _ rfl
  have e3 : real.barrierOptionBS.inOut normal payoffType (up_or_down, 'o') spot strike
      barrier timeToExp intRate divYield volatility
      = real.barrierOptionBS.inOut normal payoffType (up_or_down, 'i') spot strike
      barrier timeToExp intRate divYield volatility := by
    simp only [real.barrierOptionBS.inOut, Char.reduceEq, or_true, true_or, or_false,
      false_or]
  refine ⟨pin, pout, e1, e3.trans e1, ?_, ?_, hsum, rfl⟩
  · simp only [real.barrierOptionBS, e1, if_true]
  · simp only [real.barrierOptionBS, e3, e1, Char.reduceEq, if_false, if_true]

/-- C39 for a down call with spot and strike `100`, barrier `90`, one year, zero rate and
dividend yield, volatility `20%` and the standard normal distribution function. -/
theorem C39_in_out_parity_witness :
    ∃ pin pout : ℝ,
      real.barrierOptionBS ⟨fun x => ProbabilityTheory.cdf (ProbabilityTheory.gaussianReal 0 1) x⟩
        1 ('d', 'i') 100 100 90 1 0 0 (1 / 5) = .ok (some pin) ∧
      real.barrierOptionBS ⟨fun x => ProbabilityTheory.cdf (ProbabilityTheory.gaussianReal 0 1) x⟩
        1 ('d', 'o') 100 100 90 1 0 0 (1 / 5) = .ok (some pout) ∧
      pin + pout = real.barrierOptionBS.price_1
        ⟨fun x => ProbabilityTheory.cdf (ProbabilityTheory.gaussianReal 0 1) x⟩
        1 100 100 1 0 0 (1 / 5) := by
  obtain ⟨pin, pout, _, _, h1, h2, h3, _⟩ := C39_in_out_parity
    ⟨fun x => ProbabilityTheory.cdf (ProbabilityTheory.gaussianReal 0 1) x⟩
    1 'd' 100 100 90 1 0 0 (1 / 5) (Or.inl rfl) (Or.inr rfl) (by norm_num) (by norm_num)
    (by norm_num) (by norm_num) (le_refl 0) (le_refl 0) (by norm_num)
    (fun _ => by norm_num) (fun h => absurd h (by decide))
  exact ⟨pin, pout, h1, h2, h3⟩

/-- C32: take a solver aligned to the spot (`setAlignment(false)`) whose axis `0` has the
logarithmic coordinate change, with a positive number of standard deviations (as the
parameters are read and as the specification requires), a non-negative spot volatility and
`T > 0`, and let `g` be that axis after `initGrid`, with `DX > 0`.  With `Xmin0` the lower
bound before alignment, `k = int(0.5 + (log(spot) - Xmin0) / DX)` is one of the nodes
`0 .. NX + 1` and its level is `log(spot)`; and for a solver that holds these levels, this
coordinate change, this spot and value layers of `NX + 2` entries, `storeResults` returns
and stores as the price of every layer `j` the entry `k` of that layer: no interpolation
error. -/
theorem C32_aligned_spot_price (sb : real.PdeBase) (T : ℝ) (params : real.PdeParams)
    (s : real.Pde1DSolver)
    (hassets : sb.nAssets_ = params.nSpotNodes.length) (hone : 0 < sb.nAssets_)
    (hlog : (sb.gridAxes_.getD 0 real.GridAxis.new).coordinateChange
      = real.LogCoordinateChange)
    (_hspot : 0 < real.rd sb.spots_ 0)
    (g : real.GridAxis)
    (hg : g = ((real.Pde1DSolver.setAlignment sb false).initGrid T params).2.gridAxes_.getD 0
      real.GridAxis.new)
    (hDX : 0 < g.DX)
    (hn : 0 < real.rd params.nStdDevs 0)
    (hvol : 0 ≤ (sb.vols_.getD 0 ⟨fun _ => 0⟩).spotVol T) (_hT : 0 < T)
    (hspots : s.spots_ = sb.spots_)
    (hX : (s.gridAxes_.getD 0 real.GridAxis.new).Xlevels = g.Xlevels)
    (hcc : (s.gridAxes_.getD 0 real.GridAxis.new).coordinateChange = g.coordinateChange)
    (hcols : ∀ j, j < s.nLayers_ → (s.prevValues.col j).length = g.NX + 2)
    (b : ℝ × ℝ)
    (hb : b = real.LogCoordinateChange.bounds (Real.log (real.rd sb.spots_ 0))
      (real.LogCoordinateChange.forwardAndVariance
        (real.rd sb.spots_ 0 * Real.exp
          (((sb.spaccrycs_.getD 0 ⟨fun _ => 0⟩).spotRate T - real.rd sb.divyields_ 0) * T))
        ((sb.vols_.getD 0 ⟨fun _ => 0⟩).spotVol T) T).1
      (real.LogCoordinateChange.forwardAndVariance
        (real.rd sb.spots_ 0 * Real.exp
          (((sb.spaccrycs_.getD 0 ⟨fun _ => 0⟩).spotRate T - real.rd sb.divyields_ 0) * T))
        ((sb.vols_.getD 0 ⟨fun _ => 0⟩).spotVol T) T).2 T (real.rd params.nStdDevs 0)) :
    ∃ k : Nat, k ≤ g.NX + 1 ∧
      (k : Int) = real.toInt (0.5 + (Real.log (real.rd sb.spots_ 0) - b.1) / g.DX) ∧
      real.rd g.Xlevels k = Real.log (real.rd sb.spots_ 0) ∧
      ∃ s1 : real.Pde1DSolver, s.storeResults = .ok (some s1) ∧
        s1.results_.prices.length = s.nLayers_ ∧
        ∀ j, j < s.nLayers_ →
          real.rd s1.results_.prices j = real.rd (s.prevValues.col j) k := by
  have hw : 0 ≤ real.rd params.nStdDevs 0 * (sb.vols_.getD 0 ⟨fun _ => 0⟩).spotVol T
      * Real.sqrt T := mul_nonneg (mul_nonneg (le_of_lt hn) hvol) (Real.sqrt_nonneg T)
  have hs0 : real.Pde1DSolver.setAlignment sb false = { sb with alignments_ := sb.spots_ } :=
    rfl
  rw [hs0] at hg
  obtain ⟨_, hax⟩ := initGrid_axis { sb with alignments_ := sb.spots_ } T params hassets 0 hone
  rw [hax] at hg
  have hb2 : b = (sb.gridAxes_.getD 0 real.GridAxis.new).coordinateChange.bounds
      ((sb.gridAxes_.getD 0 real.GridAxis.new).coordinateChange.fromRealToDiffused
        (real.rd sb.spots_ 0))
      ((sb.gridAxes_.getD 0 real.GridAxis.new).coordinateChange.forwardAndVariance
        (real.rd sb.spots_ 0 * Real.exp
          (((sb.spaccrycs_.getD 0 ⟨fun _ => 0⟩).spotRate T - real.rd sb.divyields_ 0) * T))
        ((sb.vols_.getD 0 ⟨fun _ => 0⟩).spotVol T) T).1
      ((sb.gridAxes_.getD 0 real.GridAxis.new).coordinateChange.forwardAndVariance
        (real.rd sb.spots_ 0 * Real.exp
          (((sb.spaccrycs_.getD 0 ⟨fun _ => 0⟩).spotRate T - real.rd sb.divyields_ 0) * T))
        ((sb.vols_.getD 0 ⟨fun _ => 0⟩).spotVol T) T).2 T (real.rd params.nStdDevs 0) := by
    rw [hlog]
    exact hb
  obtain ⟨hNX, hgcc, hDXeq, _, _, hXl, _, hlev, _⟩ :=
    initGridAxis_spec _ _ _ _ _ _ _ _ _ g hg b hb2 _ rfl
  have ha : (sb.gridAxes_.getD 0 real.GridAxis.new).coordinateChange.fromRealToDiffused
      (real.rd sb.spots_ 0) = Real.log (real.rd sb.spots_ 0) := by
    rw [hlog]
    rfl
  have hn : (0 : ℝ) < (((params.nSpotNodes.getD 0 0 + 1 : Nat)) : ℝ) := by positivity
  have hlt : b.1 < b.2 := by
    rw [hDXeq] at hDX
    have := (div_pos_iff_of_pos_right hn).mp hDX
    linarith
  have hb1 : b.1 ≤ Real.log (real.rd sb.spots_ 0) := by
    rw [hb]
    show min _ _ - _ ≤ _
    have := min_le_left (Real.log (real.rd sb.spots_ 0))
      (real.LogCoordinateChange.forwardAndVariance
        (real.rd sb.spots_ 0 * Real.exp
          (((sb.spaccrycs_.getD 0 ⟨fun _ => 0⟩).spotRate T - real.rd sb.divyields_ 0) * T))
        ((sb.vols_.getD 0 ⟨fun _ => 0⟩).spotVol T) T).1
    have hw2 : 0 ≤ real.rd params.nStdDevs 0
        * (real.LogCoordinateChange.forwardAndVariance
          (real.rd sb.spots_ 0 * Real.exp
            (((sb.spaccrycs_.getD 0 ⟨fun _ => 0⟩).spotRate T - real.rd sb.divyields_ 0) * T))
          ((sb.vols_.getD 0 ⟨fun _ => 0⟩).spotVol T) T).2 * Real.sqrt T := hw
    linarith
  have hb3 : Real.log (real.rd sb.spots_ 0) ≤ b.2 := by
    rw [hb]
    show _ ≤ max _ _ + _
    have := le_max_left (Real.log (real.rd sb.spots_ 0))
      (real.LogCoordinateChange.forwardAndVariance
        (real.rd sb.spots_ 0 * Real.exp
          (((sb.spaccrycs_.getD 0 ⟨fun _ => 0⟩).spotRate T - real.rd sb.divyields_ 0) * T))
        ((sb.vols_.getD 0 ⟨fun _ => 0⟩).spotVol T) T).1
    have hw2 : 0 ≤ real.rd params.nStdDevs 0
        * (real.LogCoordinateChange.forwardAndVariance
          (real.rd sb.spots_ 0 * Real.exp
            (((sb.spaccrycs_.getD 0 ⟨fun _ => 0⟩).spotRate T - real.rd sb.divyields_ 0) * T))
          ((sb.vols_.getD 0 ⟨fun _ => 0⟩).spotVol T) T).2 * Real.sqrt T := hw
    linarith
  obtain ⟨k, hk, hkint, hknode⟩ := initGridAxis_aligned _ _ _ _ _ _ _ _ _ g hg b hb2 hlt
    (by rw [show real.rd ({ sb with alignments_ := sb.spots_ } : real.PdeBase).alignments_ 0
          = real.rd sb.spots_ 0 from rfl, ha]; exact hb1)
    (by rw [show real.rd ({ sb with alignments_ := sb.spots_ } : real.PdeBase).alignments_ 0
          = real.rd sb.spots_ 0 from rfl, ha]; exact hb3)
  rw [show real.rd ({ sb with alignments_ := sb.spots_ } : real.PdeBase).alignments_ 0
    = real.rd sb.spots_ 0 from rfl, ha] at hkint hknode
  rw [← hDXeq] at hkint
  have hinc : ∀ i j, i < j → j < g.Xlevels.length →
      real.rd g.Xlevels i < real.rd g.Xlevels j := by
    intro i j hij hj
    rw [hXl] at hj
    rw [(hlev i (by omega)).1, (hlev j (by omega)).1]
    have : (i : ℝ) < (j : ℝ) := by exact_mod_cast hij
    nlinarith
  obtain ⟨s1, e1, _, e3, e4⟩ := storeResults_node s k (by rw [hX, hXl]; omega)
    (by rw [hX]; exact hinc) (by rw [hX, hXl]; omega)
    (by rw [hX, hcc, hgcc, hlog, hspots, hknode]; rfl)
    (fun j hj => by rw [hX, hXl, hcols j hj, hNX])
  exact ⟨k, by rw [hNX]; exact hk, hkint, hknode, s1, e1, e3, e4⟩

/-- C32 for the sample solver aligned to the spot (spot `1`, zero rate, flat volatility
`20%`, `T = 1`, four standard deviations, three interior nodes): the bounds before alignment
are `(-41/50, 4/5)`, `DX = 81/200`, `k = int(0.5 + (41/50) / (81/200)) = 2`, and for the
value layer `(5, 7, 9, 11, 13)` the stored price is its entry `2`, that is `9`. -/
theorem C32_aligned_spot_price_witness :
    ∃ s1 : real.Pde1DSolver,
      real.Pde1DSolver.sampleStore.storeResults = .ok (some s1) ∧
      real.rd s1.results_.prices 0 = 9 := by
  have hax := (initGrid_axis real.PdeBase.sampleSpot 1 real.PdeParams.sampleThree rfl 0
    Nat.zero_lt_one).2
  have hax2 : (real.PdeBase.sampleSpot.initGrid 1
      real.PdeParams.sampleThree).2.gridAxes_.getD 0 real.GridAxis.new
      = real.PdeBase.initGridAxis real.GridAxis.new 1 0 0 (1 / 5) 1 4 1 3 := hax
  have hb : real.LogCoordinateChange.bounds (real.LogCoordinateChange.fromRealToDiffused 1)
      (real.LogCoordinateChange.forwardAndVariance (1 * Real.exp ((0 - 0) * 1)) (1 / 5) 1).1
      (real.LogCoordinateChange.forwardAndVariance (1 * Real.exp ((0 - 0) * 1)) (1 / 5) 1).2
      1 4 = (-41 / 50, 4 / 5) := by
    simp only [real.LogCoordinateChange]
    norm_num
  obtain ⟨hNX, _, hDXeq, _⟩ := initGridAxis_spec real.GridAxis.new 1 0 0 (1 / 5) 1 4 1 3 _ rfl
    (-41 / 50, 4 / 5) hb.symm _ rfl
  have hD : (real.PdeBase.initGridAxis real.GridAxis.new 1 0 0 (1 / 5) 1 4 1 3).DX
      = 81 / 200 := by
    rw [hDXeq]
    norm_num
  obtain ⟨k, _, hk, _, s1, e1, _, e3⟩ := C32_aligned_spot_price
    (real.Pde1DSolver.new 1 ⟨fun _ => 0⟩ 1 0 ⟨fun _ => 1 / 5⟩ 1000) 1
    real.PdeParams.sampleThree real.Pde1DSolver.sampleStore rfl Nat.zero_lt_one rfl
    (by show (0 : ℝ) < 1; norm_num)
    (real.PdeBase.initGridAxis real.GridAxis.new 1 0 0 (1 / 5) 1 4 1 3) hax2.symm
    (by rw [hD]; norm_num)
    (by show (0 : ℝ) < 4; norm_num)
    (by show (0 : ℝ) ≤ 1 / 5; norm_num)
    (by norm_num) rfl (congrArg real.GridAxis.Xlevels hax2)
    (congrArg real.GridAxis.coordinateChange hax2)
    (fun j hj => by
      have hj0 : j = 0 := by
        have : j < 1 := hj
        omega
      rw [hj0, hNX]
      rfl)
    (-41 / 50, 4 / 5) hb.symm
  have hk2 : k = 2 := by
    have hlog : Real.log (real.rd (real.Pde1DSolver.new 1 ⟨fun _ => 0⟩ 1 0
        ⟨fun _ => 1 / 5⟩ 1000).spots_ 0) = 0 := by
      show Real.log 1 = 0
      exact Real.log_one
    rw [hlog, hD] at hk
    have hx : (0.5 : ℝ) + (0 - ((-41 / 50 : ℝ), (4 / 5 : ℝ)).1) / (81 / 200) = 409 / 162 := by
      norm_num
    rw [hx] at hk
    have hfl : real.toInt (409 / 162) = 2 := by
      unfold real.toInt
      rw [if_pos (by norm_num), Int.floor_eq_iff]
      constructor <;> norm_num
    rw [hfl] at hk
    exact_mod_cast hk
  refine ⟨s1, e1, ?_⟩
  rw [e3 0 Nat.zero_lt_one, hk2]
  show real.rd [5, 7, 9, 11, 13] 2 = 9
  rfl

/-- C38: for spot rates `rates[0..m-1]` at `m ≥ 1` strictly increasing positive tenors
`tMat[0..m-1]` with non-negative implied forwards
(`rates[i-1] * tMat[i-1] ≤ rates[i] * tMat[i]`), the constructor of `YieldCurve` returns a
curve with `spotRate(tMat[k]) = rates[k]` and
`discount(tMat[k]) = exp(-rates[k] * tMat[k])` for every `k`, and for `0 ≤ t1 ≤ t2` the
three members return and `discount(t2) = discount(t1) * fwdDiscount(t1, t2)`. -/
theorem C38_spot_rate_round_trip (tMat rates : Vector)
    (hlen : tMat.length = rates.length) (hm : 1 ≤ tMat.length)
    (hinc : ∀ i, i + 1 < tMat.length → rd tMat i < rd tMat (i + 1))
    (hpos : ∀ i, i < tMat.length → 0 < rd tMat i)
    (hfwd : ∀ i, 1 ≤ i → i < tMat.length →
      rd rates (i - 1) * rd tMat (i - 1) ≤ rd rates i * rd tMat i) :
    ∃ y, market.YieldCurve.new tMat rates .SPOTRATE = .ok y ∧
      (∀ k, k < tMat.length →
        y.spotRate (rd tMat k) = .ok (rd rates k) ∧
        y.discount (rd tMat k)
          = .ok (Real.exp (-(((rd rates k : ℚ) : ℝ) * ((rd tMat k : ℚ) : ℝ))))) ∧
      ∀ t1 t2 : ℚ, 0 ≤ t1 → t1 ≤ t2 →
        ∃ d1 d2 f : ℝ, y.discount t1 = .ok d1 ∧ y.discount t2 = .ok d2 ∧
          y.fwdDiscount t1 t2 = .ok f ∧ d2 = d1 * f := by
  obtain ⟨y, hy, hlenx, hrows, hx0, hc0, hent⟩ := YieldCurve_new_spot_entries tMat rates hlen
    hm hinc hpos (fun i h1 h2 => by have := hfwd i h1 h2; linarith)
  obtain ⟨hincx, hcum0, hcum⟩ := cumulative_bootstrapped y.fwdrates_ tMat rates hm hinc hpos
    hlenx hx0 hc0 hent
  have hn : 1 ≤ y.fwdrates_.x_.length := by
    rw [hlenx]
    exact hm
  have hint : ∀ a b : ℚ, 0 ≤ a → a ≤ b →
      y.fwdrates_.integral a b = y.fwdrates_.cumulative b - y.fwdrates_.cumulative a :=
    fun a b ha hab => integral_eq y.fwdrates_ hrows hincx hn a b (by rw [hx0]; exact ha) hab
  refine ⟨y, hy, ?_, ?_⟩
  · intro k hk
    have hTk := hpos k hk
    have hI : y.fwdrates_.integral 0 (rd tMat k) = rd rates k * rd tMat k := by
      rw [hint 0 _ le_rfl (le_of_lt hTk), hcum k hk, hcum0, sub_zero]
    refine ⟨?_, ?_⟩
    · unfold market.YieldCurve.spotRate
      rw [if_neg (not_not.mpr (le_of_lt hTk)), hI]
      show Except.ok (rd rates k * rd tMat k / rd tMat k) = _
      rw [mul_div_assoc, div_self (ne_of_gt hTk), mul_one]
    · unfold market.YieldCurve.discount
      rw [if_neg (not_not.mpr (le_of_lt hTk)), hI]
      push_cast
      rfl
  · intro t1 t2 h1 h12
    have h2 : 0 ≤ t2 := le_trans h1 h12
    refine ⟨Real.exp ((-y.fwdrates_.integral 0 t1 : ℚ) : ℝ),
      Real.exp ((-y.fwdrates_.integral 0 t2 : ℚ) : ℝ),
      Real.exp ((-y.fwdrates_.integral t1 t2 : ℚ) : ℝ), ?_, ?_, ?_, ?_⟩
    · unfold market.YieldCurve.discount
      rw [if_neg (not_not.mpr h1)]
    · unfold market.YieldCurve.discount
      rw [if_neg (not_not.mpr h2)]
    · unfold market.YieldCurve.fwdDiscount
      rw [if_neg (not_not.mpr h1), if_neg (not_not.mpr h12)]
    · rw [← Real.exp_add]
      congr 1
      rw [hint 0 t2 le_rfl h2, hint 0 t1 le_rfl h1, hint t1 t2 h1 h12]
      push_cast
      ring

/-- C38 for the spot rates `10%` and `20%` at the tenors `1` and `2`. -/
theorem C38_spot_rate_round_trip_witness :
    ∃ y, market.YieldCurve.new [1, 2] [1 / 10, 1 / 5] .SPOTRATE = .ok y ∧
      y.spotRate 2 = .ok (1 / 5) ∧
      ∃ d1 d2 f : ℝ, y.discount 1 = .ok d1 ∧ y.discount 2 = .ok d2 ∧
        y.fwdDiscount 1 2 = .ok f ∧ d2 = d1 * f := by
  obtain ⟨y, hy, hk, hd⟩ := C38_spot_rate_round_trip [1, 2] [1 / 10, 1 / 5] rfl (by decide)
    (fun i hi => by
      simp only [List.length_cons, List.length_nil] at hi
      obtain rfl : i = 0 := by omega
      with_unfolding_all decide)
    (fun i hi => by
      simp only [List.length_cons, List.length_nil] at hi
      obtain rfl | rfl : i = 0 ∨ i = 1 := by omega
      · with_unfolding_all decide
      · with_unfolding_all decide)
    (fun i h1 hi => by
      simp only [List.length_cons, List.length_nil] at hi
      obtain rfl : i = 1 := by omega
      with_unfolding_all decide)
  exact ⟨y, hy, (hk 1 (by decide)).1, hd 1 2 (by norm_num) (by norm_num)⟩

end orf
